import Mathlib

/-! Heap file layer (Stage4/heapfile.C and Temp/heapfile_temp_1.cpp) and the
relational operators built on it (Stage6)

A shallow embedding of the heap file code of the repository and the
properties of its specification.

Conventions of the embedding

* C `int` values are `Int`; where the code adds or subtracts two values that
  come straight from the caller or from record bytes (`offset + length`,
  `iattr - ifltr`) the result is reduced to 32 bits by `i32`.  The header
  counters `recCnt` and `pageCnt` only move by one per call and are left
  unreduced.
* A pointer to a buffer frame is the number of the page held in that frame,
  `none` is the null pointer.  Dereferencing a null `curPage`, or one that
  points to a page that does not exist, is `Res.undef`.  `headerPage->f`
  always reads or writes field `f` of the header of the file (`World.hdr`).
* Out-parameters are passed in and returned, so that a call that does not
  assign one visibly leaves it alone.  Uninitialised locals (`rec`,
  `nextRid`) start with a fixed value that is never read before assignment.
* A `while (true)` loop is run with a fuel argument; running out of fuel is
  `Res.timeout`.
* The buffer pool, the file layer and the slotted page are not part of the
  sources under study; they are modelled from the specification.  So is the
  catalog; C library functions (`atoi`, `atof`) are parameters.
* A destructor is a function on the world; the destruction of a derived
  object runs the derived body and then the base class destructor.
-/

namespace HeapFileLayer

/-! ## Basic types -/

/-- Status codes of `error.h`; `ERR c` stands for every code not named here. -/
inductive Status where
  | OK
  | FILEEOF
  | ENDOFPAGE
  | NORECORDS
  | NOSPACE
  | INVALIDRECLEN
  | BADSCANPARM
  | BADCATPARM
  | FILEEXISTS
  | INVALIDSLOTNO
  | BADPAGENO
  | ERR (code : Nat)
  deriving DecidableEq

/-- Attribute types.  `other c` is a code that is none of the three names. -/
inductive Datatype where
  | STRING
  | INTEGER
  | FLOAT
  | other (code : Int)
  deriving DecidableEq

/-- Comparison operators.  `other c` is a code that is none of the six names. -/
inductive Operator where
  | LT
  | LTE
  | EQ
  | GTE
  | GT
  | NE
  | other (code : Int)
  deriving DecidableEq

/-- Record identifier. -/
structure RID where
  pageNo : Int
  slotNo : Int
  deriving DecidableEq

/-- The distinguished "no record" identifier. -/
def NULLRID : RID := ⟨-1, -1⟩

/-- A record: the bytes behind `data` and the declared `length`. -/
structure Record where
  data : List Nat
  length : Int
  deriving DecidableEq

/-- Size of `int` on the target. -/
def sizeofInt : Int := 4

/-- Size of `float` on the target. -/
def sizeofFloat : Int := 4

/-- Reduction of a mathematical integer to a two's complement 32 bit `int`. -/
def i32 (x : Int) : Int := (x + 2147483648) % 4294967296 - 2147483648

/-- The byte at address `base + i`; memory outside the buffer reads as 0.
This makes the reads total; where the program reads outside a buffer its
behaviour is undefined, which `readByte` and `matchRecMem` record. -/
def byteAt (mem : List Nat) (i : Int) : Nat :=
  if i < 0 then 0 else (mem.getD i.toNat 0) % 256

/-- The four bytes `memcpy` moves into an `int` or `float`, as an unsigned
little-endian word. -/
def loadWord (mem : List Nat) (off : Int) : Nat :=
  byteAt mem off + 256 * byteAt mem (off + 1) + 65536 * byteAt mem (off + 2)
    + 16777216 * byteAt mem (off + 3)

/-- The `int` read by `memcpy(&i, mem + off, sizeof(int))`. -/
def loadInt (mem : List Nat) (off : Int) : Int := i32 (loadWord mem off)

/-- The four little-endian bytes of an `int`. -/
def encodeInt (a : Int) : List Nat :=
  let w := (a % 4294967296).toNat
  [w % 256, w / 256 % 256, w / 65536 % 256, w / 16777216 % 256]

/-- What is observable of the `float diff` of `matchRec`: how it compares
with zero.  `nan` compares false with everything and is different from 0. -/
inductive Diff where
  | neg
  | zero
  | pos
  | nan
  deriving DecidableEq

/-- The conversion `float diff = <int expression>` keeps sign and zero. -/
def Diff.ofInt (d : Int) : Diff :=
  if d < 0 then Diff.neg else if d = 0 then Diff.zero else Diff.pos

/-- A binary32 value: not a number, an infinity, or a finite value given as
an integer multiple of 2^-149. -/
inductive F32 where
  | nan
  | inf (negative : Bool)
  | fin (scaled : Int)
  deriving DecidableEq

/-- Decoding of a binary32 bit pattern. -/
def F32.ofBits (w : Nat) : F32 :=
  let negative : Bool := decide (w / 2147483648 % 2 = 1)
  let e := w / 8388608 % 256
  let f := w % 8388608
  if e = 255 then (if f = 0 then F32.inf negative else F32.nan)
  else
    let m : Int := if e = 0 then (f : Int) else ((8388608 + f) * 2 ^ (e - 1) : Nat)
    F32.fin (if negative then -m else m)

/-- Sign class of the binary32 difference `a - b`. -/
def F32.sub (a b : F32) : Diff :=
  match a, b with
  | F32.nan, _ => Diff.nan
  | _, F32.nan => Diff.nan
  | F32.inf s, F32.inf t => if s = t then Diff.nan else if s then Diff.neg else Diff.pos
  | F32.inf s, F32.fin _ => if s then Diff.neg else Diff.pos
  | F32.fin _, F32.inf t => if t then Diff.pos else Diff.neg
  | F32.fin x, F32.fin y => Diff.ofInt (x - y)

/-- C library `strncmp(a + i, b + j, n)`: bytes are compared as unsigned
values and the comparison stops after a zero byte common to both. -/
def strncmp (a : List Nat) (i : Int) (b : List Nat) (j : Int) : Nat → Int
  | 0 => 0
  | n + 1 =>
    if byteAt a i ≠ byteAt b j then (byteAt a i : Int) - (byteAt b j : Int)
    else if byteAt a i = 0 then 0
    else strncmp a (i + 1) b (j + 1) n

/-- Conversion of an `int` to `size_t` (64 bit). -/
def toSizeT (n : Int) : Nat := (n % 18446744073709551616).toNat

/-- The members of `HeapFile`.  `headerPage` and `curPage` are frame
pointers. -/
structure HeapFile where
  headerPage : Option Int
  headerPageNo : Int
  hdrDirtyFlag : Bool
  curPage : Option Int
  curPageNo : Int
  curDirtyFlag : Bool
  curRec : RID

/-- The members `HeapFileScan` adds to `HeapFile`.  The filter pointer is
the borrowed buffer, `none` when null. -/
structure HeapFileScan extends HeapFile where
  offset : Int
  length : Int
  type : Datatype
  filter : Option (List Nat)
  op : Operator
  markedPageNo : Int
  markedRec : RID

/-- Result of running a member function: a normal return, undefined
behaviour (null or dangling page pointer dereferenced), or fuel exhausted. -/
inductive Res (α : Type) where
  | ret (a : α)
  | undef
  | timeout

/-! ## The slotted data page -/

/-- Modelled from the spec: the page constants `PAGESIZE` and `DPFIXED` of
page.h, which is not among the sources.  Their difference is the payload
capacity of a data page. -/
structure PageConst where
  PAGESIZE : Nat
  DPFIXED : Nat

/-- Modelled from the spec: the slotted data page (class `Page`, not among
the sources).  A page knows its own number and its next-page pointer and
holds a slot array; a slot is `none` when free. -/
structure Page where
  pageNo : Int
  nextPage : Int
  slots : List (Option Record)

/-- Modelled from the spec: `Page::init(pageNo)`, an empty data page with no
successor. -/
def Page.init (pageNo : Int) : Page := ⟨pageNo, -1, []⟩

/-- Index of the first live slot of `slots`, whose first element has index
`i`. -/
def firstLive : List (Option Record) → Nat → Option Nat
  | [], _ => none
  | some _ :: _, i => some i
  | none :: t, i => firstLive t (i + 1)

/-- Modelled from the spec: `Page::firstRecord`, the first live slot or
`NORECORDS`; the out-parameter is left alone on failure. -/
def Page.firstRecord (pg : Page) (firstRid : RID) : Status × RID :=
  match firstLive pg.slots 0 with
  | some i => (Status.OK, ⟨pg.pageNo, i⟩)
  | none => (Status.NORECORDS, firstRid)

/-- Modelled from the spec: `Page::nextRecord`, the first live slot after
slot `curRid.slotNo`, or `ENDOFPAGE`. -/
def Page.nextRecord (pg : Page) (curRid : RID) (nextRid : RID) : Status × RID :=
  match firstLive (pg.slots.drop (curRid.slotNo + 1).toNat) (curRid.slotNo + 1).toNat with
  | some i => (Status.OK, ⟨pg.pageNo, i⟩)
  | none => (Status.ENDOFPAGE, nextRid)

/-- The content of slot `slotNo`, `none` when the slot is free or absent. -/
def Page.slot (pg : Page) (slotNo : Int) : Option Record :=
  if slotNo < 0 then none else (pg.slots.getD slotNo.toNat none)

/-- Modelled from the spec: `Page::getRecord`. -/
def Page.getRecord (pg : Page) (rid : RID) (rec : Record) : Status × Record :=
  match pg.slot rid.slotNo with
  | some r => (Status.OK, r)
  | none => (Status.INVALIDSLOTNO, rec)

/-- Payload bytes in use on a page. -/
def Page.used (pg : Page) : Int :=
  (pg.slots.map (fun o => match o with
    | some r => r.length
    | none => 0)).sum

/-- Index of the first free slot, the length of the array if there is none. -/
def firstFree : List (Option Record) → Nat
  | [] => 0
  | none :: _ => 0
  | some _ :: t => firstFree t + 1

/-- Store `r` in slot `i`, growing the array by one when `i` is its length. -/
def putSlot (slots : List (Option Record)) (i : Nat) (r : Record) : List (Option Record) :=
  if i < slots.length then slots.set i (some r) else slots ++ [some r]

/-- Modelled from the spec: `Page::insertRecord`.  The record is copied
(`length` bytes) into the first free slot when the payload still fits into
the capacity `cap`, otherwise `NOSPACE`. -/
def Page.insertRecord (cap : Nat) (pg : Page) (rec : Record) (rid : RID) :
    Status × RID × Page :=
  if pg.used + rec.length > cap then (Status.NOSPACE, rid, pg)
  else
    (Status.OK, ⟨pg.pageNo, firstFree pg.slots⟩,
      { pg with slots := putSlot pg.slots (firstFree pg.slots)
                  ⟨rec.data.take rec.length.toNat, rec.length⟩ })

/-- Modelled from the spec: `Page::deleteRecord`. -/
def Page.deleteRecord (pg : Page) (rid : RID) : Status × Page :=
  match pg.slot rid.slotNo with
  | some _ => (Status.OK, { pg with slots := pg.slots.set rid.slotNo.toNat none })
  | none => (Status.INVALIDSLOTNO, pg)

/-- Modelled from the spec: `Page::setNextPage`. -/
def Page.setNextPage (pg : Page) (n : Int) : Status × Page :=
  (Status.OK, { pg with nextPage := n })

/-- Modelled from the spec: `Page::getNextPage`. -/
def Page.getNextPage (pg : Page) : Status × Int := (Status.OK, pg.nextPage)

/-! ## The file seen through the buffer pool -/

/-- The header page `FileHdrPage`. -/
structure FileHdrPage where
  fileName : List Nat
  firstPage : Int
  lastPage : Int
  pageCnt : Int
  recCnt : Int
  deriving DecidableEq

/-- A call to the file layer or the buffer pool, with the status returned. -/
inductive Call where
  | openFile (st : Status)
  | closeFile (st : Status)
  | getFirstPage (st : Status)
  | readPage (pageNo : Int) (st : Status)
  | allocPage (pageNo : Int) (st : Status)
  | unPinPage (pageNo : Int) (dirty : Bool) (st : Status)
  | flushFile (st : Status)
  | createFile (st : Status)
  deriving DecidableEq

/-- Modelled from the spec: one heap file behind the file layer and buffer
pool (classes `DB`, `File`, `BufMgr`, not among the sources).  `hdr` is the
content of the header page, `pages` the data pages by number, `nextPageNo`
the number the next allocation hands out.  `script` lists the statuses of
the coming external calls (an empty script means success), `calls` the
calls made so far, latest first. -/
structure World where
  hdr : FileHdrPage
  hdrPageNo : Int
  pages : Int → Option Page
  nextPageNo : Int
  script : List Status
  calls : List Call

/-- Status scripted for the next external call. -/
def World.nextStatus (w : World) : Status :=
  match w.script with
  | [] => Status.OK
  | st :: _ => st

/-- The world after one external call `c`. -/
def World.step (w : World) (c : Call) : World :=
  { w with script := w.script.tail, calls := c :: w.calls }

/-- Replace the content of page `n`. -/
def World.setPage (w : World) (n : Int) (pg : Page) : World :=
  { w with pages := fun m => if m = n then some pg else w.pages m }

/-- The statement `headerPage->recCnt++`. -/
def World.incRecCnt (w : World) : World :=
  { w with hdr := { w.hdr with recCnt := w.hdr.recCnt + 1 } }

/-- The statement `headerPage->recCnt--`. -/
def World.decRecCnt (w : World) : World :=
  { w with hdr := { w.hdr with recCnt := w.hdr.recCnt - 1 } }

/-- The statements `headerPage->lastPage = newPageNo; headerPage->pageCnt++`. -/
def World.newLastPage (w : World) (newPageNo : Int) : World :=
  { w with hdr := { w.hdr with lastPage := newPageNo, pageCnt := w.hdr.pageCnt + 1 } }

/-- The page a frame pointer refers to. -/
def World.deref (w : World) (p : Option Int) : Option Page :=
  match p with
  | none => none
  | some n => w.pages n

/-- Modelled from the spec: `DB::openFile`. -/
def openFile (w : World) : Status × World :=
  (w.nextStatus, w.step (Call.openFile w.nextStatus))

/-- Modelled from the spec: `DB::closeFile`. -/
def closeFile (w : World) : Status × World :=
  (w.nextStatus, w.step (Call.closeFile w.nextStatus))

/-- Modelled from the spec: `File::getFirstPage`, the number of the header
page; the out-parameter is left alone on failure. -/
def getFirstPage (w : World) (pageNo : Int) : Status × Int × World :=
  if w.nextStatus = Status.OK then
    (Status.OK, w.hdrPageNo, w.step (Call.getFirstPage Status.OK))
  else (w.nextStatus, pageNo, w.step (Call.getFirstPage w.nextStatus))

/-- Modelled from the spec: `BufMgr::readPage`, which pins page `pageNo` and
hands out a pointer to its frame; a page that does not exist is `BADPAGENO`,
and the pointer is left alone on failure. -/
def readPage (w : World) (pageNo : Int) (page : Option Int) : Status × Option Int × World :=
  if w.nextStatus = Status.OK then
    if pageNo = w.hdrPageNo ∨ (w.pages pageNo).isSome then
      (Status.OK, some pageNo, w.step (Call.readPage pageNo Status.OK))
    else (Status.BADPAGENO, page, w.step (Call.readPage pageNo Status.BADPAGENO))
  else (w.nextStatus, page, w.step (Call.readPage pageNo w.nextStatus))

/-- Modelled from the spec: `BufMgr::allocPage`, which appends a page to the
file and pins it; its frame holds no meaningful content yet. -/
def allocPage (w : World) (pageNo : Int) (page : Option Int) :
    Status × Int × Option Int × World :=
  if w.nextStatus = Status.OK then
    (Status.OK, w.nextPageNo, some w.nextPageNo,
      { (w.step (Call.allocPage w.nextPageNo Status.OK)).setPage w.nextPageNo ⟨0, 0, []⟩
          with nextPageNo := w.nextPageNo + 1 })
  else (w.nextStatus, pageNo, page, w.step (Call.allocPage pageNo w.nextStatus))

/-- Modelled from the spec: `BufMgr::unPinPage`. -/
def unPinPage (w : World) (pageNo : Int) (dirty : Bool) : Status × World :=
  (w.nextStatus, w.step (Call.unPinPage pageNo dirty w.nextStatus))

/-- Modelled from the spec: `BufMgr::flushFile`. -/
def flushFile (w : World) : Status × World :=
  (w.nextStatus, w.step (Call.flushFile w.nextStatus))

/-- Conversion of an `int` to `unsigned int`. -/
def toUnsigned (n : Int) : Nat := (n % 4294967296).toNat

/-- Transcription of the `HeapFile::HeapFile` constructor, identical in the
two variants apart from the local used for the header page number.  `raw`
is the object before construction; members the constructor does not reach
keep their value. -/
def heapFileCtor (w : World) (raw : HeapFile) : Status × World × HeapFile :=
  let o := openFile w
  if o.1 ≠ Status.OK then (o.1, o.2, raw)
  else
    let g := getFirstPage o.2 raw.headerPageNo
    if g.1 ≠ Status.OK then (g.1, (closeFile g.2.2).2, raw)
    else
      let s1 : HeapFile := { raw with headerPageNo := g.2.1 }
      let r := readPage g.2.2 s1.headerPageNo s1.headerPage
      if r.1 ≠ Status.OK then (r.1, (closeFile r.2.2).2, { s1 with headerPage := r.2.1 })
      else
        let s2 : HeapFile :=
          { s1 with headerPage := r.2.1, hdrDirtyFlag := false,
                    curPageNo := r.2.2.hdr.firstPage }
        let r2 := readPage r.2.2 s2.curPageNo s2.curPage
        if r2.1 ≠ Status.OK then
          (r2.1, (closeFile (unPinPage r2.2.2 s2.headerPageNo s2.hdrDirtyFlag).2).2,
            { s2 with curPage := r2.2.1 })
        else
          (Status.OK, r2.2.2,
            { s2 with curPage := r2.2.1, curDirtyFlag := false, curRec := NULLRID })

/-- The last two statements of `HeapFile::getRecord`, the same in both
variants: fetch from the current page and move `curRec` on success. -/
def getRecordCur (w : World) (s : HeapFile) (rid : RID) (rec : Record) :
    Res (Status × Record × World × HeapFile) :=
  match w.deref s.curPage with
  | none => Res.undef
  | some pg =>
    let g := pg.getRecord rid rec
    if g.1 = Status.OK then Res.ret (g.1, g.2, w, { s with curRec := rid })
    else Res.ret (g.1, g.2, w, s)

/-! ## Stage4/heapfile.C -/

namespace Stage4

/-- `HeapFile::HeapFile` of Stage4/heapfile.C. -/
def HeapFile.ctor (w : World) (raw : HeapFile) : Status × World × HeapFile :=
  heapFileCtor w raw

/-- `InsertFileScan::InsertFileScan` of Stage4/heapfile.C: the base
constructor and an empty body. -/
def InsertFileScan.ctor (w : World) (raw : HeapFile) : Status × World × HeapFile :=
  HeapFile.ctor w raw

/-- `HeapFile::getRecord` of Stage4/heapfile.C. -/
def getRecord (w : World) (s : HeapFile) (rid : RID) (rec : Record) :
    Res (Status × Record × World × HeapFile) :=
  if s.curPageNo ≠ rid.pageNo then
    let u : Status × World :=
      if s.curPage ≠ none then unPinPage w s.curPageNo s.curDirtyFlag else (Status.OK, w)
    if s.curPage ≠ none ∧ u.1 ≠ Status.OK then Res.ret (u.1, rec, u.2, s)
    else
      let r := readPage u.2 rid.pageNo s.curPage
      if r.1 ≠ Status.OK then Res.ret (r.1, rec, r.2.2, { s with curPage := r.2.1 })
      else
        getRecordCur r.2.2
          { s with curPage := r.2.1, curPageNo := rid.pageNo, curDirtyFlag := false } rid rec
  else getRecordCur w s rid rec

/-- `InsertFileScan::insertRecord` of Stage4/heapfile.C from the statement
`status = curPage->insertRecord(rec, outRid)` on. -/
def insertOnCur (k : PageConst) (w : World) (s : HeapFile) (rec : Record) (outRid : RID) :
    Res (Status × RID × World × HeapFile) :=
  match s.curPage with
  | none => Res.undef
  | some p =>
    match w.pages p with
    | none => Res.undef
    | some pg =>
      let i := pg.insertRecord (k.PAGESIZE - k.DPFIXED) rec outRid
      let w1 := w.setPage p i.2.2
      if i.1 = Status.NOSPACE then
        let a := allocPage w1 0 none
        if a.1 ≠ Status.OK then Res.ret (a.1, i.2.1, a.2.2.2, s)
        else
          let newPageNo := a.2.1
          let w2 := a.2.2.2.setPage newPageNo ((Page.init newPageNo).setNextPage (-1)).2
          match w2.pages p with
          | none => Res.undef
          | some old =>
            let w3 := w2.setPage p (old.setNextPage newPageNo).2
            let w4 := w3.newLastPage newPageNo
            let s1 : HeapFile := { s with hdrDirtyFlag := true }
            let u := unPinPage w4 s1.curPageNo s1.curDirtyFlag
            let s2 : HeapFile :=
              { s1 with curPage := a.2.2.1, curPageNo := newPageNo, curDirtyFlag := true }
            match u.2.deref s2.curPage with
            | none => Res.undef
            | some np =>
              let j := np.insertRecord (k.PAGESIZE - k.DPFIXED) rec i.2.1
              let w5 := u.2.setPage newPageNo j.2.2
              if j.1 = Status.OK then
                Res.ret (j.1, j.2.1, w5.incRecCnt, { s2 with hdrDirtyFlag := true })
              else Res.ret (j.1, j.2.1, w5, s2)
      else if i.1 = Status.OK then
        Res.ret (i.1, i.2.1, w1.incRecCnt, { s with hdrDirtyFlag := true })
      else Res.ret (i.1, i.2.1, w1, s)

/-- `InsertFileScan::insertRecord` of Stage4/heapfile.C. -/
def insertRecord (k : PageConst) (w : World) (s : HeapFile) (rec : Record) (outRid : RID) :
    Res (Status × RID × World × HeapFile) :=
  if toUnsigned rec.length > k.PAGESIZE - k.DPFIXED then
    Res.ret (Status.INVALIDRECLEN, outRid, w, s)
  else
    match s.curPage with
    | none =>
      let r := readPage w w.hdr.lastPage s.curPage
      if r.1 ≠ Status.OK then Res.ret (r.1, outRid, r.2.2, { s with curPage := r.2.1 })
      else
        insertOnCur k r.2.2
          { s with curPage := r.2.1, curPageNo := r.2.2.hdr.lastPage, curDirtyFlag := false }
          rec outRid
    | some _ => insertOnCur k w s rec outRid

/-- `HeapFileScan::startScan` of Stage4/heapfile.C. -/
def startScan (s : HeapFileScan) (offset_ length_ : Int) (type_ : Datatype)
    (filter_ : Option (List Nat)) (op_ : Operator) : Status × HeapFileScan :=
  match filter_ with
  | none => (Status.OK, { s with filter := none })
  | some f =>
    if (offset_ < 0 ∨ length_ < 1) ∨
        (type_ ≠ Datatype.STRING ∧ type_ ≠ Datatype.INTEGER ∧ type_ ≠ Datatype.FLOAT) ∨
        (type_ = Datatype.INTEGER ∧ length_ ≠ sizeofInt
          ∨ type_ = Datatype.FLOAT ∧ length_ ≠ sizeofFloat) ∨
        (op_ ≠ Operator.LT ∧ op_ ≠ Operator.LTE ∧ op_ ≠ Operator.EQ ∧ op_ ≠ Operator.GTE
          ∧ op_ ≠ Operator.GT ∧ op_ ≠ Operator.NE) then
      (Status.BADSCANPARM, s)
    else
      (Status.OK,
        { s with offset := offset_, length := length_, type := type_, filter := some f,
                 op := op_ })

/-- `HeapFileScan::matchRec` of Stage4/heapfile.C. -/
def matchRec (s : HeapFileScan) (rec : Record) : Bool :=
  match s.filter with
  | none => true
  | some filter =>
    if i32 (s.offset + s.length) > rec.length then false
    else
      let diff : Diff :=
        match s.type with
        | Datatype.INTEGER =>
          Diff.ofInt (i32 (loadInt rec.data s.offset - loadInt filter 0))
        | Datatype.FLOAT =>
          F32.sub (F32.ofBits (loadWord rec.data s.offset)) (F32.ofBits (loadWord filter 0))
        | Datatype.STRING =>
          Diff.ofInt (strncmp rec.data s.offset filter 0 (toSizeT s.length))
        | Datatype.other _ => Diff.zero
      match s.op with
      | Operator.LT => decide (diff = Diff.neg)
      | Operator.LTE => decide (diff = Diff.neg ∨ diff = Diff.zero)
      | Operator.EQ => decide (diff = Diff.zero)
      | Operator.GTE => decide (diff = Diff.pos ∨ diff = Diff.zero)
      | Operator.GT => decide (diff = Diff.pos)
      | Operator.NE => decide (diff ≠ Diff.zero)
      | Operator.other _ => false

end Stage4

/-! ## Temp/heapfile_temp_1.cpp -/

namespace Temp

/-- `HeapFile::HeapFile` of Temp/heapfile_temp_1.cpp. -/
def HeapFile.ctor (w : World) (raw : HeapFile) : Status × World × HeapFile :=
  heapFileCtor w raw

/-- `HeapFileScan::HeapFileScan` of Temp/heapfile_temp_1.cpp: the base
constructor, then the filter pointer is cleared. -/
def HeapFileScan.ctor (w : World) (raw : HeapFileScan) : Status × World × HeapFileScan :=
  let c := HeapFile.ctor w raw.toHeapFile
  (c.1, c.2.1, { raw with toHeapFile := c.2.2, filter := none })

/-- `InsertFileScan::InsertFileScan` of Temp/heapfile_temp_1.cpp: after the
base constructor the tail page is made the current page. -/
def InsertFileScan.ctor (w : World) (raw : HeapFile) : Status × World × HeapFile :=
  let c := HeapFile.ctor w raw
  if c.2.2.curPage ≠ none ∧ c.2.2.curPageNo ≠ c.2.1.hdr.lastPage then
    let u := unPinPage c.2.1 c.2.2.curPageNo c.2.2.curDirtyFlag
    let s1 : HeapFile := { c.2.2 with curPageNo := u.2.hdr.lastPage }
    let r := readPage u.2 s1.curPageNo s1.curPage
    (r.1, r.2.2, { s1 with curPage := r.2.1, curDirtyFlag := false })
  else c

/-- `HeapFile::getRecord` of Temp/heapfile_temp_1.cpp. -/
def getRecord (w : World) (s : HeapFile) (rid : RID) (rec : Record) :
    Res (Status × Record × World × HeapFile) :=
  if s.curPageNo ≠ rid.pageNo then
    let u : Status × World :=
      if s.curPage ≠ none then unPinPage w s.curPageNo s.curDirtyFlag else (Status.OK, w)
    if s.curPage ≠ none ∧ u.1 ≠ Status.OK then
      Res.ret (u.1, rec, u.2, { s with curPage := none, curPageNo := 0, curDirtyFlag := false })
    else
      let r := readPage u.2 rid.pageNo s.curPage
      if r.1 ≠ Status.OK then Res.ret (r.1, rec, r.2.2, { s with curPage := r.2.1 })
      else
        getRecordCur r.2.2
          { s with curPage := r.2.1, curPageNo := rid.pageNo, curDirtyFlag := false } rid rec
  else getRecordCur w s rid rec

/-- `HeapFileScan::deleteRecord` of Temp/heapfile_temp_1.cpp. -/
def deleteRecord (w : World) (s : HeapFileScan) : Res (Status × World × HeapFileScan) :=
  match s.curPage with
  | none => Res.undef
  | some p =>
    match w.pages p with
    | none => Res.undef
    | some pg =>
      let d := pg.deleteRecord s.curRec
      let w1 := w.setPage p d.2
      if d.1 ≠ Status.OK then Res.ret (d.1, w1, s)
      else
        Res.ret (Status.OK, w1.decRecCnt,
          { s with curDirtyFlag := true, hdrDirtyFlag := true })

/-- `InsertFileScan::insertRecord` of Temp/heapfile_temp_1.cpp from the
statement `status = curPage->insertRecord(rec, outRid)` on. -/
def insertOnCur (k : PageConst) (w : World) (s : HeapFile) (rec : Record) (outRid : RID) :
    Res (Status × RID × World × HeapFile) :=
  match s.curPage with
  | none => Res.undef
  | some p =>
    match w.pages p with
    | none => Res.undef
    | some pg =>
      let i := pg.insertRecord (k.PAGESIZE - k.DPFIXED) rec outRid
      let w1 := w.setPage p i.2.2
      if i.1 = Status.OK then
        Res.ret (Status.OK, i.2.1, w1.incRecCnt,
          { s with hdrDirtyFlag := true, curDirtyFlag := true })
      else if i.1 = Status.NOSPACE then
        let a := allocPage w1 0 none
        if a.1 ≠ Status.OK then Res.ret (a.1, i.2.1, a.2.2.2, s)
        else
          let newPageNo := a.2.1
          let n1 := (Page.init newPageNo).setNextPage (-1)
          let w2 := a.2.2.2.setPage newPageNo n1.2
          if n1.1 ≠ Status.OK then
            Res.ret (n1.1, i.2.1, (unPinPage w2 newPageNo true).2, s)
          else
            match w2.pages p with
            | none => Res.undef
            | some old =>
              let n2 := old.setNextPage newPageNo
              let w3 := w2.setPage p n2.2
              if n2.1 ≠ Status.OK then
                Res.ret (n2.1, i.2.1, (unPinPage w3 newPageNo true).2, s)
              else
                let w4 := w3.newLastPage newPageNo
                let s1 : HeapFile := { s with hdrDirtyFlag := true }
                let u := unPinPage w4 s1.curPageNo s1.curDirtyFlag
                if u.1 ≠ Status.OK then
                  Res.ret (u.1, i.2.1, (unPinPage u.2 newPageNo true).2, s1)
                else
                  let s2 : HeapFile :=
                    { s1 with curPage := a.2.2.1, curPageNo := newPageNo,
                              curDirtyFlag := true }
                  match u.2.deref s2.curPage with
                  | none => Res.undef
                  | some np =>
                    let j := np.insertRecord (k.PAGESIZE - k.DPFIXED) rec i.2.1
                    let w5 := u.2.setPage newPageNo j.2.2
                    if j.1 = Status.OK then Res.ret (Status.OK, j.2.1, w5.incRecCnt, s2)
                    else Res.ret (j.1, j.2.1, w5, s2)
      else Res.ret (i.1, i.2.1, w1, s)

/-- `InsertFileScan::insertRecord` of Temp/heapfile_temp_1.cpp. -/
def insertRecord (k : PageConst) (w : World) (s : HeapFile) (rec : Record) (outRid : RID) :
    Res (Status × RID × World × HeapFile) :=
  if toUnsigned rec.length > k.PAGESIZE - k.DPFIXED then
    Res.ret (Status.INVALIDRECLEN, outRid, w, s)
  else
    match s.curPage with
    | none =>
      let s0 : HeapFile := { s with curPageNo := w.hdr.lastPage }
      let r := readPage w s0.curPageNo s0.curPage
      if r.1 ≠ Status.OK then Res.ret (r.1, outRid, r.2.2, { s0 with curPage := r.2.1 })
      else insertOnCur k r.2.2 { s0 with curPage := r.2.1, curDirtyFlag := false } rec outRid
    | some _ => insertOnCur k w s rec outRid

/-- `HeapFileScan::startScan` of Temp/heapfile_temp_1.cpp. -/
def startScan (s : HeapFileScan) (offset_ length_ : Int) (type_ : Datatype)
    (filter_ : Option (List Nat)) (op_ : Operator) : Status × HeapFileScan :=
  match filter_ with
  | none => (Status.OK, { s with filter := none })
  | some f =>
    if (offset_ < 0 ∨ length_ < 1) ∨
        (type_ ≠ Datatype.STRING ∧ type_ ≠ Datatype.INTEGER ∧ type_ ≠ Datatype.FLOAT) ∨
        ((type_ = Datatype.INTEGER ∧ length_ ≠ sizeofInt)
          ∨ (type_ = Datatype.FLOAT ∧ length_ ≠ sizeofFloat)) ∨
        (op_ ≠ Operator.LT ∧ op_ ≠ Operator.LTE ∧ op_ ≠ Operator.EQ ∧ op_ ≠ Operator.GTE
          ∧ op_ ≠ Operator.GT ∧ op_ ≠ Operator.NE) then
      (Status.BADSCANPARM, s)
    else
      (Status.OK,
        { s with offset := offset_, length := length_, type := type_, filter := some f,
                 op := op_ })

/-- `HeapFileScan::matchRec` of Temp/heapfile_temp_1.cpp. -/
def matchRec (s : HeapFileScan) (rec : Record) : Bool :=
  match s.filter with
  | none => true
  | some filter =>
    if i32 (s.offset + s.length) > rec.length then false
    else
      let diff : Diff :=
        match s.type with
        | Datatype.INTEGER =>
          Diff.ofInt (i32 (loadInt rec.data s.offset - loadInt filter 0))
        | Datatype.FLOAT =>
          F32.sub (F32.ofBits (loadWord rec.data s.offset)) (F32.ofBits (loadWord filter 0))
        | Datatype.STRING =>
          Diff.ofInt (strncmp rec.data s.offset filter 0 (toSizeT s.length))
        | Datatype.other _ => Diff.zero
      match s.op with
      | Operator.LT => decide (diff = Diff.neg)
      | Operator.LTE => decide (diff = Diff.neg ∨ diff = Diff.zero)
      | Operator.EQ => decide (diff = Diff.zero)
      | Operator.GTE => decide (diff = Diff.pos ∨ diff = Diff.zero)
      | Operator.GT => decide (diff = Diff.pos)
      | Operator.NE => decide (diff ≠ Diff.zero)
      | Operator.other _ => false

/-- The `while (true)` loop of `HeapFileScan::scanNext` of
Temp/heapfile_temp_1.cpp ("already have a page pinned"), one iteration per
unit of fuel.  `nextRid` is the local of that name. -/
def scanLoop (w : World) (s : HeapFileScan) (outRid nextRid : RID) :
    Nat → Res (Status × RID × World × HeapFileScan)
  | 0 => Res.timeout
  | fuel + 1 =>
    match w.deref s.curPage with
    | none => Res.undef
    | some pg =>
      let n := pg.nextRecord s.curRec nextRid
      if n.1 = Status.OK then
        let s1 : HeapFileScan := { s with curRec := n.2 }
        let g := pg.getRecord s1.curRec ⟨[], 0⟩
        if g.1 ≠ Status.OK then Res.ret (g.1, outRid, w, s1)
        else if matchRec s1 g.2 then Res.ret (Status.OK, s1.curRec, w, s1)
        else scanLoop w s1 outRid n.2 fuel
      else if n.1 = Status.ENDOFPAGE ∨ n.1 = Status.NORECORDS then
        let gp := pg.getNextPage
        if gp.1 ≠ Status.OK then Res.ret (gp.1, outRid, w, s)
        else if gp.2 = -1 then Res.ret (Status.FILEEOF, outRid, w, s)
        else
          let u := unPinPage w s.curPageNo s.curDirtyFlag
          let s1 : HeapFileScan := { s with curPage := none, curPageNo := gp.2 }
          let r := readPage u.2 s1.curPageNo s1.curPage
          if r.1 ≠ Status.OK then Res.ret (r.1, outRid, r.2.2, { s1 with curPage := r.2.1 })
          else
            let s2 : HeapFileScan :=
              { s1 with curPage := r.2.1, curDirtyFlag := false, curRec := NULLRID }
            match r.2.2.deref s2.curPage with
            | none => Res.undef
            | some pg2 =>
              let f := pg2.firstRecord s2.curRec
              let s3 : HeapFileScan := { s2 with curRec := f.2 }
              if f.1 = Status.NORECORDS then scanLoop r.2.2 s3 outRid n.2 fuel
              else
                let g := pg2.getRecord s3.curRec ⟨[], 0⟩
                if g.1 ≠ Status.OK then Res.ret (g.1, outRid, r.2.2, s3)
                else if matchRec s3 g.2 then Res.ret (Status.OK, s3.curRec, r.2.2, s3)
                else scanLoop r.2.2 s3 outRid n.2 fuel
      else Res.ret (n.1, outRid, w, s)

/-- `HeapFileScan::scanNext` of Temp/heapfile_temp_1.cpp; `fuel` bounds the
iterations of its loop. -/
def scanNext (w : World) (s : HeapFileScan) (outRid : RID) (fuel : Nat) :
    Res (Status × RID × World × HeapFileScan) :=
  if s.curPageNo < 0 then Res.ret (Status.FILEEOF, outRid, w, s)
  else
    match s.curPage with
    | none =>
      let s1 : HeapFileScan := { s with curPageNo := w.hdr.firstPage }
      if s1.curPageNo = -1 then Res.ret (Status.FILEEOF, outRid, w, s1)
      else
        let r := readPage w s1.curPageNo s1.curPage
        if r.1 ≠ Status.OK then Res.ret (r.1, outRid, r.2.2, { s1 with curPage := r.2.1 })
        else
          let s2 : HeapFileScan :=
            { s1 with curPage := r.2.1, curDirtyFlag := false, curRec := NULLRID }
          match r.2.2.deref s2.curPage with
          | none => Res.undef
          | some pg =>
            let f := pg.firstRecord s2.curRec
            let s3 : HeapFileScan := { s2 with curRec := f.2 }
            if f.1 = Status.NORECORDS then
              Res.ret (Status.FILEEOF, outRid,
                (unPinPage r.2.2 s3.curPageNo s3.curDirtyFlag).2,
                { s3 with curPageNo := -1, curPage := none })
            else
              let g := pg.getRecord s3.curRec ⟨[], 0⟩
              if g.1 ≠ Status.OK then Res.ret (g.1, outRid, r.2.2, s3)
              else if matchRec s3 g.2 then Res.ret (Status.OK, s3.curRec, r.2.2, s3)
              else scanLoop r.2.2 s3 outRid NULLRID fuel
    | some _ => scanLoop w s outRid NULLRID fuel

end Temp

/-! ## Definitions used to state the properties -/

/-- The parameter combinations the specification lists as rejected by
`startScan` when a filter is given. -/
def badScanParm (offset length : Int) (type : Datatype) (op : Operator) : Prop :=
  offset < 0 ∨ length < 1 ∨
    (type ≠ Datatype.INTEGER ∧ type ≠ Datatype.FLOAT ∧ type ≠ Datatype.STRING) ∨
    (type = Datatype.INTEGER ∧ length ≠ sizeofInt) ∨
    (type = Datatype.FLOAT ∧ length ≠ sizeofFloat) ∨
    (op ≠ Operator.LT ∧ op ≠ Operator.LTE ∧ op ≠ Operator.EQ ∧ op ≠ Operator.GTE
      ∧ op ≠ Operator.GT ∧ op ≠ Operator.NE)

/-- The `n` bytes of `mem` from address `i` on. -/
def window (mem : List Nat) (i : Int) : Nat → List Nat
  | 0 => []
  | n + 1 => byteAt mem i :: window mem (i + 1) n

/-- Sign of the lexicographic comparison of two byte sequences. -/
def lexCmp : List Nat → List Nat → Int
  | [], [] => 0
  | [], _ :: _ => -1
  | _ :: _, [] => 1
  | x :: xs, y :: ys => if x < y then -1 else if y < x then 1 else lexCmp xs ys

/-- A byte sequence cut before its first zero byte: the C string it holds. -/
def cutAtNul : List Nat → List Nat
  | [] => []
  | x :: xs => if x = 0 then [] else x :: cutAtNul xs

/-- Whether the integer `c` stands in relation `op` to 0. -/
def holdsOp (op : Operator) (c : Int) : Bool :=
  match op with
  | Operator.LT => decide (c < 0)
  | Operator.LTE => decide (c ≤ 0)
  | Operator.EQ => decide (c = 0)
  | Operator.GTE => decide (c ≥ 0)
  | Operator.GT => decide (c > 0)
  | Operator.NE => decide (c ≠ 0)
  | Operator.other _ => false

/-- A scan object with an `INTEGER` filter on the first four bytes. -/
def intScan (fltr : Int) (op : Operator) : HeapFileScan :=
  { headerPage := some 0, headerPageNo := 0, hdrDirtyFlag := false, curPage := some 1,
    curPageNo := 1, curDirtyFlag := false, curRec := NULLRID, offset := 0, length := 4,
    type := Datatype.INTEGER, filter := some (encodeInt fltr), op := op,
    markedPageNo := 0, markedRec := NULLRID }

/-- A scan object with a `STRING` filter. -/
def strScan (offset length : Int) (fltr : List Nat) (op : Operator) : HeapFileScan :=
  { headerPage := some 0, headerPageNo := 0, hdrDirtyFlag := false, curPage := some 1,
    curPageNo := 1, curDirtyFlag := false, curRec := NULLRID, offset := offset,
    length := length, type := Datatype.STRING, filter := some fltr, op := op,
    markedPageNo := 0, markedRec := NULLRID }

/-- The final `switch (op)` of `matchRec` as a function of the sign class of
`diff`. -/
def opOnDiff (op : Operator) (diff : Diff) : Bool :=
  match op with
  | Operator.LT => decide (diff = Diff.neg)
  | Operator.LTE => decide (diff = Diff.neg ∨ diff = Diff.zero)
  | Operator.EQ => decide (diff = Diff.zero)
  | Operator.GTE => decide (diff = Diff.pos ∨ diff = Diff.zero)
  | Operator.GT => decide (diff = Diff.pos)
  | Operator.NE => decide (diff ≠ Diff.zero)
  | Operator.other _ => false

/-- `l` is the list of pages met when following next-page pointers from
page `p` until the pointer is -1. -/
def IsChain (pages : Int → Option Page) : Int → List Int → Prop
  | p, [] => p = -1
  | p, q :: l =>
    p = q ∧ p ≠ -1 ∧
      match pages p with
      | some pg => IsChain pages pg.nextPage l
      | none => False

/-- `IsChain` can be computed. -/
instance decidableIsChain (pages : Int → Option Page) :
    (p : Int) → (l : List Int) → Decidable (IsChain pages p l)
  | p, [] => decEq p (-1)
  | p, q :: l =>
    match h : pages p with
    | none => isFalse (fun hc => by
        simp only [IsChain, h] at hc
        exact hc.2.2)
    | some pg =>
      match decidableIsChain pages pg.nextPage l with
      | isTrue ht =>
        if h1 : p = q ∧ p ≠ -1 then
          isTrue (by
            simp only [IsChain, h]
            exact ⟨h1.1, h1.2, ht⟩)
        else
          isFalse (fun hc => by
            simp only [IsChain, h] at hc
            exact h1 ⟨hc.1, hc.2.1⟩)
      | isFalse hf =>
        isFalse (fun hc => by
          simp only [IsChain, h] at hc
          exact hf hc.2.2)

/-- The live records of a slot array whose first slot has number `i`, with
their identifiers, in slot order. -/
def liveFrom (pageNo : Int) : List (Option Record) → Nat → List (RID × Record)
  | [], _ => []
  | some r :: t, i => (⟨pageNo, i⟩, r) :: liveFrom pageNo t (i + 1)
  | none :: t, i => liveFrom pageNo t (i + 1)

/-- The live records of the pages `l`, page by page. -/
def fileRecs (pages : Int → Option Page) : List Int → List (RID × Record)
  | [] => []
  | n :: l =>
    (match pages n with
      | some pg => liveFrom pg.pageNo pg.slots 0
      | none => []) ++ fileRecs pages l

/-- The identifiers of the live records of the pages `l` accepted by `m`. -/
def matchingRids (m : Record → Bool) (pages : Int → Option Page) (l : List Int) : List RID :=
  ((fileRecs pages l).filter (fun x => m x.2)).map Prod.fst

/-- The results, status and out-parameter, of `n` successive calls of
`scanNext` of Temp/heapfile_temp_1.cpp. -/
def Temp.scanCalls (fuel : Nat) (w : World) (s : HeapFileScan) (outRid : RID) :
    Nat → Res (List (Status × RID))
  | 0 => Res.ret []
  | n + 1 =>
    match Temp.scanNext w s outRid fuel with
    | Res.ret x =>
      (match Temp.scanCalls fuel x.2.2.1 x.2.2.2 x.2.1 n with
        | Res.ret l => Res.ret ((x.1, x.2.1) :: l)
        | Res.undef => Res.undef
        | Res.timeout => Res.timeout)
    | Res.undef => Res.undef
    | Res.timeout => Res.timeout

/-- A call on the heap file: `InsertFileScan::insertRecord` with a record, or
`HeapFileScan::deleteRecord`. -/
inductive FileOp where
  | insert (rec : Record)
  | delete

/-- Number of the calls of `ops` selected by `sel` that returned `OK`. -/
def okCount (sel : FileOp → Bool) : List FileOp → List Status → Int
  | op :: ops, st :: sts =>
    (if sel op = true ∧ st = Status.OK then 1 else 0) + okCount sel ops sts
  | _, _ => 0

/-- Selects the `insertRecord` calls. -/
def FileOp.isInsert : FileOp → Bool
  | FileOp.insert _ => true
  | FileOp.delete => false

/-- Selects the `deleteRecord` calls. -/
def FileOp.isDelete : FileOp → Bool
  | FileOp.insert _ => false
  | FileOp.delete => true

/-- A sequence of calls on one file in Temp/heapfile_temp_1.cpp: the inserts
go through the `InsertFileScan` object `a`, the deletes through the
`HeapFileScan` object `b`; both share the header page of `w`.  The result
lists the statuses returned. -/
def Temp.runOps (k : PageConst) (w : World) (a : HeapFile) (b : HeapFileScan) :
    List FileOp → Res (List Status × World × HeapFile × HeapFileScan)
  | [] => Res.ret ([], w, a, b)
  | FileOp.insert rec :: ops =>
    (match Temp.insertRecord k w a rec NULLRID with
      | Res.ret x =>
        (match Temp.runOps k x.2.2.1 x.2.2.2 b ops with
          | Res.ret y => Res.ret (x.1 :: y.1, y.2)
          | Res.undef => Res.undef
          | Res.timeout => Res.timeout)
      | Res.undef => Res.undef
      | Res.timeout => Res.timeout)
  | FileOp.delete :: ops =>
    (match Temp.deleteRecord w b with
      | Res.ret x =>
        (match Temp.runOps k x.2.1 a x.2.2 ops with
          | Res.ret y => Res.ret (x.1 :: y.1, y.2)
          | Res.undef => Res.undef
          | Res.timeout => Res.timeout)
      | Res.undef => Res.undef
      | Res.timeout => Res.timeout)

/-- Page constants with a payload capacity of 80 bytes. -/
def kSmall : PageConst := ⟨100, 20⟩

/-- A record of `n` bytes, all equal to `b`. -/
def recOf (n : Nat) (b : Nat) : Record := ⟨List.replicate n b, n⟩

/-- A file with header page 0 and two data pages: page 1 is full (one record
of 80 bytes) and points to page 2, which holds one record of 10 bytes. -/
def twoPageWorld : World :=
  { hdr := ⟨[], 1, 2, 3, 2⟩, hdrPageNo := 0,
    pages := fun n =>
      if n = 1 then some ⟨1, 2, [some (recOf 80 7)]⟩
      else if n = 2 then some ⟨2, -1, [some (recOf 10 9)]⟩
      else none,
    nextPageNo := 3, script := [], calls := [] }

/-- An object before construction. -/
def rawFile : HeapFile :=
  { headerPage := none, headerPageNo := 0, hdrDirtyFlag := false, curPage := none,
    curPageNo := 0, curDirtyFlag := false, curRec := NULLRID }

/-- A scan object before construction. -/
def rawScan : HeapFileScan :=
  { toHeapFile := rawFile, offset := 0, length := 0, type := Datatype.STRING, filter := none,
    op := Operator.EQ, markedPageNo := 0, markedRec := NULLRID }

/-- A scan object positioned on the record in slot 0 of page 2. -/
def scanOnPage2 : HeapFileScan :=
  { headerPage := some 0, headerPageNo := 0, hdrDirtyFlag := false, curPage := some 2,
    curPageNo := 2, curDirtyFlag := false, curRec := ⟨2, 0⟩, offset := 0, length := 0,
    type := Datatype.STRING, filter := none, op := Operator.EQ, markedPageNo := 0,
    markedRec := NULLRID }

/-- An insert object with page 2, the tail page, pinned. -/
def insertOnPage2 : HeapFile :=
  { headerPage := some 0, headerPageNo := 0, hdrDirtyFlag := false, curPage := some 2,
    curPageNo := 2, curDirtyFlag := false, curRec := NULLRID }

/-- The world after the scan has moved from its current page to page `q`. -/
def movedTo (w : World) (s : HeapFileScan) (q : Int) : World :=
  (readPage (unPinPage w s.curPageNo s.curDirtyFlag).2 q none).2.2

/-- The live records of a page behind the cursor `cur`. -/
def remOnPage (pg : Page) (cur : RID) : List (RID × Record) :=
  liveFrom pg.pageNo (pg.slots.drop (cur.slotNo + 1).toNat) (cur.slotNo + 1).toNat

/-- State of a scan of Temp/heapfile_temp_1.cpp that has a page pinned and
the matching records `L` still before it. -/
def ScanInv (m : Record → Bool) (w : World) (s : HeapFileScan) (L : List (RID × Record)) :
    Prop :=
  ∃ p pg rest, w.script = [] ∧ s.curPage = some p ∧ w.pages p = some pg ∧
    IsChain w.pages pg.nextPage rest ∧ (∀ r, Temp.matchRec s r = m r) ∧ 0 ≤ s.curPageNo ∧
    (∀ n ∈ rest, (0 : Int) ≤ n) ∧
    (remOnPage pg s.curRec ++ fileRecs w.pages rest).filter (fun y => m y.2) = L

/-- What one `scanNext` call returns when the matching records `L` are
still before the scan. -/
def ScanResult (m : Record → Bool) (L : List (RID × Record)) (outRid : RID)
    (x : Status × RID × World × HeapFileScan) : Prop :=
  match L with
  | [] => x.1 = Status.FILEEOF ∧ x.2.1 = outRid
  | y :: tl => x.1 = Status.OK ∧ x.2.1 = y.1 ∧ ScanInv m x.2.2.1 x.2.2.2 tl

/-- A file with header page 0 and the data pages 1 → 2 → 3.  Page 1 holds
the integers 1, 2, 3 (slot 2 is free), page 2 is empty, page 3 holds 4 and
5 (slot 0 is free). -/
def fiveIntWorld : World :=
  { hdr := ⟨[], 1, 3, 4, 5⟩, hdrPageNo := 0,
    pages := fun n =>
      if n = 1 then
        some ⟨1, 2, [some ⟨encodeInt 1, 4⟩, some ⟨encodeInt 2, 4⟩, none, some ⟨encodeInt 3, 4⟩]⟩
      else if n = 2 then some ⟨2, 3, []⟩
      else if n = 3 then some ⟨3, -1, [none, some ⟨encodeInt 4, 4⟩, some ⟨encodeInt 5, 4⟩]⟩
      else none,
    nextPageNo := 4, script := [], calls := [] }

/-! ## Further functions of the two heap file variants -/

/-- Modelled from the spec: `DB::createFile`. -/
def createFile (w : World) : Status × World :=
  (w.nextStatus, w.step (Call.createFile w.nextStatus))

/-- The statements `hdrPage = (FileHdrPage *) newPage; memset(hdrPage, 0,
sizeof(FileHdrPage)); strncpy(hdrPage->fileName, ...)`: the page just
allocated becomes the header page of the file, with `fileName` set and the
other fields zero. -/
def World.initHeader (w : World) (hdrPageNo : Int) (fileName : List Nat) : World :=
  { w with hdrPageNo := hdrPageNo, hdr := ⟨fileName, 0, 0, 0, 0⟩ }

/-- The bytes `strncpy(dst, src, n)` writes: the C string in `src`, cut to
`n` bytes or padded with zero bytes up to `n`. -/
def strncpyBytes (src : List Nat) (n : Nat) : List Nat :=
  ((cutAtNul src).take n) ++ List.replicate (n - ((cutAtNul src).take n).length) 0

/-- `HeapFileScan::endScan`, the same text in both variants. -/
def endScanBody (w : World) (s : HeapFileScan) : Status × World × HeapFileScan :=
  if s.curPage ≠ none then
    let u := unPinPage w s.curPageNo s.curDirtyFlag
    (u.1, u.2, { s with curPage := none, curPageNo := 0, curDirtyFlag := false })
  else (Status.OK, w, s)

/-- `HeapFileScan::markScan`, the same text in both variants. -/
def markScanBody (s : HeapFileScan) : Status × HeapFileScan :=
  (Status.OK, { s with markedPageNo := s.curPageNo, markedRec := s.curRec })

/-- `HeapFileScan::resetScan`, the same text in both variants. -/
def resetScanBody (w : World) (s : HeapFileScan) : Status × World × HeapFileScan :=
  if s.markedPageNo ≠ s.curPageNo then
    let u : Status × World :=
      if s.curPage ≠ none then unPinPage w s.curPageNo s.curDirtyFlag else (Status.OK, w)
    if s.curPage ≠ none ∧ u.1 ≠ Status.OK then (u.1, u.2, s)
    else
      let s1 : HeapFileScan := { s with curPageNo := s.markedPageNo, curRec := s.markedRec }
      let r := readPage u.2 s1.curPageNo s1.curPage
      if r.1 ≠ Status.OK then (r.1, r.2.2, { s1 with curPage := r.2.1 })
      else (Status.OK, r.2.2, { s1 with curPage := r.2.1, curDirtyFlag := false })
  else (Status.OK, w, { s with curRec := s.markedRec })

/-- The two conditional `unPinPage` calls at the start of `HeapFile::~HeapFile`,
the same in both variants. -/
def dtorUnpins (w : World) (s : HeapFile) : World :=
  let w1 := if s.curPage ≠ none then (unPinPage w s.curPageNo s.curDirtyFlag).2 else w
  if s.headerPage ≠ none then (unPinPage w1 s.headerPageNo s.hdrDirtyFlag).2 else w1

/-- `InsertFileScan::~InsertFileScan`, the same text in both variants; the
members are left as they are. -/
def insertFileScanDtorBody (w : World) (s : HeapFile) : World :=
  if s.curPage ≠ none then (unPinPage w s.curPageNo true).2 else w

namespace Stage4

/-- `createHeapFile` of Stage4/heapfile.C.  `maxNameSize` is the constant
`MAXNAMESIZE`. -/
def createHeapFile (maxNameSize : Nat) (w : World) (fileName : List Nat) : Status × World :=
  let o := openFile w
  if o.1 = Status.OK then (Status.FILEEXISTS, o.2)
  else
    let c := createFile o.2
    if c.1 ≠ Status.OK then (c.1, c.2)
    else
      let o2 := openFile c.2
      if o2.1 ≠ Status.OK then (o2.1, o2.2)
      else
        let a := allocPage o2.2 0 none
        if a.1 ≠ Status.OK then (a.1, (closeFile a.2.2.2).2)
        else
          let hdrPageNo := a.2.1
          let w1 := a.2.2.2.initHeader hdrPageNo (strncpyBytes fileName maxNameSize)
          let b := allocPage w1 0 a.2.2.1
          if b.1 ≠ Status.OK then (b.1, (closeFile (unPinPage b.2.2.2 hdrPageNo true).2).2)
          else
            let newPageNo := b.2.1
            let w2 := b.2.2.2.setPage newPageNo (Page.init newPageNo)
            let w3 : World :=
              { w2 with hdr := { w2.hdr with firstPage := newPageNo, lastPage := newPageNo,
                                             pageCnt := 2, recCnt := 0 } }
            let u := unPinPage (unPinPage w3 hdrPageNo true).2 newPageNo true
            let f := flushFile u.2
            if f.1 ≠ Status.OK then (f.1, (closeFile f.2).2)
            else (Status.OK, (closeFile f.2).2)

/-- `HeapFile::~HeapFile` of Stage4/heapfile.C. -/
def HeapFile.dtor (w : World) (s : HeapFile) : World :=
  (closeFile (flushFile (dtorUnpins w s)).2).2

/-- Destruction of an `InsertFileScan` of Stage4/heapfile.C: the body of
`~InsertFileScan`, then the base class destructor. -/
def InsertFileScan.dtor (w : World) (s : HeapFile) : World :=
  HeapFile.dtor (insertFileScanDtorBody w s) s

/-- `HeapFileScan::endScan` of Stage4/heapfile.C. -/
def endScan (w : World) (s : HeapFileScan) : Status × World × HeapFileScan :=
  endScanBody w s

/-- `HeapFileScan::markScan` of Stage4/heapfile.C. -/
def markScan (s : HeapFileScan) : Status × HeapFileScan := markScanBody s

/-- `HeapFileScan::resetScan` of Stage4/heapfile.C. -/
def resetScan (w : World) (s : HeapFileScan) : Status × World × HeapFileScan :=
  resetScanBody w s

/-- The `while (true)` loop of `HeapFileScan::scanNext` of Stage4/heapfile.C,
one iteration per unit of fuel.  `nextRid` is the local of that name. -/
def scanLoop (w : World) (s : HeapFileScan) (outRid nextRid : RID) :
    Nat → Res (Status × RID × World × HeapFileScan)
  | 0 => Res.timeout
  | fuel + 1 =>
    match w.deref s.curPage with
    | none => Res.undef
    | some pg =>
      let n := pg.nextRecord s.curRec nextRid
      if n.1 = Status.ENDOFPAGE then
        let gp := pg.getNextPage
        if gp.1 ≠ Status.OK ∨ gp.2 = -1 then Res.ret (Status.FILEEOF, outRid, w, s)
        else
          let u := unPinPage w s.curPageNo s.curDirtyFlag
          let r := readPage u.2 gp.2 s.curPage
          if r.1 ≠ Status.OK then Res.ret (r.1, outRid, r.2.2, { s with curPage := r.2.1 })
          else
            scanLoop r.2.2
              { s with curPage := r.2.1, curPageNo := gp.2, curDirtyFlag := false,
                       curRec := NULLRID }
              outRid n.2 fuel
      else if n.1 = Status.OK then
        let g := pg.getRecord n.2 ⟨[], 0⟩
        if g.1 = Status.OK ∧ matchRec s g.2 = true then
          Res.ret (Status.OK, n.2, w, { s with curRec := n.2 })
        else scanLoop w s outRid n.2 fuel
      else Res.ret (n.1, outRid, w, s)

/-- `HeapFileScan::scanNext` of Stage4/heapfile.C; `fuel` bounds the
iterations of its loop. -/
def scanNext (w : World) (s : HeapFileScan) (outRid : RID) (fuel : Nat) :
    Res (Status × RID × World × HeapFileScan) :=
  scanLoop w s outRid NULLRID fuel

end Stage4

namespace Temp

/-- `createHeapFile` of Temp/heapfile_temp_1.cpp.  `maxNameSize` is the
constant `MAXNAMESIZE`. -/
def createHeapFile (maxNameSize : Nat) (w : World) (fileName : List Nat) : Status × World :=
  let o := openFile w
  if o.1 = Status.OK then (Status.FILEEXISTS, o.2)
  else
    let c := createFile o.2
    if c.1 ≠ Status.OK then (c.1, c.2)
    else
      let o2 := openFile c.2
      if o2.1 ≠ Status.OK then (o2.1, o2.2)
      else
        let a := allocPage o2.2 0 none
        if a.1 ≠ Status.OK then (a.1, (closeFile a.2.2.2).2)
        else
          let hdrPageNo := a.2.1
          let w1 := a.2.2.2.initHeader hdrPageNo (strncpyBytes fileName maxNameSize)
          let b := allocPage w1 0 a.2.2.1
          if b.1 ≠ Status.OK then (b.1, (closeFile (unPinPage b.2.2.2 hdrPageNo true).2).2)
          else
            let newPageNo := b.2.1
            let n1 := (Page.init newPageNo).setNextPage (-1)
            let w2 := b.2.2.2.setPage newPageNo n1.2
            if n1.1 ≠ Status.OK then
              (n1.1,
                (closeFile (unPinPage (unPinPage w2 hdrPageNo true).2 newPageNo true).2).2)
            else
              let w3 : World :=
                { w2 with hdr := { w2.hdr with recCnt := 0, pageCnt := 1,
                                               firstPage := newPageNo,
                                               lastPage := newPageNo } }
              let u := unPinPage (unPinPage w3 hdrPageNo true).2 newPageNo true
              let f := flushFile u.2
              if f.1 ≠ Status.OK then (f.1, (closeFile f.2).2)
              else (Status.OK, (closeFile f.2).2)

/-- `HeapFile::~HeapFile` of Temp/heapfile_temp_1.cpp. -/
def HeapFile.dtor (w : World) (s : HeapFile) : World :=
  (closeFile (dtorUnpins w s)).2

/-- Destruction of an `InsertFileScan` of Temp/heapfile_temp_1.cpp: the body
of `~InsertFileScan`, then the base class destructor. -/
def InsertFileScan.dtor (w : World) (s : HeapFile) : World :=
  HeapFile.dtor (insertFileScanDtorBody w s) s

/-- `HeapFileScan::endScan` of Temp/heapfile_temp_1.cpp. -/
def endScan (w : World) (s : HeapFileScan) : Status × World × HeapFileScan :=
  endScanBody w s

/-- Destruction of a `HeapFileScan` of Temp/heapfile_temp_1.cpp: `endScan`,
then the base class destructor. -/
def HeapFileScan.dtor (w : World) (s : HeapFileScan) : World :=
  HeapFile.dtor (endScan w s).2.1 (endScan w s).2.2.toHeapFile

/-- `HeapFileScan::markScan` of Temp/heapfile_temp_1.cpp. -/
def markScan (s : HeapFileScan) : Status × HeapFileScan := markScanBody s

/-- `HeapFileScan::resetScan` of Temp/heapfile_temp_1.cpp. -/
def resetScan (w : World) (s : HeapFileScan) : Status × World × HeapFileScan :=
  resetScanBody w s

end Temp

/-! ## Definitions used to state the properties of the further functions -/

/-- Number of successful pins (`readPage` or `allocPage` returning `OK`) of
page `n` among `calls`. -/
def pinCalls (calls : List Call) (n : Int) : Nat :=
  (calls.filter (fun c =>
    match c with
    | Call.readPage m Status.OK => decide (m = n)
    | Call.allocPage m Status.OK => decide (m = n)
    | _ => false)).length

/-- Number of `unPinPage` calls issued for page `n` among `calls`. -/
def unpinCalls (calls : List Call) (n : Int) : Nat :=
  (calls.filter (fun c =>
    match c with
    | Call.unPinPage m _ _ => decide (m = n)
    | _ => false)).length

/-- A world in which no heap file exists yet: the first call, which tries
to open the file, fails, and every later call succeeds. -/
def noFileWorld : World :=
  { hdr := ⟨[], 0, 0, 0, 0⟩, hdrPageNo := 0, pages := fun _ => none, nextPageNo := 0,
    script := [Status.ERR 1], calls := [] }

/-- The state in which `insertRecord` reaches the statement
`status = curPage->insertRecord(rec, outRid)`: the world at that point and
the page `curPage` points to.  `none` when the call returns before (record
too long, or the tail page cannot be read). -/
def atPageInsert (k : PageConst) (w : World) (s : HeapFile) (rec : Record) :
    Option (World × Int) :=
  if toUnsigned rec.length > k.PAGESIZE - k.DPFIXED then none
  else
    match s.curPage with
    | some p => some (w, p)
    | none =>
      if (readPage w w.hdr.lastPage none).1 ≠ Status.OK then none
      else
        match (readPage w w.hdr.lastPage none).2.1 with
        | some p => some ((readPage w w.hdr.lastPage none).2.2, p)
        | none => none

/-- The number of the page `allocPage` hands out when, in the state `wp`,
the current page reports `NOSPACE` for `rec` and the `allocPage` call that
follows succeeds; `none` in every other case. -/
def newPageTaken (k : PageConst) (rec : Record) (rid : RID) (wp : World × Int) : Option Int :=
  match wp.1.pages wp.2 with
  | none => none
  | some pg =>
    if (pg.insertRecord (k.PAGESIZE - k.DPFIXED) rec rid).1 = Status.NOSPACE ∧
        (allocPage wp.1 0 none).1 = Status.OK then
      some (allocPage wp.1 0 none).2.1
    else none

/-- What a call of `insertRecord` started in world `w` and ended in world
`w2` has done to `pageCnt` and `lastPage`, given the page `taken`. -/
def HeaderGrowth (w w2 : World) (taken : Option Int) : Prop :=
  match taken with
  | some n => w2.hdr.pageCnt = w.hdr.pageCnt + 1 ∧ w2.hdr.lastPage = n
  | none => w2.hdr.pageCnt = w.hdr.pageCnt ∧ w2.hdr.lastPage = w.hdr.lastPage

/-- Where a status returned by `scanNext` can come from when it is not
`FILEEOF` found at the end of the chain: the script of the buffer pool, a
success, a page that does not exist, or a slot that holds no record. -/
def StatusFrom (w : World) (st : Status) : Prop :=
  st ∈ w.script ∨ st = Status.OK ∨ st = Status.BADPAGENO ∨ st = Status.INVALIDSLOTNO

/-- State of a scan that has found the end of the file: the current page
has no live record behind the cursor and no successor. -/
def EofState (w : World) (s : HeapFileScan) : Prop :=
  ∃ pg, w.deref s.curPage = some pg ∧ pg.nextPage = -1 ∧
    ∀ nr, pg.nextRecord s.curRec nr = (Status.ENDOFPAGE, nr)

/-! ## Stage6: the relational operators -/

/-- Modelled from the spec: `AttrDesc` of catalog.h, which is not among the
sources: the catalog entry of one attribute. -/
structure AttrDesc where
  relName : List Nat
  attrName : List Nat
  attrOffset : Int
  attrType : Datatype
  attrLen : Int

/-- Modelled from the spec: `attrInfo` of catalog.h, which is not among the
sources: an attribute as the front end passes it; `attrValue` is `none` for
a null pointer. -/
structure attrInfo where
  relName : List Nat
  attrName : List Nat
  attrType : Datatype
  attrLen : Int
  attrValue : Option (List Nat)

/-- C library `memcpy(dst + d, src + s, n)` on the buffer `dst`, byte by
byte; a byte that falls outside the buffer is not stored. -/
def memcpy (dst : List Nat) (d : Int) (src : List Nat) (s : Int) : Nat → List Nat
  | 0 => dst
  | n + 1 =>
    memcpy (if d < 0 then dst else dst.set d.toNat (byteAt src s)) (d + 1) src (s + 1) n

namespace Stage6

/-- The loop `for (i) reclen += projDescs[i].attrLen` of `QU_Select`, which
computes the length handed to `ScanSelect`. -/
def QU_Select.reclen : List AttrDesc → Int → Int
  | [], reclen => reclen
  | d :: ds, reclen => QU_Select.reclen ds (reclen + d.attrLen)

/-- The projection loop of `ScanSelect`: the attributes of `projNames` are
copied one after the other into `outRec`, starting at `offset`. -/
def ScanSelect.project (rec : Record) : List AttrDesc → List Nat → Int → List Nat
  | [], outRec, _ => outRec
  | d :: ds, outRec, offset =>
    ScanSelect.project rec ds
      (memcpy outRec offset rec.data d.attrOffset (toSizeT d.attrLen)) (offset + d.attrLen)

/-- The record `newRec` that `ScanSelect` hands to `insertRecord` for the
source record `rec`; `outRec` is the buffer of `reclen` bytes as the
previous iteration left it. -/
def ScanSelect.newRec (projNames : List AttrDesc) (rec : Record) (outRec : List Nat)
    (reclen : Int) : Record :=
  ⟨ScanSelect.project rec projNames outRec 0, reclen⟩

end Stage6

/-- Attributes laid out without gaps from offset `off` on. -/
def Contiguous : List AttrDesc → Int → Prop
  | [], _ => True
  | d :: ds, off => d.attrOffset = off ∧ Contiguous ds (off + d.attrLen)

/-- The bytes of the windows of `projNames` in the record `rec`, one after
the other. -/
def projected (rec : Record) (projNames : List AttrDesc) : List Nat :=
  (projNames.map (fun d => window rec.data d.attrOffset d.attrLen.toNat)).flatten

/-- A relation of three attributes: an `int` at offset 0, a string of 3
bytes at offset 4 and an `int` at offset 7. -/
def abcSchema : List AttrDesc :=
  [⟨[114], [97], 0, Datatype.INTEGER, 4⟩, ⟨[114], [98], 4, Datatype.STRING, 3⟩,
    ⟨[114], [99], 7, Datatype.INTEGER, 4⟩]

/-- C library `strcmp(a, b) == 0`: the two C strings are equal. -/
def strcmpEq (a b : List Nat) : Bool := decide (cutAtNul a = cutAtNul b)

/-- C library `memset(dst + d, c, n)` on the buffer `dst`; a byte that falls
outside the buffer is not stored. -/
def memset (dst : List Nat) (d : Int) (c : Nat) : Nat → List Nat
  | 0 => dst
  | n + 1 => memset (if d < 0 then dst else dst.set d.toNat c) (d + 1) c n

/-- The member functions of `InsertFileScan` that `QU_Insert` uses, of one
of the two heap file variants. -/
structure InsertOps where
  ctor : World → HeapFile → Status × World × HeapFile
  insertRecord : World → HeapFile → Record → RID → Res (Status × RID × World × HeapFile)
  dtor : World → HeapFile → World

/-- The `InsertFileScan` of Stage4/heapfile.C. -/
def Stage4.insertOps (k : PageConst) : InsertOps :=
  ⟨Stage4.InsertFileScan.ctor, Stage4.insertRecord k, Stage4.InsertFileScan.dtor⟩

/-- The `InsertFileScan` of Temp/heapfile_temp_1.cpp. -/
def Temp.insertOps (k : PageConst) : InsertOps :=
  ⟨Temp.InsertFileScan.ctor, Temp.insertRecord k, Temp.InsertFileScan.dtor⟩

namespace Stage6

/-- The loop `for (i) reclen += attrs[i].attrLen` of `QU_Insert`. -/
def QU_Insert.reclen : List AttrDesc → Int → Int
  | [], reclen => reclen
  | d :: ds, reclen => QU_Insert.reclen ds (reclen + d.attrLen)

/-- The inner loop `for (j = 0; j < attrCnt; j++)` of `QU_Insert`: the first
entry of `attrList` whose name is `name`, `none` when the loop ends without
one.  The second argument counts the entries still to visit; reading past
the end of the array is undefined. -/
def QU_Insert.find (name : List Nat) : List attrInfo → Nat → Res (Option attrInfo)
  | _, 0 => Res.ret none
  | [], _ + 1 => Res.undef
  | a :: as, n + 1 =>
    if strcmpEq name a.attrName = true then Res.ret (some a) else QU_Insert.find name as n

/-- The body of the inner loop of `QU_Insert` for the entry found: the null
check and the `switch (attrs[i].attrType)`.  `atoi` and `atof` are the C
library functions, `atof` followed by the conversion to `float` and given
as the bit pattern of the result. -/
def QU_Insert.store (atoi : List Nat → Int) (atof : List Nat → Nat) (ad : AttrDesc)
    (a : attrInfo) (recordData : List Nat) : Status × List Nat :=
  match a.attrValue with
  | none => (Status.BADCATPARM, recordData)
  | some v =>
    match ad.attrType with
    | Datatype.INTEGER =>
      (Status.OK, memcpy recordData ad.attrOffset (encodeInt (atoi v)) 0 4)
    | Datatype.FLOAT =>
      (Status.OK, memcpy recordData ad.attrOffset (encodeInt (atof v)) 0 4)
    | Datatype.STRING =>
      (Status.OK,
        memcpy (memset recordData ad.attrOffset 0 (toSizeT ad.attrLen)) ad.attrOffset
          (strncpyBytes v (toSizeT (ad.attrLen - 1))) 0 (toSizeT (ad.attrLen - 1)))
    | Datatype.other _ => (Status.BADCATPARM, recordData)

/-- The loop `for (i = 0; i < relAttrCnt; i++)` of `QU_Insert` over the
attributes of the schema; it ends with `OK` and the record bytes, or with
the status of the `return` taken inside. -/
def QU_Insert.fill (atoi : List Nat → Int) (atof : List Nat → Nat) (attrCnt : Int)
    (attrList : List attrInfo) : List AttrDesc → List Nat → Res (Status × List Nat)
  | [], recordData => Res.ret (Status.OK, recordData)
  | ad :: ads, recordData =>
    match QU_Insert.find ad.attrName attrList attrCnt.toNat with
    | Res.ret (some a) =>
      if (QU_Insert.store atoi atof ad a recordData).1 ≠ Status.OK then
        Res.ret ((QU_Insert.store atoi atof ad a recordData).1, recordData)
      else
        QU_Insert.fill atoi atof attrCnt attrList ads
          (QU_Insert.store atoi atof ad a recordData).2
    | Res.ret none => Res.ret (Status.BADCATPARM, recordData)
    | Res.undef => Res.undef
    | Res.timeout => Res.timeout

/-- `QU_Insert` from the comment "Insert into the relation" on: the
relation is opened, the record inserted, and the `InsertFileScan` destroyed
on the way out. -/
def QU_Insert.insertInto (ops : InsertOps) (raw : HeapFile) (w : World) (rec : Record) :
    Res (Status × World) :=
  let c := ops.ctor w raw
  if c.1 ≠ Status.OK then Res.ret (c.1, ops.dtor c.2.1 c.2.2)
  else
    match ops.insertRecord c.2.1 c.2.2 rec NULLRID with
    | Res.ret i => Res.ret (i.1, ops.dtor i.2.2.1 i.2.2.2)
    | Res.undef => Res.undef
    | Res.timeout => Res.timeout

/-- `QU_Insert` of Stage6/insert.C.  `getRelInfo` is the catalog lookup
`attrCat->getRelInfo` (modelled from the spec: the catalog is not among
the sources), `raw` the `InsertFileScan` object before construction. -/
def QU_Insert (ops : InsertOps) (getRelInfo : List Nat → Status × List AttrDesc)
    (atoi : List Nat → Int) (atof : List Nat → Nat) (raw : HeapFile) (w : World)
    (relation : List Nat) (attrCnt : Int) (attrList : List attrInfo) : Res (Status × World) :=
  if relation = [] ∨ attrCnt ≤ 0 then Res.ret (Status.BADCATPARM, w)
  else
    let g := getRelInfo relation
    if g.1 ≠ Status.OK then Res.ret (g.1, w)
    else if attrCnt ≠ (g.2.length : Int) then Res.ret (Status.BADCATPARM, w)
    else
      let reclen := QU_Insert.reclen g.2 0
      match QU_Insert.fill atoi atof attrCnt attrList g.2 (List.replicate reclen.toNat 0) with
      | Res.ret f =>
        if f.1 ≠ Status.OK then Res.ret (f.1, w)
        else QU_Insert.insertInto ops raw w ⟨f.2, reclen⟩
      | Res.undef => Res.undef
      | Res.timeout => Res.timeout

end Stage6

/-- The entry of `attrList` that `QU_Insert` finds for the schema attribute
`ad`: the first one with the same name. -/
def firstMatch (ad : AttrDesc) (attrList : List attrInfo) : Option attrInfo :=
  attrList.find? (fun a => strcmpEq ad.attrName a.attrName)

/-- The argument errors of `QU_Insert`: empty relation name, no attributes,
a count different from the schema, a schema attribute without an entry of
its name, or one whose entry has a null value. -/
def BadInsertArgs (schema : List AttrDesc) (relation : List Nat) (attrCnt : Int)
    (attrList : List attrInfo) : Prop :=
  relation = [] ∨ attrCnt ≤ 0 ∨ attrCnt ≠ (schema.length : Int) ∨
    ∃ ad ∈ schema,
      firstMatch ad attrList = none ∨ ∃ a, firstMatch ad attrList = some a ∧ a.attrValue = none

/-- A catalog that knows the relation "r" with the attributes of
`abcSchema`. -/
def abcCatalog (relation : List Nat) : Status × List AttrDesc :=
  if relation = [114] then (Status.OK, abcSchema) else (Status.ERR 2, [])

/-- The world `w` with another log of calls. -/
def World.withCalls (w : World) (c : List Call) : World := { w with calls := c }

/-- The scan object `s` with another value of `curDirtyFlag`. -/
def HeapFileScan.withDirty (s : HeapFileScan) (d : Bool) : HeapFileScan :=
  { s with curDirtyFlag := d }

/-- Status and out-parameter of a `scanNext` result. -/
def scanObs (r : Res (Status × RID × World × HeapFileScan)) : Res (Status × RID) :=
  match r with
  | Res.ret x => Res.ret (x.1, x.2.1)
  | Res.undef => Res.undef
  | Res.timeout => Res.timeout

/-- The state after `k` successive calls of the scan function `next` that
all returned `OK`; `none` when one of them did not. -/
def scanRun (next : World → HeapFileScan → RID → Res (Status × RID × World × HeapFileScan)) :
    Nat → World → HeapFileScan → RID → Option (World × HeapFileScan × RID)
  | 0, w, s, r => some (w, s, r)
  | k + 1, w, s, r =>
    match next w s r with
    | Res.ret x => if x.1 = Status.OK then scanRun next k x.2.2.1 x.2.2.2 x.2.1 else none
    | Res.undef => none
    | Res.timeout => none

/-- Pins minus unpins of page `n` among `calls`: the pin count the calls
have left on the page. -/
def pinned (calls : List Call) (n : Int) : Int :=
  (pinCalls calls n : Int) - (unpinCalls calls n : Int)

/-- Whether the object holds page `n` as its current page: 1 or 0. -/
def held (s : HeapFile) (n : Int) : Int := if s.curPage = some n then 1 else 0

/-- What a `scanNext` that returned `OK` has kept, from world `w` and
object `s` to world `w2` and object `s2`: the file is the same, no failure
is scripted, only the four members of the current position have moved, the
frame pointer belongs to `curPageNo`, and apart from the page held as
current page the pin counts are what they were. -/
def ScanKeeps (w : World) (s : HeapFileScan) (w2 : World) (s2 : HeapFileScan) : Prop :=
  w2.withCalls [] = w.withCalls [] ∧ w2.script = [] ∧
    { s2 with curPage := s.curPage, curPageNo := s.curPageNo, curDirtyFlag := s.curDirtyFlag,
              curRec := s.curRec } = s ∧
    s2.curPage = some s2.curPageNo ∧
    ∀ n, pinned w2.calls n - held s2.toHeapFile n = pinned w.calls n - held s.toHeapFile n

/-- The mark/reset round trip for a heap file variant given by its
`scanNext` (with fuel), `markScan` and `resetScan`: from a state with the
page of `curPageNo` pinned and no failure scripted, after `markScan`, `k`
calls of `scanNext` that return `OK` and a `resetScan` that returns `OK`,
`curPageNo` and `curRec` are those at the mark, `curPage` is the frame of
that page, every page has the pin count it had at the mark, `resetScan` has
made no call when the scan was still on the marked page, and `scanNext`
returns from there what it returns from the state at the mark. -/
def MarkResetRoundTrip
    (scanNext : World → HeapFileScan → RID → Nat → Res (Status × RID × World × HeapFileScan))
    (markScan : HeapFileScan → Status × HeapFileScan)
    (resetScan : World → HeapFileScan → Status × World × HeapFileScan) : Prop :=
  ∀ (w0 : World) (s0 : HeapFileScan) (k fuel : Nat) (rid0 : RID)
    (w1 : World) (s1 : HeapFileScan) (r1 : RID) (w2 : World) (s2 : HeapFileScan),
    w0.script = [] → s0.curPage = some s0.curPageNo →
    scanRun (fun w s r => scanNext w s r fuel) k w0 (markScan s0).2 rid0 = some (w1, s1, r1) →
    resetScan w1 s1 = (Status.OK, w2, s2) →
    s2.curPageNo = s0.curPageNo ∧ s2.curRec = s0.curRec ∧ s2.curPage = some s0.curPageNo ∧
      (∀ n, pinned w2.calls n = pinned w0.calls n) ∧
      (s1.curPageNo = s0.curPageNo → w2 = w1) ∧
      ∀ (outRid : RID) (fuel2 : Nat),
        scanObs (scanNext w2 s2 outRid fuel2) =
          scanObs (scanNext w0 (markScan s0).2 outRid fuel2)

/-- A scan object with no filter that has page 1 pinned and no record
behind it yet. -/
def scanOnPage1 : HeapFileScan :=
  { headerPage := some 0, headerPageNo := 0, hdrDirtyFlag := false, curPage := some 1,
    curPageNo := 1, curDirtyFlag := false, curRec := NULLRID, offset := 0, length := 0,
    type := Datatype.STRING, filter := none, op := Operator.EQ, markedPageNo := 0,
    markedRec := NULLRID }

namespace Stage6

/-- The loop `while ((status = hfs->scanNext(rid)) == OK)` of `QU_Delete`
with its body `deleteRecord`, one iteration per unit of the first argument;
`scanNext` and `deleteRecord` are those of the heap file variant in use.
The result is the status the loop ends with, world and scan object, `rid`
and `resultTupCnt`. -/
def QU_Delete.loop
    (scanNext : World → HeapFileScan → RID → Res (Status × RID × World × HeapFileScan))
    (deleteRecord : World → HeapFileScan → Res (Status × World × HeapFileScan)) :
    Nat → World → HeapFileScan → RID → Int → Res (Status × World × HeapFileScan × RID × Int)
  | 0, _, _, _, _ => Res.timeout
  | n + 1, w, s, rid, resultTupCnt =>
    match scanNext w s rid with
    | Res.ret x =>
      if x.1 = Status.OK then
        match deleteRecord x.2.2.1 x.2.2.2 with
        | Res.ret d =>
          if d.1 ≠ Status.OK then Res.ret (d.1, d.2.1, d.2.2, x.2.1, resultTupCnt)
          else QU_Delete.loop scanNext deleteRecord n d.2.1 d.2.2 x.2.1 (resultTupCnt + 1)
        | Res.undef => Res.undef
        | Res.timeout => Res.timeout
      else Res.ret (x.1, x.2.2.1, x.2.2.2, x.2.1, resultTupCnt)
    | Res.undef => Res.undef
    | Res.timeout => Res.timeout

/-- The statement `if (status == FILEEOF) status = OK;` after the loop of
`QU_Delete`. -/
def QU_Delete.status (status : Status) : Status :=
  if status = Status.FILEEOF then Status.OK else status

end Stage6

/-- State of the delete loop on Temp/heapfile_temp_1.cpp: the scan has the
matching records `L` still before it, its frame pointer belongs to
`curPageNo`, and every page of the file knows its own number. -/
def DeleteInv (m : Record → Bool) (w : World) (s : HeapFileScan) (L : List (RID × Record)) :
    Prop :=
  ScanInv m w s L ∧ s.curPage = some s.curPageNo ∧
    ∀ n pg, w.pages n = some pg → pg.pageNo = n

/-- What the delete loop started in world `w` with the matching records `L`
before it has done when it ends in world `w2`: `recCnt` is down by the
number of records of `L`, the page chains are the same, and the live
records of any pages are those of before without the records of `L`. -/
def Deleted (w : World) (L : List (RID × Record)) (w2 : World) : Prop :=
  w2.script = [] ∧ w2.hdr.recCnt = w.hdr.recCnt - L.length ∧
    w2.hdr.firstPage = w.hdr.firstPage ∧ w2.hdrPageNo = w.hdrPageNo ∧
    (∀ n pg, w2.pages n = some pg → pg.pageNo = n) ∧
    (∀ q l, IsChain w.pages q l → IsChain w2.pages q l) ∧
    (∀ n, (w2.pages n).isSome = (w.pages n).isSome) ∧
    ∀ l, fileRecs w2.pages l =
      (fileRecs w.pages l).filter (fun y => decide (y.1 ∉ L.map Prod.fst))

/-! ## Further definitions: deletion in Stage4, the selection value, example files -/

namespace Stage4

/-- `HeapFileScan::deleteRecord` of Stage4/heapfile.C: the statements after
the page call run whatever status the page reports. -/
def deleteRecord (w : World) (s : HeapFileScan) : Res (Status × World × HeapFileScan) :=
  match s.curPage with
  | none => Res.undef
  | some p =>
    match w.pages p with
    | none => Res.undef
    | some pg =>
      let d := pg.deleteRecord s.curRec
      let w1 := w.setPage p d.2
      Res.ret (d.1, w1.decRecCnt, { s with curDirtyFlag := true, hdrDirtyFlag := true })

end Stage4

namespace Stage6

/-- The conversion of the selection value in `QU_Select`: the buffer
`filterVal = new char[attrLen]`, cleared by `memset` and filled by the
`switch` on the attribute type.  `atoi` and `atof` are the C library
functions, `atof` followed by the conversion to `float` and given as the
bit pattern of the result. -/
def QU_Select.filterVal (atoi : List Nat → Int) (atof : List Nat → Nat)
    (selAttrDesc : AttrDesc) (attrValue : List Nat) : List Nat :=
  let filterVal :=
    memset (List.replicate (toSizeT selAttrDesc.attrLen) 0) 0 0 (toSizeT selAttrDesc.attrLen)
  match selAttrDesc.attrType with
  | Datatype.INTEGER => memcpy filterVal 0 (encodeInt (atoi attrValue)) 0 4
  | Datatype.FLOAT => memcpy filterVal 0 (encodeInt (atof attrValue)) 0 4
  | Datatype.STRING =>
    memcpy filterVal 0 (strncpyBytes attrValue (toSizeT selAttrDesc.attrLen)) 0
      (toSizeT selAttrDesc.attrLen)
  | Datatype.other _ => filterVal

end Stage6

/-- A file with header page 0 and the data pages 1 → 2: page 1 is empty,
page 2 holds the integer 7. -/
def emptyFirstWorld : World :=
  { hdr := ⟨[], 1, 2, 3, 1⟩, hdrPageNo := 0,
    pages := fun n =>
      if n = 1 then some ⟨1, 2, []⟩
      else if n = 2 then some ⟨2, -1, [some ⟨encodeInt 7, 4⟩]⟩
      else none,
    nextPageNo := 3, script := [], calls := [] }

/-- The file `twoPageWorld` when the sixth external call from now fails and
the five before it succeed. -/
def tailReadFails : World :=
  { twoPageWorld with
    script := [Status.OK, Status.OK, Status.OK, Status.OK, Status.OK, Status.ERR 1] }

/-- A `STRING` attribute of width 3 at offset 0. -/
def name3 : AttrDesc := ⟨[], [], 0, Datatype.STRING, 3⟩

/-! ## `matchRec` with the bounds of the memory it reads -/

/-- The byte at address `base + i` when that address lies inside the buffer
`mem`; what a read outside the buffer yields is not defined by the buffer. -/
def readByte (mem : List Nat) (i : Int) : Option Nat :=
  if 0 ≤ i ∧ i < mem.length then some (byteAt mem i) else none

/-- The four bytes `memcpy(&x, mem + off, sizeof(int))` reads, as an
unsigned little-endian word, when all four lie inside the buffer `mem`. -/
def readWord (mem : List Nat) (off : Int) : Option Nat :=
  if 0 ≤ off ∧ off + 4 ≤ mem.length then some (loadWord mem off) else none

/-- C library `strncmp(a + i, b + j, n)` on the buffers `a` and `b`: the
comparison of `strncmp`, with no result as soon as a byte outside one of
the two buffers is read. -/
def strncmpIn (a : List Nat) (i : Int) (b : List Nat) (j : Int) : Nat → Option Int
  | 0 => some 0
  | n + 1 =>
    match readByte a i, readByte b j with
    | some x, some y =>
      if x ≠ y then some ((x : Int) - (y : Int))
      else if x = 0 then some 0
      else strncmpIn a (i + 1) b (j + 1) n
    | _, _ => none

/-- `HeapFileScan::matchRec`, whose statements are the same in
Stage4/heapfile.C and Temp/heapfile_temp_1.cpp, with the extent of the two
buffers it reads: the record occupies the bytes `rec.data`, the filter
value the bytes `filter`.  A `memcpy` or `strncmp` that reads outside
them has undefined behaviour (`Res.undef`). -/
def matchRecMem (s : HeapFileScan) (rec : Record) : Res Bool :=
  match s.filter with
  | none => Res.ret true
  | some filter =>
    if i32 (s.offset + s.length) > rec.length then Res.ret false
    else
      let diff : Option Diff :=
        match s.type with
        | Datatype.INTEGER =>
          match readWord rec.data s.offset, readWord filter 0 with
          | some iattr, some ifltr => some (Diff.ofInt (i32 (i32 iattr - i32 ifltr)))
          | _, _ => none
        | Datatype.FLOAT =>
          match readWord rec.data s.offset, readWord filter 0 with
          | some fattr, some ffltr => some (F32.sub (F32.ofBits fattr) (F32.ofBits ffltr))
          | _, _ => none
        | Datatype.STRING =>
          match strncmpIn rec.data s.offset filter 0 (toSizeT s.length) with
          | some c => some (Diff.ofInt c)
          | none => none
        | Datatype.other _ => some Diff.zero
      match diff with
      | none => Res.undef
      | some diff =>
        Res.ret
          (match s.op with
            | Operator.LT => decide (diff = Diff.neg)
            | Operator.LTE => decide (diff = Diff.neg ∨ diff = Diff.zero)
            | Operator.EQ => decide (diff = Diff.zero)
            | Operator.GTE => decide (diff = Diff.pos ∨ diff = Diff.zero)
            | Operator.GT => decide (diff = Diff.pos)
            | Operator.NE => decide (diff ≠ Diff.zero)
            | Operator.other _ => false)

/-! ## Further example inputs -/

/-- The file `twoPageWorld` when the fourth external call from now, the
read of the first data page, fails and the three before it succeed. -/
def firstReadFails : World :=
  { twoPageWorld with script := [Status.OK, Status.OK, Status.OK, Status.ERR 1] }

/-- An object before construction in memory that is not zero: the member
`curPage` holds the non-null value `p`. -/
def staleFile (p : Int) : HeapFile := { rawFile with curPage := some p }

/-! ## Properties of `startScan` and `matchRec` -/

/-- C5. With a non-null filter `startScan` (both variants) answers
`BADSCANPARM` exactly for the listed parameter combinations, and in every
other case answers `OK` and stores exactly the given offset, length, type,
filter and operator. -/
theorem startScan_filter_validation (s : HeapFileScan) (offset length : Int)
    (type : Datatype) (f : List Nat) (op : Operator) :
    (((Stage4.startScan s offset length type (some f) op).1 = Status.BADSCANPARM
        ↔ badScanParm offset length type op) ∧
      (badScanParm offset length type op ∨
        Stage4.startScan s offset length type (some f) op =
          (Status.OK, { s with offset := offset, length := length, type := type,
                               filter := some f, op := op }))) ∧
    (((Temp.startScan s offset length type (some f) op).1 = Status.BADSCANPARM
        ↔ badScanParm offset length type op) ∧
      (badScanParm offset length type op ∨
        Temp.startScan s offset length type (some f) op =
          (Status.OK, { s with offset := offset, length := length, type := type,
                               filter := some f, op := op }))) := by
  have key : ((offset < 0 ∨ length < 1) ∨
        (type ≠ Datatype.STRING ∧ type ≠ Datatype.INTEGER ∧ type ≠ Datatype.FLOAT) ∨
        (type = Datatype.INTEGER ∧ length ≠ sizeofInt
          ∨ type = Datatype.FLOAT ∧ length ≠ sizeofFloat) ∨
        (op ≠ Operator.LT ∧ op ≠ Operator.LTE ∧ op ≠ Operator.EQ ∧ op ≠ Operator.GTE
          ∧ op ≠ Operator.GT ∧ op ≠ Operator.NE)) ↔ badScanParm offset length type op := by
    unfold badScanParm
    tauto
  by_cases hb : badScanParm offset length type op
  · have hc := key.mpr hb
    have e1 : Stage4.startScan s offset length type (some f) op = (Status.BADSCANPARM, s) := by
      simp only [Stage4.startScan, if_pos hc]
    have e2 : Temp.startScan s offset length type (some f) op = (Status.BADSCANPARM, s) := by
      simp only [Temp.startScan, if_pos hc]
    rw [e1, e2]
    exact ⟨⟨⟨fun _ => hb, fun _ => rfl⟩, Or.inl hb⟩, ⟨fun _ => hb, fun _ => rfl⟩, Or.inl hb⟩
  · have hc : ¬ _ := fun h => hb (key.mp h)
    have e1 : Stage4.startScan s offset length type (some f) op =
        (Status.OK, { s with offset := offset, length := length, type := type,
                             filter := some f, op := op }) := by
      simp only [Stage4.startScan, if_neg hc]
    have e2 : Temp.startScan s offset length type (some f) op =
        (Status.OK, { s with offset := offset, length := length, type := type,
                             filter := some f, op := op }) := by
      simp only [Temp.startScan, if_neg hc]
    rw [e1, e2]
    exact ⟨⟨⟨fun h => Status.noConfusion h, fun h => absurd h hb⟩, Or.inr rfl⟩,
      ⟨fun h => Status.noConfusion h, fun h => absurd h hb⟩, Or.inr rfl⟩

/-- C9. With a null filter `startScan` (both variants) answers `OK` for
every offset, length, type and operator and clears the filter, so that
afterwards `matchRec` accepts every record. -/
theorem startScan_null_filter (s : HeapFileScan) (offset length : Int) (type : Datatype)
    (op : Operator) :
    ((Stage4.startScan s offset length type none op).1 = Status.OK ∧
      (Stage4.startScan s offset length type none op).2.filter = none ∧
      ∀ rec : Record, Stage4.matchRec (Stage4.startScan s offset length type none op).2 rec
        = true) ∧
    ((Temp.startScan s offset length type none op).1 = Status.OK ∧
      (Temp.startScan s offset length type none op).2.filter = none ∧
      ∀ rec : Record, Temp.matchRec (Temp.startScan s offset length type none op).2 rec
        = true) := by
  refine ⟨⟨rfl, rfl, fun rec => ?_⟩, rfl, rfl, fun rec => ?_⟩
  · simp [Stage4.startScan, Stage4.matchRec]
  · simp [Temp.startScan, Temp.matchRec]

/-- C6, evaluation at the failing input.  Attribute 2147483647, filter -1:
the 32 bit difference is negative, so `matchRec` (both variants) accepts the
record under `LT` and rejects it under `GT`, `GTE` and, the difference being
non-zero, accepts it under `NE`, although 2147483647 > -1. -/
theorem matchRec_integer_wraps :
    Stage4.matchRec (intScan (-1) Operator.LT) ⟨encodeInt 2147483647, 4⟩ = true ∧
    Stage4.matchRec (intScan (-1) Operator.GT) ⟨encodeInt 2147483647, 4⟩ = false ∧
    Stage4.matchRec (intScan (-1) Operator.GTE) ⟨encodeInt 2147483647, 4⟩ = false ∧
    Temp.matchRec (intScan (-1) Operator.LT) ⟨encodeInt 2147483647, 4⟩ = true ∧
    Temp.matchRec (intScan (-1) Operator.GT) ⟨encodeInt 2147483647, 4⟩ = false ∧
    Temp.matchRec (intScan (-1) Operator.GTE) ⟨encodeInt 2147483647, 4⟩ = false ∧
    loadInt (encodeInt 2147483647) 0 = 2147483647 ∧ loadInt (encodeInt (-1)) 0 = -1 ∧
    holdsOp Operator.LT (2147483647 - (-1)) = false ∧
    holdsOp Operator.GT (2147483647 - (-1)) = true := by
  decide

theorem i32_of_range (x : Int) (h1 : -2147483648 ≤ x) (h2 : x < 2147483648) : i32 x = x := by
  unfold i32
  omega

theorem toSizeT_of_nonneg (n : Int) (h1 : 0 ≤ n) (h2 : n < 2147483648) :
    toSizeT n = n.toNat := by
  unfold toSizeT
  rw [Int.emod_eq_of_lt h1 (by omega)]

theorem ofInt_neg_iff (c : Int) : Diff.ofInt c = Diff.neg ↔ c < 0 := by
  unfold Diff.ofInt
  split_ifs <;> simp <;> omega

theorem ofInt_zero_iff (c : Int) : Diff.ofInt c = Diff.zero ↔ c = 0 := by
  unfold Diff.ofInt
  split_ifs <;> simp <;> omega

theorem ofInt_pos_iff (c : Int) : Diff.ofInt c = Diff.pos ↔ 0 < c := by
  unfold Diff.ofInt
  split_ifs <;> simp <;> omega

theorem opOnDiff_ofInt (op : Operator) (c : Int) : opOnDiff op (Diff.ofInt c) = holdsOp op c := by
  cases op <;>
    simp only [opOnDiff, holdsOp, ofInt_neg_iff, ofInt_zero_iff, ofInt_pos_iff, ne_eq,
      decide_eq_decide] <;> omega

theorem ofInt_congr (c d : Int) (h1 : c < 0 ↔ d < 0) (h2 : c = 0 ↔ d = 0) :
    Diff.ofInt c = Diff.ofInt d := by
  unfold Diff.ofInt
  by_cases hc : c < 0
  · rw [if_pos hc, if_pos (h1.mp hc)]
  · have hd : ¬ d < 0 := fun h => hc (h1.mpr h)
    rw [if_neg hc, if_neg hd]
    by_cases hz : c = 0
    · rw [if_pos hz, if_pos (h2.mp hz)]
    · rw [if_neg hz, if_neg (fun h => hz (h2.mpr h))]

theorem lexCmp_eq_zero (xs : List Nat) : ∀ ys, lexCmp xs ys = 0 ↔ xs = ys := by
  induction xs with
  | nil => intro ys; cases ys <;> simp [lexCmp]
  | cons x xs ih =>
    intro ys
    cases ys with
    | nil => simp [lexCmp]
    | cons y ys =>
      simp only [lexCmp, List.cons.injEq]
      split_ifs with h1 h2
      · constructor
        · intro h; exact absurd h (by decide)
        · rintro ⟨h, _⟩; omega
      · constructor
        · intro h; exact absurd h (by decide)
        · rintro ⟨h, _⟩; omega
      · rw [ih ys]
        constructor
        · intro h; exact ⟨by omega, h⟩
        · rintro ⟨_, h⟩; exact h

/-- `strncmp` compares the two C strings held in the windows. -/
theorem strncmp_sign (a b : List Nat) (n : Nat) : ∀ i j : Int,
    Diff.ofInt (strncmp a i b j n) =
      Diff.ofInt (lexCmp (cutAtNul (window a i n)) (cutAtNul (window b j n))) := by
  induction n with
  | zero => intro i j; simp [strncmp, window, cutAtNul, lexCmp]
  | succ n ih =>
    intro i j
    simp only [strncmp, window, cutAtNul]
    by_cases hne : byteAt a i = byteAt b j
    · rw [if_neg (not_not.mpr hne)]
      by_cases hz : byteAt a i = 0
      · have hz2 : byteAt b j = 0 := by rw [← hne]; exact hz
        rw [if_pos hz, if_pos hz, if_pos hz2]
        simp [lexCmp]
      · have hz2 : ¬ byteAt b j = 0 := by rw [← hne]; exact hz
        rw [if_neg hz, if_neg hz, if_neg hz2]
        simp only [lexCmp, hne, lt_self_iff_false, if_false]
        exact ih (i + 1) (j + 1)
    · rw [if_pos hne]
      apply ofInt_congr
      · by_cases hz : byteAt a i = 0
        · have hz2 : ¬ byteAt b j = 0 := fun h => hne (by rw [hz, h])
          rw [if_pos hz, if_neg hz2]
          simp only [lexCmp]
          omega
        · rw [if_neg hz]
          by_cases hz2 : byteAt b j = 0
          · rw [if_pos hz2]
            simp only [lexCmp]
            omega
          · rw [if_neg hz2]
            simp only [lexCmp]
            split_ifs <;> constructor <;> intro h <;> omega
      · by_cases hz : byteAt a i = 0
        · have hz2 : ¬ byteAt b j = 0 := fun h => hne (by rw [hz, h])
          rw [if_pos hz, if_neg hz2]
          simp only [lexCmp]
          omega
        · rw [if_neg hz]
          by_cases hz2 : byteAt b j = 0
          · rw [if_pos hz2]
            simp only [lexCmp]
            omega
          · rw [if_neg hz2]
            simp only [lexCmp]
            split_ifs <;> constructor <;> intro h <;> first | omega | exact False.elim h

theorem matchRec_eq_opOnDiff_stage4 (s : HeapFileScan) (rec : Record) (f : List Nat)
    (hf : s.filter = some f) (hfit : ¬ i32 (s.offset + s.length) > rec.length) :
    Stage4.matchRec s rec = opOnDiff s.op
      (match s.type with
        | Datatype.INTEGER => Diff.ofInt (i32 (loadInt rec.data s.offset - loadInt f 0))
        | Datatype.FLOAT =>
          F32.sub (F32.ofBits (loadWord rec.data s.offset)) (F32.ofBits (loadWord f 0))
        | Datatype.STRING => Diff.ofInt (strncmp rec.data s.offset f 0 (toSizeT s.length))
        | Datatype.other _ => Diff.zero) := by
  unfold Stage4.matchRec opOnDiff
  rw [hf]
  simp only [if_neg hfit]

theorem matchRec_eq_opOnDiff_temp (s : HeapFileScan) (rec : Record) (f : List Nat)
    (hf : s.filter = some f) (hfit : ¬ i32 (s.offset + s.length) > rec.length) :
    Temp.matchRec s rec = opOnDiff s.op
      (match s.type with
        | Datatype.INTEGER => Diff.ofInt (i32 (loadInt rec.data s.offset - loadInt f 0))
        | Datatype.FLOAT =>
          F32.sub (F32.ofBits (loadWord rec.data s.offset)) (F32.ofBits (loadWord f 0))
        | Datatype.STRING => Diff.ofInt (strncmp rec.data s.offset f 0 (toSizeT s.length))
        | Datatype.other _ => Diff.zero) := by
  unfold Temp.matchRec opOnDiff
  rw [hf]
  simp only [if_neg hfit]

/-- With an `INTEGER` filter and the window within the record, `matchRec`
(both variants) compares the 32 bit difference of attribute and filter value
with zero; where that difference does not overflow this is the comparison of
the two values. -/
theorem matchRec_integer_no_overflow (s : HeapFileScan) (rec : Record) (f : List Nat)
    (hf : s.filter = some f) (ht : s.type = Datatype.INTEGER)
    (hfit : ¬ i32 (s.offset + s.length) > rec.length)
    (h1 : -2147483648 ≤ loadInt rec.data s.offset - loadInt f 0)
    (h2 : loadInt rec.data s.offset - loadInt f 0 < 2147483648) :
    Stage4.matchRec s rec = holdsOp s.op (loadInt rec.data s.offset - loadInt f 0) ∧
    Temp.matchRec s rec = holdsOp s.op (loadInt rec.data s.offset - loadInt f 0) := by
  have e4 := matchRec_eq_opOnDiff_stage4 s rec f hf hfit
  have e5 := matchRec_eq_opOnDiff_temp s rec f hf hfit
  rw [ht] at e4 e5
  simp only [i32_of_range _ h1 h2, opOnDiff_ofInt] at e4 e5
  exact ⟨e4, e5⟩

/-- The two variants of `matchRec` are the same function. -/
theorem matchRec_variants_agree (s : HeapFileScan) (rec : Record) :
    Temp.matchRec s rec = Stage4.matchRec s rec := rfl

/-- With a filter set and no `int` overflow in `offset + length`, a record
shorter than `offset + length` is rejected (both variants). -/
theorem matchRec_short_record (s : HeapFileScan) (rec : Record) (f : List Nat)
    (hf : s.filter = some f) (h1 : -2147483648 ≤ s.offset + s.length)
    (h2 : s.offset + s.length < 2147483648) (hshort : s.offset + s.length > rec.length) :
    Stage4.matchRec s rec = false ∧ Temp.matchRec s rec = false := by
  have hw : i32 (s.offset + s.length) > rec.length := by
    rw [i32_of_range _ h1 h2]
    exact hshort
  constructor
  · unfold Stage4.matchRec
    rw [hf]
    simp only [if_pos hw]
  · unfold Temp.matchRec
    rw [hf]
    simp only [if_pos hw]

/-- Without a filter every record matches (both variants). -/
theorem matchRec_no_filter (s : HeapFileScan) (rec : Record) (hf : s.filter = none) :
    Stage4.matchRec s rec = true ∧ Temp.matchRec s rec = true := by
  constructor
  · unfold Stage4.matchRec
    rw [hf]
  · unfold Temp.matchRec
    rw [hf]

/-- C8, evaluation at the failing input.  `startScan(2147483647, 1, STRING,
"", GTE)` is accepted by both variants, which leave the same scan object.
The record has three bytes, so `offset + length = 2147483648` is beyond
its end, yet the `int` sum wraps to a negative number and the length test
does not return false: `matchRec` goes on to `strncmp` at
`rec.data + 2147483647`, an address outside the record, where its
behaviour is undefined.  The same happens with an `INTEGER` filter at that
offset (`length = 4`), where `memcpy` reads outside the four byte record.
With the same filter at offset 3, where the sum does not overflow, the
three byte record is rejected, and at offset 2, where the window fits, the
comparison is made (the byte 3 is not below the zero byte). -/
theorem matchRec_short_record_offset_wraps :
    (Stage4.startScan (strScan 0 1 [] Operator.EQ) 2147483647 1 Datatype.STRING (some [0])
        Operator.GTE).1 = Status.OK ∧
    (Temp.startScan (strScan 0 1 [] Operator.EQ) 2147483647 1 Datatype.STRING (some [0])
        Operator.GTE) =
      (Stage4.startScan (strScan 0 1 [] Operator.EQ) 2147483647 1 Datatype.STRING (some [0])
        Operator.GTE) ∧
    (2147483647 : Int) + 1 > (⟨[1, 2, 3], 3⟩ : Record).length ∧
    ¬ i32 (2147483647 + 1) > (⟨[1, 2, 3], 3⟩ : Record).length ∧
    readByte (⟨[1, 2, 3], 3⟩ : Record).data 2147483647 = none ∧
    matchRecMem (Stage4.startScan (strScan 0 1 [] Operator.EQ) 2147483647 1
        Datatype.STRING (some [0]) Operator.GTE).2 ⟨[1, 2, 3], 3⟩ = Res.undef ∧
    (Stage4.startScan (strScan 0 1 [] Operator.EQ) 2147483647 4 Datatype.INTEGER
        (some (encodeInt 0)) Operator.GTE).1 = Status.OK ∧
    (Temp.startScan (strScan 0 1 [] Operator.EQ) 2147483647 4 Datatype.INTEGER
        (some (encodeInt 0)) Operator.GTE) =
      (Stage4.startScan (strScan 0 1 [] Operator.EQ) 2147483647 4 Datatype.INTEGER
        (some (encodeInt 0)) Operator.GTE) ∧
    matchRecMem (Stage4.startScan (strScan 0 1 [] Operator.EQ) 2147483647 4
        Datatype.INTEGER (some (encodeInt 0)) Operator.GTE).2 ⟨encodeInt 5, 4⟩ = Res.undef ∧
    matchRecMem (Stage4.startScan (strScan 0 1 [] Operator.EQ) 3 1
        Datatype.STRING (some [0]) Operator.GTE).2 ⟨[1, 2, 3], 3⟩ = Res.ret false ∧
    matchRecMem (Stage4.startScan (strScan 0 1 [] Operator.EQ) 2 1
        Datatype.STRING (some [0]) Operator.GTE).2 ⟨[1, 2, 3], 3⟩ = Res.ret true ∧
    matchRecMem (Stage4.startScan (strScan 0 1 [] Operator.EQ) 2 1
        Datatype.STRING (some [0]) Operator.LT).2 ⟨[1, 2, 3], 3⟩ = Res.ret false :=
  ⟨by decide, rfl, by decide, by decide, by decide, rfl, by decide, rfl, rfl, rfl, rfl, rfl⟩

/-- C7, the claim as stated fails.  Record window `a\0b`, filter `a\0c`,
length 3: the two byte sequences differ, yet `matchRec` (both variants)
answers true under `EQ` and false under `NE`. -/
theorem matchRec_string_stops_at_nul :
    Stage4.matchRec (strScan 0 3 [97, 0, 99] Operator.EQ) ⟨[97, 0, 98], 3⟩ = true ∧
    Temp.matchRec (strScan 0 3 [97, 0, 99] Operator.EQ) ⟨[97, 0, 98], 3⟩ = true ∧
    Stage4.matchRec (strScan 0 3 [97, 0, 99] Operator.NE) ⟨[97, 0, 98], 3⟩ = false ∧
    Temp.matchRec (strScan 0 3 [97, 0, 99] Operator.NE) ⟨[97, 0, 98], 3⟩ = false ∧
    window [97, 0, 98] 0 3 ≠ window [97, 0, 99] 0 3 ∧
    holdsOp Operator.EQ (lexCmp (window [97, 0, 98] 0 3) (window [97, 0, 99] 0 3)) = false ∧
    holdsOp Operator.NE (lexCmp (window [97, 0, 98] 0 3) (window [97, 0, 99] 0 3)) = true := by
  decide

/-- C7, amended.  For a `STRING` filter and a record whose window
`[offset, offset + length)` lies within `rec.length`, `matchRec` (both
variants) answers true exactly when the lexicographic comparison of the two
C strings, the record window and the first `length` filter bytes each cut
before its first zero byte, stands in relation `op` to 0; under `EQ` exactly
when the two cut sequences are equal. -/
theorem matchRec_string_cstring (s : HeapFileScan) (rec : Record) (f : List Nat)
    (hf : s.filter = some f) (ht : s.type = Datatype.STRING) (ho : 0 ≤ s.offset)
    (hl : 0 ≤ s.length) (hfit : s.offset + s.length ≤ rec.length)
    (hr : rec.length < 2147483648) :
    Stage4.matchRec s rec =
        holdsOp s.op (lexCmp (cutAtNul (window rec.data s.offset s.length.toNat))
          (cutAtNul (window f 0 s.length.toNat))) ∧
    Temp.matchRec s rec =
        holdsOp s.op (lexCmp (cutAtNul (window rec.data s.offset s.length.toNat))
          (cutAtNul (window f 0 s.length.toNat))) ∧
    (s.op ≠ Operator.EQ ∨
      ((Stage4.matchRec s rec = true ↔
          cutAtNul (window rec.data s.offset s.length.toNat)
            = cutAtNul (window f 0 s.length.toNat)) ∧
       (Temp.matchRec s rec = true ↔
          cutAtNul (window rec.data s.offset s.length.toNat)
            = cutAtNul (window f 0 s.length.toNat)))) := by
  have hw : ¬ i32 (s.offset + s.length) > rec.length := by
    rw [i32_of_range _ (by omega) (by omega)]
    omega
  have e4 := matchRec_eq_opOnDiff_stage4 s rec f hf hw
  have e5 := matchRec_eq_opOnDiff_temp s rec f hf hw
  rw [ht] at e4 e5
  simp only [toSizeT_of_nonneg s.length hl (by omega), strncmp_sign, opOnDiff_ofInt]
    at e4 e5
  refine ⟨e4, e5, ?_⟩
  by_cases hop : s.op = Operator.EQ
  · right
    rw [e4, e5, hop]
    simp only [holdsOp, decide_eq_true_eq, lexCmp_eq_zero, and_self]
  · left
    exact hop

theorem matchRec_string_cstring_witness :
    (strScan 0 3 [97, 0, 99] Operator.EQ).filter = some [97, 0, 99] ∧
    Temp.matchRec (strScan 0 3 [97, 0, 99] Operator.EQ) ⟨[97, 0, 98], 3⟩ =
        holdsOp (strScan 0 3 [97, 0, 99] Operator.EQ).op
          (lexCmp (cutAtNul (window [97, 0, 98] 0 3)) (cutAtNul (window [97, 0, 99] 0 3))) :=
  ⟨rfl, (matchRec_string_cstring (strScan 0 3 [97, 0, 99] Operator.EQ) ⟨[97, 0, 98], 3⟩
    [97, 0, 99] rfl rfl (by decide) (by decide) (by decide) (by decide)).2.1⟩

theorem toUnsigned_of_nonneg (n : Int) (h1 : 0 ≤ n) (h2 : n < 4294967296) :
    (toUnsigned n : Int) = n := by
  unfold toUnsigned
  rw [Int.emod_eq_of_lt h1 h2]
  exact Int.toNat_of_nonneg h1

/-- C10. A record longer than `PAGESIZE - DPFIXED` is refused with
`INVALIDRECLEN` by `insertRecord` (both variants) and nothing changes: the
header (`recCnt`, `pageCnt`, `lastPage`), the pages, the object (`curPageNo`,
both dirty flags), the out-parameter, and no call reaches the buffer pool. -/
theorem insertRecord_oversize (k : PageConst) (w : World) (s : HeapFile) (rec : Record)
    (outRid : RID) (hk : k.DPFIXED ≤ k.PAGESIZE) (hr : rec.length < 2147483648)
    (hbig : rec.length > (k.PAGESIZE : Int) - (k.DPFIXED : Int)) :
    Stage4.insertRecord k w s rec outRid = Res.ret (Status.INVALIDRECLEN, outRid, w, s) ∧
    Temp.insertRecord k w s rec outRid = Res.ret (Status.INVALIDRECLEN, outRid, w, s) := by
  have hu := toUnsigned_of_nonneg rec.length (by omega) (by omega)
  have hc : toUnsigned rec.length > k.PAGESIZE - k.DPFIXED := by omega
  constructor
  · unfold Stage4.insertRecord
    rw [if_pos hc]
  · unfold Temp.insertRecord
    rw [if_pos hc]

theorem insertRecord_oversize_witness :
    (recOf 81 1).length > (kSmall.PAGESIZE : Int) - (kSmall.DPFIXED : Int) ∧
    Stage4.insertRecord kSmall twoPageWorld insertOnPage2 (recOf 81 1) NULLRID =
      Res.ret (Status.INVALIDRECLEN, NULLRID, twoPageWorld, insertOnPage2) ∧
    Temp.insertRecord kSmall twoPageWorld insertOnPage2 (recOf 81 1) NULLRID =
      Res.ret (Status.INVALIDRECLEN, NULLRID, twoPageWorld, insertOnPage2) :=
  ⟨by decide,
    insertRecord_oversize kSmall twoPageWorld insertOnPage2 (recOf 81 1) NULLRID (by decide)
      (by decide) (by decide)⟩

/-! ## The page chain -/

/-- C4, evaluation at the failing input.  The file has the chain 1 → 2 and
`lastPage = 2`; page 1 is full.  In Stage4/heapfile.C the `InsertFileScan`
constructor leaves page 1, the first page, pinned; the insert finds it full,
allocates page 3 and links it behind page 1.  Afterwards the chain from
`firstPage` is 1 → 3: it ends in `lastPage = 3`, but page 2, which still
exists, is no longer on it.  The Temp variant pins the tail page in its
constructor and ends with the chain 1 → 2 → 3. -/
theorem stage4_insert_drops_chain_tail :
    IsChain twoPageWorld.pages twoPageWorld.hdr.firstPage [1, 2] ∧
    twoPageWorld.hdr.lastPage = 2 ∧
    (Stage4.InsertFileScan.ctor twoPageWorld rawFile).1 = Status.OK ∧
    (∃ w1 s1,
      Stage4.insertRecord kSmall (Stage4.InsertFileScan.ctor twoPageWorld rawFile).2.1
          (Stage4.InsertFileScan.ctor twoPageWorld rawFile).2.2 (recOf 80 5) NULLRID
        = Res.ret (Status.OK, ⟨3, 0⟩, w1, s1) ∧
      IsChain w1.pages w1.hdr.firstPage [1, 3] ∧ w1.hdr.lastPage = 3 ∧
      (w1.pages 2).isSome = true ∧ ¬ IsChain w1.pages w1.hdr.firstPage [1, 2, 3]) ∧
    (Temp.InsertFileScan.ctor twoPageWorld rawFile).1 = Status.OK ∧
    (∃ w1 s1,
      Temp.insertRecord kSmall (Temp.InsertFileScan.ctor twoPageWorld rawFile).2.1
          (Temp.InsertFileScan.ctor twoPageWorld rawFile).2.2 (recOf 80 5) NULLRID
        = Res.ret (Status.OK, ⟨3, 0⟩, w1, s1) ∧
      IsChain w1.pages w1.hdr.firstPage [1, 2, 3] ∧ w1.hdr.lastPage = 3) :=
  ⟨by decide, by decide, by decide,
    ⟨_, _, rfl, by decide, by decide, by decide, by decide⟩, by decide,
    ⟨_, _, rfl, by decide, by decide⟩⟩

/-! ## The record count -/

theorem World.setPage_hdr (w : World) (n : Int) (pg : Page) : (w.setPage n pg).hdr = w.hdr := rfl

theorem World.incRecCnt_recCnt (w : World) : w.incRecCnt.hdr.recCnt = w.hdr.recCnt + 1 := rfl

theorem World.decRecCnt_recCnt (w : World) : w.decRecCnt.hdr.recCnt = w.hdr.recCnt - 1 := rfl

theorem World.newLastPage_recCnt (w : World) (n : Int) :
    (w.newLastPage n).hdr.recCnt = w.hdr.recCnt := rfl

theorem unPinPage_hdr (w : World) (n : Int) (d : Bool) : (unPinPage w n d).2.hdr = w.hdr := rfl

theorem readPage_hdr (w : World) (n : Int) (p : Option Int) :
    (readPage w n p).2.2.hdr = w.hdr := by
  unfold readPage
  split_ifs <;> rfl

theorem allocPage_hdr (w : World) (n : Int) (p : Option Int) :
    (allocPage w n p).2.2.2.hdr = w.hdr := by
  unfold allocPage
  split_ifs <;> rfl

theorem Temp.insertOnCur_recCnt (k : PageConst) (w : World) (s : HeapFile) (rec : Record)
    (outRid : RID) (x : Status × RID × World × HeapFile)
    (h : Temp.insertOnCur k w s rec outRid = Res.ret x) :
    x.2.2.1.hdr.recCnt = w.hdr.recCnt + (if x.1 = Status.OK then 1 else 0) := by
  unfold Temp.insertOnCur at h
  split at h
  · cases h
  · split at h
    · cases h
    · simp only [] at h
      split_ifs at h
      all_goals (try split at h)
      all_goals (try split_ifs at h)
      all_goals (try split at h)
      all_goals (try split_ifs at h)
      all_goals (try cases h)
      all_goals simp only [World.setPage_hdr, unPinPage_hdr, allocPage_hdr,
        World.incRecCnt_recCnt, World.newLastPage_recCnt]
      all_goals simp [*]

theorem Temp.insertRecord_recCnt (k : PageConst) (w : World) (s : HeapFile) (rec : Record)
    (outRid : RID) (x : Status × RID × World × HeapFile)
    (h : Temp.insertRecord k w s rec outRid = Res.ret x) :
    x.2.2.1.hdr.recCnt = w.hdr.recCnt + (if x.1 = Status.OK then 1 else 0) := by
  unfold Temp.insertRecord at h
  split_ifs at h
  · cases h
    simp
  · split at h
    · simp only [] at h
      split_ifs at h with hr
      · cases h
        simp [readPage_hdr, hr]
      · rw [Temp.insertOnCur_recCnt _ _ _ _ _ _ h, readPage_hdr]
    · exact Temp.insertOnCur_recCnt _ _ _ _ _ _ h

theorem Temp.deleteRecord_recCnt (w : World) (s : HeapFileScan)
    (x : Status × World × HeapFileScan) (h : Temp.deleteRecord w s = Res.ret x) :
    x.2.1.hdr.recCnt = w.hdr.recCnt - (if x.1 = Status.OK then 1 else 0) := by
  unfold Temp.deleteRecord at h
  split at h
  · cases h
  · split at h
    · cases h
    · simp only [] at h
      split_ifs at h with hd
      · cases h
        simp [World.setPage_hdr, hd]
      · cases h
        simp [World.setPage_hdr, World.decRecCnt_recCnt]

/-- C3. In Temp/heapfile_temp_1.cpp, after any sequence of `insertRecord`
and `deleteRecord` calls on one header page, `recCnt` is its initial value
plus the number of `insertRecord` calls that returned `OK` minus the number
of `deleteRecord` calls that returned `OK`; and a single call that returns
another status leaves `recCnt` as it was. -/
theorem recCnt_counts_inserts_minus_deletes (k : PageConst) (ops : List FileOp) :
    ∀ (w : World) (a : HeapFile) (b : HeapFileScan)
      (y : List Status × World × HeapFile × HeapFileScan),
      Temp.runOps k w a b ops = Res.ret y →
      (y.2.1.hdr.recCnt =
          w.hdr.recCnt + okCount FileOp.isInsert ops y.1 - okCount FileOp.isDelete ops y.1) ∧
      (∀ rec outRid x, Temp.insertRecord k w a rec outRid = Res.ret x → x.1 ≠ Status.OK →
          x.2.2.1.hdr.recCnt = w.hdr.recCnt) ∧
      (∀ x, Temp.deleteRecord w b = Res.ret x → x.1 ≠ Status.OK →
          x.2.1.hdr.recCnt = w.hdr.recCnt) := by
  induction ops with
  | nil =>
    intro w a b y h
    refine ⟨?_, ?_, ?_⟩
    · simp only [Temp.runOps] at h
      cases h
      simp [okCount]
    · intro rec outRid x hx hne
      rw [Temp.insertRecord_recCnt _ _ _ _ _ _ hx, if_neg hne, add_zero]
    · intro x hx hne
      rw [Temp.deleteRecord_recCnt _ _ _ hx, if_neg hne, sub_zero]
  | cons op ops ih =>
    intro w a b y h
    refine ⟨?_, ?_, ?_⟩
    · cases op with
      | insert rec =>
        simp only [Temp.runOps] at h
        split at h
        · rename_i x hx
          split at h
          · rename_i z hz
            cases h
            have h1 := Temp.insertRecord_recCnt _ _ _ _ _ _ hx
            have h2 := (ih _ _ _ _ hz).1
            simp only [okCount, FileOp.isInsert, FileOp.isDelete, true_and, false_and,
              Bool.false_eq_true, if_false]
            rw [h2, h1]
            ring
          · cases h
          · cases h
        · cases h
        · cases h
      | delete =>
        simp only [Temp.runOps] at h
        split at h
        · rename_i x hx
          split at h
          · rename_i z hz
            cases h
            have h1 := Temp.deleteRecord_recCnt _ _ _ hx
            have h2 := (ih _ _ _ _ hz).1
            simp only [okCount, FileOp.isInsert, FileOp.isDelete, true_and, false_and,
              Bool.false_eq_true, if_false]
            rw [h2, h1]
            ring
          · cases h
          · cases h
        · cases h
        · cases h
    · intro rec outRid x hx hne
      rw [Temp.insertRecord_recCnt _ _ _ _ _ _ hx, if_neg hne, add_zero]
    · intro x hx hne
      rw [Temp.deleteRecord_recCnt _ _ _ hx, if_neg hne, sub_zero]

theorem recCnt_counts_inserts_minus_deletes_witness :
    ∃ y, Temp.runOps kSmall twoPageWorld insertOnPage2 scanOnPage2
        [FileOp.insert (recOf 10 5), FileOp.delete, FileOp.delete, FileOp.insert (recOf 81 1),
          FileOp.insert (recOf 70 3)] = Res.ret y ∧
      y.1 = [Status.OK, Status.OK, Status.INVALIDSLOTNO, Status.INVALIDRECLEN, Status.OK] ∧
      y.2.1.hdr.recCnt = 3 ∧
      y.2.1.hdr.recCnt =
        twoPageWorld.hdr.recCnt
          + okCount FileOp.isInsert
              [FileOp.insert (recOf 10 5), FileOp.delete, FileOp.delete,
                FileOp.insert (recOf 81 1), FileOp.insert (recOf 70 3)] y.1
          - okCount FileOp.isDelete
              [FileOp.insert (recOf 10 5), FileOp.delete, FileOp.delete,
                FileOp.insert (recOf 81 1), FileOp.insert (recOf 70 3)] y.1 :=
  ⟨_, rfl, by decide, by decide,
    (recCnt_counts_inserts_minus_deletes kSmall
      [FileOp.insert (recOf 10 5), FileOp.delete, FileOp.delete, FileOp.insert (recOf 81 1),
        FileOp.insert (recOf 70 3)] twoPageWorld insertOnPage2 scanOnPage2 _ rfl).1⟩

/-! ## Insert and get -/

theorem readPage_pages (w : World) (n : Int) (p : Option Int) :
    (readPage w n p).2.2.pages = w.pages := by
  unfold readPage
  split_ifs <;> rfl

theorem readPage_ok (w : World) (n : Int) (p : Option Int)
    (h : (readPage w n p).1 = Status.OK) : (readPage w n p).2.1 = some n := by
  by_cases h1 : w.nextStatus = Status.OK
  · by_cases h2 : n = w.hdrPageNo ∨ (w.pages n).isSome
    · simp only [readPage, if_pos h1, if_pos h2]
    · simp only [readPage, if_pos h1, if_neg h2] at h
      exact Status.noConfusion h
  · simp only [readPage, if_neg h1] at h
    exact absurd h h1

theorem allocPage_ok (w : World) (n : Int) (p : Option Int)
    (h : (allocPage w n p).1 = Status.OK) :
    (allocPage w n p).2.2.1 = some (allocPage w n p).2.1 := by
  by_cases h1 : w.nextStatus = Status.OK
  · simp only [allocPage, if_pos h1]
  · simp only [allocPage, if_neg h1] at h
    exact absurd h h1

theorem World.setPage_same (w : World) (n : Int) (pg : Page) :
    (w.setPage n pg).pages n = some pg := by
  simp [World.setPage]

theorem movedTo_pages (w : World) (s : HeapFileScan) (q : Int) :
    (movedTo w s q).pages = w.pages := by
  unfold movedTo
  rw [readPage_pages]
  rfl

theorem movedTo_script (w : World) (s : HeapFileScan) (q : Int) (h : w.script = []) :
    (movedTo w s q).script = [] := by
  unfold movedTo readPage unPinPage World.step World.nextStatus
  simp only [h, List.tail_nil]
  split_ifs <;> rfl

theorem readPage_script_ok (w : World) (q : Int) (ptr : Option Int) (pg : Page)
    (hs : w.script = []) (hq : w.pages q = some pg) :
    (readPage w q ptr).1 = Status.OK ∧ (readPage w q ptr).2.1 = some q := by
  have h1 : w.nextStatus = Status.OK := by simp [World.nextStatus, hs]
  have h2 : q = w.hdrPageNo ∨ (w.pages q).isSome = true := Or.inr (by simp [hq])
  simp only [readPage, if_pos h1, if_pos h2, and_self]

theorem scanLoop_hit (w : World) (s : HeapFileScan) (outRid nr : RID) (fuel : Nat)
    (p : Int) (pg : Page) (rid : RID) (r : Record)
    (hp : s.curPage = some p) (hpg : w.pages p = some pg)
    (hn : pg.nextRecord s.curRec nr = (Status.OK, rid))
    (hg : pg.getRecord rid ⟨[], 0⟩ = (Status.OK, r))
    (hm : Temp.matchRec s r = true) :
    Temp.scanLoop w s outRid nr (fuel + 1) =
      Res.ret (Status.OK, rid, w, { s with curRec := rid }) := by
  have hm2 : Temp.matchRec { s with curRec := rid } r = true := hm
  have hd : w.deref s.curPage = some pg := by rw [hp]; exact hpg
  simp only [Temp.scanLoop, hd, hn, hg, if_true, ne_eq, not_true_eq_false,
    if_false, hm2]

theorem scanLoop_miss (w : World) (s : HeapFileScan) (outRid nr : RID) (fuel : Nat)
    (p : Int) (pg : Page) (rid : RID) (r : Record)
    (hp : s.curPage = some p) (hpg : w.pages p = some pg)
    (hn : pg.nextRecord s.curRec nr = (Status.OK, rid))
    (hg : pg.getRecord rid ⟨[], 0⟩ = (Status.OK, r))
    (hm : Temp.matchRec s r = false) :
    Temp.scanLoop w s outRid nr (fuel + 1) =
      Temp.scanLoop w { s with curRec := rid } outRid rid fuel := by
  have hm2 : Temp.matchRec { s with curRec := rid } r = false := hm
  have hd : w.deref s.curPage = some pg := by rw [hp]; exact hpg
  simp only [Temp.scanLoop, hd, hn, hg, if_true, ne_eq, not_true_eq_false,
    if_false, hm2, Bool.false_eq_true]

theorem scanLoop_eof (w : World) (s : HeapFileScan) (outRid nr : RID) (fuel : Nat)
    (p : Int) (pg : Page)
    (hp : s.curPage = some p) (hpg : w.pages p = some pg)
    (hn : pg.nextRecord s.curRec nr = (Status.ENDOFPAGE, nr))
    (hnext : pg.nextPage = -1) :
    Temp.scanLoop w s outRid nr (fuel + 1) = Res.ret (Status.FILEEOF, outRid, w, s) := by
  have hd : w.deref s.curPage = some pg := by rw [hp]; exact hpg
  simp only [Temp.scanLoop, hd, hn, Page.getNextPage, hnext]
  simp

theorem scanLoop_move_empty (w : World) (s : HeapFileScan) (outRid nr : RID) (fuel : Nat)
    (p q : Int) (pg pg2 : Page)
    (hp : s.curPage = some p) (hpg : w.pages p = some pg) (hs : w.script = [])
    (hn : pg.nextRecord s.curRec nr = (Status.ENDOFPAGE, nr))
    (hnext : pg.nextPage = q) (hq : q ≠ -1) (hpg2 : w.pages q = some pg2)
    (hf : pg2.firstRecord NULLRID = (Status.NORECORDS, NULLRID)) :
    Temp.scanLoop w s outRid nr (fuel + 1) =
      Temp.scanLoop (movedTo w s q)
        { s with curPage := some q, curPageNo := q, curDirtyFlag := false, curRec := NULLRID }
        outRid nr fuel := by
  have hr := readPage_script_ok (unPinPage w s.curPageNo s.curDirtyFlag).2 q none pg2
    (by simp [unPinPage, World.step, hs]) hpg2
  have hpages : (movedTo w s q).pages q = some pg2 := by rw [movedTo_pages]; exact hpg2
  have hd : w.deref s.curPage = some pg := by rw [hp]; exact hpg
  unfold movedTo at hpages
  have hd2 : World.deref (readPage (unPinPage w s.curPageNo s.curDirtyFlag).2 q none).2.2
      (some q) = some pg2 := hpages
  simp only [Temp.scanLoop, hd, hd2, hn, Page.getNextPage, hnext, hr.1, hr.2,
    hpages, hf, movedTo]
  simp [hq]

theorem scanLoop_move_hit (w : World) (s : HeapFileScan) (outRid nr : RID) (fuel : Nat)
    (p q : Int) (pg pg2 : Page) (rid : RID) (r : Record)
    (hp : s.curPage = some p) (hpg : w.pages p = some pg) (hs : w.script = [])
    (hn : pg.nextRecord s.curRec nr = (Status.ENDOFPAGE, nr))
    (hnext : pg.nextPage = q) (hq : q ≠ -1) (hpg2 : w.pages q = some pg2)
    (hf : pg2.firstRecord NULLRID = (Status.OK, rid))
    (hg : pg2.getRecord rid ⟨[], 0⟩ = (Status.OK, r))
    (hm : Temp.matchRec s r = true) :
    Temp.scanLoop w s outRid nr (fuel + 1) =
      Res.ret (Status.OK, rid, movedTo w s q,
        { s with curPage := some q, curPageNo := q, curDirtyFlag := false, curRec := rid }) := by
  have hr := readPage_script_ok (unPinPage w s.curPageNo s.curDirtyFlag).2 q none pg2
    (by simp [unPinPage, World.step, hs]) hpg2
  have hpages : (movedTo w s q).pages q = some pg2 := by rw [movedTo_pages]; exact hpg2
  have hm2 : Temp.matchRec
      { s with curPage := some q, curPageNo := q, curDirtyFlag := false, curRec := rid } r
      = true := hm
  have hd : w.deref s.curPage = some pg := by rw [hp]; exact hpg
  unfold movedTo at hpages
  have hd2 : World.deref (readPage (unPinPage w s.curPageNo s.curDirtyFlag).2 q none).2.2
      (some q) = some pg2 := hpages
  simp only [Temp.scanLoop, hd, hd2, hn, Page.getNextPage, hnext, hr.1, hr.2,
    hpages, hf, hg, movedTo]
  simp [hq, hm2]

theorem scanLoop_move_miss (w : World) (s : HeapFileScan) (outRid nr : RID) (fuel : Nat)
    (p q : Int) (pg pg2 : Page) (rid : RID) (r : Record)
    (hp : s.curPage = some p) (hpg : w.pages p = some pg) (hs : w.script = [])
    (hn : pg.nextRecord s.curRec nr = (Status.ENDOFPAGE, nr))
    (hnext : pg.nextPage = q) (hq : q ≠ -1) (hpg2 : w.pages q = some pg2)
    (hf : pg2.firstRecord NULLRID = (Status.OK, rid))
    (hg : pg2.getRecord rid ⟨[], 0⟩ = (Status.OK, r))
    (hm : Temp.matchRec s r = false) :
    Temp.scanLoop w s outRid nr (fuel + 1) =
      Temp.scanLoop (movedTo w s q)
        { s with curPage := some q, curPageNo := q, curDirtyFlag := false, curRec := rid }
        outRid nr fuel := by
  have hr := readPage_script_ok (unPinPage w s.curPageNo s.curDirtyFlag).2 q none pg2
    (by simp [unPinPage, World.step, hs]) hpg2
  have hpages : (movedTo w s q).pages q = some pg2 := by rw [movedTo_pages]; exact hpg2
  have hm2 : Temp.matchRec
      { s with curPage := some q, curPageNo := q, curDirtyFlag := false, curRec := rid } r
      = false := hm
  have hd : w.deref s.curPage = some pg := by rw [hp]; exact hpg
  unfold movedTo at hpages
  have hd2 : World.deref (readPage (unPinPage w s.curPageNo s.curDirtyFlag).2 q none).2.2
      (some q) = some pg2 := hpages
  simp only [Temp.scanLoop, hd, hd2, hn, Page.getNextPage, hnext, hr.1, hr.2,
    hpages, hf, hg, movedTo]
  simp [hq, hm2]

theorem firstLive_none_spec (pn : Int) (t : List (Option Record)) :
    ∀ b, firstLive t b = none → liveFrom pn t b = [] := by
  induction t with
  | nil => intro b _; rfl
  | cons a t ih =>
    intro b h
    cases a with
    | none => exact ih (b + 1) h
    | some r => cases h

theorem firstLive_some_spec (pn : Int) (t : List (Option Record)) :
    ∀ b i, firstLive t b = some i →
      b ≤ i ∧ i - b < t.length ∧ ∃ r, t.getD (i - b) none = some r ∧
        liveFrom pn t b = (⟨pn, (i : Int)⟩, r) :: liveFrom pn (t.drop (i - b + 1)) (i + 1) := by
  induction t with
  | nil => intro b i h; cases h
  | cons a t ih =>
    intro b i h
    cases a with
    | none =>
      obtain ⟨h1, h2, r, h3, h4⟩ := ih (b + 1) i h
      have e : i - b = (i - (b + 1)) + 1 := by omega
      refine ⟨by omega, by simp only [List.length_cons]; omega, r, ?_, ?_⟩
      · rw [e]
        simpa [List.getD] using h3
      · rw [e]
        simpa [liveFrom] using h4
    | some r =>
      simp only [firstLive, Option.some.injEq] at h
      subst h
      refine ⟨le_refl _, by simp, r, by simp [List.getD], ?_⟩
      simp [liveFrom]

theorem page_next_cases (pg : Page) (cur nr : RID) :
    (∃ (i : Nat) (r : Record),
        pg.nextRecord cur nr = (Status.OK, ⟨pg.pageNo, i⟩) ∧
        pg.getRecord ⟨pg.pageNo, i⟩ ⟨[], 0⟩ = (Status.OK, r) ∧
        remOnPage pg cur = (⟨pg.pageNo, i⟩, r) :: remOnPage pg ⟨pg.pageNo, i⟩ ∧
        pg.slots.length - (i + 1) < pg.slots.length - (cur.slotNo + 1).toNat) ∨
    (pg.nextRecord cur nr = (Status.ENDOFPAGE, nr) ∧ remOnPage pg cur = []) := by
  unfold Page.nextRecord remOnPage
  generalize (cur.slotNo + 1).toNat = j
  cases h : firstLive (pg.slots.drop j) j with
  | none =>
    right
    exact ⟨rfl, firstLive_none_spec _ _ _ h⟩
  | some i =>
    left
    obtain ⟨h1, h2, r, h3, h4⟩ := firstLive_some_spec pg.pageNo _ _ _ h
    rw [List.length_drop] at h2
    have e1 : ((i : Int) + 1).toNat = i + 1 := by omega
    have hmeas : pg.slots.length - (i + 1) < pg.slots.length - j := by
      clear h3 h4 e1 h
      omega
    refine ⟨i, r, rfl, ?_, ?_, hmeas⟩
    · have hget : pg.slots.getD i none = some r := by
        rw [← h3]
        have e : j + (i - j) = i := by omega
        simp [List.getD_eq_getElem?_getD, List.getElem?_drop, e]
      simp only [Page.getRecord, Page.slot]
      rw [if_neg (by omega)]
      simp only [Int.toNat_ofNat, hget]
    · rw [h4]
      simp only [List.drop_drop, e1]
      have e2 : j + (i - j + 1) = i + 1 := by omega
      rw [e2]

theorem page_first_cases (pg : Page) :
    (∃ (i : Nat) (r : Record),
        pg.firstRecord NULLRID = (Status.OK, ⟨pg.pageNo, i⟩) ∧
        pg.getRecord ⟨pg.pageNo, i⟩ ⟨[], 0⟩ = (Status.OK, r) ∧
        liveFrom pg.pageNo pg.slots 0 = (⟨pg.pageNo, i⟩, r) :: remOnPage pg ⟨pg.pageNo, i⟩) ∨
    (pg.firstRecord NULLRID = (Status.NORECORDS, NULLRID) ∧
      liveFrom pg.pageNo pg.slots 0 = []) := by
  cases h : firstLive pg.slots 0 with
  | none =>
    right
    refine ⟨by simp only [Page.firstRecord, h], ?_⟩
    exact firstLive_none_spec _ _ _ h
  | some i =>
    left
    obtain ⟨h1, h2, r, h3, h4⟩ := firstLive_some_spec pg.pageNo _ _ _ h
    refine ⟨i, r, by simp only [Page.firstRecord, h], ?_, ?_⟩
    · simp only [Page.getRecord, Page.slot]
      rw [if_neg (by omega)]
      simp only [Int.toNat_ofNat]
      simp only [Nat.sub_zero] at h3
      rw [h3]
    · unfold remOnPage
      rw [h4]
      have e1 : ((i : Int) + 1).toNat = i + 1 := by omega
      simp only [e1, Nat.sub_zero]

theorem scanLoop_on_page (m : Record → Bool) (w : World) (p : Int) (pg : Page)
    (rest : List Int) (hs : w.script = []) (hpg : w.pages p = some pg)
    (hch : IsChain w.pages pg.nextPage rest) (hnn : ∀ n ∈ rest, (0 : Int) ≤ n)
    (heop : ∀ (s : HeapFileScan) (outRid nr : RID), s.curPage = some p →
        (∀ r, Temp.matchRec s r = m r) → 0 ≤ s.curPageNo →
        pg.nextRecord s.curRec nr = (Status.ENDOFPAGE, nr) →
        ∃ F x, (∀ fuel, F ≤ fuel → Temp.scanLoop w s outRid nr fuel = Res.ret x) ∧
          ScanResult m ((fileRecs w.pages rest).filter (fun y => m y.2)) outRid x) :
    ∀ (k : Nat) (s : HeapFileScan) (outRid nr : RID),
      pg.slots.length - (s.curRec.slotNo + 1).toNat = k →
      s.curPage = some p → (∀ r, Temp.matchRec s r = m r) → 0 ≤ s.curPageNo →
      ∃ F x, (∀ fuel, F ≤ fuel → Temp.scanLoop w s outRid nr fuel = Res.ret x) ∧
        ScanResult m
          ((remOnPage pg s.curRec ++ fileRecs w.pages rest).filter (fun y => m y.2)) outRid x := by
  intro k
  induction k using Nat.strong_induction_on with
  | _ k ih =>
    intro s outRid nr hk hp hm hpn
    rcases page_next_cases pg s.curRec nr with ⟨i, r, hn, hg, hrem, hlt⟩ | ⟨hn, hrem⟩
    · have e1 : ((i : Int) + 1).toNat = i + 1 := by omega
      cases hmr : m r with
      | true =>
        refine ⟨1, (Status.OK, ⟨pg.pageNo, i⟩, w, { s with curRec := ⟨pg.pageNo, i⟩ }),
          fun fuel hf => ?_, ?_⟩
        · obtain ⟨f, rfl⟩ : ∃ f, fuel = f + 1 := ⟨fuel - 1, by omega⟩
          exact scanLoop_hit w s outRid nr f p pg _ r hp hpg hn hg (by rw [hm, hmr])
        · rw [hrem, List.cons_append, List.filter_cons_of_pos (by simpa using hmr)]
          exact ⟨rfl, rfl, p, pg, rest, hs, hp, hpg, hch, hm, hpn, hnn, rfl⟩
      | false =>
        have hm' : ∀ r, Temp.matchRec { s with curRec := (⟨pg.pageNo, i⟩ : RID) } r = m r := hm
        obtain ⟨F, x, hF, hres⟩ := ih (pg.slots.length - (i + 1)) (by omega)
          { s with curRec := (⟨pg.pageNo, i⟩ : RID) } outRid ⟨pg.pageNo, i⟩
          (by simp only [e1]) hp hm' hpn
        refine ⟨F + 1, x, fun fuel hf => ?_, ?_⟩
        · obtain ⟨f, rfl⟩ : ∃ f, fuel = f + 1 := ⟨fuel - 1, by omega⟩
          rw [scanLoop_miss w s outRid nr f p pg _ r hp hpg hn hg (by rw [hm, hmr])]
          exact hF f (by omega)
        · rw [hrem, List.cons_append, List.filter_cons_of_neg (by simp [hmr])]
          exact hres
    · obtain ⟨F, x, hF, hres⟩ := heop s outRid nr hp hm hpn hn
      refine ⟨F, x, hF, ?_⟩
      rw [hrem, List.nil_append]
      exact hres

theorem scanLoop_spec (m : Record → Bool) (rest : List Int) :
    ∀ (w : World) (s : HeapFileScan) (p : Int) (pg : Page) (outRid nr : RID),
      w.script = [] → s.curPage = some p → w.pages p = some pg →
      IsChain w.pages pg.nextPage rest → (∀ r, Temp.matchRec s r = m r) → 0 ≤ s.curPageNo →
      (∀ n ∈ rest, (0 : Int) ≤ n) →
      ∃ F x, (∀ fuel, F ≤ fuel → Temp.scanLoop w s outRid nr fuel = Res.ret x) ∧
        ScanResult m
          ((remOnPage pg s.curRec ++ fileRecs w.pages rest).filter (fun y => m y.2)) outRid x := by
  induction rest with
  | nil =>
    intro w s p pg outRid nr hs hp hpg hch hm hpn hnn
    refine scanLoop_on_page m w p pg [] hs hpg hch hnn ?_ _ s outRid nr rfl hp hm hpn
    intro s' outRid' nr' hp' _ _ hn'
    refine ⟨1, (Status.FILEEOF, outRid', w, s'), fun fuel hf => ?_, rfl, rfl⟩
    obtain ⟨f, rfl⟩ : ∃ f, fuel = f + 1 := ⟨fuel - 1, by omega⟩
    exact scanLoop_eof w s' outRid' nr' f p pg hp' hpg hn' hch
  | cons q rest ih =>
    intro w s p pg outRid nr hs hp hpg hch hm hpn hnn
    refine scanLoop_on_page m w p pg (q :: rest) hs hpg hch hnn ?_ _ s outRid nr rfl hp hm hpn
    intro s' outRid' nr' hp' hm' _ hn'
    simp only [IsChain] at hch
    obtain ⟨hq1, hq2, hq3⟩ := hch
    rw [hq1] at hq3 hq2
    cases hpg2 : w.pages q with
    | none => rw [hpg2] at hq3; exact hq3.elim
    | some pg2 =>
      rw [hpg2] at hq3
      simp only [] at hq3
      have hq0 : (0 : Int) ≤ q := hnn q (List.mem_cons_self _ _)
      have hnn' : ∀ n ∈ rest, (0 : Int) ≤ n := fun n hn => hnn n (List.mem_cons_of_mem _ hn)
      have hfr : fileRecs w.pages (q :: rest) =
          liveFrom pg2.pageNo pg2.slots 0 ++ fileRecs w.pages rest := by
        simp only [fileRecs, hpg2]
      have hsc := movedTo_script w s' q hs
      have hpgs := movedTo_pages w s' q
      have hpg2' : (movedTo w s' q).pages q = some pg2 := by rw [hpgs]; exact hpg2
      have hch' : IsChain (movedTo w s' q).pages pg2.nextPage rest := by rw [hpgs]; exact hq3
      rcases page_first_cases pg2 with ⟨i, r, hf, hg, hlive⟩ | ⟨hf, hlive⟩
      · cases hmr : m r with
        | true =>
          refine ⟨1, (Status.OK, ⟨pg2.pageNo, i⟩, movedTo w s' q,
            { s' with curPage := some q, curPageNo := q, curDirtyFlag := false,
                      curRec := ⟨pg2.pageNo, i⟩ }), fun fuel hfu => ?_, ?_⟩
          · obtain ⟨f, rfl⟩ : ∃ f, fuel = f + 1 := ⟨fuel - 1, by omega⟩
            exact scanLoop_move_hit w s' outRid' nr' f p q pg pg2 _ r hp' hpg hs hn' hq1 hq2
              hpg2 hf hg (by rw [hm', hmr])
          · rw [hfr, hlive, List.cons_append, List.filter_cons_of_pos (by simpa using hmr)]
            refine ⟨rfl, rfl, q, pg2, rest, hsc, rfl, hpg2', hch', hm', hq0, hnn', ?_⟩
            rw [hpgs]
        | false =>
          obtain ⟨F, x, hF, hres⟩ := ih (movedTo w s' q)
            { s' with curPage := some q, curPageNo := q, curDirtyFlag := false,
                      curRec := (⟨pg2.pageNo, i⟩ : RID) }
            q pg2 outRid' nr' hsc rfl hpg2' hch' hm' hq0 hnn'
          refine ⟨F + 1, x, fun fuel hfu => ?_, ?_⟩
          · obtain ⟨f, rfl⟩ : ∃ f, fuel = f + 1 := ⟨fuel - 1, by omega⟩
            rw [scanLoop_move_miss w s' outRid' nr' f p q pg pg2 _ r hp' hpg hs hn' hq1 hq2
              hpg2 hf hg (by rw [hm', hmr])]
            exact hF f (by omega)
          · rw [hfr, hlive, List.cons_append, List.filter_cons_of_neg (by simp [hmr])]
            rw [hpgs] at hres
            exact hres
      · obtain ⟨F, x, hF, hres⟩ := ih (movedTo w s' q)
          { s' with curPage := some q, curPageNo := q, curDirtyFlag := false,
                    curRec := NULLRID }
          q pg2 outRid' nr' hsc rfl hpg2' hch' hm' hq0 hnn'
        refine ⟨F + 1, x, fun fuel hfu => ?_, ?_⟩
        · obtain ⟨f, rfl⟩ : ∃ f, fuel = f + 1 := ⟨fuel - 1, by omega⟩
          rw [scanLoop_move_empty w s' outRid' nr' f p q pg pg2 hp' hpg hs hn' hq1 hq2 hpg2 hf]
          exact hF f (by omega)
        · rw [hfr]
          rw [hpgs] at hres
          exact hres

theorem scanNext_pinned (w : World) (s : HeapFileScan) (outRid : RID) (fuel : Nat) (p : Int)
    (hpn : 0 ≤ s.curPageNo) (hp : s.curPage = some p) :
    Temp.scanNext w s outRid fuel = Temp.scanLoop w s outRid NULLRID fuel := by
  unfold Temp.scanNext
  rw [if_neg (by omega), hp]

theorem scanCalls_spec (m : Record → Bool) (L : List (RID × Record)) :
    ∀ (w : World) (s : HeapFileScan) (outRid : RID), ScanInv m w s L →
      ∃ F r, ∀ fuel, F ≤ fuel →
        Temp.scanCalls fuel w s outRid (L.length + 1) =
          Res.ret (L.map (fun y => (Status.OK, y.1)) ++ [(Status.FILEEOF, r)]) := by
  induction L with
  | nil =>
    intro w s outRid hinv
    obtain ⟨p, pg, rest, hs, hp, hpg, hch, hm, hpn, hnn, hL⟩ := hinv
    obtain ⟨F, x, hF, hres⟩ :=
      scanLoop_spec m rest w s p pg outRid NULLRID hs hp hpg hch hm hpn hnn
    rw [hL] at hres
    obtain ⟨h1, h2⟩ := hres
    refine ⟨F, x.2.1, fun fuel hf => ?_⟩
    simp only [Temp.scanCalls, scanNext_pinned w s outRid fuel p hpn hp, hF fuel hf, h1,
      List.length_nil, List.map_nil, List.nil_append]
  | cons y tl ih =>
    intro w s outRid hinv
    obtain ⟨p, pg, rest, hs, hp, hpg, hch, hm, hpn, hnn, hL⟩ := hinv
    obtain ⟨F1, x, hF1, hres⟩ :=
      scanLoop_spec m rest w s p pg outRid NULLRID hs hp hpg hch hm hpn hnn
    rw [hL] at hres
    obtain ⟨h1, h2, h3⟩ := hres
    obtain ⟨F2, r, hF2⟩ := ih x.2.2.1 x.2.2.2 x.2.1 h3
    refine ⟨max F1 F2, r, fun fuel hf => ?_⟩
    have e1 := hF1 fuel (le_trans (le_max_left _ _) hf)
    have e2 := hF2 fuel (le_trans (le_max_right _ _) hf)
    simp only [List.length_cons, List.map_cons, List.cons_append]
    rw [Temp.scanCalls, scanNext_pinned w s outRid fuel p hpn hp, e1]
    simp only [e2, h1]
    rw [h2]

/-! ### The records of a file -/

theorem liveFrom_mem (pn : Int) (t : List (Option Record)) :
    ∀ (b : Nat) (rid : RID) (r : Record),
      (rid, r) ∈ liveFrom pn t b ↔
        rid.pageNo = pn ∧ ∃ i : Nat, rid.slotNo = ((b + i : Nat) : Int) ∧ t.getD i none = some r := by
  induction t with
  | nil =>
    intro b rid r
    simp [liveFrom]
  | cons a t ih =>
    intro b rid r
    have hstep : (∃ i : Nat, rid.slotNo = ((b + 1 + i : Nat) : Int) ∧ t.getD i none = some r) ↔
        ∃ i : Nat, rid.slotNo = ((b + (i + 1) : Nat) : Int) ∧ (a :: t).getD (i + 1) none = some r := by
      constructor
      · rintro ⟨i, h1, h2⟩
        exact ⟨i, by rw [h1]; congr 1; omega, by simpa [List.getD] using h2⟩
      · rintro ⟨i, h1, h2⟩
        exact ⟨i, by rw [h1]; congr 1; omega, by simpa [List.getD] using h2⟩
    cases a with
    | none =>
      simp only [liveFrom]
      rw [ih (b + 1) rid r, hstep]
      constructor
      · rintro ⟨h0, i, h1, h2⟩
        exact ⟨h0, i + 1, h1, h2⟩
      · rintro ⟨h0, i, h1, h2⟩
        cases i with
        | zero => simp [List.getD] at h2
        | succ i => exact ⟨h0, i, h1, h2⟩
    | some r0 =>
      simp only [liveFrom, List.mem_cons, Prod.mk.injEq]
      rw [ih (b + 1) rid r, hstep]
      constructor
      · rintro (⟨h0, h1⟩ | ⟨h0, i, h1, h2⟩)
        · subst h0
          exact ⟨rfl, 0, rfl, by simp [List.getD, h1]⟩
        · exact ⟨h0, i + 1, h1, h2⟩
      · rintro ⟨h0, i, h1, h2⟩
        cases i with
        | zero =>
          left
          have h2' : r0 = r := by simpa [List.getD] using h2
          refine ⟨?_, h2'.symm⟩
          cases rid
          simp only [RID.mk.injEq] at h0 h1 ⊢
          exact ⟨h0, h1⟩
        | succ i => exact Or.inr ⟨h0, i, h1, h2⟩

theorem liveFrom_nodup (pn : Int) (t : List (Option Record)) :
    ∀ b : Nat, ((liveFrom pn t b).map Prod.fst).Nodup := by
  induction t with
  | nil => intro b; simp [liveFrom]
  | cons a t ih =>
    intro b
    cases a with
    | none => exact ih (b + 1)
    | some r0 =>
      simp only [liveFrom, List.map_cons, List.nodup_cons]
      refine ⟨?_, ih (b + 1)⟩
      intro hmem
      obtain ⟨⟨rid, r⟩, hin, heq⟩ := List.mem_map.mp hmem
      obtain ⟨_, i, h1, _⟩ := (liveFrom_mem pn t (b + 1) rid r).mp hin
      simp only at heq
      rw [heq] at h1
      simp only at h1
      omega

theorem page_live_mem (pg : Page) (rid : RID) (r : Record) :
    (rid, r) ∈ liveFrom pg.pageNo pg.slots 0 ↔
      rid.pageNo = pg.pageNo ∧ pg.slot rid.slotNo = some r := by
  rw [liveFrom_mem]
  unfold Page.slot
  constructor
  · rintro ⟨h0, i, h1, h2⟩
    refine ⟨h0, ?_⟩
    rw [if_neg (by omega)]
    have : rid.slotNo.toNat = i := by omega
    rw [this]
    exact h2
  · rintro ⟨h0, h1⟩
    by_cases hneg : rid.slotNo < 0
    · rw [if_pos hneg] at h1
      cases h1
    · rw [if_neg hneg] at h1
      exact ⟨h0, rid.slotNo.toNat, by omega, h1⟩

theorem fileRecs_mem (pages : Int → Option Page) (l : List Int) (rid : RID) (r : Record) :
    (rid, r) ∈ fileRecs pages l ↔
      ∃ n ∈ l, ∃ pg, pages n = some pg ∧ rid.pageNo = pg.pageNo ∧
        pg.slot rid.slotNo = some r := by
  induction l with
  | nil => simp [fileRecs]
  | cons n l ih =>
    simp only [fileRecs, List.mem_append, ih, List.mem_cons, exists_eq_or_imp]
    constructor
    · rintro (h | h)
      · left
        cases hp : pages n with
        | none => rw [hp] at h; simp at h
        | some pg =>
          rw [hp] at h
          exact ⟨pg, rfl, (page_live_mem pg rid r).mp h⟩
      · exact Or.inr h
    · rintro (⟨pg, hp, h⟩ | h)
      · left
        rw [hp]
        exact (page_live_mem pg rid r).mpr h
      · exact Or.inr h

theorem isChain_unique (pages : Int → Option Page) (l1 : List Int) :
    ∀ (p : Int) (l2 : List Int), IsChain pages p l1 → IsChain pages p l2 → l1 = l2 := by
  induction l1 with
  | nil =>
    intro p l2 h1 h2
    cases l2 with
    | nil => rfl
    | cons q l2 =>
      simp only [IsChain] at h1 h2
      exact absurd h1 h2.2.1
  | cons q l1 ih =>
    intro p l2 h1 h2
    cases l2 with
    | nil =>
      simp only [IsChain] at h1 h2
      exact absurd h2 h1.2.1
    | cons q2 l2 =>
      simp only [IsChain] at h1 h2
      obtain ⟨a1, _, a3⟩ := h1
      obtain ⟨b1, _, b3⟩ := h2
      cases hp : pages p with
      | none => rw [hp] at a3; exact a3.elim
      | some pg =>
        rw [hp] at a3 b3
        rw [← a1, ← b1, ih pg.nextPage l2 a3 b3]

theorem isChain_suffix (pages : Int → Option Page) (a : List Int) (q : Int) (b : List Int) :
    ∀ p : Int, IsChain pages p (a ++ q :: b) → IsChain pages q (q :: b) := by
  induction a with
  | nil =>
    intro p h
    simp only [List.nil_append, IsChain] at h
    obtain ⟨h1, h2, h3⟩ := h
    rw [h1] at h2 h3
    simp only [IsChain, true_and]
    exact ⟨h2, h3⟩
  | cons x a ih =>
    intro p h
    simp only [List.cons_append, IsChain] at h
    obtain ⟨_, _, h3⟩ := h
    cases hp : pages p with
    | none => rw [hp] at h3; exact h3.elim
    | some pg =>
      rw [hp] at h3
      exact ih pg.nextPage h3

theorem isChain_nodup (pages : Int → Option Page) (l : List Int) :
    ∀ p : Int, IsChain pages p l → l.Nodup := by
  induction l with
  | nil => intro p _; exact List.nodup_nil
  | cons q l ih =>
    intro p h
    have h0 := h
    simp only [IsChain] at h
    obtain ⟨h1, h2, h3⟩ := h
    cases hp : pages p with
    | none => rw [hp] at h3; exact h3.elim
    | some pg =>
      rw [hp] at h3
      simp only [] at h3
      refine List.nodup_cons.mpr ⟨?_, ih pg.nextPage h3⟩
      intro hmem
      obtain ⟨a, b, hab⟩ := List.append_of_mem hmem
      rw [hab] at h3
      have hs := isChain_suffix pages a q b pg.nextPage h3
      rw [h1] at h0
      have := isChain_unique pages (q :: b) q (q :: l) hs h0
      have hlen := congrArg List.length this
      rw [hab] at hlen
      simp only [List.length_cons, List.length_append] at hlen
      omega

theorem fileRecs_nodup (pages : Int → Option Page) (l : List Int)
    (hnum : ∀ n ∈ l, ∀ pg, pages n = some pg → pg.pageNo = n) (hl : l.Nodup) :
    ((fileRecs pages l).map Prod.fst).Nodup := by
  induction l with
  | nil => simp [fileRecs]
  | cons n l ih =>
    have hl' := List.nodup_cons.mp hl
    have hnum' : ∀ k ∈ l, ∀ pg, pages k = some pg → pg.pageNo = k :=
      fun k hk => hnum k (List.mem_cons_of_mem _ hk)
    simp only [fileRecs, List.map_append]
    refine List.Nodup.append ?_ (ih hnum' hl'.2) ?_
    · cases hp : pages n with
      | none => simp
      | some pg => exact liveFrom_nodup _ _ _
    · intro rid h1 h2
      obtain ⟨⟨rid1, r1⟩, hin1, heq1⟩ := List.mem_map.mp h1
      obtain ⟨⟨rid2, r2⟩, hin2, heq2⟩ := List.mem_map.mp h2
      simp only at heq1 heq2
      rw [heq1] at hin1
      rw [heq2] at hin2
      cases hp : pages n with
      | none => rw [hp] at hin1; simp at hin1
      | some pg =>
        rw [hp] at hin1
        have e1 := ((page_live_mem pg rid r1).mp hin1).1
        obtain ⟨k, hk, pg2, hpg2, e2, _⟩ := (fileRecs_mem pages l rid r2).mp hin2
        have a1 := hnum n (List.mem_cons_self _ _) pg hp
        have a2 := hnum' k hk pg2 hpg2
        have : n = k := by rw [← a1, ← e1, e2, a2]
        rw [this] at hl'
        exact hl'.1 hk

theorem matchingRids_nodup (m : Record → Bool) (pages : Int → Option Page) (l : List Int)
    (hnum : ∀ n ∈ l, ∀ pg, pages n = some pg → pg.pageNo = n) (hl : l.Nodup) :
    (matchingRids m pages l).Nodup := by
  unfold matchingRids
  exact List.Nodup.sublist (List.Sublist.map _ (List.filter_sublist _))
    (fileRecs_nodup pages l hnum hl)

theorem matchingRids_mem (m : Record → Bool) (pages : Int → Option Page) (l : List Int)
    (hnum : ∀ n ∈ l, ∀ pg, pages n = some pg → pg.pageNo = n) (rid : RID) :
    rid ∈ matchingRids m pages l ↔
      ∃ n ∈ l, ∃ pg r, pages n = some pg ∧ rid.pageNo = n ∧ pg.slot rid.slotNo = some r ∧
        m r = true := by
  unfold matchingRids
  simp only [List.mem_map, List.mem_filter, Prod.exists, exists_and_right, exists_eq_right]
  constructor
  · rintro ⟨r, hin, hm⟩
    obtain ⟨n, hn, pg, hpg, e1, e2⟩ := (fileRecs_mem pages l rid r).mp hin
    exact ⟨n, hn, pg, r, hpg, by rw [e1, hnum n hn pg hpg], e2, hm⟩
  · rintro ⟨n, hn, pg, r, hpg, e1, e2, hm⟩
    exact ⟨r, (fileRecs_mem pages l rid r).mpr
      ⟨n, hn, pg, hpg, by rw [e1, hnum n hn pg hpg], e2⟩, hm⟩

theorem step_script_nil (w : World) (c : Call) (h : w.script = []) : (w.step c).script = [] := by
  simp [World.step, h]

theorem nextStatus_nil (w : World) (h : w.script = []) : w.nextStatus = Status.OK := by
  simp [World.nextStatus, h]

theorem readPage_script_nil (w : World) (n : Int) (ptr : Option Int) (h : w.script = []) :
    (readPage w n ptr).2.2.script = [] := by
  unfold readPage
  split_ifs <;> exact step_script_nil _ _ h

theorem heapFileCtor_ok (w : World) (raw : HeapFile) (w0 : World) (s0 : HeapFile)
    (hs : w.script = []) (h : heapFileCtor w raw = (Status.OK, w0, s0)) :
    s0.curPage = some w.hdr.firstPage ∧ s0.curPageNo = w.hdr.firstPage ∧
      s0.curRec = NULLRID ∧ w0.pages = w.pages ∧ w0.script = [] := by
  have ho : (openFile w).1 = Status.OK := nextStatus_nil w hs
  have hs1 : (openFile w).2.script = [] := step_script_nil _ _ hs
  have hg : (getFirstPage (openFile w).2 raw.headerPageNo).1 = Status.OK := by
    simp only [getFirstPage, nextStatus_nil _ hs1, if_true]
  have hs2 : (getFirstPage (openFile w).2 raw.headerPageNo).2.2.script = [] := by
    simp only [getFirstPage, nextStatus_nil _ hs1, if_true]
    exact step_script_nil _ _ hs1
  have hg2 : (getFirstPage (openFile w).2 raw.headerPageNo).2.1 =
      (getFirstPage (openFile w).2 raw.headerPageNo).2.2.hdrPageNo := by
    simp only [getFirstPage, nextStatus_nil _ hs1, if_true]
    rfl
  have hpg2 : (getFirstPage (openFile w).2 raw.headerPageNo).2.2.pages = w.pages := by
    simp only [getFirstPage, nextStatus_nil _ hs1, if_true]
    rfl
  have hh2 : (getFirstPage (openFile w).2 raw.headerPageNo).2.2.hdr = w.hdr := by
    simp only [getFirstPage, nextStatus_nil _ hs1, if_true]
    rfl
  unfold heapFileCtor at h
  simp only [ho, ne_eq, not_true_eq_false, if_false] at h
  generalize getFirstPage (openFile w).2 raw.headerPageNo = g at h hg hs2 hg2 hpg2 hh2
  obtain ⟨gst, gno, wg⟩ := g
  simp only at hg hs2 hg2 hpg2 hh2 h
  subst hg hg2
  have hr : (readPage wg wg.hdrPageNo raw.headerPage).1 = Status.OK := by
    simp only [readPage, nextStatus_nil _ hs2, if_true, true_or]
  have hs3 := readPage_script_nil wg wg.hdrPageNo raw.headerPage hs2
  have hpg3 := readPage_pages wg wg.hdrPageNo raw.headerPage
  have hh3 := readPage_hdr wg wg.hdrPageNo raw.headerPage
  simp only [not_true_eq_false, if_false, hr] at h
  generalize readPage wg wg.hdrPageNo raw.headerPage = r at h hs3 hpg3 hh3
  obtain ⟨rst, rptr, wr⟩ := r
  simp only at h hs3 hpg3 hh3
  split_ifs at h with h2
  · have hptr := readPage_ok _ _ _ h2
    have e1 := congrArg (fun x => x.2.1) h
    have e2 := congrArg (fun x => x.2.2) h
    simp only at e1 e2
    subst e1 e2
    refine ⟨?_, ?_, rfl, ?_, ?_⟩
    · show (readPage wr wr.hdr.firstPage raw.curPage).2.1 = _
      rw [hptr, hh3, hh2]
    · show wr.hdr.firstPage = _
      rw [hh3, hh2]
    · rw [readPage_pages, hpg3, hpg2]
    · exact readPage_script_nil _ _ _ hs3
  · exact absurd (congrArg Prod.fst h) h2

theorem startScan_toHeapFile (s0 : HeapFileScan) (offset length : Int) (type : Datatype)
    (filter : Option (List Nat)) (op : Operator) :
    (Temp.startScan s0 offset length type filter op).2.toHeapFile = s0.toHeapFile := by
  unfold Temp.startScan
  split
  · rfl
  · split_ifs <;> rfl

/-- C1. In Temp/heapfile_temp_1.cpp, on a heap file whose page chain from
`firstPage` is the finite list `l` ending at -1 (page numbers non-negative,
every page knowing its own number) and with no failure injected into the
buffer pool, a freshly constructed scan whose `startScan` was accepted
answers successive `scanNext` calls, given enough fuel, with `OK` and the
identifiers of the live records accepted by `matchRec`, in file order, and
then with `FILEEOF`.  That list has no repetition, and an identifier is on
it exactly when it names a live record of a page of the chain that
`matchRec` accepts. -/
theorem scanNext_yields_each_match_once (w : World) (raw : HeapFileScan) (w0 : World)
    (s0 s : HeapFileScan) (l : List Int) (offset length : Int) (type : Datatype)
    (filter : Option (List Nat)) (op : Operator) (outRid : RID)
    (hscript : w.script = []) (hchain : IsChain w.pages w.hdr.firstPage l)
    (hnn : ∀ n ∈ l, (0 : Int) ≤ n)
    (hnum : ∀ n ∈ l, ∀ pg, w.pages n = some pg → pg.pageNo = n)
    (hctor : Temp.HeapFileScan.ctor w raw = (Status.OK, w0, s0))
    (hstart : Temp.startScan s0 offset length type filter op = (Status.OK, s)) :
    (∃ F r, ∀ fuel, F ≤ fuel →
      Temp.scanCalls fuel w0 s outRid ((matchingRids (Temp.matchRec s) w.pages l).length + 1) =
        Res.ret ((matchingRids (Temp.matchRec s) w.pages l).map (fun rid => (Status.OK, rid))
          ++ [(Status.FILEEOF, r)])) ∧
    (matchingRids (Temp.matchRec s) w.pages l).Nodup ∧
    (∀ rid, rid ∈ matchingRids (Temp.matchRec s) w.pages l ↔
      ∃ n ∈ l, ∃ pg r, w.pages n = some pg ∧ rid.pageNo = n ∧
        pg.slot rid.slotNo = some r ∧ Temp.matchRec s r = true) := by
  refine ⟨?_, matchingRids_nodup _ _ _ hnum (isChain_nodup _ _ _ hchain),
    matchingRids_mem _ _ _ hnum⟩
  have hc : heapFileCtor w raw.toHeapFile = (Status.OK, w0, s0.toHeapFile) := by
    simp only [Temp.HeapFileScan.ctor, Temp.HeapFile.ctor, Prod.mk.injEq] at hctor
    obtain ⟨c1, c2, c3⟩ := hctor
    rw [← c3]
    exact Prod.ext c1 (Prod.ext c2 rfl)
  obtain ⟨k1, k2, k3, k4, k5⟩ := heapFileCtor_ok w raw.toHeapFile w0 s0.toHeapFile hscript hc
  have hsh : s.toHeapFile = s0.toHeapFile := by
    have := startScan_toHeapFile s0 offset length type filter op
    rw [hstart] at this
    exact this
  have j1 : s.curPage = some w.hdr.firstPage := by
    show s.toHeapFile.curPage = _
    rw [hsh]; exact k1
  have j2 : s.curPageNo = w.hdr.firstPage := by
    show s.toHeapFile.curPageNo = _
    rw [hsh]; exact k2
  have j3 : s.curRec = NULLRID := by
    show s.toHeapFile.curRec = _
    rw [hsh]; exact k3
  cases l with
  | nil =>
    have hfp : w.hdr.firstPage = -1 := hchain
    refine ⟨0, outRid, fun fuel _ => ?_⟩
    have hlt : s.curPageNo < 0 := by rw [j2, hfp]; decide
    simp only [matchingRids, fileRecs, List.filter_nil, List.map_nil, List.length_nil,
      List.nil_append, Temp.scanCalls, Temp.scanNext, if_pos hlt]
  | cons p rest =>
    simp only [IsChain] at hchain
    obtain ⟨h1, h2, h3⟩ := hchain
    cases hpg : w.pages w.hdr.firstPage with
    | none => rw [hpg] at h3; exact h3.elim
    | some pg =>
      rw [hpg] at h3
      simp only [] at h3
      rw [h1] at j1 j2 hpg
      have hinv : ScanInv (Temp.matchRec s) w0 s
          ((fileRecs w.pages (p :: rest)).filter (fun y => Temp.matchRec s y.2)) := by
        refine ⟨p, pg, rest, k5, j1, by rw [k4]; exact hpg, by rw [k4]; exact h3,
          fun _ => rfl, by rw [j2]; exact hnn p (List.mem_cons_self _ _),
          fun n hn => hnn n (List.mem_cons_of_mem _ hn), ?_⟩
        rw [j3, k4]
        simp only [fileRecs, hpg]
        rfl
      obtain ⟨F, r, hF⟩ := scanCalls_spec (Temp.matchRec s) _ w0 s outRid hinv
      refine ⟨F, r, fun fuel hf => ?_⟩
      have := hF fuel hf
      simp only [matchingRids, List.length_map, List.map_map]
      exact this

theorem fiveIntWorld_numbered :
    ∀ n ∈ [(1 : Int), 2, 3], ∀ pg, fiveIntWorld.pages n = some pg → pg.pageNo = n := by
  intro n hn pg h
  simp only [List.mem_cons, List.mem_singleton, List.not_mem_nil, or_false] at hn
  rcases hn with rfl | rfl | rfl <;> simp [fiveIntWorld] at h <;> rw [← h]

theorem scanNext_yields_each_match_once_witness :
    matchingRids
        (Temp.matchRec (Temp.startScan (Temp.HeapFileScan.ctor fiveIntWorld rawScan).2.2 0 4
          Datatype.INTEGER (some (encodeInt 2)) Operator.GT).2)
        fiveIntWorld.pages [1, 2, 3] = [⟨1, 3⟩, ⟨3, 1⟩, ⟨3, 2⟩] ∧
    Temp.scanCalls 8 (Temp.HeapFileScan.ctor fiveIntWorld rawScan).2.1
        (Temp.startScan (Temp.HeapFileScan.ctor fiveIntWorld rawScan).2.2 0 4
          Datatype.INTEGER (some (encodeInt 2)) Operator.GT).2 NULLRID 4 =
      Res.ret [(Status.OK, ⟨1, 3⟩), (Status.OK, ⟨3, 1⟩), (Status.OK, ⟨3, 2⟩),
        (Status.FILEEOF, ⟨3, 2⟩)] ∧
    ∃ F r, ∀ fuel, F ≤ fuel →
      Temp.scanCalls fuel (Temp.HeapFileScan.ctor fiveIntWorld rawScan).2.1
        (Temp.startScan (Temp.HeapFileScan.ctor fiveIntWorld rawScan).2.2 0 4
          Datatype.INTEGER (some (encodeInt 2)) Operator.GT).2 NULLRID
        ((matchingRids
          (Temp.matchRec (Temp.startScan (Temp.HeapFileScan.ctor fiveIntWorld rawScan).2.2 0 4
            Datatype.INTEGER (some (encodeInt 2)) Operator.GT).2)
          fiveIntWorld.pages [1, 2, 3]).length + 1) =
      Res.ret ((matchingRids
          (Temp.matchRec (Temp.startScan (Temp.HeapFileScan.ctor fiveIntWorld rawScan).2.2 0 4
            Datatype.INTEGER (some (encodeInt 2)) Operator.GT).2)
          fiveIntWorld.pages [1, 2, 3]).map (fun rid => (Status.OK, rid))
        ++ [(Status.FILEEOF, r)]) :=
  ⟨by decide, rfl,
    (scanNext_yields_each_match_once fiveIntWorld rawScan _ _ _ [1, 2, 3] 0 4 Datatype.INTEGER
      (some (encodeInt 2)) Operator.GT NULLRID rfl (by decide) (by decide)
      fiveIntWorld_numbered rfl rfl).1⟩
/-! ## `endScan`, `createHeapFile` and the destructors -/

/-- C20. `endScan` (both variants) issues exactly one call, `unPinPage` of
`curPageNo` with `curDirtyFlag`, when a page is pinned and none otherwise,
returns the status of that call (`OK` without one) and leaves `curPage`
null; a second `endScan` right after returns `OK`, issues no call and
leaves world and object unchanged. -/
theorem endScan_repeat (w : World) (s : HeapFileScan) :
    ((s.curPage ≠ none →
        (Stage4.endScan w s).2.1.calls =
            Call.unPinPage s.curPageNo s.curDirtyFlag (Stage4.endScan w s).1 :: w.calls ∧
          (Stage4.endScan w s).2.2 =
            { s with curPage := none, curPageNo := 0, curDirtyFlag := false }) ∧
      (s.curPage = none → Stage4.endScan w s = (Status.OK, w, s)) ∧
      (Stage4.endScan w s).2.2.curPage = none ∧
      Stage4.endScan (Stage4.endScan w s).2.1 (Stage4.endScan w s).2.2 =
        (Status.OK, (Stage4.endScan w s).2.1, (Stage4.endScan w s).2.2)) ∧
    ((s.curPage ≠ none →
        (Temp.endScan w s).2.1.calls =
            Call.unPinPage s.curPageNo s.curDirtyFlag (Temp.endScan w s).1 :: w.calls ∧
          (Temp.endScan w s).2.2 =
            { s with curPage := none, curPageNo := 0, curDirtyFlag := false }) ∧
      (s.curPage = none → Temp.endScan w s = (Status.OK, w, s)) ∧
      (Temp.endScan w s).2.2.curPage = none ∧
      Temp.endScan (Temp.endScan w s).2.1 (Temp.endScan w s).2.2 =
        (Status.OK, (Temp.endScan w s).2.1, (Temp.endScan w s).2.2)) := by
  have key : (s.curPage ≠ none →
        (endScanBody w s).2.1.calls =
            Call.unPinPage s.curPageNo s.curDirtyFlag (endScanBody w s).1 :: w.calls ∧
          (endScanBody w s).2.2 =
            { s with curPage := none, curPageNo := 0, curDirtyFlag := false }) ∧
      (s.curPage = none → endScanBody w s = (Status.OK, w, s)) ∧
      (endScanBody w s).2.2.curPage = none ∧
      endScanBody (endScanBody w s).2.1 (endScanBody w s).2.2 =
        (Status.OK, (endScanBody w s).2.1, (endScanBody w s).2.2) := by
    by_cases hc : s.curPage = none
    · have e : endScanBody w s = (Status.OK, w, s) := by
        simp [endScanBody, hc]
      rw [e]
      exact ⟨fun h => absurd hc h, fun _ => rfl, hc, e⟩
    · have e : endScanBody w s =
          ((unPinPage w s.curPageNo s.curDirtyFlag).1, (unPinPage w s.curPageNo s.curDirtyFlag).2,
            { s with curPage := none, curPageNo := 0, curDirtyFlag := false }) := by
        simp [endScanBody, hc]
      rw [e]
      refine ⟨fun _ => ⟨rfl, rfl⟩, fun h => absurd h hc, rfl, ?_⟩
      simp [endScanBody]
  exact ⟨key, key⟩

/-- C12. On a world in which the file does not open yet and every other
call succeeds, `createHeapFile` of Stage4/heapfile.C returns `OK` and
leaves a header with `firstPage = lastPage = 1`, the second page allocated,
`pageCnt = 2` and `recCnt = 0`; `createHeapFile` of
Temp/heapfile_temp_1.cpp returns `OK` with the same header except that
`pageCnt = 1`. -/
theorem createHeapFile_pageCnt :
    Stage4.createHeapFile 8 noFileWorld [104, 102] =
        (Status.OK, (Stage4.createHeapFile 8 noFileWorld [104, 102]).2) ∧
      (Stage4.createHeapFile 8 noFileWorld [104, 102]).2.hdr =
        ⟨[104, 102, 0, 0, 0, 0, 0, 0], 1, 1, 2, 0⟩ ∧
      (Stage4.createHeapFile 8 noFileWorld [104, 102]).2.calls.reverse =
        [Call.openFile (Status.ERR 1), Call.createFile Status.OK, Call.openFile Status.OK,
          Call.allocPage 0 Status.OK, Call.allocPage 1 Status.OK,
          Call.unPinPage 0 true Status.OK, Call.unPinPage 1 true Status.OK,
          Call.flushFile Status.OK, Call.closeFile Status.OK] ∧
      Temp.createHeapFile 8 noFileWorld [104, 102] =
        (Status.OK, (Temp.createHeapFile 8 noFileWorld [104, 102]).2) ∧
      (Temp.createHeapFile 8 noFileWorld [104, 102]).2.hdr =
        ⟨[104, 102, 0, 0, 0, 0, 0, 0], 1, 1, 1, 0⟩ ∧
      (Temp.createHeapFile 8 noFileWorld [104, 102]).2.calls =
        (Stage4.createHeapFile 8 noFileWorld [104, 102]).2.calls := by
  refine ⟨rfl, ?_, ?_, rfl, ?_, ?_⟩ <;> decide

/-- C16. An `InsertFileScan` constructed on a two-page file and destroyed
at once, with no `insertRecord` in between: in both variants the page that
is current at destruction has been pinned once and is unpinned twice, once
by `~InsertFileScan` and once more by `~HeapFile`. -/
theorem insertFileScan_unpins_twice :
    (Stage4.InsertFileScan.ctor twoPageWorld rawFile).1 = Status.OK ∧
      pinCalls (Stage4.InsertFileScan.dtor (Stage4.InsertFileScan.ctor twoPageWorld rawFile).2.1
        (Stage4.InsertFileScan.ctor twoPageWorld rawFile).2.2).calls 1 = 1 ∧
      unpinCalls (Stage4.InsertFileScan.dtor (Stage4.InsertFileScan.ctor twoPageWorld rawFile).2.1
        (Stage4.InsertFileScan.ctor twoPageWorld rawFile).2.2).calls 1 = 2 ∧
      (Temp.InsertFileScan.ctor twoPageWorld rawFile).1 = Status.OK ∧
      pinCalls (Temp.InsertFileScan.dtor (Temp.InsertFileScan.ctor twoPageWorld rawFile).2.1
        (Temp.InsertFileScan.ctor twoPageWorld rawFile).2.2).calls 2 = 1 ∧
      unpinCalls (Temp.InsertFileScan.dtor (Temp.InsertFileScan.ctor twoPageWorld rawFile).2.1
        (Temp.InsertFileScan.ctor twoPageWorld rawFile).2.2).calls 2 = 2 := by
  refine ⟨?_, ?_, ?_, ?_, ?_, ?_⟩ <;> decide

/-! ## `pageCnt` and `lastPage` under `insertRecord` -/

theorem allocPage_setPage_status (w : World) (p : Int) (pg : Page) (a : Int) (b : Option Int) :
    (allocPage (w.setPage p pg) a b).1 = (allocPage w a b).1 ∧
      (allocPage (w.setPage p pg) a b).2.1 = (allocPage w a b).2.1 := by
  unfold allocPage
  have e : (w.setPage p pg).nextStatus = w.nextStatus := rfl
  rw [e]
  split_ifs <;> exact ⟨rfl, rfl⟩

theorem World.newLastPage_hdr (w : World) (n : Int) :
    (w.newLastPage n).hdr.pageCnt = w.hdr.pageCnt + 1 ∧ (w.newLastPage n).hdr.lastPage = n :=
  ⟨rfl, rfl⟩

theorem World.incRecCnt_hdr (w : World) :
    w.incRecCnt.hdr.pageCnt = w.hdr.pageCnt ∧ w.incRecCnt.hdr.lastPage = w.hdr.lastPage :=
  ⟨rfl, rfl⟩

theorem insertOnCur_growth_stage4 (k : PageConst) (w : World) (s : HeapFile) (rec : Record)
    (outRid : RID) (p : Int) (x : Status × RID × World × HeapFile) (hp : s.curPage = some p)
    (h : Stage4.insertOnCur k w s rec outRid = Res.ret x) :
    HeaderGrowth w x.2.2.1 (newPageTaken k rec outRid (w, p)) := by
  unfold Stage4.insertOnCur at h
  rw [hp] at h
  simp only [] at h
  unfold newPageTaken
  simp only []
  split at h
  · cases h
  · rename_i pg hpg
    have ha := allocPage_setPage_status w p
      (pg.insertRecord (k.PAGESIZE - k.DPFIXED) rec outRid).2.2 0 none
    by_cases hi : (pg.insertRecord (k.PAGESIZE - k.DPFIXED) rec outRid).1 = Status.NOSPACE
    · rw [if_pos hi] at h
      by_cases hal : (allocPage w 0 none).1 = Status.OK
      · rw [if_pos ⟨hi, hal⟩]
        rw [if_neg (by rw [ha.1]; exact fun hne => hne hal)] at h
        split at h
        · cases h
        · split at h
          · cases h
          · split_ifs at h
            all_goals cases h
            all_goals simp [HeaderGrowth, World.setPage_hdr, unPinPage_hdr,
              World.newLastPage_hdr, World.incRecCnt_hdr, ha.2, allocPage_hdr]
      · rw [if_neg (fun hc => hal hc.2)]
        rw [if_pos (by rw [ha.1]; exact hal)] at h
        cases h
        simp [HeaderGrowth, allocPage_hdr, World.setPage_hdr]
    · rw [if_neg (fun hc => hi hc.1)]
      rw [if_neg hi] at h
      split_ifs at h
      all_goals cases h
      all_goals simp [HeaderGrowth, World.setPage_hdr, World.incRecCnt_hdr]

theorem insertOnCur_growth_temp (k : PageConst) (w : World) (s : HeapFile) (rec : Record)
    (outRid : RID) (p : Int) (x : Status × RID × World × HeapFile) (hp : s.curPage = some p)
    (h : Temp.insertOnCur k w s rec outRid = Res.ret x) :
    HeaderGrowth w x.2.2.1 (newPageTaken k rec outRid (w, p)) := by
  unfold Temp.insertOnCur at h
  rw [hp] at h
  simp only [] at h
  unfold newPageTaken
  simp only []
  split at h
  · cases h
  · rename_i pg hpg
    have ha := allocPage_setPage_status w p
      (pg.insertRecord (k.PAGESIZE - k.DPFIXED) rec outRid).2.2 0 none
    by_cases hi : (pg.insertRecord (k.PAGESIZE - k.DPFIXED) rec outRid).1 = Status.NOSPACE
    · have hno : ¬ (pg.insertRecord (k.PAGESIZE - k.DPFIXED) rec outRid).1 = Status.OK := by
        rw [hi]
        decide
      rw [if_neg hno, if_pos hi] at h
      by_cases hal : (allocPage w 0 none).1 = Status.OK
      · rw [if_pos ⟨hi, hal⟩]
        rw [if_neg (by rw [ha.1]; exact fun hne => hne hal)] at h
        rw [if_neg (fun hne => hne rfl)] at h
        split at h
        · cases h
        · rw [if_neg (fun hne => hne rfl)] at h
          split_ifs at h
          · cases h
            simp [HeaderGrowth, World.setPage_hdr, unPinPage_hdr,
              World.newLastPage_hdr, World.incRecCnt_hdr, ha.2, allocPage_hdr]
          · split at h
            · cases h
            · split_ifs at h
              all_goals cases h
              all_goals simp [HeaderGrowth, World.setPage_hdr, unPinPage_hdr,
                World.newLastPage_hdr, World.incRecCnt_hdr, ha.2, allocPage_hdr]
      · rw [if_neg (fun hc => hal hc.2)]
        rw [if_pos (by rw [ha.1]; exact hal)] at h
        cases h
        simp [HeaderGrowth, allocPage_hdr, World.setPage_hdr]
    · rw [if_neg (fun hc => hi hc.1)]
      rw [if_neg hi] at h
      split_ifs at h
      all_goals cases h
      all_goals simp [HeaderGrowth, World.setPage_hdr, World.incRecCnt_hdr]

theorem readPage_status_ptr (w : World) (n : Int) (x y : Option Int) :
    (readPage w n x).1 = (readPage w n y).1 ∧ (readPage w n x).2.2 = (readPage w n y).2.2 := by
  unfold readPage
  split_ifs <;> exact ⟨rfl, rfl⟩

theorem headerGrowth_of_hdr (w w1 w2 : World) (t : Option Int) (e : w1.hdr = w.hdr)
    (h : HeaderGrowth w1 w2 t) : HeaderGrowth w w2 t := by
  unfold HeaderGrowth at h ⊢
  rw [e] at h
  exact h

/-- C11. `insertRecord` (both variants): when the call reaches the page
insert, the current page reports `NOSPACE` and the `allocPage` call that
follows succeeds, `pageCnt` has grown by exactly one and `lastPage` is the
number of the page allocated; in every other call that returns (the record
fits, it is too long, the tail page cannot be read, the allocation fails)
`pageCnt` and `lastPage` are what they were. -/
theorem insertRecord_pageCnt_lastPage (k : PageConst) (w : World) (s : HeapFile) (rec : Record)
    (outRid : RID) :
    (∀ x, Stage4.insertRecord k w s rec outRid = Res.ret x →
        HeaderGrowth w x.2.2.1 ((atPageInsert k w s rec).bind (newPageTaken k rec outRid))) ∧
    (∀ x, Temp.insertRecord k w s rec outRid = Res.ret x →
        HeaderGrowth w x.2.2.1 ((atPageInsert k w s rec).bind (newPageTaken k rec outRid))) := by
  constructor
  · intro x h
    unfold Stage4.insertRecord at h
    by_cases hl : toUnsigned rec.length > k.PAGESIZE - k.DPFIXED
    · rw [if_pos hl] at h
      cases h
      simp [atPageInsert, if_pos hl, Option.bind, HeaderGrowth]
    · rw [if_neg hl] at h
      cases hc : s.curPage with
      | none =>
        simp only [hc] at h
        by_cases hr : (readPage w w.hdr.lastPage none).1 ≠ Status.OK
        · rw [if_pos hr] at h
          cases h
          simp [atPageInsert, if_neg hl, hc, if_pos hr, Option.bind, HeaderGrowth,
            readPage_hdr]
        · rw [if_neg hr] at h
          have hptr := readPage_ok w w.hdr.lastPage none (not_not.mp hr)
          simp only [atPageInsert, if_neg hl, hc, if_neg hr, hptr, Option.bind]
          exact headerGrowth_of_hdr _ _ _ _ (readPage_hdr _ _ _)
            (insertOnCur_growth_stage4 k _ _ rec outRid _ x hptr h)
      | some p =>
        simp only [hc] at h
        simp only [atPageInsert, if_neg hl, hc, Option.bind]
        exact insertOnCur_growth_stage4 k w s rec outRid p x hc h
  · intro x h
    unfold Temp.insertRecord at h
    by_cases hl : toUnsigned rec.length > k.PAGESIZE - k.DPFIXED
    · rw [if_pos hl] at h
      cases h
      simp [atPageInsert, if_pos hl, Option.bind, HeaderGrowth]
    · rw [if_neg hl] at h
      cases hc : s.curPage with
      | none =>
        simp only [hc] at h
        by_cases hr : (readPage w w.hdr.lastPage none).1 ≠ Status.OK
        · rw [if_pos hr] at h
          cases h
          simp [atPageInsert, if_neg hl, hc, if_pos hr, Option.bind, HeaderGrowth,
            readPage_hdr]
        · rw [if_neg hr] at h
          have hptr := readPage_ok w w.hdr.lastPage none (not_not.mp hr)
          simp only [atPageInsert, if_neg hl, hc, if_neg hr, hptr, Option.bind]
          exact headerGrowth_of_hdr _ _ _ _ (readPage_hdr _ _ _)
            (insertOnCur_growth_temp k _ _ rec outRid _ x hptr h)
      | some p =>
        simp only [hc] at h
        simp only [atPageInsert, if_neg hl, hc, Option.bind]
        exact insertOnCur_growth_temp k w s rec outRid p x hc h

theorem insertRecord_pageCnt_lastPage_witness :
    ∃ x, Temp.insertRecord kSmall twoPageWorld insertOnPage2 (recOf 80 1) NULLRID = Res.ret x ∧
      x.1 = Status.OK ∧
      (atPageInsert kSmall twoPageWorld insertOnPage2 (recOf 80 1)).bind
          (newPageTaken kSmall (recOf 80 1) NULLRID) = some 3 ∧
      HeaderGrowth twoPageWorld x.2.2.1
        ((atPageInsert kSmall twoPageWorld insertOnPage2 (recOf 80 1)).bind
          (newPageTaken kSmall (recOf 80 1) NULLRID)) ∧
      twoPageWorld.hdr.pageCnt = 3 ∧ x.2.2.1.hdr.pageCnt = 4 ∧ x.2.2.1.hdr.lastPage = 3 :=
  ⟨_, rfl, rfl, by decide,
    (insertRecord_pageCnt_lastPage kSmall twoPageWorld insertOnPage2 (recOf 80 1) NULLRID).2
      _ rfl, by decide, by decide, by decide⟩

/-! ## Statuses returned by `scanNext` and `insertRecord` -/

theorem nextStatus_from (w : World) : w.nextStatus ∈ w.script ∨ w.nextStatus = Status.OK := by
  unfold World.nextStatus
  cases w.script with
  | nil => exact Or.inr rfl
  | cons a t => exact Or.inl (List.mem_cons_self a t)

theorem step_script_sub (w : World) (c : Call) (st : Status) (h : st ∈ (w.step c).script) :
    st ∈ w.script :=
  List.mem_of_mem_tail h

theorem readPage_script_sub (w : World) (n : Int) (p : Option Int) (st : Status)
    (h : st ∈ (readPage w n p).2.2.script) : st ∈ w.script := by
  unfold readPage at h
  split_ifs at h <;> exact step_script_sub _ _ _ h

theorem readPage_status_from (w : World) (n : Int) (p : Option Int) :
    StatusFrom w (readPage w n p).1 := by
  unfold readPage StatusFrom
  split_ifs with h1 h2
  · exact Or.inr (Or.inl rfl)
  · exact Or.inr (Or.inr (Or.inl rfl))
  · rcases nextStatus_from w with h | h
    · exact Or.inl h
    · exact absurd h h1

theorem unPinPage_script_sub (w : World) (n : Int) (d : Bool) (st : Status)
    (h : st ∈ (unPinPage w n d).2.script) : st ∈ w.script :=
  step_script_sub _ _ _ h

theorem statusFrom_mono (w w2 : World) (st : Status)
    (hsub : ∀ t, t ∈ w2.script → t ∈ w.script) (h : StatusFrom w2 st) : StatusFrom w st := by
  rcases h with h | h
  · exact Or.inl (hsub _ h)
  · exact Or.inr h

theorem page_nextRecord_status (pg : Page) (cur nr : RID) :
    (pg.nextRecord cur nr).1 = Status.OK ∨
      ∀ nr2, pg.nextRecord cur nr2 = (Status.ENDOFPAGE, nr2) := by
  unfold Page.nextRecord
  cases firstLive (pg.slots.drop (cur.slotNo + 1).toNat) (cur.slotNo + 1).toNat with
  | none => exact Or.inr (fun _ => rfl)
  | some i => exact Or.inl rfl

theorem page_getRecord_status (pg : Page) (rid : RID) (rec : Record) :
    (pg.getRecord rid rec).1 = Status.OK ∨ (pg.getRecord rid rec).1 = Status.INVALIDSLOTNO := by
  unfold Page.getRecord
  cases pg.slot rid.slotNo with
  | none => exact Or.inr rfl
  | some r => exact Or.inl rfl

theorem page_firstRecord_status (pg : Page) (rid : RID) :
    (pg.firstRecord rid).1 = Status.OK ∨ (pg.firstRecord rid).1 = Status.NORECORDS := by
  unfold Page.firstRecord
  cases firstLive pg.slots 0 with
  | none => exact Or.inr rfl
  | some i => exact Or.inl rfl

theorem scanLoop_status_stage4 (fuel : Nat) :
    ∀ (w : World) (s : HeapFileScan) (outRid nr : RID) (x : Status × RID × World × HeapFileScan),
      Stage4.scanLoop w s outRid nr fuel = Res.ret x →
      StatusFrom w x.1 ∨ (x.1 = Status.FILEEOF ∧ x.2.1 = outRid ∧ EofState x.2.2.1 x.2.2.2) := by
  induction fuel with
  | zero =>
    intro w s outRid nr x h
    cases h
  | succ fuel ih =>
    intro w s outRid nr x h
    unfold Stage4.scanLoop at h
    split at h
    · cases h
    · rename_i pg hpg
      simp only [] at h
      rcases page_nextRecord_status pg s.curRec nr with hn | hn
      · have hne : ¬ (pg.nextRecord s.curRec nr).1 = Status.ENDOFPAGE := by
          rw [hn]
          decide
        rw [if_neg hne, if_pos hn] at h
        split_ifs at h
        · cases h
          exact Or.inl (Or.inr (Or.inl rfl))
        · exact ih _ _ _ _ _ h
      · rw [hn nr] at h
        simp only [if_true] at h
        split_ifs at h with h1 h2
        · cases h
          refine Or.inr ⟨rfl, rfl, pg, hpg, ?_, hn⟩
          rcases h1 with h1 | h1
          · exact absurd rfl h1
          · exact h1
        · cases h
          exact Or.inl (statusFrom_mono _ _ _ (unPinPage_script_sub _ _ _)
            (readPage_status_from _ _ _))
        · rcases ih _ _ _ _ _ h with h3 | h3
          · exact Or.inl (statusFrom_mono _ _ _
              (fun t ht => unPinPage_script_sub _ _ _ _ (readPage_script_sub _ _ _ _ ht)) h3)
          · exact Or.inr h3

theorem scanLoop_status_temp (fuel : Nat) :
    ∀ (w : World) (s : HeapFileScan) (outRid nr : RID) (x : Status × RID × World × HeapFileScan),
      Temp.scanLoop w s outRid nr fuel = Res.ret x →
      StatusFrom w x.1 ∨ (x.1 = Status.FILEEOF ∧ x.2.1 = outRid ∧ EofState x.2.2.1 x.2.2.2) := by
  induction fuel with
  | zero =>
    intro w s outRid nr x h
    cases h
  | succ fuel ih =>
    intro w s outRid nr x h
    unfold Temp.scanLoop at h
    split at h
    · cases h
    · rename_i pg hpg
      simp only [] at h
      have hsub : ∀ t, t ∈ (readPage (unPinPage w s.curPageNo s.curDirtyFlag).2
          pg.getNextPage.2 none).2.2.script → t ∈ w.script :=
        fun t ht => unPinPage_script_sub _ _ _ _ (readPage_script_sub _ _ _ _ ht)
      rcases page_nextRecord_status pg s.curRec nr with hn | hn
      · rw [if_pos hn] at h
        split_ifs at h with h1 h2
        · cases h
          rcases page_getRecord_status pg (pg.nextRecord s.curRec nr).2 ⟨[], 0⟩ with hg | hg
          · exact absurd hg h1
          · exact Or.inl (Or.inr (Or.inr (Or.inr hg)))
        · cases h
          exact Or.inl (Or.inr (Or.inl rfl))
        · exact ih _ _ _ _ _ h
      · rw [hn nr] at h
        simp only [if_true, true_or, if_neg (show ¬ Status.ENDOFPAGE = Status.OK by decide)] at h
        split_ifs at h with h1 h2 h3
        · exact absurd rfl h1
        · cases h
          exact Or.inr ⟨rfl, rfl, pg, hpg, h2, hn⟩
        · cases h
          exact Or.inl (statusFrom_mono _ _ _ (unPinPage_script_sub _ _ _)
            (readPage_status_from _ _ _))
        · split at h
          · cases h
          · rename_i pg2 hpg2
            split_ifs at h with h4 h5 h6
            · rcases ih _ _ _ _ _ h with h7 | h7
              · exact Or.inl (statusFrom_mono _ _ _ hsub h7)
              · exact Or.inr h7
            · cases h
              rcases page_getRecord_status pg2 (pg2.firstRecord NULLRID).2 ⟨[], 0⟩ with hg | hg
              · exact absurd hg h5
              · exact Or.inl (Or.inr (Or.inr (Or.inr hg)))
            · cases h
              exact Or.inl (Or.inr (Or.inl rfl))
            · rcases ih _ _ _ _ _ h with h7 | h7
              · exact Or.inl (statusFrom_mono _ _ _ hsub h7)
              · exact Or.inr h7

theorem Temp.scanNext_status (w : World) (s : HeapFileScan) (outRid : RID) (fuel : Nat)
    (x : Status × RID × World × HeapFileScan) (h : Temp.scanNext w s outRid fuel = Res.ret x) :
    StatusFrom w x.1 ∨
      (x.1 = Status.FILEEOF ∧ x.2.1 = outRid ∧
        (x.2.2.2.curPageNo < 0 ∨ EofState x.2.2.1 x.2.2.2)) := by
  unfold Temp.scanNext at h
  split_ifs at h with h0
  · cases h
    exact Or.inr ⟨rfl, rfl, Or.inl h0⟩
  · split at h
    · simp only [] at h
      split_ifs at h with h1 h2
      · cases h
        refine Or.inr ⟨rfl, rfl, Or.inl ?_⟩
        show w.hdr.firstPage < 0
        rw [h1]
        decide
      · cases h
        exact Or.inl (readPage_status_from _ _ _)
      · split at h
        · cases h
        · rename_i pg hpg
          split_ifs at h with h3 h4 h5
          · cases h
            exact Or.inr ⟨rfl, rfl, Or.inl (show (-1 : Int) < 0 by decide)⟩
          · cases h
            rcases page_getRecord_status pg (pg.firstRecord NULLRID).2 ⟨[], 0⟩ with hg | hg
            · exact absurd hg h4
            · exact Or.inl (Or.inr (Or.inr (Or.inr hg)))
          · cases h
            exact Or.inl (Or.inr (Or.inl rfl))
          · rcases scanLoop_status_temp _ _ _ _ _ _ h with h7 | h7
            · exact Or.inl (statusFrom_mono _ _ _ (readPage_script_sub _ _ _) h7)
            · exact Or.inr ⟨h7.1, h7.2.1, Or.inr h7.2.2⟩
    · rcases scanLoop_status_temp _ _ _ _ _ _ h with h7 | h7
      · exact Or.inl h7
      · exact Or.inr ⟨h7.1, h7.2.1, Or.inr h7.2.2⟩

theorem scanLoop_eof_stage4 (w : World) (s : HeapFileScan) (outRid nr : RID) (fuel : Nat)
    (h : EofState w s) :
    Stage4.scanLoop w s outRid nr (fuel + 1) = Res.ret (Status.FILEEOF, outRid, w, s) := by
  obtain ⟨pg, hpg, hnp, hn⟩ := h
  unfold Stage4.scanLoop
  rw [hpg]
  have e : pg.getNextPage.2 = -1 := hnp
  simp only [hn nr, if_true]
  rw [if_pos (Or.inr e)]

theorem Temp.scanNext_eof (w : World) (s : HeapFileScan) (outRid : RID) (fuel : Nat)
    (h : s.curPageNo < 0 ∨ EofState w s) :
    Temp.scanNext w s outRid (fuel + 1) = Res.ret (Status.FILEEOF, outRid, w, s) := by
  unfold Temp.scanNext
  by_cases h0 : s.curPageNo < 0
  · rw [if_pos h0]
  · rw [if_neg h0]
    rcases h with h | ⟨pg, hpg, hnp, hn⟩
    · exact absurd h h0
    · cases hc : s.curPage with
      | none =>
        rw [hc] at hpg
        cases hpg
      | some p =>
        simp only []
        unfold Temp.scanLoop
        rw [hpg]
        simp only [hn NULLRID, if_neg (show ¬ Status.ENDOFPAGE = Status.OK by decide), true_or,
          if_true]
        have e : pg.getNextPage.2 = -1 := hnp
        rw [if_pos e, if_neg (fun hne => hne rfl)]

theorem statusFrom_ne (w : World) (st t : Status) (h : StatusFrom w st) (hs : t ∉ w.script)
    (h1 : t ≠ Status.OK) (h2 : t ≠ Status.BADPAGENO) (h3 : t ≠ Status.INVALIDSLOTNO) :
    st ≠ t := by
  intro e
  subst e
  rcases h with h | h | h | h
  · exact hs h
  · exact h1 h
  · exact h2 h
  · exact h3 h

/-- C15. In both variants, when the buffer pool never answers `FILEEOF`
itself, a `scanNext` that has returned `FILEEOF` is followed by a `scanNext`
that returns `FILEEOF` again, hands back its out-parameter untouched and
leaves the world (no call, so no page pinned) and the object as they
were. -/
theorem scanNext_eof_sticky (w : World) (s : HeapFileScan) (outRid : RID) (fuel : Nat)
    (x : Status × RID × World × HeapFileScan) (hs : Status.FILEEOF ∉ w.script) :
    (Stage4.scanNext w s outRid fuel = Res.ret x → x.1 = Status.FILEEOF →
      ∀ (outRid2 : RID) (fuel2 : Nat), 0 < fuel2 →
        Stage4.scanNext x.2.2.1 x.2.2.2 outRid2 fuel2 =
          Res.ret (Status.FILEEOF, outRid2, x.2.2.1, x.2.2.2)) ∧
    (Temp.scanNext w s outRid fuel = Res.ret x → x.1 = Status.FILEEOF →
      ∀ (outRid2 : RID) (fuel2 : Nat), 0 < fuel2 →
        Temp.scanNext x.2.2.1 x.2.2.2 outRid2 fuel2 =
          Res.ret (Status.FILEEOF, outRid2, x.2.2.1, x.2.2.2)) := by
  constructor
  · intro h hx outRid2 fuel2 hf
    obtain ⟨f, rfl⟩ := Nat.exists_eq_succ_of_ne_zero (Nat.pos_iff_ne_zero.mp hf)
    rcases scanLoop_status_stage4 _ _ _ _ _ _ h with h1 | h1
    · exact absurd hx (statusFrom_ne w _ _ h1 hs (by decide) (by decide) (by decide))
    · exact scanLoop_eof_stage4 _ _ _ _ _ h1.2.2
  · intro h hx outRid2 fuel2 hf
    obtain ⟨f, rfl⟩ := Nat.exists_eq_succ_of_ne_zero (Nat.pos_iff_ne_zero.mp hf)
    rcases Temp.scanNext_status _ _ _ _ _ h with h1 | h1
    · exact absurd hx (statusFrom_ne w _ _ h1 hs (by decide) (by decide) (by decide))
    · exact Temp.scanNext_eof _ _ _ _ h1.2.2

theorem scanNext_eof_sticky_witness :
    Status.FILEEOF ∉ twoPageWorld.script ∧
    Stage4.scanNext twoPageWorld scanOnPage2 ⟨7, 7⟩ 1 =
        Res.ret (Status.FILEEOF, ⟨7, 7⟩, twoPageWorld, scanOnPage2) ∧
    Temp.scanNext twoPageWorld scanOnPage2 ⟨7, 7⟩ 1 =
        Res.ret (Status.FILEEOF, ⟨7, 7⟩, twoPageWorld, scanOnPage2) ∧
    Stage4.scanNext twoPageWorld scanOnPage2 ⟨8, 8⟩ 3 =
        Res.ret (Status.FILEEOF, ⟨8, 8⟩, twoPageWorld, scanOnPage2) ∧
    Temp.scanNext twoPageWorld scanOnPage2 ⟨8, 8⟩ 3 =
        Res.ret (Status.FILEEOF, ⟨8, 8⟩, twoPageWorld, scanOnPage2) :=
  ⟨by decide, rfl, rfl,
    (scanNext_eof_sticky twoPageWorld scanOnPage2 ⟨7, 7⟩ 1
      (Status.FILEEOF, ⟨7, 7⟩, twoPageWorld, scanOnPage2) (by decide)).1 rfl rfl ⟨8, 8⟩ 3
      (by decide),
    (scanNext_eof_sticky twoPageWorld scanOnPage2 ⟨7, 7⟩ 1
      (Status.FILEEOF, ⟨7, 7⟩, twoPageWorld, scanOnPage2) (by decide)).2 rfl rfl ⟨8, 8⟩ 3
      (by decide)⟩

theorem linked_new_page_empty (W : World) (q p : Int) (old np : Page)
    (hold : (W.setPage q ((Page.init q).setNextPage (-1)).2).pages p = some old)
    (hnp : ((W.setPage q ((Page.init q).setNextPage (-1)).2).setPage p
      (old.setNextPage q).2).pages q = some np) : np.slots = [] := by
  simp only [World.setPage, Page.setNextPage, Page.init] at hold hnp
  by_cases hq : q = p
  · subst hq
    simp only [if_true, Option.some.injEq] at hold hnp
    rw [← hnp, ← hold]
  · simp only [if_neg hq, if_true, Option.some.injEq] at hnp
    rw [← hnp]

theorem page_insertRecord_status (cap : Nat) (pg : Page) (rec : Record) (rid : RID) :
    (pg.insertRecord cap rec rid).1 = Status.OK ∨
      (pg.insertRecord cap rec rid).1 = Status.NOSPACE := by
  unfold Page.insertRecord
  split_ifs
  · exact Or.inr rfl
  · exact Or.inl rfl

theorem page_insertRecord_fresh (cap : Nat) (pg : Page) (rec : Record) (rid : RID)
    (he : pg.slots = []) (hfit : rec.length ≤ (cap : Int)) :
    (pg.insertRecord cap rec rid).1 = Status.OK := by
  unfold Page.insertRecord Page.used
  rw [he]
  simp only [List.map_nil, List.sum_nil, zero_add]
  rw [if_neg (by omega)]

theorem allocPage_status_from (w : World) (n : Int) (p : Option Int) :
    (allocPage w n p).1 = Status.OK ∨ (allocPage w n p).1 ∈ w.script := by
  unfold allocPage
  split_ifs with h1
  · exact Or.inl rfl
  · rcases nextStatus_from w with h | h
    · exact Or.inr h
    · exact absurd h h1

theorem allocPage_script_sub (w : World) (n : Int) (p : Option Int) (st : Status)
    (h : st ∈ (allocPage w n p).2.2.2.script) : st ∈ w.script := by
  unfold allocPage at h
  split_ifs at h
  · exact List.mem_of_mem_tail h
  · exact List.mem_of_mem_tail h

theorem insertOnCur_status_temp (k : PageConst) (w : World) (s : HeapFile) (rec : Record)
    (outRid : RID) (x : Status × RID × World × HeapFile)
    (hfit : rec.length ≤ ((k.PAGESIZE - k.DPFIXED : Nat) : Int))
    (h : Temp.insertOnCur k w s rec outRid = Res.ret x) :
    x.1 = Status.OK ∨ x.1 ∈ w.script := by
  unfold Temp.insertOnCur at h
  cases hp : s.curPage with
  | none => rw [hp] at h; cases h
  | some p =>
    rw [hp] at h
    simp only [] at h
    cases hpg : w.pages p with
    | none => rw [hpg] at h; cases h
    | some pg =>
      rw [hpg] at h
      simp only [] at h
      rcases page_insertRecord_status (k.PAGESIZE - k.DPFIXED) pg rec outRid with hi1 | hi2
      · rw [if_pos hi1] at h
        cases h
        exact Or.inl rfl
      · have hi1 : ¬ (pg.insertRecord (k.PAGESIZE - k.DPFIXED) rec outRid).1 = Status.OK := by
          rw [hi2]
          decide
        rw [if_neg hi1, if_pos hi2] at h
        have hsc : (w.setPage p (pg.insertRecord (k.PAGESIZE - k.DPFIXED) rec outRid).2.2).script
            = w.script := rfl
        generalize hw1 : w.setPage p (pg.insertRecord (k.PAGESIZE - k.DPFIXED) rec outRid).2.2
          = w1 at h hsc
        generalize hrid : (pg.insertRecord (k.PAGESIZE - k.DPFIXED) rec outRid).2.1 = rid1 at h
        by_cases ha : (allocPage w1 0 none).1 = Status.OK
        · rw [if_neg (not_not.mpr ha)] at h
          have hptr := allocPage_ok _ _ _ ha
          have hsub := allocPage_script_sub w1 0 none
          generalize allocPage w1 0 none = a at h ha hptr hsub
          obtain ⟨ast, q, aptr, wa⟩ := a
          simp only at h ha hptr hsub
          subst hptr
          rw [if_neg (by simp [Page.setNextPage])] at h
          split at h
          · cases h
          · rename_i old hold
            rw [if_neg (by simp [Page.setNextPage])] at h
            split_ifs at h with hu
            · cases h
              right
              rw [← hsc]
              apply hsub
              rcases nextStatus_from
                (((wa.setPage q ((Page.init q).setNextPage (-1)).2).setPage p
                  (old.setNextPage q).2).newLastPage q) with hn | hn
              · exact hn
              · exact absurd hn hu
            · split at h
              · cases h
              · rename_i np hnp
                have hq := linked_new_page_empty wa q p old np hold hnp
                have hj := page_insertRecord_fresh (k.PAGESIZE - k.DPFIXED) np rec rid1 hq hfit
                rw [if_pos hj] at h
                cases h
                exact Or.inl rfl
        · rw [if_pos ha] at h
          cases h
          rcases allocPage_status_from w1 0 none with h1 | h1
          · exact absurd h1 ha
          · right
            rw [← hsc]
            exact h1

theorem insertOnCur_status_stage4 (k : PageConst) (w : World) (s : HeapFile) (rec : Record)
    (outRid : RID) (x : Status × RID × World × HeapFile)
    (hfit : rec.length ≤ ((k.PAGESIZE - k.DPFIXED : Nat) : Int))
    (h : Stage4.insertOnCur k w s rec outRid = Res.ret x) :
    x.1 = Status.OK ∨ x.1 ∈ w.script := by
  unfold Stage4.insertOnCur at h
  cases hp : s.curPage with
  | none => rw [hp] at h; cases h
  | some p =>
    rw [hp] at h
    simp only [] at h
    cases hpg : w.pages p with
    | none => rw [hpg] at h; cases h
    | some pg =>
      rw [hpg] at h
      simp only [] at h
      rcases page_insertRecord_status (k.PAGESIZE - k.DPFIXED) pg rec outRid with hi1 | hi2
      · have hi2 : ¬ (pg.insertRecord (k.PAGESIZE - k.DPFIXED) rec outRid).1 = Status.NOSPACE := by
          rw [hi1]
          decide
        rw [if_neg hi2, if_pos hi1] at h
        cases h
        exact Or.inl hi1
      · rw [if_pos hi2] at h
        have hsc : (w.setPage p (pg.insertRecord (k.PAGESIZE - k.DPFIXED) rec outRid).2.2).script
            = w.script := rfl
        generalize hw1 : w.setPage p (pg.insertRecord (k.PAGESIZE - k.DPFIXED) rec outRid).2.2
          = w1 at h hsc
        generalize hrid : (pg.insertRecord (k.PAGESIZE - k.DPFIXED) rec outRid).2.1 = rid1 at h
        by_cases ha : (allocPage w1 0 none).1 = Status.OK
        · rw [if_neg (not_not.mpr ha)] at h
          have hptr := allocPage_ok _ _ _ ha
          generalize allocPage w1 0 none = a at h ha hptr
          obtain ⟨ast, q, aptr, wa⟩ := a
          simp only at h ha hptr
          subst hptr
          split at h
          · cases h
          · rename_i old hold
            split at h
            · cases h
            · rename_i np hnp
              have hq := linked_new_page_empty wa q p old np hold hnp
              have hj := page_insertRecord_fresh (k.PAGESIZE - k.DPFIXED) np rec rid1 hq hfit
              rw [if_pos hj] at h
              cases h
              exact Or.inl hj
        · rw [if_pos ha] at h
          cases h
          rcases allocPage_status_from w1 0 none with h1 | h1
          · exact absurd h1 ha
          · right
            rw [← hsc]
            exact h1

theorem fits_of_guard (k : PageConst) (rec : Record) (hint : rec.length < 2147483648)
    (hg : ¬ toUnsigned rec.length > k.PAGESIZE - k.DPFIXED) :
    rec.length ≤ ((k.PAGESIZE - k.DPFIXED : Nat) : Int) := by
  by_cases h0 : 0 ≤ rec.length
  · have e := toUnsigned_of_nonneg rec.length h0 (by omega)
    omega
  · omega

theorem insertRecord_status_stage4 (k : PageConst) (w : World) (s : HeapFile) (rec : Record)
    (outRid : RID) (x : Status × RID × World × HeapFile) (hint : rec.length < 2147483648)
    (h : Stage4.insertRecord k w s rec outRid = Res.ret x) :
    x.1 = Status.OK ∨ x.1 = Status.INVALIDRECLEN ∨ StatusFrom w x.1 := by
  unfold Stage4.insertRecord at h
  split_ifs at h with hl
  · cases h
    exact Or.inr (Or.inl rfl)
  · have hfit := fits_of_guard k rec hint hl
    split at h
    · simp only [] at h
      split_ifs at h with hr
      · cases h
        exact Or.inr (Or.inr (readPage_status_from _ _ _))
      · rcases insertOnCur_status_stage4 k _ _ rec outRid x hfit h with h1 | h1
        · exact Or.inl h1
        · exact Or.inr (Or.inr (Or.inl (readPage_script_sub _ _ _ _ h1)))
    · rcases insertOnCur_status_stage4 k _ _ rec outRid x hfit h with h1 | h1
      · exact Or.inl h1
      · exact Or.inr (Or.inr (Or.inl h1))

theorem insertRecord_status_temp (k : PageConst) (w : World) (s : HeapFile) (rec : Record)
    (outRid : RID) (x : Status × RID × World × HeapFile) (hint : rec.length < 2147483648)
    (h : Temp.insertRecord k w s rec outRid = Res.ret x) :
    x.1 = Status.OK ∨ x.1 = Status.INVALIDRECLEN ∨ StatusFrom w x.1 := by
  unfold Temp.insertRecord at h
  split_ifs at h with hl
  · cases h
    exact Or.inr (Or.inl rfl)
  · have hfit := fits_of_guard k rec hint hl
    split at h
    · simp only [] at h
      split_ifs at h with hr
      · cases h
        exact Or.inr (Or.inr (readPage_status_from _ _ _))
      · rcases insertOnCur_status_temp k _ _ rec outRid x hfit h with h1 | h1
        · exact Or.inl h1
        · exact Or.inr (Or.inr (Or.inl (readPage_script_sub _ _ _ _ h1)))
    · rcases insertOnCur_status_temp k _ _ rec outRid x hfit h with h1 | h1
      · exact Or.inl h1
      · exact Or.inr (Or.inr (Or.inl h1))

theorem setPage_isSome (w : World) (q p : Int) (pg : Page) (h : (w.pages p).isSome) :
    ((w.setPage q pg).pages p).isSome := by
  simp only [World.setPage]
  split_ifs
  · rfl
  · exact h

theorem allocPage_isSome (w : World) (a : Int) (b : Option Int) (p : Int)
    (h : (w.pages p).isSome) : ((allocPage w a b).2.2.2.pages p).isSome := by
  unfold allocPage
  split_ifs
  · exact setPage_isSome _ _ _ _ h
  · exact h

theorem linked_pages_defined (W : World) (q p : Int) (old : Page) (c : Int) (d : Bool) :
    ((unPinPage (((W.setPage q ((Page.init q).setNextPage (-1)).2).setPage p
      (old.setNextPage q).2).newLastPage q) c d).2.deref (some q)).isSome := by
  show ((((W.setPage q ((Page.init q).setNextPage (-1)).2).setPage p
      (old.setNextPage q).2)).pages q).isSome
  apply setPage_isSome
  rw [World.setPage_same]
  rfl

theorem insertOnCur_returns_temp (k : PageConst) (w : World) (s : HeapFile) (rec : Record)
    (outRid : RID) (p : Int) (hp : s.curPage = some p) (hpg : (w.pages p).isSome) :
    ∃ x, Temp.insertOnCur k w s rec outRid = Res.ret x := by
  have key : ∀ r, Temp.insertOnCur k w s rec outRid = r → ∃ x, r = Res.ret x := by
    intro r h
    unfold Temp.insertOnCur at h
    rw [hp] at h
    simp only [] at h
    cases hpg2 : w.pages p with
    | none =>
      rw [hpg2] at hpg
      cases hpg
    | some pg =>
      rw [hpg2] at h
      simp only [] at h
      have hw1 : ((w.setPage p (pg.insertRecord (k.PAGESIZE - k.DPFIXED) rec outRid).2.2).pages
          p).isSome := by
        rw [World.setPage_same]
        rfl
      generalize w.setPage p (pg.insertRecord (k.PAGESIZE - k.DPFIXED) rec outRid).2.2
        = w1 at h hw1
      have hwa := allocPage_isSome w1 0 none p hw1
      split_ifs at h with h1 h2 h3 h4
      · exact ⟨_, h.symm⟩
      · exact ⟨_, h.symm⟩
      · exact ⟨_, h.symm⟩
      · have hptr := allocPage_ok _ _ _ (not_not.mp h3)
        generalize allocPage w1 0 none = a at h hptr hwa h3
        obtain ⟨ast, q, aptr, wa⟩ := a
        simp only at h hptr hwa
        subst hptr
        split at h
        · rename_i hnone
          have := setPage_isSome wa q p ((Page.init q).setNextPage (-1)).2 hwa
          rw [hnone] at this
          cases this
        · rename_i old hold
          split_ifs at h with h5 h6
          · exact ⟨_, h.symm⟩
          · exact ⟨_, h.symm⟩
          · split at h
            · rename_i hnone
              have := linked_pages_defined wa q p old s.curPageNo s.curDirtyFlag
              rw [hnone] at this
              cases this
            · split_ifs at h
              · exact ⟨_, h.symm⟩
              · exact ⟨_, h.symm⟩
      · exact ⟨_, h.symm⟩
  exact key _ rfl

theorem insertOnCur_returns_stage4 (k : PageConst) (w : World) (s : HeapFile) (rec : Record)
    (outRid : RID) (p : Int) (hp : s.curPage = some p) (hpg : (w.pages p).isSome) :
    ∃ x, Stage4.insertOnCur k w s rec outRid = Res.ret x := by
  have key : ∀ r, Stage4.insertOnCur k w s rec outRid = r → ∃ x, r = Res.ret x := by
    intro r h
    unfold Stage4.insertOnCur at h
    rw [hp] at h
    simp only [] at h
    cases hpg2 : w.pages p with
    | none =>
      rw [hpg2] at hpg
      cases hpg
    | some pg =>
      rw [hpg2] at h
      simp only [] at h
      have hw1 : ((w.setPage p (pg.insertRecord (k.PAGESIZE - k.DPFIXED) rec outRid).2.2).pages
          p).isSome := by
        rw [World.setPage_same]
        rfl
      generalize w.setPage p (pg.insertRecord (k.PAGESIZE - k.DPFIXED) rec outRid).2.2
        = w1 at h hw1
      have hwa := allocPage_isSome w1 0 none p hw1
      split_ifs at h with h1 h2 h3
      · exact ⟨_, h.symm⟩
      · have hptr := allocPage_ok _ _ _ (not_not.mp h2)
        generalize allocPage w1 0 none = a at h hptr hwa h2
        obtain ⟨ast, q, aptr, wa⟩ := a
        simp only at h hptr hwa
        subst hptr
        split at h
        · rename_i hnone
          have := setPage_isSome wa q p ((Page.init q).setNextPage (-1)).2 hwa
          rw [hnone] at this
          cases this
        · rename_i old hold
          split at h
          · rename_i hnone
            have := linked_pages_defined wa q p old s.curPageNo s.curDirtyFlag
            rw [hnone] at this
            cases this
          · split_ifs at h
            · exact ⟨_, h.symm⟩
            · exact ⟨_, h.symm⟩
      · exact ⟨_, h.symm⟩
      · exact ⟨_, h.symm⟩
  exact key _ rfl

/-- C17. Both variants, for a buffer pool that does not answer with the
page statuses `ENDOFPAGE`, `NORECORDS`, `NOSPACE`: `scanNext` never returns
`ENDOFPAGE` or `NORECORDS`; `insertRecord` never returns `NOSPACE`; and a
record of length at most `PAGESIZE - DPFIXED`, inserted with no failure
injected and a readable page to insert into, makes `insertRecord` return
`OK`. -/
theorem internal_statuses_never_leak (k : PageConst) (w : World)
    (hs : Status.ENDOFPAGE ∉ w.script ∧ Status.NORECORDS ∉ w.script ∧
      Status.NOSPACE ∉ w.script) :
    (∀ (s : HeapFileScan) (outRid : RID) (fuel : Nat) (x : Status × RID × World × HeapFileScan),
      (Stage4.scanNext w s outRid fuel = Res.ret x ∨ Temp.scanNext w s outRid fuel = Res.ret x) →
        x.1 ≠ Status.ENDOFPAGE ∧ x.1 ≠ Status.NORECORDS) ∧
    (∀ (s : HeapFile) (rec : Record) (outRid : RID) (x : Status × RID × World × HeapFile),
      rec.length < 2147483648 →
      (Stage4.insertRecord k w s rec outRid = Res.ret x ∨
        Temp.insertRecord k w s rec outRid = Res.ret x) →
        x.1 ≠ Status.NOSPACE) ∧
    (∀ (s : HeapFile) (rec : Record) (outRid : RID),
      w.script = [] → 0 ≤ rec.length →
      rec.length ≤ ((k.PAGESIZE - k.DPFIXED : Nat) : Int) →
      (∀ p, s.curPage = some p → (w.pages p).isSome) →
      (s.curPage = none → (w.pages w.hdr.lastPage).isSome) →
      (∃ x, Stage4.insertRecord k w s rec outRid = Res.ret x ∧ x.1 = Status.OK) ∧
      (∃ x, Temp.insertRecord k w s rec outRid = Res.ret x ∧ x.1 = Status.OK)) := by
  obtain ⟨hs1, hs2, hs3⟩ := hs
  refine ⟨?_, ?_, ?_⟩
  · intro s outRid fuel x h
    have hst : StatusFrom w x.1 ∨ x.1 = Status.FILEEOF := by
      rcases h with h | h
      · rcases scanLoop_status_stage4 _ _ _ _ _ _ h with h1 | h1
        · exact Or.inl h1
        · exact Or.inr h1.1
      · rcases Temp.scanNext_status _ _ _ _ _ h with h1 | h1
        · exact Or.inl h1
        · exact Or.inr h1.1
    rcases hst with h1 | h1
    · exact ⟨statusFrom_ne w _ _ h1 hs1 (by decide) (by decide) (by decide),
        statusFrom_ne w _ _ h1 hs2 (by decide) (by decide) (by decide)⟩
    · rw [h1]
      exact ⟨by decide, by decide⟩
  · intro s rec outRid x hint h
    have hst : x.1 = Status.OK ∨ x.1 = Status.INVALIDRECLEN ∨ StatusFrom w x.1 := by
      rcases h with h | h
      · exact insertRecord_status_stage4 k w s rec outRid x hint h
      · exact insertRecord_status_temp k w s rec outRid x hint h
    rcases hst with h1 | h1 | h1
    · rw [h1]
      decide
    · rw [h1]
      decide
    · exact statusFrom_ne w _ _ h1 hs3 (by decide) (by decide) (by decide)
  · intro s rec outRid hnil h0 hfit hcur hlast
    have hg : ¬ toUnsigned rec.length > k.PAGESIZE - k.DPFIXED := by
      unfold toUnsigned
      omega
    have hok : ∀ (y : Status × RID × World × HeapFile) (w2 : World), w2.script = [] →
        (y.1 = Status.OK ∨ y.1 ∈ w2.script) → y.1 = Status.OK := by
      intro y w2 e hy
      rcases hy with hy | hy
      · exact hy
      · rw [e] at hy
        cases hy
    constructor
    · unfold Stage4.insertRecord
      rw [if_neg hg]
      cases hc : s.curPage with
      | none =>
        obtain ⟨pg, hpg⟩ := Option.isSome_iff_exists.mp (hlast hc)
        obtain ⟨hr1, hr2⟩ := readPage_script_ok w w.hdr.lastPage none pg hnil hpg
        simp only []
        rw [if_neg (not_not.mpr hr1)]
        have hpg2 : ((readPage w w.hdr.lastPage none).2.2.pages w.hdr.lastPage).isSome := by
          rw [readPage_pages, hpg]
          rfl
        obtain ⟨x, hx⟩ := insertOnCur_returns_stage4 k (readPage w w.hdr.lastPage none).2.2
          { s with curPage := (readPage w w.hdr.lastPage none).2.1,
                   curPageNo := (readPage w w.hdr.lastPage none).2.2.hdr.lastPage,
                   curDirtyFlag := false } rec outRid w.hdr.lastPage hr2 hpg2
        exact ⟨x, hx, hok x _ (readPage_script_nil _ _ _ hnil)
          (insertOnCur_status_stage4 k _ _ rec outRid x hfit hx)⟩
      | some p =>
        simp only []
        obtain ⟨x, hx⟩ := insertOnCur_returns_stage4 k w s rec outRid p hc (hcur p hc)
        exact ⟨x, hx, hok x w hnil (insertOnCur_status_stage4 k _ _ rec outRid x hfit hx)⟩
    · unfold Temp.insertRecord
      rw [if_neg hg]
      cases hc : s.curPage with
      | none =>
        obtain ⟨pg, hpg⟩ := Option.isSome_iff_exists.mp (hlast hc)
        obtain ⟨hr1, hr2⟩ := readPage_script_ok w w.hdr.lastPage none pg hnil hpg
        simp only []
        rw [if_neg (not_not.mpr hr1)]
        have hpg2 : ((readPage w w.hdr.lastPage none).2.2.pages w.hdr.lastPage).isSome := by
          rw [readPage_pages, hpg]
          rfl
        obtain ⟨x, hx⟩ := insertOnCur_returns_temp k (readPage w w.hdr.lastPage none).2.2
          { s with curPageNo := w.hdr.lastPage,
                   curPage := (readPage w w.hdr.lastPage none).2.1,
                   curDirtyFlag := false } rec outRid w.hdr.lastPage hr2 hpg2
        exact ⟨x, hx, hok x _ (readPage_script_nil _ _ _ hnil)
          (insertOnCur_status_temp k _ _ rec outRid x hfit hx)⟩
      | some p =>
        simp only []
        obtain ⟨x, hx⟩ := insertOnCur_returns_temp k w s rec outRid p hc (hcur p hc)
        exact ⟨x, hx, hok x w hnil (insertOnCur_status_temp k _ _ rec outRid x hfit hx)⟩

theorem internal_statuses_never_leak_witness :
    (Status.ENDOFPAGE ∉ twoPageWorld.script ∧ Status.NORECORDS ∉ twoPageWorld.script ∧
      Status.NOSPACE ∉ twoPageWorld.script) ∧
    (Temp.scanNext twoPageWorld scanOnPage2 NULLRID 2 =
        Res.ret (Status.FILEEOF, NULLRID, twoPageWorld, scanOnPage2) ∧
      Status.FILEEOF ≠ Status.ENDOFPAGE ∧ Status.FILEEOF ≠ Status.NORECORDS) ∧
    ((Page.insertRecord 80 ⟨2, -1, [some (recOf 10 9)]⟩ (recOf 80 1) NULLRID).1 = Status.NOSPACE ∧
      (∃ x, Stage4.insertRecord kSmall twoPageWorld insertOnPage2 (recOf 80 1) NULLRID
        = Res.ret x ∧ x.1 = Status.OK) ∧
      (∃ x, Temp.insertRecord kSmall twoPageWorld insertOnPage2 (recOf 80 1) NULLRID
        = Res.ret x ∧ x.1 = Status.OK)) :=
  ⟨⟨by decide, by decide, by decide⟩,
    ⟨rfl,
      (internal_statuses_never_leak kSmall twoPageWorld ⟨by decide, by decide, by decide⟩).1
        scanOnPage2 NULLRID 2 (Status.FILEEOF, NULLRID, twoPageWorld, scanOnPage2) (Or.inr rfl)⟩,
    ⟨by decide,
      (internal_statuses_never_leak kSmall twoPageWorld ⟨by decide, by decide, by decide⟩).2.2
        insertOnPage2 (recOf 80 1) NULLRID rfl (by decide) (by decide)
        (by intro p hp; cases hp; rfl) (by intro h; cases h)⟩⟩

/-! ## Projection in `ScanSelect` -/

theorem window_length (mem : List Nat) : ∀ (n : Nat) (i : Int), (window mem i n).length = n := by
  intro n
  induction n with
  | zero => intro i; rfl
  | succ n ih => intro i; simp [window, ih]

theorem memcpy_length (src : List Nat) : ∀ (n : Nat) (dst : List Nat) (d s : Int),
    (memcpy dst d src s n).length = dst.length := by
  intro n
  induction n with
  | zero => intro dst d s; rfl
  | succ n ih =>
    intro dst d s
    unfold memcpy
    rw [ih]
    split_ifs
    · rfl
    · exact List.length_set _ _ _

theorem memcpy_window (src : List Nat) : ∀ (n : Nat) (dst : List Nat) (d : Nat) (s : Int),
    d + n ≤ dst.length →
    memcpy dst (d : Int) src s n = dst.take d ++ window src s n ++ dst.drop (d + n) := by
  intro n
  induction n with
  | zero =>
    intro dst d s _
    simp [memcpy, window]
  | succ n ih =>
    intro dst d s h
    unfold memcpy
    rw [if_neg (by omega)]
    have hd : d < dst.length := by omega
    have e := ih (dst.set d (byteAt src s)) (d + 1) (s + 1) (by rw [List.length_set]; omega)
    have e2 : ((d : Int) + 1) = ((d + 1 : Nat) : Int) := by push_cast; rfl
    rw [Int.toNat_ofNat, e2, e]
    rw [List.set_eq_take_append_cons_drop, if_pos hd]
    have l1 : (List.take d dst).length = d := by
      rw [List.length_take]
      omega
    have t1 : List.take (d + 1) (List.take d dst ++ byteAt src s :: List.drop (d + 1) dst)
        = List.take d dst ++ [byteAt src s] := by
      rw [List.take_append_eq_append_take, l1]
      simp
    have t2 : List.drop (d + 1 + n) (List.take d dst ++ byteAt src s :: List.drop (d + 1) dst)
        = List.drop (d + (n + 1)) dst := by
      rw [List.drop_append_eq_append_drop, l1]
      have z : List.drop (d + 1 + n) (List.take d dst) = [] := by
        apply List.drop_eq_nil_of_le
        rw [l1]
        omega
      rw [z]
      have y : d + 1 + n - d = n + 1 := by omega
      rw [y]
      simp only [List.nil_append, List.drop_succ_cons, List.drop_drop]
      congr 1
      omega
    rw [t1, t2]
    simp [window]

theorem reclen_sum : ∀ (proj : List AttrDesc) (r : Int),
    Stage6.QU_Select.reclen proj r = r + (proj.map (fun d => d.attrLen)).sum := by
  intro proj
  induction proj with
  | nil => intro r; simp [Stage6.QU_Select.reclen]
  | cons d ds ih =>
    intro r
    simp only [Stage6.QU_Select.reclen, ih, List.map_cons, List.sum_cons]
    ring

theorem projected_length (rec : Record) (proj : List AttrDesc)
    (h : ∀ d ∈ proj, 0 ≤ d.attrLen) :
    ((projected rec proj).length : Int) = (proj.map (fun d => d.attrLen)).sum := by
  induction proj with
  | nil => rfl
  | cons d ds ih =>
    have h1 := h d (List.mem_cons_self d ds)
    have h2 := ih (fun e he => h e (List.mem_cons_of_mem d he))
    unfold projected at h2 ⊢
    simp only [List.map_cons, List.flatten_cons, List.length_append, window_length,
      List.sum_cons, Nat.cast_add]
    rw [h2, Int.toNat_of_nonneg h1]

theorem project_spec (rec : Record) : ∀ (proj : List AttrDesc) (buf : List Nat) (off : Nat),
    (∀ d ∈ proj, 0 ≤ d.attrLen ∧ d.attrLen < 2147483648) →
    off + (projected rec proj).length ≤ buf.length →
    Stage6.ScanSelect.project rec proj buf (off : Int) =
      buf.take off ++ projected rec proj ++ buf.drop (off + (projected rec proj).length) := by
  intro proj
  induction proj with
  | nil =>
    intro buf off _ _
    simp [Stage6.ScanSelect.project, projected]
  | cons d ds ih =>
    intro buf off h hlen
    obtain ⟨h1, h2⟩ := h d (List.mem_cons_self d ds)
    have hsz : toSizeT d.attrLen = d.attrLen.toNat := by
      unfold toSizeT
      rw [Int.emod_eq_of_lt h1 (by omega)]
    have hp : projected rec (d :: ds) =
        window rec.data d.attrOffset d.attrLen.toNat ++ projected rec ds := rfl
    rw [hp, List.length_append, window_length] at hlen
    unfold Stage6.ScanSelect.project
    rw [hsz, memcpy_window rec.data d.attrLen.toNat buf off d.attrOffset (by omega)]
    have e2 : ((off : Int) + d.attrLen) = ((off + d.attrLen.toNat : Nat) : Int) := by
      push_cast
      rw [Int.toNat_of_nonneg h1]
    rw [e2, ih _ (off + d.attrLen.toNat) (fun e he => h e (List.mem_cons_of_mem d he))
      (by simp only [List.length_append, List.length_take, List.length_drop, window_length]
          omega)]
    rw [hp]
    have l1 : (List.take off buf ++ window rec.data d.attrOffset d.attrLen.toNat).length
        = off + d.attrLen.toNat := by
      simp only [List.length_append, List.length_take, window_length]
      omega
    have t1 : List.take (off + d.attrLen.toNat)
        (List.take off buf ++ window rec.data d.attrOffset d.attrLen.toNat ++
          List.drop (off + d.attrLen.toNat) buf)
        = List.take off buf ++ window rec.data d.attrOffset d.attrLen.toNat :=
      List.take_left' l1
    have t2 : List.drop (off + d.attrLen.toNat + (projected rec ds).length)
        (List.take off buf ++ window rec.data d.attrOffset d.attrLen.toNat ++
          List.drop (off + d.attrLen.toNat) buf)
        = List.drop (off + (window rec.data d.attrOffset d.attrLen.toNat ++
            projected rec ds).length) buf := by
      rw [List.drop_append_eq_append_drop, l1]
      have z : List.drop (off + d.attrLen.toNat + (projected rec ds).length)
          (List.take off buf ++ window rec.data d.attrOffset d.attrLen.toNat) = [] := by
        apply List.drop_eq_nil_of_le
        rw [l1]
        omega
      rw [z]
      simp only [List.nil_append, List.drop_drop, List.length_append, window_length]
      congr 1
      omega
    rw [t1, t2]
    simp

theorem window_append (mem : List Nat) : ∀ (a b : Nat) (i : Int),
    window mem i (a + b) = window mem i a ++ window mem (i + a) b := by
  intro a
  induction a with
  | zero => intro b i; simp [window]
  | succ a ih =>
    intro b i
    have e : a + 1 + b = (a + b) + 1 := by omega
    rw [e]
    simp only [window, ih, List.cons_append]
    congr 3
    push_cast
    ring

theorem projected_contiguous (rec : Record) : ∀ (proj : List AttrDesc) (off : Int),
    (∀ d ∈ proj, 0 ≤ d.attrLen) → Contiguous proj off →
    projected rec proj = window rec.data off (projected rec proj).length := by
  intro proj
  induction proj with
  | nil => intro off _ _; rfl
  | cons d ds ih =>
    intro off h hc
    have h1 := h d (List.mem_cons_self d ds)
    have hp : projected rec (d :: ds) =
        window rec.data d.attrOffset d.attrLen.toNat ++ projected rec ds := rfl
    obtain ⟨hc1, hc2⟩ := hc
    subst hc1
    rw [hp, List.length_append, window_length, window_append, Int.toNat_of_nonneg h1]
    rw [← ih _ (fun e he => h e (List.mem_cons_of_mem d he)) hc2]

theorem window_all (mem : List Nat) (hb : ∀ b ∈ mem, b < 256) :
    window mem 0 mem.length = mem := by
  have key : ∀ (n : Nat) (l : List Nat) (i : Nat), (∀ b ∈ l, b < 256) → l.length = n →
      (∀ j, j < n → mem.getD (i + j) 0 = l.getD j 0) → window mem (i : Int) n = l := by
    intro n
    induction n with
    | zero =>
      intro l i _ hl _
      rw [List.length_eq_zero.mp hl]
      rfl
    | succ n ih =>
      intro l i hlb hl hget
      cases l with
      | nil => cases hl
      | cons a t =>
        have e2 : ((i : Int) + 1) = ((i + 1 : Nat) : Int) := by push_cast; rfl
        simp only [window]
        rw [e2, ih t (i + 1) (fun b hb2 => hlb b (List.mem_cons_of_mem a hb2))
          (by simpa using hl)
          (fun j hj => by
            have := hget (j + 1) (by omega)
            simp only [List.getD_cons_succ] at this
            rw [← this]
            congr 1
            omega)]
        have h0 := hget 0 (by omega)
        simp only [add_zero, List.getD_cons_zero] at h0
        unfold byteAt
        rw [if_neg (by omega), Int.toNat_ofNat, h0,
          Nat.mod_eq_of_lt (hlb a (List.mem_cons_self a t))]
  have := key mem.length mem 0 hb rfl (fun j _ => by rw [zero_add])
  simpa using this

/-- C18. The record `ScanSelect` hands to `insertRecord` for a source
record `rec` and a projection list whose windows lie within `rec`: its
length is the sum of the projected `attrLen`, its bytes are the windows of
`rec` one after the other in projection order, whatever the buffer held
before; and for a projection list that is contiguous from offset 0 the
bytes are the first bytes of `rec`, all of `rec` when the lengths add up to
its length. -/
theorem scanSelect_projection (rec : Record) (projNames : List AttrDesc) (outRec : List Nat)
    (hwin : ∀ d ∈ projNames,
      0 ≤ d.attrOffset ∧ 0 ≤ d.attrLen ∧ d.attrOffset + d.attrLen ≤ rec.length)
    (hrec : rec.length < 2147483648)
    (hbuf : (outRec.length : Int) = Stage6.QU_Select.reclen projNames 0) :
    (Stage6.ScanSelect.newRec projNames rec outRec (Stage6.QU_Select.reclen projNames 0)).length
        = (projNames.map (fun d => d.attrLen)).sum ∧
    (Stage6.ScanSelect.newRec projNames rec outRec (Stage6.QU_Select.reclen projNames 0)).data
        = projected rec projNames ∧
    ((projected rec projNames).length : Int) = (projNames.map (fun d => d.attrLen)).sum ∧
    (Contiguous projNames 0 →
      projected rec projNames = window rec.data 0 (projected rec projNames).length) ∧
    (Contiguous projNames 0 → (∀ b ∈ rec.data, b < 256) →
      (projNames.map (fun d => d.attrLen)).sum = (rec.data.length : Int) →
      (Stage6.ScanSelect.newRec projNames rec outRec (Stage6.QU_Select.reclen projNames 0)).data
        = rec.data) := by
  have hnn : ∀ d ∈ projNames, 0 ≤ d.attrLen := fun d hd => (hwin d hd).2.1
  have hlen := projected_length rec projNames hnn
  have hsum := reclen_sum projNames 0
  rw [zero_add] at hsum
  have hdata : (Stage6.ScanSelect.newRec projNames rec outRec
      (Stage6.QU_Select.reclen projNames 0)).data = projected rec projNames := by
    have hl : outRec.length = (projected rec projNames).length := by
      have : (outRec.length : Int) = ((projected rec projNames).length : Int) := by
        rw [hbuf, hsum, hlen]
      exact_mod_cast this
    have e := project_spec rec projNames outRec 0
      (fun d hd => ⟨(hwin d hd).2.1, by have := hwin d hd; omega⟩) (by omega)
    show Stage6.ScanSelect.project rec projNames outRec 0 = _
    have e0 : ((0 : Nat) : Int) = 0 := rfl
    rw [e0] at e
    rw [e, zero_add, ← hl]
    simp
  refine ⟨hsum, hdata, hlen, projected_contiguous rec projNames 0 hnn, ?_⟩
  intro hc hb hall
  rw [hdata, projected_contiguous rec projNames 0 hnn hc]
  have hl : (projected rec projNames).length = rec.data.length := by
    have : ((projected rec projNames).length : Int) = (rec.data.length : Int) := by
      rw [hlen, hall]
    exact_mod_cast this
  rw [hl]
  exact window_all rec.data hb

theorem scanSelect_projection_witness :
    Stage6.ScanSelect.newRec [⟨[114], [99], 7, Datatype.INTEGER, 4⟩,
        ⟨[114], [97], 0, Datatype.INTEGER, 4⟩] ⟨[1, 0, 0, 0, 120, 121, 0, 2, 0, 0, 0], 11⟩
        [9, 9, 9, 9, 9, 9, 9, 9] 8 = ⟨[2, 0, 0, 0, 1, 0, 0, 0], 8⟩ ∧
    Stage6.QU_Select.reclen [⟨[114], [99], 7, Datatype.INTEGER, 4⟩,
        ⟨[114], [97], 0, Datatype.INTEGER, 4⟩] 0 = 8 ∧
    (Stage6.ScanSelect.newRec abcSchema ⟨[1, 0, 0, 0, 120, 121, 0, 2, 0, 0, 0], 11⟩
        [9, 9, 9, 9, 9, 9, 9, 9, 9, 9, 9] (Stage6.QU_Select.reclen abcSchema 0)).data
      = [1, 0, 0, 0, 120, 121, 0, 2, 0, 0, 0] :=
  ⟨by decide, by decide,
    (scanSelect_projection ⟨[1, 0, 0, 0, 120, 121, 0, 2, 0, 0, 0], 11⟩ abcSchema
      [9, 9, 9, 9, 9, 9, 9, 9, 9, 9, 9] (by decide) (by decide) (by decide)).2.2.2.2
      ⟨rfl, rfl, rfl, trivial⟩ (by decide) (by decide)⟩

/-! ## Argument checking in `QU_Insert` -/

theorem memset_length (c : Nat) : ∀ (n : Nat) (dst : List Nat) (d : Int),
    (memset dst d c n).length = dst.length := by
  intro n
  induction n with
  | zero => intro dst d; rfl
  | succ n ih =>
    intro dst d
    unfold memset
    rw [ih]
    split_ifs
    · rfl
    · exact List.length_set _ _ _

theorem find_eq_firstMatch (ad : AttrDesc) : ∀ (attrList : List attrInfo),
    Stage6.QU_Insert.find ad.attrName attrList attrList.length =
      Res.ret (firstMatch ad attrList) := by
  intro attrList
  induction attrList with
  | nil => rfl
  | cons a t ih =>
    unfold firstMatch at ih ⊢
    simp only [List.length_cons, Stage6.QU_Insert.find, List.find?_cons]
    cases hname : strcmpEq ad.attrName a.attrName with
    | true => simp
    | false => simpa using ih

theorem store_status (atoi : List Nat → Int) (atof : List Nat → Nat) (ad : AttrDesc)
    (a : attrInfo) (data : List Nat) :
    ((Stage6.QU_Insert.store atoi atof ad a data).1 = Status.OK ∧
        (Stage6.QU_Insert.store atoi atof ad a data).2.length = data.length ∧
        a.attrValue ≠ none ∧
        (ad.attrType = Datatype.INTEGER ∨ ad.attrType = Datatype.FLOAT ∨
          ad.attrType = Datatype.STRING)) ∨
      ((Stage6.QU_Insert.store atoi atof ad a data).1 = Status.BADCATPARM ∧
        (a.attrValue = none ∨
          (ad.attrType ≠ Datatype.INTEGER ∧ ad.attrType ≠ Datatype.FLOAT ∧
            ad.attrType ≠ Datatype.STRING))) := by
  unfold Stage6.QU_Insert.store
  cases hv : a.attrValue with
  | none => exact Or.inr ⟨rfl, Or.inl rfl⟩
  | some v =>
    cases ht : ad.attrType with
    | STRING =>
      left
      refine ⟨rfl, ?_, by simp, by simp⟩
      simp only [memcpy_length, memset_length]
    | INTEGER =>
      left
      refine ⟨rfl, ?_, by simp, by simp⟩
      simp only [memcpy_length]
    | FLOAT =>
      left
      refine ⟨rfl, ?_, by simp, by simp⟩
      simp only [memcpy_length]
    | other c =>
      right
      exact ⟨rfl, Or.inr ⟨by simp, by simp, by simp⟩⟩

theorem fill_bad (atoi : List Nat → Int) (atof : List Nat → Nat) (attrList : List attrInfo) :
    ∀ (schema : List AttrDesc) (data : List Nat),
      (∃ ad ∈ schema, firstMatch ad attrList = none ∨
        ∃ a, firstMatch ad attrList = some a ∧ a.attrValue = none) →
      ∃ d2, Stage6.QU_Insert.fill atoi atof (attrList.length : Int) attrList schema data =
        Res.ret (Status.BADCATPARM, d2) := by
  intro schema
  induction schema with
  | nil =>
    intro data h
    obtain ⟨ad, had, _⟩ := h
    cases had
  | cons ad ads ih =>
    intro data h
    unfold Stage6.QU_Insert.fill
    rw [Int.toNat_ofNat, find_eq_firstMatch]
    cases hf : firstMatch ad attrList with
    | none => exact ⟨data, rfl⟩
    | some a =>
      simp only []
      rcases store_status atoi atof ad a data with hst | hst
      · rw [if_neg (not_not.mpr hst.1)]
        apply ih
        obtain ⟨ad2, had2, hbad⟩ := h
        rcases List.mem_cons.mp had2 with e | e
        · subst e
          rw [hf] at hbad
          rcases hbad with hbad | ⟨a2, ha2, hnull⟩
          · cases hbad
          · cases ha2
            exact absurd hnull hst.2.2.1
        · exact ⟨ad2, e, hbad⟩
      · rw [if_pos (by rw [hst.1]; decide), hst.1]
        exact ⟨data, rfl⟩

theorem fill_good (atoi : List Nat → Int) (atof : List Nat → Nat) (attrList : List attrInfo) :
    ∀ (schema : List AttrDesc) (data : List Nat),
      (∀ ad ∈ schema, ∃ a, firstMatch ad attrList = some a ∧ a.attrValue ≠ none) →
      (∀ ad ∈ schema, ad.attrType = Datatype.INTEGER ∨ ad.attrType = Datatype.FLOAT ∨
        ad.attrType = Datatype.STRING) →
      ∃ d2, Stage6.QU_Insert.fill atoi atof (attrList.length : Int) attrList schema data =
        Res.ret (Status.OK, d2) ∧ d2.length = data.length := by
  intro schema
  induction schema with
  | nil =>
    intro data _ _
    exact ⟨data, rfl, rfl⟩
  | cons ad ads ih =>
    intro data h ht
    unfold Stage6.QU_Insert.fill
    rw [Int.toNat_ofNat, find_eq_firstMatch]
    obtain ⟨a, hf, hv⟩ := h ad (List.mem_cons_self ad ads)
    rw [hf]
    simp only []
    rcases store_status atoi atof ad a data with hst | hst
    · rw [if_neg (not_not.mpr hst.1)]
      obtain ⟨d2, hd2, hl⟩ := ih (Stage6.QU_Insert.store atoi atof ad a data).2
        (fun e he => h e (List.mem_cons_of_mem ad he))
        (fun e he => ht e (List.mem_cons_of_mem ad he))
      exact ⟨d2, hd2, hl.trans hst.2.1⟩
    · rcases hst.2 with hn | hn
      · exact absurd hn hv
      · rcases ht ad (List.mem_cons_self ad ads) with e | e | e
        · exact absurd e hn.1
        · exact absurd e hn.2.1
        · exact absurd e hn.2.2

theorem insert_reclen_sum : ∀ (schema : List AttrDesc) (r : Int),
    Stage6.QU_Insert.reclen schema r = r + (schema.map (fun d => d.attrLen)).sum := by
  intro schema
  induction schema with
  | nil => intro r; simp [Stage6.QU_Insert.reclen]
  | cons d ds ih =>
    intro r
    simp only [Stage6.QU_Insert.reclen, ih, List.map_cons, List.sum_cons]
    ring

/-- C19. `QU_Insert` returns `BADCATPARM` and leaves the heap file world
untouched (the relation is not opened, nothing is inserted) when the
relation name is empty or `attrCnt <= 0` and, for a relation the catalog
knows, when `attrCnt` differs from the number of schema attributes, a
schema attribute has no entry of its name in the list, or the first entry
of its name has a null value.  When none of these holds and every schema
attribute is `INTEGER`, `FLOAT` or `STRING`, the attribute loop ends with
`OK` and a buffer `data` of as many bytes as the sum of the schema's
`attrLen`, filled from a buffer of zero bytes, and `QU_Insert` constructs
the `InsertFileScan`: when the constructor does not report `OK` it returns
that status, and otherwise it calls `insertRecord` of the object on the
record with the bytes `data` and the sum as length and returns the status
of that call, the object being destroyed on the way out in both cases. -/
theorem QU_Insert_argument_checking (ops : InsertOps)
    (getRelInfo : List Nat → Status × List AttrDesc) (atoi : List Nat → Int)
    (atof : List Nat → Nat) (raw : HeapFile) (w : World) (relation : List Nat) (attrCnt : Int)
    (attrList : List attrInfo) :
    (relation = [] ∨ attrCnt ≤ 0 →
      Stage6.QU_Insert ops getRelInfo atoi atof raw w relation attrCnt attrList =
        Res.ret (Status.BADCATPARM, w)) ∧
    (∀ schema : List AttrDesc, getRelInfo relation = (Status.OK, schema) → attrCnt = (attrList.length : Int) →
      (BadInsertArgs schema relation attrCnt attrList →
        Stage6.QU_Insert ops getRelInfo atoi atof raw w relation attrCnt attrList =
          Res.ret (Status.BADCATPARM, w)) ∧
      (¬ BadInsertArgs schema relation attrCnt attrList →
        (∀ ad ∈ schema, ad.attrType = Datatype.INTEGER ∨ ad.attrType = Datatype.FLOAT ∨
          ad.attrType = Datatype.STRING) →
        ∃ data : List Nat,
          data.length = Int.toNat (schema.map (fun d : AttrDesc => d.attrLen)).sum ∧
          Stage6.QU_Insert.fill atoi atof attrCnt attrList schema
              (List.replicate (Int.toNat (schema.map (fun d : AttrDesc => d.attrLen)).sum) 0) =
            Res.ret (Status.OK, data) ∧
          Stage6.QU_Insert ops getRelInfo atoi atof raw w relation attrCnt attrList =
            Stage6.QU_Insert.insertInto ops raw w
              ⟨data, (schema.map (fun d => d.attrLen)).sum⟩ ∧
          ((ops.ctor w raw).1 ≠ Status.OK →
            Stage6.QU_Insert ops getRelInfo atoi atof raw w relation attrCnt attrList =
              Res.ret ((ops.ctor w raw).1, ops.dtor (ops.ctor w raw).2.1 (ops.ctor w raw).2.2)) ∧
          ((ops.ctor w raw).1 = Status.OK →
            Stage6.QU_Insert ops getRelInfo atoi atof raw w relation attrCnt attrList =
              match ops.insertRecord (ops.ctor w raw).2.1 (ops.ctor w raw).2.2
                  ⟨data, (schema.map (fun d => d.attrLen)).sum⟩ NULLRID with
              | Res.ret i => Res.ret (i.1, ops.dtor i.2.2.1 i.2.2.2)
              | Res.undef => Res.undef
              | Res.timeout => Res.timeout))) := by
  have hfirst : relation = [] ∨ attrCnt ≤ 0 →
      Stage6.QU_Insert ops getRelInfo atoi atof raw w relation attrCnt attrList =
        Res.ret (Status.BADCATPARM, w) := by
    intro h
    unfold Stage6.QU_Insert
    rw [if_pos h]
  refine ⟨hfirst, ?_⟩
  intro schema hcat hcnt
  have hsum := insert_reclen_sum schema 0
  rw [zero_add] at hsum
  constructor
  · intro hbad
    by_cases h1 : relation = [] ∨ attrCnt ≤ 0
    · exact hfirst h1
    · unfold Stage6.QU_Insert
      rw [if_neg h1, hcat]
      simp only []
      rw [if_neg (fun hne => hne rfl)]
      by_cases h2 : attrCnt ≠ (schema.length : Int)
      · rw [if_pos h2]
      · rw [if_neg h2]
        have h3 : ∃ ad ∈ schema, firstMatch ad attrList = none ∨
            ∃ a, firstMatch ad attrList = some a ∧ a.attrValue = none := by
          rcases hbad with hb | hb | hb | hb
          · exact absurd (Or.inl hb) h1
          · exact absurd (Or.inr hb) h1
          · exact absurd hb h2
          · exact hb
        obtain ⟨d2, hd2⟩ := fill_bad atoi atof attrList schema
          (List.replicate (Stage6.QU_Insert.reclen schema 0).toNat 0) h3
        rw [hcnt, hd2]
        simp only []
        rw [if_pos (by decide)]
  · intro hgood htypes
    have h1 : ¬ (relation = [] ∨ attrCnt ≤ 0) := by
      intro h
      rcases h with h | h
      · exact hgood (Or.inl h)
      · exact hgood (Or.inr (Or.inl h))
    have h2 : ¬ attrCnt ≠ (schema.length : Int) :=
      fun h => hgood (Or.inr (Or.inr (Or.inl h)))
    have h3 : ∀ ad ∈ schema, ∃ a, firstMatch ad attrList = some a ∧ a.attrValue ≠ none := by
      intro ad had
      cases hf : firstMatch ad attrList with
      | none => exact absurd (Or.inr (Or.inr (Or.inr ⟨ad, had, Or.inl hf⟩))) hgood
      | some a =>
        refine ⟨a, rfl, ?_⟩
        intro hn
        exact hgood (Or.inr (Or.inr (Or.inr ⟨ad, had, Or.inr ⟨a, hf, hn⟩⟩)))
    obtain ⟨d2, hd2, hl⟩ := fill_good atoi atof attrList schema
      (List.replicate (Stage6.QU_Insert.reclen schema 0).toNat 0) h3 htypes
    have hq : Stage6.QU_Insert ops getRelInfo atoi atof raw w relation attrCnt attrList =
        Stage6.QU_Insert.insertInto ops raw w
          ⟨d2, (schema.map (fun d => d.attrLen)).sum⟩ := by
      unfold Stage6.QU_Insert
      rw [if_neg h1, hcat]
      simp only []
      rw [if_neg (fun hne => hne rfl), if_neg h2, hcnt, hd2]
      simp only []
      rw [if_neg (fun hne => hne rfl), hsum]
    refine ⟨d2, ?_, ?_, hq, ?_, ?_⟩
    · rw [hl, List.length_replicate, hsum]
    · rw [hcnt, ← hsum]
      exact hd2
    · intro hc
      rw [hq]
      unfold Stage6.QU_Insert.insertInto
      simp only []
      rw [if_pos hc]
    · intro hc
      rw [hq]
      unfold Stage6.QU_Insert.insertInto
      simp only []
      rw [if_neg (not_not.mpr hc)]

theorem QU_Insert_argument_checking_witness :
    BadInsertArgs abcSchema [114] 3
        [⟨[114], [97], Datatype.INTEGER, 4, some [53]⟩, ⟨[114], [98], Datatype.STRING, 3, none⟩,
          ⟨[114], [99], Datatype.INTEGER, 4, some [55]⟩] ∧
    Stage6.QU_Insert (Temp.insertOps kSmall) abcCatalog (fun v => (v.headD 48 : Int) - 48)
        (fun _ => 0) rawFile twoPageWorld [114] 3
        [⟨[114], [97], Datatype.INTEGER, 4, some [53]⟩, ⟨[114], [98], Datatype.STRING, 3, none⟩,
          ⟨[114], [99], Datatype.INTEGER, 4, some [55]⟩] =
      Res.ret (Status.BADCATPARM, twoPageWorld) ∧
    (∃ data, data.length = 11 ∧
      Stage6.QU_Insert.fill (fun v => (v.headD 48 : Int) - 48) (fun _ => 0) 3
          [⟨[114], [99], Datatype.INTEGER, 4, some [55]⟩,
            ⟨[114], [98], Datatype.STRING, 3, some [120, 121, 122]⟩,
            ⟨[114], [97], Datatype.INTEGER, 4, some [53]⟩] abcSchema (List.replicate 11 0) =
        Res.ret (Status.OK, data) ∧
      Stage6.QU_Insert (Temp.insertOps kSmall) abcCatalog (fun v => (v.headD 48 : Int) - 48)
          (fun _ => 0) rawFile twoPageWorld [114] 3
          [⟨[114], [99], Datatype.INTEGER, 4, some [55]⟩,
            ⟨[114], [98], Datatype.STRING, 3, some [120, 121, 122]⟩,
            ⟨[114], [97], Datatype.INTEGER, 4, some [53]⟩] =
        Stage6.QU_Insert.insertInto (Temp.insertOps kSmall) rawFile twoPageWorld
          ⟨data, 11⟩ ∧
      ((Temp.InsertFileScan.ctor twoPageWorld rawFile).1 ≠ Status.OK →
        Stage6.QU_Insert (Temp.insertOps kSmall) abcCatalog (fun v => (v.headD 48 : Int) - 48)
            (fun _ => 0) rawFile twoPageWorld [114] 3
            [⟨[114], [99], Datatype.INTEGER, 4, some [55]⟩,
              ⟨[114], [98], Datatype.STRING, 3, some [120, 121, 122]⟩,
              ⟨[114], [97], Datatype.INTEGER, 4, some [53]⟩] =
          Res.ret ((Temp.InsertFileScan.ctor twoPageWorld rawFile).1,
            Temp.InsertFileScan.dtor (Temp.InsertFileScan.ctor twoPageWorld rawFile).2.1
              (Temp.InsertFileScan.ctor twoPageWorld rawFile).2.2)) ∧
      ((Temp.InsertFileScan.ctor twoPageWorld rawFile).1 = Status.OK →
        Stage6.QU_Insert (Temp.insertOps kSmall) abcCatalog (fun v => (v.headD 48 : Int) - 48)
            (fun _ => 0) rawFile twoPageWorld [114] 3
            [⟨[114], [99], Datatype.INTEGER, 4, some [55]⟩,
              ⟨[114], [98], Datatype.STRING, 3, some [120, 121, 122]⟩,
              ⟨[114], [97], Datatype.INTEGER, 4, some [53]⟩] =
          match Temp.insertRecord kSmall
              (Temp.InsertFileScan.ctor twoPageWorld rawFile).2.1
              (Temp.InsertFileScan.ctor twoPageWorld rawFile).2.2 ⟨data, 11⟩ NULLRID with
          | Res.ret i => Res.ret (i.1, Temp.InsertFileScan.dtor i.2.2.1 i.2.2.2)
          | Res.undef => Res.undef
          | Res.timeout => Res.timeout)) ∧
    (Temp.InsertFileScan.ctor twoPageWorld rawFile).1 = Status.OK ∧
    (∃ w2,
      Stage6.QU_Insert (Temp.insertOps kSmall) abcCatalog (fun v => (v.headD 48 : Int) - 48)
          (fun _ => 0) rawFile twoPageWorld [114] 3
          [⟨[114], [99], Datatype.INTEGER, 4, some [55]⟩,
            ⟨[114], [98], Datatype.STRING, 3, some [120, 121, 122]⟩,
            ⟨[114], [97], Datatype.INTEGER, 4, some [53]⟩] = Res.ret (Status.OK, w2) ∧
      (w2.pages 2).map (fun pg => pg.slot 1) =
        some (some ⟨[5, 0, 0, 0, 120, 121, 0, 7, 0, 0, 0], 11⟩) ∧
      w2.hdr.recCnt = twoPageWorld.hdr.recCnt + 1) :=
  ⟨Or.inr (Or.inr (Or.inr ⟨⟨[114], [98], 4, Datatype.STRING, 3⟩,
      List.mem_cons_of_mem _ (List.mem_cons_self _ _),
      Or.inr ⟨_, rfl, rfl⟩⟩)),
    ((QU_Insert_argument_checking (Temp.insertOps kSmall) abcCatalog
      (fun v => (v.headD 48 : Int) - 48) (fun _ => 0) rawFile twoPageWorld [114] 3
      [⟨[114], [97], Datatype.INTEGER, 4, some [53]⟩, ⟨[114], [98], Datatype.STRING, 3, none⟩,
        ⟨[114], [99], Datatype.INTEGER, 4, some [55]⟩]).2 abcSchema rfl rfl).1
      (Or.inr (Or.inr (Or.inr ⟨⟨[114], [98], 4, Datatype.STRING, 3⟩,
      List.mem_cons_of_mem _ (List.mem_cons_self _ _),
        Or.inr ⟨_, rfl, rfl⟩⟩))),
    ((QU_Insert_argument_checking (Temp.insertOps kSmall) abcCatalog
      (fun v => (v.headD 48 : Int) - 48) (fun _ => 0) rawFile twoPageWorld [114] 3
      [⟨[114], [99], Datatype.INTEGER, 4, some [55]⟩,
        ⟨[114], [98], Datatype.STRING, 3, some [120, 121, 122]⟩,
        ⟨[114], [97], Datatype.INTEGER, 4, some [53]⟩]).2 abcSchema rfl rfl).2
      (by
        intro h
        rcases h with h | h | h | ⟨ad, had, h⟩
        · cases h
        · exact absurd h (by decide)
        · exact absurd h (by decide)
        · simp only [abcSchema, List.mem_cons, List.mem_singleton, List.not_mem_nil,
            or_false] at had
          rcases had with rfl | rfl | rfl
          all_goals
            rcases h with h | ⟨a, h1, h2⟩
            · cases h
            · cases h1
              cases h2)
      (by
        intro ad had
        simp only [abcSchema, List.mem_cons, List.mem_singleton, List.not_mem_nil,
          or_false] at had
        rcases had with rfl | rfl | rfl <;> simp),
    by decide, ⟨_, rfl, by decide, by decide⟩⟩

/-! ## `markScan` and `resetScan` -/

theorem deref_withCalls (w : World) (c : List Call) (p : Option Int) :
    (w.withCalls c).deref p = w.deref p := by
  cases p <;> rfl

theorem unPinPage_withCalls (w : World) (c : List Call) (n : Int) (d d2 : Bool) :
    (unPinPage (w.withCalls c) n d).2 =
      (unPinPage w n d2).2.withCalls (Call.unPinPage n d w.nextStatus :: c) := rfl

theorem readPage_withCalls (w : World) (c : List Call) (q : Int) (p : Option Int) :
    readPage (w.withCalls c) q p =
      ((readPage w q p).1, (readPage w q p).2.1,
        (readPage w q p).2.2.withCalls (Call.readPage q (readPage w q p).1 :: c)) := by
  unfold readPage
  have e : (w.withCalls c).nextStatus = w.nextStatus := rfl
  have e2 : (w.withCalls c).hdrPageNo = w.hdrPageNo := rfl
  have e3 : (w.withCalls c).pages = w.pages := rfl
  rw [e, e2, e3]
  split_ifs <;> rfl

theorem scanLoop_congr_stage4 (fuel : Nat) :
    ∀ (w : World) (s : HeapFileScan) (outRid nr : RID) (c : List Call) (d : Bool),
      scanObs (Stage4.scanLoop (w.withCalls c) (s.withDirty d) outRid nr fuel) =
        scanObs (Stage4.scanLoop w s outRid nr fuel) := by
  induction fuel with
  | zero => intro w s outRid nr c d; rfl
  | succ fuel ih =>
    intro w s outRid nr c d
    unfold Stage4.scanLoop
    rw [deref_withCalls]
    have e1 : (s.withDirty d).curPage = s.curPage := rfl
    have e2 : (s.withDirty d).curRec = s.curRec := rfl
    have e3 : (s.withDirty d).curPageNo = s.curPageNo := rfl
    rw [e1, e2, e3]
    cases hd : w.deref s.curPage with
    | none => rfl
    | some pg =>
      simp only []
      by_cases h1 : (pg.nextRecord s.curRec nr).1 = Status.ENDOFPAGE
      · rw [if_pos h1, if_pos h1]
        by_cases h2 : pg.getNextPage.1 ≠ Status.OK ∨ pg.getNextPage.2 = -1
        · rw [if_pos h2, if_pos h2]
          rfl
        · rw [if_neg h2, if_neg h2]
          rw [unPinPage_withCalls w c s.curPageNo (s.withDirty d).curDirtyFlag s.curDirtyFlag,
            readPage_withCalls]
          simp only []
          by_cases h3 : (readPage (unPinPage w s.curPageNo s.curDirtyFlag).2 pg.getNextPage.2
              s.curPage).1 ≠ Status.OK
          · rw [if_pos h3, if_pos h3]
            rfl
          · rw [if_neg h3, if_neg h3]
            exact ih (readPage (unPinPage w s.curPageNo s.curDirtyFlag).2 pg.getNextPage.2
                s.curPage).2.2
              { s with
                curPage := (readPage (unPinPage w s.curPageNo s.curDirtyFlag).2
                  pg.getNextPage.2 s.curPage).2.1,
                curPageNo := pg.getNextPage.2, curDirtyFlag := false, curRec := NULLRID }
              outRid _ _ false
      · rw [if_neg h1, if_neg h1]
        by_cases h2 : (pg.nextRecord s.curRec nr).1 = Status.OK
        · rw [if_pos h2, if_pos h2]
          have e4 : ∀ r, Stage4.matchRec (s.withDirty d) r = Stage4.matchRec s r := fun _ => rfl
          rw [e4]
          split_ifs
          · rfl
          · exact ih _ _ _ _ _ _
        · rw [if_neg h2, if_neg h2]
          rfl

theorem scanLoop_congr_temp (fuel : Nat) :
    ∀ (w : World) (s : HeapFileScan) (outRid nr : RID) (c : List Call) (d : Bool),
      scanObs (Temp.scanLoop (w.withCalls c) (s.withDirty d) outRid nr fuel) =
        scanObs (Temp.scanLoop w s outRid nr fuel) := by
  induction fuel with
  | zero => intro w s outRid nr c d; rfl
  | succ fuel ih =>
    intro w s outRid nr c d
    unfold Temp.scanLoop
    rw [deref_withCalls]
    have e1 : (s.withDirty d).curPage = s.curPage := rfl
    have e2 : (s.withDirty d).curRec = s.curRec := rfl
    have e3 : (s.withDirty d).curPageNo = s.curPageNo := rfl
    rw [e1, e2, e3]
    cases hd : w.deref s.curPage with
    | none => rfl
    | some pg =>
      simp only []
      by_cases h1 : (pg.nextRecord s.curRec nr).1 = Status.OK
      · rw [if_pos h1, if_pos h1]
        by_cases h2 : (pg.getRecord (pg.nextRecord s.curRec nr).2 ⟨[], 0⟩).1 ≠ Status.OK
        · rw [if_pos h2, if_pos h2]
          rfl
        · rw [if_neg h2, if_neg h2]
          by_cases hm : Temp.matchRec { s with curRec := (pg.nextRecord s.curRec nr).2 }
              (pg.getRecord (pg.nextRecord s.curRec nr).2 ⟨[], 0⟩).2 = true
          · have hm2 : Temp.matchRec
                { s.withDirty d with curRec := (pg.nextRecord s.curRec nr).2 }
                (pg.getRecord (pg.nextRecord s.curRec nr).2 ⟨[], 0⟩).2 = true := hm
            rw [if_pos hm]
            exact (congrArg scanObs (if_pos hm2)).trans rfl
          · have hm2 : ¬ Temp.matchRec
                { s.withDirty d with curRec := (pg.nextRecord s.curRec nr).2 }
                (pg.getRecord (pg.nextRecord s.curRec nr).2 ⟨[], 0⟩).2 = true := hm
            rw [if_neg hm]
            exact (congrArg scanObs (if_neg hm2)).trans
              (ih w { s with curRec := (pg.nextRecord s.curRec nr).2 } outRid _ c d)
      · rw [if_neg h1, if_neg h1]
        by_cases h2 : (pg.nextRecord s.curRec nr).1 = Status.ENDOFPAGE ∨
            (pg.nextRecord s.curRec nr).1 = Status.NORECORDS
        · rw [if_pos h2, if_pos h2]
          by_cases h3 : pg.getNextPage.1 ≠ Status.OK
          · rw [if_pos h3, if_pos h3]
            rfl
          · rw [if_neg h3, if_neg h3]
            by_cases h4 : pg.getNextPage.2 = -1
            · rw [if_pos h4, if_pos h4]
              rfl
            · rw [if_neg h4, if_neg h4]
              rw [unPinPage_withCalls w c s.curPageNo (s.withDirty d).curDirtyFlag s.curDirtyFlag,
                readPage_withCalls]
              simp only []
              by_cases h5 : (readPage (unPinPage w s.curPageNo s.curDirtyFlag).2 pg.getNextPage.2
                  none).1 ≠ Status.OK
              · rw [if_pos h5, if_pos h5]
                rfl
              · rw [if_neg h5, if_neg h5, deref_withCalls]
                cases hd2 : (readPage (unPinPage w s.curPageNo s.curDirtyFlag).2 pg.getNextPage.2
                    none).2.2.deref (readPage (unPinPage w s.curPageNo s.curDirtyFlag).2
                      pg.getNextPage.2 none).2.1 with
                | none => rfl
                | some pg2 =>
                  simp only []
                  by_cases h6 : (pg2.firstRecord NULLRID).1 = Status.NORECORDS
                  · rw [if_pos h6, if_pos h6]
                    exact ih (readPage (unPinPage w s.curPageNo s.curDirtyFlag).2
                        pg.getNextPage.2 none).2.2
                      { s with
                        curPage := (readPage (unPinPage w s.curPageNo s.curDirtyFlag).2
                          pg.getNextPage.2 none).2.1,
                        curPageNo := pg.getNextPage.2, curDirtyFlag := false,
                        curRec := (pg2.firstRecord NULLRID).2 }
                      outRid _ _ false
                  · rw [if_neg h6, if_neg h6]
                    by_cases h7 : (pg2.getRecord (pg2.firstRecord NULLRID).2 ⟨[], 0⟩).1
                        ≠ Status.OK
                    · rw [if_pos h7, if_pos h7]
                      rfl
                    · rw [if_neg h7, if_neg h7]
                      by_cases hm : Temp.matchRec
                            { s with
                              curPage := (readPage (unPinPage w s.curPageNo s.curDirtyFlag).2
                                pg.getNextPage.2 none).2.1,
                              curPageNo := pg.getNextPage.2, curDirtyFlag := false,
                              curRec := (pg2.firstRecord NULLRID).2 }
                            (pg2.getRecord (pg2.firstRecord NULLRID).2 ⟨[], 0⟩).2 = true
                      · have hm2 : Temp.matchRec
                            { s.withDirty d with
                              curPage := (readPage (unPinPage w s.curPageNo s.curDirtyFlag).2
                                pg.getNextPage.2 none).2.1,
                              curPageNo := pg.getNextPage.2, curDirtyFlag := false,
                              curRec := (pg2.firstRecord NULLRID).2 }
                            (pg2.getRecord (pg2.firstRecord NULLRID).2 ⟨[], 0⟩).2 = true := hm
                        rw [if_pos hm]
                        exact (congrArg scanObs (if_pos hm2)).trans rfl
                      · have hm2 : ¬ Temp.matchRec
                            { s.withDirty d with
                              curPage := (readPage (unPinPage w s.curPageNo s.curDirtyFlag).2
                                pg.getNextPage.2 none).2.1,
                              curPageNo := pg.getNextPage.2, curDirtyFlag := false,
                              curRec := (pg2.firstRecord NULLRID).2 }
                            (pg2.getRecord (pg2.firstRecord NULLRID).2 ⟨[], 0⟩).2 = true := hm
                        rw [if_neg hm]
                        exact (congrArg scanObs (if_neg hm2)).trans
                          (ih (readPage (unPinPage w s.curPageNo s.curDirtyFlag).2
                            pg.getNextPage.2 none).2.2
                          { s with
                            curPage := (readPage (unPinPage w s.curPageNo s.curDirtyFlag).2
                              pg.getNextPage.2 none).2.1,
                            curPageNo := pg.getNextPage.2, curDirtyFlag := false,
                            curRec := (pg2.firstRecord NULLRID).2 }
                          outRid _ _ false)
        · rw [if_neg h2, if_neg h2]
          rfl

theorem Temp.scanNext_congr (w : World) (s : HeapFileScan) (outRid : RID) (fuel : Nat)
    (c : List Call) (d : Bool) (p : Int) (hp : s.curPage = some p) :
    scanObs (Temp.scanNext (w.withCalls c) (s.withDirty d) outRid fuel) =
      scanObs (Temp.scanNext w s outRid fuel) := by
  by_cases h0 : s.curPageNo < 0
  · have h1 : (s.withDirty d).curPageNo < 0 := h0
    unfold Temp.scanNext
    rw [if_pos h0, if_pos h1]
    rfl
  · rw [scanNext_pinned w s outRid fuel p (not_lt.mp h0) hp,
      scanNext_pinned (w.withCalls c) (s.withDirty d) outRid fuel p (not_lt.mp h0) hp]
    exact scanLoop_congr_temp fuel w s outRid NULLRID c d

theorem pinned_readPage (q : Int) (cs : List Call) (n : Int) :
    pinned (Call.readPage q Status.OK :: cs) n = pinned cs n + (if q = n then 1 else 0) := by
  unfold pinned pinCalls unpinCalls
  by_cases h : q = n
  · simp [List.filter_cons, h]
    ring
  · simp [List.filter_cons, h]

theorem pinned_unPinPage (m : Int) (d : Bool) (st : Status) (cs : List Call) (n : Int) :
    pinned (Call.unPinPage m d st :: cs) n = pinned cs n - (if m = n then 1 else 0) := by
  unfold pinned pinCalls unpinCalls
  by_cases h : m = n
  · simp [List.filter_cons, h]
    ring
  · simp [List.filter_cons, h]

theorem scanKeeps_refl (w : World) (s : HeapFileScan) (hs : w.script = [])
    (hc : s.curPage = some s.curPageNo) : ScanKeeps w s w s :=
  ⟨rfl, hs, rfl, hc, fun _ => rfl⟩

theorem scanKeeps_trans (w : World) (s : HeapFileScan) (w2 : World) (s2 : HeapFileScan)
    (w3 : World) (s3 : HeapFileScan) (h1 : ScanKeeps w s w2 s2) (h2 : ScanKeeps w2 s2 w3 s3) :
    ScanKeeps w s w3 s3 := by
  obtain ⟨a1, a2, a3, a4, a5⟩ := h1
  obtain ⟨b1, b2, b3, b4, b5⟩ := h2
  refine ⟨b1.trans a1, b2, ?_, b4, fun n => (b5 n).trans (a5 n)⟩
  rw [← a3, ← b3]

theorem scanKeeps_curRec (w : World) (s : HeapFileScan) (rid : RID) (hs : w.script = [])
    (hc : s.curPage = some s.curPageNo) : ScanKeeps w s w { s with curRec := rid } :=
  ⟨rfl, hs, rfl, hc, fun _ => rfl⟩

theorem scanKeeps_move (w : World) (s : HeapFileScan) (q : Int) (ptr : Option Int) (dirty : Bool)
    (rid : RID) (hs : w.script = []) (hc : s.curPage = some s.curPageNo)
    (hr : (readPage (unPinPage w s.curPageNo s.curDirtyFlag).2 q ptr).1 = Status.OK) :
    ScanKeeps w s (readPage (unPinPage w s.curPageNo s.curDirtyFlag).2 q ptr).2.2
      { s with curPage := (readPage (unPinPage w s.curPageNo s.curDirtyFlag).2 q ptr).2.1,
               curPageNo := q, curDirtyFlag := dirty, curRec := rid } := by
  have hptr := readPage_ok _ _ _ hr
  have hns : w.nextStatus = Status.OK := nextStatus_nil w hs
  have hw : (readPage (unPinPage w s.curPageNo s.curDirtyFlag).2 q ptr).2.2 =
      ((unPinPage w s.curPageNo s.curDirtyFlag).2).step (Call.readPage q Status.OK) := by
    unfold readPage at hr ⊢
    split_ifs at hr ⊢ with h1 h2
    · rfl
    · exact absurd hr h1
  refine ⟨?_, ?_, rfl, hptr, ?_⟩
  · rw [hw]
    unfold unPinPage World.step World.withCalls
    simp [hs]
  · rw [hw]
    exact step_script_nil _ _ (step_script_nil _ _ hs)
  · intro n
    rw [hw]
    show pinned (Call.readPage q Status.OK ::
      Call.unPinPage s.curPageNo s.curDirtyFlag w.nextStatus :: w.calls) n - _ = _
    rw [pinned_readPage, pinned_unPinPage]
    unfold held
    simp only [hptr, hc, Option.some.injEq]
    ring

theorem scanLoop_keeps_stage4 (fuel : Nat) :
    ∀ (w : World) (s : HeapFileScan) (outRid nr : RID) (x : Status × RID × World × HeapFileScan),
      w.script = [] → s.curPage = some s.curPageNo →
      Stage4.scanLoop w s outRid nr fuel = Res.ret x → x.1 = Status.OK →
      ScanKeeps w s x.2.2.1 x.2.2.2 := by
  induction fuel with
  | zero =>
    intro w s outRid nr x _ _ h
    cases h
  | succ fuel ih =>
    intro w s outRid nr x hs hc h hx
    unfold Stage4.scanLoop at h
    split at h
    · cases h
    · rename_i pg hpg
      simp only [] at h
      split_ifs at h with h1 h2 h3 h4 h5
      · cases h
        cases hx
      · cases h
        exact absurd hx h3
      · have hk := scanKeeps_move w s pg.getNextPage.2 s.curPage false NULLRID hs hc
          (not_not.mp h3)
        exact scanKeeps_trans _ _ _ _ _ _ hk
          (ih _ _ _ _ _ hk.2.1 hk.2.2.2.1 h hx)
      · cases h
        exact scanKeeps_curRec w s _ hs hc
      · exact ih _ _ _ _ _ hs hc h hx
      · cases h
        exact absurd hx h4

theorem scanLoop_keeps_temp (fuel : Nat) :
    ∀ (w : World) (s : HeapFileScan) (outRid nr : RID) (x : Status × RID × World × HeapFileScan),
      w.script = [] → s.curPage = some s.curPageNo →
      Temp.scanLoop w s outRid nr fuel = Res.ret x → x.1 = Status.OK →
      ScanKeeps w s x.2.2.1 x.2.2.2 := by
  induction fuel with
  | zero =>
    intro w s outRid nr x _ _ h
    cases h
  | succ fuel ih =>
    intro w s outRid nr x hs hc h hx
    unfold Temp.scanLoop at h
    split at h
    · cases h
    · rename_i pg hpg
      simp only [] at h
      split_ifs at h with h1 h2 h3 h4 h5 h6 h7
      · cases h
        exact absurd hx h2
      · cases h
        exact scanKeeps_curRec w s _ hs hc
      · exact scanKeeps_trans w s w { s with curRec := (pg.nextRecord s.curRec nr).2 } _ _
          (scanKeeps_curRec w s _ hs hc)
          (ih w { s with curRec := (pg.nextRecord s.curRec nr).2 } _ _ _ hs hc h hx)
      · cases h
        exact absurd hx h5
      · cases h
        cases hx
      · cases h
        exact absurd hx h7
      · have hk := scanKeeps_move w s pg.getNextPage.2 none false NULLRID hs hc
          (not_not.mp h7)
        split at h
        · cases h
        · rename_i pg2 hpg2
          split_ifs at h with h8 h9 h10
          · have hk2 := scanKeeps_move w s pg.getNextPage.2 none false
              (pg2.firstRecord NULLRID).2 hs hc (not_not.mp h7)
            exact scanKeeps_trans _ _ _ _ _ _ hk2
              (ih _ _ _ _ _ hk2.2.1 hk2.2.2.2.1 h hx)
          · cases h
            exact absurd hx h9
          · cases h
            exact scanKeeps_move w s pg.getNextPage.2 none false
              (pg2.firstRecord NULLRID).2 hs hc (not_not.mp h7)
          · have hk2 := scanKeeps_move w s pg.getNextPage.2 none false
              (pg2.firstRecord NULLRID).2 hs hc (not_not.mp h7)
            exact scanKeeps_trans _ _ _ _ _ _ hk2
              (ih _ _ _ _ _ hk2.2.1 hk2.2.2.2.1 h hx)
      · cases h
        exact absurd hx h1

theorem Temp.scanNext_keeps (w : World) (s : HeapFileScan) (outRid : RID) (fuel : Nat)
    (x : Status × RID × World × HeapFileScan) (hs : w.script = [])
    (hc : s.curPage = some s.curPageNo) (h : Temp.scanNext w s outRid fuel = Res.ret x)
    (hx : x.1 = Status.OK) : ScanKeeps w s x.2.2.1 x.2.2.2 := by
  unfold Temp.scanNext at h
  split_ifs at h with h0
  · cases h
    cases hx
  · split at h
    · rename_i hnone
      rw [hnone] at hc
      cases hc
    · exact scanLoop_keeps_temp fuel w s outRid NULLRID x hs hc h hx

theorem scanRun_keeps
    (next : World → HeapFileScan → RID → Res (Status × RID × World × HeapFileScan))
    (hnext : ∀ w s r x, w.script = [] → s.curPage = some s.curPageNo → next w s r = Res.ret x →
      x.1 = Status.OK → ScanKeeps w s x.2.2.1 x.2.2.2) (k : Nat) :
    ∀ (w : World) (s : HeapFileScan) (r : RID) (w1 : World) (s1 : HeapFileScan) (r1 : RID),
      w.script = [] → s.curPage = some s.curPageNo →
      scanRun next k w s r = some (w1, s1, r1) → ScanKeeps w s w1 s1 := by
  induction k with
  | zero =>
    intro w s r w1 s1 r1 hs hc h
    simp only [scanRun, Option.some.injEq, Prod.mk.injEq] at h
    obtain ⟨rfl, rfl, _⟩ := h
    exact scanKeeps_refl w s hs hc
  | succ k ih =>
    intro w s r w1 s1 r1 hs hc h
    unfold scanRun at h
    split at h
    · rename_i x hx
      split_ifs at h with hok
      have hk := hnext w s r x hs hc hx hok
      exact scanKeeps_trans _ _ _ _ _ _ hk (ih _ _ _ _ _ _ hk.2.1 hk.2.2.2.1 h)
    · cases h
    · cases h

theorem scan_eq_of_keeps (s1 s2 sm : HeapFileScan)
    (b3 : { s2 with curPage := s1.curPage, curPageNo := s1.curPageNo,
                    curDirtyFlag := s1.curDirtyFlag, curRec := s1.curRec } = s1)
    (a3 : { s1 with curPage := sm.curPage, curPageNo := sm.curPageNo,
                    curDirtyFlag := sm.curDirtyFlag, curRec := sm.curRec } = sm)
    (g1 : s2.curPageNo = sm.curPageNo) (g2 : s2.curRec = sm.curRec)
    (g3 : s2.curPage = sm.curPage) : s2 = sm.withDirty s2.curDirtyFlag := by
  obtain ⟨⟨a1, a2, a3, a4, a5, a6, a7⟩, a8, a9, a10, a11, a12, a13, a14⟩ := s1
  obtain ⟨⟨b1, b2, b3, b4, b5, b6, b7⟩, b8, b9, b10, b11, b12, b13, b14⟩ := s2
  obtain ⟨⟨c1, c2, c3, c4, c5, c6, c7⟩, c8, c9, c10, c11, c12, c13, c14⟩ := sm
  simp only [HeapFileScan.mk.injEq, HeapFile.mk.injEq] at a3 b3 g1 g2 g3
  simp only [HeapFileScan.withDirty, HeapFileScan.mk.injEq, HeapFile.mk.injEq]
  obtain ⟨⟨d1, d2, d3, -⟩, d4, d5, d6, d7, d8, d9, d10⟩ := a3
  obtain ⟨⟨e1, e2, e3, -⟩, e4, e5, e6, e7, e8, e9, e10⟩ := b3
  subst d1 d2 d3 d4 d5 d6 d7 d8 d9 d10 e1 e2 e3 e4 e5 e6 e7 e8 e9 e10 g1 g2 g3
  simp

theorem resetScan_keeps (w0 : World) (sm : HeapFileScan) (w1 : World) (s1 : HeapFileScan)
    (w2 : World) (s2 : HeapFileScan) (hk : ScanKeeps w0 sm w1 s1)
    (hc : sm.curPage = some sm.curPageNo)
    (hm1 : sm.markedPageNo = sm.curPageNo) (hm2 : sm.markedRec = sm.curRec)
    (h : resetScanBody w1 s1 = (Status.OK, w2, s2)) :
    s2 = sm.withDirty s2.curDirtyFlag ∧ w2 = w0.withCalls w2.calls ∧
      (∀ n, pinned w2.calls n = pinned w0.calls n) ∧ (s1.curPageNo = sm.curPageNo → w2 = w1) := by
  obtain ⟨a1, a2, a3, a4, a5⟩ := hk
  have f1 : s1.markedPageNo = sm.markedPageNo := by
    have := congrArg HeapFileScan.markedPageNo a3
    exact this
  have f2 : s1.markedRec = sm.markedRec := by
    have := congrArg HeapFileScan.markedRec a3
    exact this
  have hw1 : w1 = w0.withCalls w1.calls := by
    have e : w1 = (w1.withCalls []).withCalls w1.calls := by
      cases w1
      rfl
    rw [e, a1]
    rfl
  unfold resetScanBody at h
  by_cases hsame : s1.markedPageNo ≠ s1.curPageNo
  · rw [if_pos hsame] at h
    have hne : s1.curPage ≠ none := by
      rw [a4]
      exact Option.some_ne_none _
    rw [if_pos hne] at h
    simp only [] at h
    split_ifs at h with h1 h2
    · simp only [Prod.mk.injEq] at h
      exact absurd h.1 h1.2
    · simp only [Prod.mk.injEq] at h
      exact absurd h.1 h2
    · simp only [Prod.mk.injEq, true_and] at h
      obtain ⟨hw, hs2⟩ := h
      have hmove := scanKeeps_move w1 s1 s1.markedPageNo s1.curPage false s1.markedRec a2 a4
        (not_not.mp h2)
      rw [hw, hs2] at hmove
      obtain ⟨b1, b2, b3, b4, b5⟩ := hmove
      have g1 : s2.curPageNo = sm.curPageNo := by
        rw [← hs2]
        exact f1.trans hm1
      have g2 : s2.curRec = sm.curRec := by
        rw [← hs2]
        exact f2.trans hm2
      have g3 : s2.curPage = sm.curPage := by
        rw [b4, g1, hc]
      refine ⟨?_, ?_, ?_, ?_⟩
      · exact scan_eq_of_keeps s1 s2 sm b3 a3 g1 g2 g3
      · have e : w2 = (w2.withCalls []).withCalls w2.calls := by
          cases w2
          rfl
        rw [e, b1, a1]
        rfl
      · intro n
        have := (b5 n).trans (a5 n)
        unfold held at this
        rw [g3] at this
        linarith
      · intro hcur
        exact absurd (f1.trans (hm1.trans hcur.symm)) hsame
  · rw [if_neg hsame] at h
    simp only [Prod.mk.injEq, true_and] at h
    obtain ⟨hw, hs2⟩ := h
    have hsame2 : s1.markedPageNo = s1.curPageNo := not_not.mp hsame
    have g1 : s1.curPageNo = sm.curPageNo := hsame2.symm.trans (f1.trans hm1)
    have g3 : s1.curPage = sm.curPage := by
      rw [a4, g1, hc]
    refine ⟨?_, ?_, ?_, fun _ => hw.symm⟩
    · rw [← hs2]
      exact scan_eq_of_keeps s1 { s1 with curRec := s1.markedRec } sm rfl a3 g1
        (f2.trans hm2) g3
    · rw [← hw]
      exact hw1
    · intro n
      have := a5 n
      unfold held at this
      rw [g3] at this
      rw [← hw]
      linarith

theorem markResetRoundTrip_of
    (scanNext : World → HeapFileScan → RID → Nat → Res (Status × RID × World × HeapFileScan))
    (hkeeps : ∀ w s r fuel x, w.script = [] → s.curPage = some s.curPageNo →
      scanNext w s r fuel = Res.ret x → x.1 = Status.OK → ScanKeeps w s x.2.2.1 x.2.2.2)
    (hcongr : ∀ w s r fuel c d, s.curPage = some s.curPageNo →
      scanObs (scanNext (w.withCalls c) (s.withDirty d) r fuel) = scanObs (scanNext w s r fuel)) :
    MarkResetRoundTrip scanNext markScanBody resetScanBody := by
  intro w0 s0 k fuel rid0 w1 s1 r1 w2 s2 hs hc hrun hreset
  have hc2 : (markScanBody s0).2.curPage = some (markScanBody s0).2.curPageNo := hc
  have hk := scanRun_keeps (fun w s r => scanNext w s r fuel)
    (fun w s r x h1 h2 h3 h4 => hkeeps w s r fuel x h1 h2 h3 h4) k w0 (markScanBody s0).2 rid0
    w1 s1 r1 hs hc2 hrun
  obtain ⟨e1, e2, e3, e4⟩ := resetScan_keeps w0 (markScanBody s0).2 w1 s1 w2 s2 hk hc2 rfl rfl
    hreset
  generalize s2.curDirtyFlag = d at e1
  generalize w2.calls = c at e2
  subst e1 e2
  exact ⟨rfl, rfl, hc, e3, e4, fun outRid fuel2 => hcongr w0 _ outRid fuel2 c d hc2⟩

/-- C14. In both variants, from a state with the page of `curPageNo`
pinned and no failure scripted: after `markScan`, any number of `scanNext`
calls that return `OK` and a `resetScan` that returns `OK`, `curPageNo` and
`curRec` are those at the mark, `curPage` is the frame of the marked page,
every page has the pin count it had at the mark, `resetScan` has made no
call when the scan had stayed on the marked page, and `scanNext` returns
the status and RID it returns from the state at the mark. -/
theorem mark_reset_round_trip :
    MarkResetRoundTrip Stage4.scanNext Stage4.markScan Stage4.resetScan ∧
      MarkResetRoundTrip Temp.scanNext Temp.markScan Temp.resetScan := by
  constructor
  · exact markResetRoundTrip_of Stage4.scanNext
      (fun w s r fuel x h1 h2 h3 h4 => scanLoop_keeps_stage4 fuel w s r NULLRID x h1 h2 h3 h4)
      (fun w s r fuel c d _ => scanLoop_congr_stage4 fuel w s r NULLRID c d)
  · exact markResetRoundTrip_of Temp.scanNext
      (fun w s r fuel x h1 h2 h3 h4 => Temp.scanNext_keeps w s r fuel x h1 h2 h3 h4)
      (fun w s r fuel c d h => Temp.scanNext_congr w s r fuel c d s.curPageNo h)

theorem mark_reset_round_trip_witness :
    ∃ w1 s1 r1 w2 s2,
      scanRun (fun w s r => Temp.scanNext w s r 8) 4 fiveIntWorld (Temp.markScan scanOnPage1).2
          NULLRID = some (w1, s1, r1) ∧
        r1 = ⟨3, 1⟩ ∧ s1.curPageNo = 3 ∧
        Temp.resetScan w1 s1 = (Status.OK, w2, s2) ∧
        (s2.curPageNo = 1 ∧ s2.curRec = NULLRID ∧ s2.curPage = some 1 ∧
          (∀ n, pinned w2.calls n = pinned fiveIntWorld.calls n) ∧
          (s1.curPageNo = 1 → w2 = w1) ∧
          ∀ (outRid : RID) (fuel2 : Nat),
            scanObs (Temp.scanNext w2 s2 outRid fuel2) =
              scanObs (Temp.scanNext fiveIntWorld (Temp.markScan scanOnPage1).2 outRid fuel2)) ∧
        scanObs (Temp.scanNext fiveIntWorld (Temp.markScan scanOnPage1).2 NULLRID 8) =
          Res.ret (Status.OK, ⟨1, 0⟩) :=
  ⟨_, _, _, _, _, rfl, rfl, rfl, rfl,
    mark_reset_round_trip.2 fiveIntWorld scanOnPage1 4 8 NULLRID _ _ _ _ _ rfl rfl rfl rfl,
    rfl⟩

/-! ## Deleting during a scan -/

theorem Temp.scanLoop_file (fuel : Nat) :
    ∀ (w : World) (s : HeapFileScan) (outRid nr : RID) (x : Status × RID × World × HeapFileScan),
      Temp.scanLoop w s outRid nr fuel = Res.ret x →
      x.2.2.1.pages = w.pages ∧ x.2.2.1.hdr = w.hdr ∧ x.2.2.1.hdrPageNo = w.hdrPageNo ∧
        (w.script = [] → x.2.2.1.script = []) := by
  induction fuel with
  | zero =>
    intro w s outRid nr x h
    cases h
  | succ fuel ih =>
    intro w s outRid nr x h
    have hmove : ∀ (q : Int) (ptr : Option Int),
        (readPage (unPinPage w s.curPageNo s.curDirtyFlag).2 q ptr).2.2.pages = w.pages ∧
        (readPage (unPinPage w s.curPageNo s.curDirtyFlag).2 q ptr).2.2.hdr = w.hdr ∧
        (readPage (unPinPage w s.curPageNo s.curDirtyFlag).2 q ptr).2.2.hdrPageNo = w.hdrPageNo ∧
        (w.script = [] →
          (readPage (unPinPage w s.curPageNo s.curDirtyFlag).2 q ptr).2.2.script = []) := by
      intro q ptr
      refine ⟨by rw [readPage_pages]; rfl, by rw [readPage_hdr]; rfl, ?_, ?_⟩
      · unfold readPage
        split_ifs <;> rfl
      · intro hs
        exact readPage_script_nil _ _ _ (step_script_nil _ _ hs)
    have hcomp : ∀ (w2 : World) (y : Status × RID × World × HeapFileScan),
        (w2.pages = w.pages ∧ w2.hdr = w.hdr ∧ w2.hdrPageNo = w.hdrPageNo ∧
          (w.script = [] → w2.script = [])) →
        (y.2.2.1.pages = w2.pages ∧ y.2.2.1.hdr = w2.hdr ∧ y.2.2.1.hdrPageNo = w2.hdrPageNo ∧
          (w2.script = [] → y.2.2.1.script = [])) →
        y.2.2.1.pages = w.pages ∧ y.2.2.1.hdr = w.hdr ∧ y.2.2.1.hdrPageNo = w.hdrPageNo ∧
          (w.script = [] → y.2.2.1.script = []) :=
      fun w2 y a b => ⟨b.1.trans a.1, b.2.1.trans a.2.1, b.2.2.1.trans a.2.2.1,
        fun hs => b.2.2.2 (a.2.2.2 hs)⟩
    unfold Temp.scanLoop at h
    split at h
    · cases h
    · rename_i pg hpg
      simp only [] at h
      split_ifs at h with h1 h2 h3 h4 h5 h6 h7
      · cases h
        exact ⟨rfl, rfl, rfl, id⟩
      · cases h
        exact ⟨rfl, rfl, rfl, id⟩
      · exact ih _ _ _ _ _ h
      · cases h
        exact ⟨rfl, rfl, rfl, id⟩
      · cases h
        exact ⟨rfl, rfl, rfl, id⟩
      · cases h
        exact hmove _ _
      · split at h
        · cases h
        · rename_i pg2 hpg2
          split_ifs at h with h8 h9 h10
          · exact hcomp _ x (hmove _ _) (ih _ _ _ _ _ h)
          · cases h
            exact hmove _ _
          · cases h
            exact hmove _ _
          · exact hcomp _ x (hmove _ _) (ih _ _ _ _ _ h)
      · cases h
        exact ⟨rfl, rfl, rfl, id⟩

theorem page_nextRecord_pageNo (pg : Page) (cur nr : RID)
    (h : (pg.nextRecord cur nr).1 = Status.OK) : (pg.nextRecord cur nr).2.pageNo = pg.pageNo := by
  unfold Page.nextRecord at h ⊢
  split at h
  · rfl
  · cases h

theorem page_firstRecord_pageNo (pg : Page) (rid : RID)
    (h : ¬ (pg.firstRecord rid).1 = Status.NORECORDS) :
    (pg.firstRecord rid).2.pageNo = pg.pageNo := by
  unfold Page.firstRecord at h ⊢
  split at h
  · rfl
  · exact absurd rfl h

theorem page_getRecord_ok (pg : Page) (rid : RID) (rec : Record)
    (h : (pg.getRecord rid rec).1 = Status.OK) :
    pg.slot rid.slotNo = some (pg.getRecord rid rec).2 := by
  unfold Page.getRecord at h ⊢
  split at h
  · rename_i r hr
    rw [hr]
  · cases h

theorem Temp.scanLoop_cursor (fuel : Nat) :
    ∀ (w : World) (s : HeapFileScan) (outRid nr : RID) (x : Status × RID × World × HeapFileScan),
      Temp.scanLoop w s outRid nr fuel = Res.ret x → x.1 = Status.OK →
      x.2.2.2.curRec = x.2.1 ∧
        ∃ pg r, x.2.2.1.deref x.2.2.2.curPage = some pg ∧ x.2.1.pageNo = pg.pageNo ∧
          pg.slot x.2.1.slotNo = some r := by
  induction fuel with
  | zero =>
    intro w s outRid nr x h
    cases h
  | succ fuel ih =>
    intro w s outRid nr x h hx
    unfold Temp.scanLoop at h
    split at h
    · cases h
    · rename_i pg hpg
      simp only [] at h
      split_ifs at h with h1 h2 h3 h4 h5 h6 h7
      · cases h
        exact absurd hx h2
      · cases h
        exact ⟨rfl, pg, _, hpg, page_nextRecord_pageNo pg _ _ h1,
          page_getRecord_ok pg _ _ (not_not.mp h2)⟩
      · exact ih _ _ _ _ _ h hx
      · cases h
        exact absurd hx h5
      · cases h
        cases hx
      · cases h
        exact absurd hx h7
      · split at h
        · cases h
        · rename_i pg2 hpg2
          split_ifs at h with h8 h9 h10
          · exact ih _ _ _ _ _ h hx
          · cases h
            exact absurd hx h9
          · cases h
            exact ⟨rfl, pg2, _, hpg2, page_firstRecord_pageNo pg2 _ h8,
              page_getRecord_ok pg2 _ _ (not_not.mp h9)⟩
          · exact ih _ _ _ _ _ h hx
      · cases h
        exact absurd hx h1

theorem liveFrom_set_none (pn : Int) : ∀ (t : List (Option Record)) (b c : Nat),
    liveFrom pn (t.set c none) b =
      (liveFrom pn t b).filter (fun y => decide (y.1 ≠ ⟨pn, ((b + c : Nat) : Int)⟩)) := by
  intro t
  induction t with
  | nil => intro b c; rfl
  | cons a t ih =>
    intro b c
    have hkeep : ∀ (d : Nat), (liveFrom pn t (b + 1)).filter
        (fun y => decide (y.1 ≠ ⟨pn, ((b + 0 : Nat) : Int)⟩)) = liveFrom pn t (b + 1) := by
      intro _
      apply List.filter_eq_self.mpr
      intro y hy
      obtain ⟨rid, r⟩ := y
      obtain ⟨_, i, hi, _⟩ := (liveFrom_mem pn t (b + 1) rid r).mp hy
      simp only [ne_eq, decide_eq_true_eq]
      intro e
      have := congrArg RID.slotNo e
      simp only [] at this
      rw [this] at hi
      omega
    cases c with
    | zero =>
      cases a with
      | none =>
        simp only [List.set_cons_zero, liveFrom]
        exact (hkeep 0).symm
      | some r =>
        simp only [List.set_cons_zero, liveFrom, List.filter_cons]
        rw [if_neg (by simp), hkeep 0]
    | succ c =>
      have e : b + (c + 1) = b + 1 + c := by omega
      cases a with
      | none =>
        simp only [List.set_cons_succ, liveFrom]
        rw [ih (b + 1) c, e]
      | some r =>
        simp only [List.set_cons_succ, liveFrom, List.filter_cons]
        rw [ih (b + 1) c, e, if_pos]
        simp only [ne_eq, decide_eq_true_eq]
        intro h
        have := congrArg RID.slotNo h
        simp only [] at this
        omega

theorem isChain_setPage (pages : Int → Option Page) (p : Int) (pg pg2 : Page)
    (hpg : pages p = some pg) (hn : pg2.nextPage = pg.nextPage) (l : List Int) :
    ∀ q, IsChain pages q l →
      IsChain (fun m => if m = p then some pg2 else pages m) q l := by
  induction l with
  | nil => intro q h; exact h
  | cons a l ih =>
    intro q h
    simp only [IsChain] at h ⊢
    obtain ⟨h1, h2, h3⟩ := h
    refine ⟨h1, h2, ?_⟩
    by_cases hq : q = p
    · rw [if_pos hq]
      simp only []
      rw [hq, hpg] at h3
      rw [hn]
      exact ih _ h3
    · rw [if_neg hq]
      cases hq2 : pages q with
      | none => rw [hq2] at h3; exact h3.elim
      | some pgq =>
        rw [hq2] at h3
        exact ih _ h3

theorem fileRecs_congr (pages pages2 : Int → Option Page) (l : List Int)
    (h : ∀ n ∈ l, pages2 n = pages n) : fileRecs pages2 l = fileRecs pages l := by
  induction l with
  | nil => rfl
  | cons a l ih =>
    simp only [fileRecs]
    rw [h a (List.mem_cons_self a l), ih (fun n hn => h n (List.mem_cons_of_mem a hn))]

theorem fileRecs_delete (pages : Int → Option Page) (p : Int) (pg : Page) (c : Nat)
    (hpg : pages p = some pg) (hnum : ∀ n pg, pages n = some pg → pg.pageNo = n)
    (l : List Int) :
    fileRecs (fun m => if m = p then some { pg with slots := pg.slots.set c none } else pages m) l
      = (fileRecs pages l).filter (fun y => decide (y.1 ≠ ⟨p, (c : Int)⟩)) := by
  induction l with
  | nil => rfl
  | cons a l ih =>
    simp only [fileRecs, List.filter_append]
    rw [ih]
    congr 1
    by_cases ha : a = p
    · rw [if_pos ha, ha, hpg]
      simp only []
      rw [liveFrom_set_none, hnum p pg hpg, zero_add]
    · rw [if_neg ha]
      cases hq : pages a with
      | none => rfl
      | some pga =>
        simp only []
        symm
        apply List.filter_eq_self.mpr
        intro y hy
        obtain ⟨rid, r⟩ := y
        obtain ⟨hpn, _⟩ := (liveFrom_mem pga.pageNo pga.slots 0 rid r).mp hy
        simp only [ne_eq, decide_eq_true_eq]
        intro e
        have e2 := congrArg RID.pageNo e
        simp only [] at e2
        rw [hpn, hnum a pga hq] at e2
        exact ha e2

theorem delete_step (m : Record → Bool) (w : World) (s : HeapFileScan) (rid : RID)
    (L : List (RID × Record)) (hinv : ScanInv m w s L) (hc : s.curPage = some s.curPageNo)
    (hnum : ∀ n pg, w.pages n = some pg → pg.pageNo = n) (hcur : s.curRec = rid)
    (hlive : ∃ pg r, w.deref s.curPage = some pg ∧ rid.pageNo = pg.pageNo ∧
      pg.slot rid.slotNo = some r) :
    ∃ w2 s2, Temp.deleteRecord w s = Res.ret (Status.OK, w2, s2) ∧ DeleteInv m w2 s2 L ∧
      w2.hdr.recCnt = w.hdr.recCnt - 1 ∧ w2.hdr.firstPage = w.hdr.firstPage ∧
      w2.hdrPageNo = w.hdrPageNo ∧
      (∀ q l, IsChain w.pages q l → IsChain w2.pages q l) ∧
      (∀ n, (w2.pages n).isSome = (w.pages n).isSome) ∧
      ∀ l, fileRecs w2.pages l = (fileRecs w.pages l).filter (fun y => decide (y.1 ≠ rid)) := by
  obtain ⟨p, pg, rest, hs, hp, hpg, hch, hm, hpn, hnn, hL⟩ := hinv
  obtain ⟨pg', r, hd, hrp, hslot⟩ := hlive
  rw [hp] at hd
  have hpg' : pg' = pg := by
    have : w.pages p = some pg' := hd
    rw [hpg] at this
    exact (Option.some.inj this).symm
  subst hpg'
  have hpp : pg'.pageNo = p := hnum p pg' hpg
  have hpcur : p = s.curPageNo := by
    rw [hp] at hc
    exact Option.some.inj hc
  have hslot0 : ¬ rid.slotNo < 0 := by
    intro hneg
    unfold Page.slot at hslot
    rw [if_pos hneg] at hslot
    cases hslot
  have hrid : rid = ⟨p, ((rid.slotNo.toNat : Nat) : Int)⟩ := by
    cases rid with
    | mk a b =>
      simp only [] at hrp hslot0 ⊢
      rw [hrp, hpp, Int.toNat_of_nonneg (not_lt.mp hslot0)]
  have hdel : pg'.deleteRecord s.curRec =
      (Status.OK, { pg' with slots := pg'.slots.set rid.slotNo.toNat none }) := by
    unfold Page.deleteRecord
    rw [hcur, hslot]
  have hres : Temp.deleteRecord w s = Res.ret (Status.OK,
      (w.setPage p { pg' with slots := pg'.slots.set rid.slotNo.toNat none }).decRecCnt,
      { s with curDirtyFlag := true, hdrDirtyFlag := true }) := by
    unfold Temp.deleteRecord
    rw [hp]
    simp only []
    rw [hpg]
    simp only [hdel]
    rw [if_neg (fun hne => hne rfl)]
  have hpages : ((w.setPage p { pg' with slots := pg'.slots.set rid.slotNo.toNat none }).decRecCnt).pages
      = fun n => if n = p then some { pg' with slots := pg'.slots.set rid.slotNo.toNat none }
          else w.pages n := rfl
  have hnotin : p ∉ rest := by
    have hchain : IsChain w.pages p (p :: rest) := by
      simp only [IsChain, hpg]
      refine ⟨trivial, ?_, hch⟩
      rw [hpcur]
      intro e
      rw [e] at hpn
      exact absurd hpn (by decide)
    exact (List.nodup_cons.mp (isChain_nodup _ _ _ hchain)).1
  refine ⟨_, _, hres, ⟨⟨p, { pg' with slots := pg'.slots.set rid.slotNo.toNat none }, rest,
    hs, hp, ?_, ?_, fun r => hm r, hpn, hnn, ?_⟩, hc, ?_⟩, ?_, rfl, rfl, ?_, ?_, ?_⟩
  · rw [hpages]
    simp
  · rw [hpages]
    exact isChain_setPage w.pages p pg'
      { pg' with slots := pg'.slots.set rid.slotNo.toNat none } hpg rfl rest _ hch
  · rw [← hL, hpages]
    congr 1
    have e1 : fileRecs (fun n => if n = p then
        some { pg' with slots := pg'.slots.set rid.slotNo.toNat none } else w.pages n) rest
        = fileRecs w.pages rest := by
      apply fileRecs_congr
      intro n hn
      rw [if_neg]
      intro e
      rw [e] at hn
      exact hnotin hn
    rw [e1]
    congr 1
    unfold remOnPage
    simp only []
    have e2 : (s.curRec.slotNo + 1).toNat = rid.slotNo.toNat + 1 := by
      rw [hcur]
      omega
    rw [e2, List.drop_set_of_lt]
    omega
  · intro n pgn hn
    rw [hpages] at hn
    simp only [] at hn
    split_ifs at hn with he
    · cases hn
      rw [he]
      exact hpp
    · exact hnum n pgn hn
  · simp only [World.decRecCnt_recCnt, World.setPage_hdr]
  · intro q l hq
    rw [hpages]
    exact isChain_setPage w.pages p pg'
      { pg' with slots := pg'.slots.set rid.slotNo.toNat none } hpg rfl l q hq
  · intro n
    rw [hpages]
    simp only []
    split_ifs with he
    · rw [he, hpg]
      rfl
    · rfl
  · intro l
    rw [hpages, hrid]
    exact fileRecs_delete w.pages p pg' rid.slotNo.toNat hpg hnum l

theorem deleted_nil (w w2 : World) (hp : w2.pages = w.pages) (hh : w2.hdr = w.hdr)
    (hn : w2.hdrPageNo = w.hdrPageNo) (hs : w2.script = [])
    (hnum : ∀ n pg, w.pages n = some pg → pg.pageNo = n) : Deleted w [] w2 := by
  refine ⟨hs, ?_, ?_, hn, ?_, ?_, ?_, ?_⟩
  · rw [hh]
    simp
  · rw [hh]
  · rw [hp]
    exact hnum
  · intro q l h
    rw [hp]
    exact h
  · intro n
    rw [hp]
  · intro l
    rw [hp]
    simp

theorem deleted_cons (w wa w2 w3 : World) (y : RID × Record) (tl : List (RID × Record))
    (hp : wa.pages = w.pages) (hh : wa.hdr = w.hdr) (hn : wa.hdrPageNo = w.hdrPageNo)
    (h1 : w2.hdr.recCnt = wa.hdr.recCnt - 1) (h2 : w2.hdr.firstPage = wa.hdr.firstPage)
    (h3 : w2.hdrPageNo = wa.hdrPageNo)
    (h4 : ∀ q l, IsChain wa.pages q l → IsChain w2.pages q l)
    (h5 : ∀ n, (w2.pages n).isSome = (wa.pages n).isSome)
    (h6 : ∀ l, fileRecs w2.pages l =
      (fileRecs wa.pages l).filter (fun z => decide (z.1 ≠ y.1)))
    (hd : Deleted w2 tl w3) : Deleted w (y :: tl) w3 := by
  obtain ⟨d1, d2, d3, d4, d5, d6, d7, d8⟩ := hd
  refine ⟨d1, ?_, ?_, ?_, d5, ?_, ?_, ?_⟩
  · rw [d2, h1, hh]
    simp only [List.length_cons, Nat.cast_add, Nat.cast_one]
    ring
  · rw [d3, h2, hh]
  · rw [d4, h3, hn]
  · intro q l h
    apply d6
    apply h4
    rw [hp]
    exact h
  · intro n
    rw [d7, h5, hp]
  · intro l
    rw [d8, h6, hp, List.filter_filter]
    congr 1
    funext z
    simp only [List.map_cons, List.mem_cons, not_or, ne_eq, Bool.decide_and, Bool.and_comm]

theorem deleteLoop_spec (m : Record → Bool) (L : List (RID × Record)) :
    ∀ (w : World) (s : HeapFileScan) (rid : RID) (cnt : Int), DeleteInv m w s L →
      ∃ F N x, (∀ fuel n, F ≤ fuel → N ≤ n →
          Stage6.QU_Delete.loop (fun w s r => Temp.scanNext w s r fuel) Temp.deleteRecord n
            w s rid cnt = Res.ret x) ∧
        x.1 = Status.FILEEOF ∧ x.2.2.2.2 = cnt + L.length ∧ Deleted w L x.2.1 := by
  induction L with
  | nil =>
    intro w s rid cnt hinv
    obtain ⟨hsi, hc, hnum⟩ := hinv
    obtain ⟨p, pg, rest, hs, hp, hpg, hch, hm, hpn, hnn, hL⟩ := hsi
    obtain ⟨F, x, hF, hres⟩ := scanLoop_spec m rest w s p pg rid NULLRID hs hp hpg hch hm hpn hnn
    rw [hL] at hres
    obtain ⟨hx1, hx2⟩ := hres
    obtain ⟨f1, f2, f3, f4⟩ := Temp.scanLoop_file F w s rid NULLRID x (hF F (le_refl F))
    refine ⟨F, 1, (x.1, x.2.2.1, x.2.2.2, x.2.1, cnt), ?_, hx1, by simp,
      deleted_nil w x.2.2.1 f1 f2 f3 (f4 hs) hnum⟩
    intro fuel n hf hn
    obtain ⟨n', rfl⟩ := Nat.exists_eq_succ_of_ne_zero (Nat.one_le_iff_ne_zero.mp hn)
    unfold Stage6.QU_Delete.loop
    rw [scanNext_pinned w s rid fuel p hpn hp, hF fuel hf]
    simp only []
    rw [if_neg (by rw [hx1]; decide)]
  | cons y tl ih =>
    intro w s rid cnt hinv
    obtain ⟨hsi, hc, hnum⟩ := hinv
    obtain ⟨p, pg, rest, hs, hp, hpg, hch, hm, hpn, hnn, hL⟩ := hsi
    obtain ⟨F, x, hF, hres⟩ := scanLoop_spec m rest w s p pg rid NULLRID hs hp hpg hch hm hpn hnn
    rw [hL] at hres
    obtain ⟨hx1, hx2, hx3⟩ := hres
    have hrun := hF F (le_refl F)
    obtain ⟨f1, f2, f3, f4⟩ := Temp.scanLoop_file F w s rid NULLRID x hrun
    obtain ⟨c1, c2⟩ := Temp.scanLoop_cursor F w s rid NULLRID x hrun hx1
    have hk := scanLoop_keeps_temp F w s rid NULLRID x hs hc hrun hx1
    have hnum2 : ∀ n pg, x.2.2.1.pages n = some pg → pg.pageNo = n := by
      rw [f1]
      exact hnum
    obtain ⟨w2, s2, hdel, hinv2, g1, g2, g3, g4, g5, g6⟩ :=
      delete_step m x.2.2.1 x.2.2.2 x.2.1 tl hx3 hk.2.2.2.1 hnum2 c1 c2
    obtain ⟨F2, N2, x2, hF2, hy1, hy2, hy3⟩ := ih w2 s2 x.2.1 (cnt + 1) hinv2
    refine ⟨max F F2, N2 + 1, x2, ?_, hy1, ?_, ?_⟩
    · intro fuel n hf hn
      obtain ⟨n', rfl⟩ := Nat.exists_eq_succ_of_ne_zero (by omega : n ≠ 0)
      unfold Stage6.QU_Delete.loop
      rw [scanNext_pinned w s rid fuel p hpn hp, hF fuel (le_trans (le_max_left _ _) hf)]
      simp only []
      rw [if_pos hx1, hdel]
      simp only []
      rw [if_neg (fun hne => hne rfl)]
      exact hF2 fuel n' (le_trans (le_max_right _ _) hf) (by omega)
    · rw [hy2]
      simp only [List.length_cons, Nat.cast_add, Nat.cast_one]
      ring
    · rw [hx2] at g6
      exact deleted_cons w x.2.2.1 w2 x2.2.1 y tl f1 f2 f3 g1 g2 g3 g4 g5 g6 hy3

theorem getFirstPage_hdr (w : World) (n : Int) : (getFirstPage w n).2.2.hdr = w.hdr := by
  unfold getFirstPage
  split_ifs <;> rfl

theorem heapFileCtor_hdr (w : World) (raw : HeapFile) : (heapFileCtor w raw).2.1.hdr = w.hdr := by
  have e1 : (openFile w).2.hdr = w.hdr := rfl
  have e2 : ∀ v : World, (closeFile v).2.hdr = v.hdr := fun _ => rfl
  unfold heapFileCtor
  simp only []
  split_ifs
  · exact e1
  · rw [e2, getFirstPage_hdr, e1]
  · rw [e2, readPage_hdr, getFirstPage_hdr, e1]
  · rw [e2, unPinPage_hdr, readPage_hdr, readPage_hdr, getFirstPage_hdr, e1]
  · rw [readPage_hdr, readPage_hdr, getFirstPage_hdr, e1]

theorem fresh_scan_inv (w : World) (raw : HeapFileScan) (w0 : World) (s0 s : HeapFileScan)
    (l : List Int) (offset length : Int) (type : Datatype) (filter : Option (List Nat))
    (op : Operator) (hscript : w.script = []) (hchain : IsChain w.pages w.hdr.firstPage l)
    (hnn : ∀ n ∈ l, (0 : Int) ≤ n)
    (hctor : Temp.HeapFileScan.ctor w raw = (Status.OK, w0, s0))
    (hstart : Temp.startScan s0 offset length type filter op = (Status.OK, s)) :
    w0.pages = w.pages ∧ w0.script = [] ∧ w0.hdr = w.hdr ∧ s.curPage = some s.curPageNo ∧
      ((l = [] ∧ s.curPageNo < 0) ∨
        ScanInv (Temp.matchRec s) w0 s
          ((fileRecs w.pages l).filter (fun y => Temp.matchRec s y.2))) := by
  have hc : heapFileCtor w raw.toHeapFile = (Status.OK, w0, s0.toHeapFile) := by
    simp only [Temp.HeapFileScan.ctor, Temp.HeapFile.ctor, Prod.mk.injEq] at hctor
    obtain ⟨c1, c2, c3⟩ := hctor
    rw [← c3]
    exact Prod.ext c1 (Prod.ext c2 rfl)
  obtain ⟨k1, k2, k3, k4, k5⟩ := heapFileCtor_ok w raw.toHeapFile w0 s0.toHeapFile hscript hc
  have k6 : w0.hdr = w.hdr := by
    have := heapFileCtor_hdr w raw.toHeapFile
    rw [hc] at this
    exact this
  have hsh : s.toHeapFile = s0.toHeapFile := by
    have := startScan_toHeapFile s0 offset length type filter op
    rw [hstart] at this
    exact this
  have j1 : s.curPage = some w.hdr.firstPage := by
    show s.toHeapFile.curPage = _
    rw [hsh]
    exact k1
  have j2 : s.curPageNo = w.hdr.firstPage := by
    show s.toHeapFile.curPageNo = _
    rw [hsh]
    exact k2
  have j3 : s.curRec = NULLRID := by
    show s.toHeapFile.curRec = _
    rw [hsh]
    exact k3
  refine ⟨k4, k5, k6, by rw [j1, j2], ?_⟩
  cases l with
  | nil =>
    left
    have hfp : w.hdr.firstPage = -1 := hchain
    refine ⟨rfl, ?_⟩
    rw [j2, hfp]
    decide
  | cons p rest =>
    right
    simp only [IsChain] at hchain
    obtain ⟨h1, h2, h3⟩ := hchain
    cases hpg : w.pages w.hdr.firstPage with
    | none =>
      rw [hpg] at h3
      exact h3.elim
    | some pg =>
      rw [hpg] at h3
      simp only [] at h3
      rw [h1] at j1 j2 hpg
      refine ⟨p, pg, rest, k5, j1, by rw [k4]; exact hpg, by rw [k4]; exact h3,
        fun _ => rfl, by rw [j2]; exact hnn p (List.mem_cons_self _ _),
        fun n hn => hnn n (List.mem_cons_of_mem _ hn), ?_⟩
      rw [j3, k4]
      simp only [fileRecs, hpg]
      rfl

theorem fresh_scan_calls (w : World) (raw : HeapFileScan) (w0 : World) (s0 s : HeapFileScan)
    (l : List Int) (offset length : Int) (type : Datatype) (filter : Option (List Nat))
    (op : Operator) (outRid : RID) (hscript : w.script = [])
    (hchain : IsChain w.pages w.hdr.firstPage l) (hnn : ∀ n ∈ l, (0 : Int) ≤ n)
    (hctor : Temp.HeapFileScan.ctor w raw = (Status.OK, w0, s0))
    (hstart : Temp.startScan s0 offset length type filter op = (Status.OK, s)) :
    ∃ F r, ∀ fuel, F ≤ fuel →
      Temp.scanCalls fuel w0 s outRid ((matchingRids (Temp.matchRec s) w.pages l).length + 1) =
        Res.ret ((matchingRids (Temp.matchRec s) w.pages l).map (fun rid => (Status.OK, rid))
          ++ [(Status.FILEEOF, r)]) := by
  obtain ⟨_, _, _, _, h⟩ := fresh_scan_inv w raw w0 s0 s l offset length type filter op hscript
    hchain hnn hctor hstart
  rcases h with ⟨rfl, hlt⟩ | hinv
  · refine ⟨0, outRid, fun fuel _ => ?_⟩
    simp only [matchingRids, fileRecs, List.filter_nil, List.map_nil, List.length_nil,
      List.nil_append, Temp.scanCalls, Temp.scanNext, if_pos hlt]
  · obtain ⟨F, r, hF⟩ := scanCalls_spec (Temp.matchRec s) _ w0 s outRid hinv
    refine ⟨F, r, fun fuel hf => ?_⟩
    have := hF fuel hf
    simp only [matchingRids, List.length_map, List.map_map]
    exact this

theorem filter_not_matching (m : Record → Bool) (G : List (RID × Record))
    (hnd : (G.map Prod.fst).Nodup) :
    G.filter (fun y => decide (y.1 ∉ (G.filter (fun z => m z.2)).map Prod.fst)) =
      G.filter (fun y => !m y.2) := by
  apply List.filter_congr
  intro y hy
  cases hm : m y.2 with
  | true =>
    simp only [Bool.not_true, decide_eq_false_iff_not, not_not, List.mem_map, List.mem_filter]
    exact ⟨y, ⟨hy, hm⟩, rfl⟩
  | false =>
    simp only [Bool.not_false, decide_eq_true_eq, List.mem_map, List.mem_filter, not_exists,
      not_and, and_imp]
    intro z hz hmz e
    have := List.inj_on_of_nodup_map hnd hz hy e
    rw [this, hm] at hmz
    cases hmz

/-- C13. Temp/heapfile_temp_1.cpp with the loop of `QU_Delete`, on a file
whose chain from `firstPage` is `l` (page numbers non-negative, every page
knowing its own number) and with no failure injected: run on a freshly
constructed scan whose `startScan` was accepted, the loop returns, given
enough fuel, with `FILEEOF` (which `QU_Delete` reports as `OK`); it has
counted and deleted exactly the live records `matchRec` accepts, `recCnt`
is down by their number, the chain is intact, and the live records left
are the records `matchRec` rejects, unchanged and in place; a new scan
without filter then answers with exactly their identifiers and
`FILEEOF`. -/
theorem delete_during_scan (w : World) (raw : HeapFileScan) (w0 : World) (s0 s : HeapFileScan)
    (l : List Int) (offset length : Int) (type : Datatype) (filter : Option (List Nat))
    (op : Operator) (rid : RID) (hscript : w.script = [])
    (hchain : IsChain w.pages w.hdr.firstPage l) (hnn : ∀ n ∈ l, (0 : Int) ≤ n)
    (hnum : ∀ n pg, w.pages n = some pg → pg.pageNo = n)
    (hctor : Temp.HeapFileScan.ctor w raw = (Status.OK, w0, s0))
    (hstart : Temp.startScan s0 offset length type filter op = (Status.OK, s)) :
    ∃ F N x,
      (∀ fuel n, F ≤ fuel → N ≤ n →
        Stage6.QU_Delete.loop (fun w s r => Temp.scanNext w s r fuel) Temp.deleteRecord n
          w0 s rid 0 = Res.ret x) ∧
      x.1 = Status.FILEEOF ∧ Stage6.QU_Delete.status x.1 = Status.OK ∧
      x.2.2.2.2 = (matchingRids (Temp.matchRec s) w.pages l).length ∧
      x.2.1.hdr.recCnt = w.hdr.recCnt - (matchingRids (Temp.matchRec s) w.pages l).length ∧
      IsChain x.2.1.pages x.2.1.hdr.firstPage l ∧
      fileRecs x.2.1.pages l = (fileRecs w.pages l).filter (fun y => !Temp.matchRec s y.2) ∧
      ∀ (raw2 : HeapFileScan) (w2 : World) (s2 s3 : HeapFileScan) (offset2 length2 : Int)
        (type2 : Datatype) (op2 : Operator) (outRid : RID),
        Temp.HeapFileScan.ctor x.2.1 raw2 = (Status.OK, w2, s2) →
        Temp.startScan s2 offset2 length2 type2 none op2 = (Status.OK, s3) →
        ∃ F2 r, ∀ fuel, F2 ≤ fuel →
          Temp.scanCalls fuel w2 s3 outRid
              ((matchingRids (fun r => !Temp.matchRec s r) w.pages l).length + 1) =
            Res.ret ((matchingRids (fun r => !Temp.matchRec s r) w.pages l).map
              (fun rid => (Status.OK, rid)) ++ [(Status.FILEEOF, r)]) := by
  obtain ⟨k4, k5, k6, hcons, hcase⟩ := fresh_scan_inv w raw w0 s0 s l offset length type filter
    op hscript hchain hnn hctor hstart
  have hnum0 : ∀ n pg, w0.pages n = some pg → pg.pageNo = n := by
    rw [k4]
    exact hnum
  have hnd : ((fileRecs w.pages l).map Prod.fst).Nodup :=
    fileRecs_nodup w.pages l (fun n _ pg h => hnum n pg h) (isChain_nodup _ _ _ hchain)
  have key : ∃ F N x,
      (∀ fuel n, F ≤ fuel → N ≤ n →
        Stage6.QU_Delete.loop (fun w s r => Temp.scanNext w s r fuel) Temp.deleteRecord n
          w0 s rid 0 = Res.ret x) ∧
      x.1 = Status.FILEEOF ∧
      x.2.2.2.2 = (0 : Int) + ((fileRecs w.pages l).filter
        (fun y => Temp.matchRec s y.2)).length ∧
      Deleted w0 ((fileRecs w.pages l).filter (fun y => Temp.matchRec s y.2)) x.2.1 := by
    rcases hcase with ⟨rfl, hlt⟩ | hinv
    · refine ⟨0, 1, (Status.FILEEOF, w0, s, rid, 0), ?_, rfl, rfl,
        deleted_nil w0 w0 rfl rfl rfl k5 hnum0⟩
      intro fuel n _ hn
      obtain ⟨n', rfl⟩ := Nat.exists_eq_succ_of_ne_zero (Nat.one_le_iff_ne_zero.mp hn)
      unfold Stage6.QU_Delete.loop
      simp only [Temp.scanNext, if_pos hlt]
      rw [if_neg (by decide)]
    · exact deleteLoop_spec (Temp.matchRec s) _ w0 s rid 0 ⟨hinv, hcons, hnum0⟩
  obtain ⟨F, N, x, hrun, hx1, hx2, d1, d2, d3, d4, d5, d6, d7, d8⟩ := key
  have hrecs : fileRecs x.2.1.pages l =
      (fileRecs w.pages l).filter (fun y => !Temp.matchRec s y.2) := by
    rw [d8 l, k4]
    exact filter_not_matching (Temp.matchRec s) _ hnd
  have hch2 : IsChain x.2.1.pages x.2.1.hdr.firstPage l := by
    rw [d3, k6]
    apply d6
    rw [k4]
    exact hchain
  refine ⟨F, N, x, hrun, hx1, ?_, ?_, ?_, hch2, hrecs, ?_⟩
  · rw [hx1]
    rfl
  · rw [hx2, zero_add]
    simp only [matchingRids, List.length_map]
  · rw [d2, k6]
    simp only [matchingRids, List.length_map]
  · intro raw2 w2 s2 s3 offset2 length2 type2 op2 outRid hctor2 hstart2
    obtain ⟨F2, r, hF2⟩ := fresh_scan_calls x.2.1 raw2 w2 s2 s3 l offset2 length2 type2 none op2
      outRid d1 hch2 hnn hctor2 hstart2
    have hfil : s3.filter = none := by
      simp only [Temp.startScan, Prod.mk.injEq] at hstart2
      rw [← hstart2.2]
    have hall : matchingRids (Temp.matchRec s3) x.2.1.pages l =
        matchingRids (fun r => !Temp.matchRec s r) w.pages l := by
      unfold matchingRids
      rw [hrecs, List.filter_filter]
      congr 1
      apply List.filter_congr
      intro y _
      rw [(matchRec_no_filter s3 y.2 hfil).2]
      simp
    rw [hall] at hF2
    exact ⟨F2, r, hF2⟩

theorem fiveIntWorld_numbered_all :
    ∀ n pg, fiveIntWorld.pages n = some pg → pg.pageNo = n := by
  intro n pg h
  unfold fiveIntWorld at h
  simp only [] at h
  split_ifs at h with h1 h2 h3
  · cases h
    exact h1.symm
  · cases h
    exact h2.symm
  · cases h
    exact h3.symm

theorem delete_during_scan_witness :
    (∃ x, Stage6.QU_Delete.loop (fun w s r => Temp.scanNext w s r 8) Temp.deleteRecord 5
          (Temp.HeapFileScan.ctor fiveIntWorld rawScan).2.1
          (Temp.startScan (Temp.HeapFileScan.ctor fiveIntWorld rawScan).2.2 0 4
            Datatype.INTEGER (some (encodeInt 2)) Operator.GT).2 NULLRID 0 = Res.ret x ∧
        x.1 = Status.FILEEOF ∧ x.2.2.2.2 = 3 ∧ fiveIntWorld.hdr.recCnt = 5 ∧
        x.2.1.hdr.recCnt = 2 ∧
        fileRecs x.2.1.pages [1, 2, 3] =
          [(⟨1, 0⟩, ⟨encodeInt 1, 4⟩), (⟨1, 1⟩, ⟨encodeInt 2, 4⟩)]) ∧
    ∃ F N x,
      (∀ fuel n, F ≤ fuel → N ≤ n →
        Stage6.QU_Delete.loop (fun w s r => Temp.scanNext w s r fuel) Temp.deleteRecord n
          (Temp.HeapFileScan.ctor fiveIntWorld rawScan).2.1
          (Temp.startScan (Temp.HeapFileScan.ctor fiveIntWorld rawScan).2.2 0 4
            Datatype.INTEGER (some (encodeInt 2)) Operator.GT).2 NULLRID 0 = Res.ret x) ∧
      x.1 = Status.FILEEOF ∧ Stage6.QU_Delete.status x.1 = Status.OK ∧
      x.2.1.hdr.recCnt = fiveIntWorld.hdr.recCnt -
        (matchingRids (Temp.matchRec (Temp.startScan
          (Temp.HeapFileScan.ctor fiveIntWorld rawScan).2.2 0 4
            Datatype.INTEGER (some (encodeInt 2)) Operator.GT).2) fiveIntWorld.pages
          [1, 2, 3]).length :=
  ⟨⟨_, rfl, rfl, rfl, rfl, rfl, by decide⟩,
    (delete_during_scan fiveIntWorld rawScan _ _ _ [1, 2, 3] 0 4 Datatype.INTEGER
      (some (encodeInt 2)) Operator.GT NULLRID rfl (by decide) (by decide)
      fiveIntWorld_numbered_all rfl rfl).imp
      (fun _ hF => hF.imp (fun _ hN => hN.imp
        (fun _ h => ⟨h.1, h.2.1, h.2.2.1, h.2.2.2.2.1⟩)))⟩

/-! ## `scanNext` of Stage4 on a record that does not match -/

theorem scanLoop_spins_stage4 (w : World) (s : HeapFileScan) (pg : Page) (r : RID) (rec : Record)
    (hd : w.deref s.curPage = some pg)
    (hn : ∀ nextRid, pg.nextRecord s.curRec nextRid = (Status.OK, r))
    (hg : pg.getRecord r ⟨[], 0⟩ = (Status.OK, rec)) (hm : Stage4.matchRec s rec = false) :
    ∀ (fuel : Nat) (outRid nextRid : RID),
      Stage4.scanLoop w s outRid nextRid fuel = Res.timeout := by
  intro fuel
  induction fuel with
  | zero => intro outRid nextRid; rfl
  | succ k ih =>
    intro outRid nextRid
    rw [Stage4.scanLoop]
    simp only [hd, hn, hg, hm]
    simp only [reduceCtorEq, if_false, if_true, and_false, Bool.false_eq_true]
    exact ih outRid r

/-- C21, evaluation at the failing input.  The file holds the integers 1, 2,
3 on page 1 and 4, 5 on page 3; the scan has page 1 pinned and the filter
"greater than 2".  With no record behind it (`curRec = NULLRID`), `scanNext`
of Stage4/heapfile.C fetches the record in slot 0, which does not match, and
starts the next iteration with `curRec` as it was, so `nextRecord(curRec)`
yields slot 0 again: no amount of fuel makes it return.  With the cursor on
slot 0 it is the record in slot 1 that is fetched again and again.
`scanNext` of Temp/heapfile_temp_1.cpp, which sets `curRec = nextRid`
before it fetches, returns `OK` with the record in slot 3 of page 1 on both
inputs. -/
theorem stage4_scanNext_spins :
    (∀ fuel, Stage4.scanNext fiveIntWorld (intScan 2 Operator.GT) NULLRID fuel = Res.timeout) ∧
    scanObs (Temp.scanNext fiveIntWorld (intScan 2 Operator.GT) NULLRID 3) =
      Res.ret (Status.OK, ⟨1, 3⟩) ∧
    (∀ fuel, Stage4.scanNext fiveIntWorld { intScan 2 Operator.GT with curRec := ⟨1, 0⟩ }
      NULLRID fuel = Res.timeout) ∧
    scanObs (Temp.scanNext fiveIntWorld { intScan 2 Operator.GT with curRec := ⟨1, 0⟩ }
      NULLRID 2) = Res.ret (Status.OK, ⟨1, 3⟩) :=
  ⟨fun fuel =>
    scanLoop_spins_stage4 fiveIntWorld (intScan 2 Operator.GT)
      ⟨1, 2, [some ⟨encodeInt 1, 4⟩, some ⟨encodeInt 2, 4⟩, none, some ⟨encodeInt 3, 4⟩]⟩ ⟨1, 0⟩
      ⟨encodeInt 1, 4⟩ rfl (fun _ => rfl) rfl (by decide) fuel NULLRID NULLRID, rfl,
    fun fuel =>
    scanLoop_spins_stage4 fiveIntWorld { intScan 2 Operator.GT with curRec := ⟨1, 0⟩ }
      ⟨1, 2, [some ⟨encodeInt 1, 4⟩, some ⟨encodeInt 2, 4⟩, none, some ⟨encodeInt 3, 4⟩]⟩ ⟨1, 1⟩
      ⟨encodeInt 2, 4⟩ rfl (fun _ => rfl) rfl (by decide) fuel NULLRID NULLRID, rfl⟩

/-! ## `deleteRecord` of Stage4 when the page reports a failure -/

/-- C22, evaluation at the failing input.  The scan has page 2 pinned and no
current record (`curRec = NULLRID`), so the page's `deleteRecord` reports
`INVALIDSLOTNO`.  `deleteRecord` of Stage4/heapfile.C returns that status
and has nevertheless taken `recCnt` from 2 to 1 and set both dirty flags;
`deleteRecord` of Temp/heapfile_temp_1.cpp returns it with `recCnt` and the
flags as they were.  In both the cursor stays where it was.  Likewise,
with the cursor on the record in slot 0 of page 2, a first `deleteRecord`
of Stage4 returns `OK` and a second one on the same cursor returns
`INVALIDSLOTNO` and takes `recCnt` from 1 to 0, while the record on page 1
is still in the file. -/
theorem stage4_deleteRecord_counts_failure :
    twoPageWorld.hdr.recCnt = 2 ∧
    (∃ w1 s1, Stage4.deleteRecord twoPageWorld { scanOnPage2 with curRec := NULLRID } =
        Res.ret (Status.INVALIDSLOTNO, w1, s1) ∧
      w1.hdr.recCnt = 1 ∧ s1.curDirtyFlag = true ∧ s1.hdrDirtyFlag = true ∧
      s1.curRec = NULLRID ∧ s1.curPageNo = 2) ∧
    (∃ w1 s1, Temp.deleteRecord twoPageWorld { scanOnPage2 with curRec := NULLRID } =
        Res.ret (Status.INVALIDSLOTNO, w1, s1) ∧
      w1.hdr.recCnt = 2 ∧ s1.curDirtyFlag = false ∧ s1.hdrDirtyFlag = false ∧
      s1.curRec = NULLRID ∧ s1.curPageNo = 2) ∧
    (∃ w1 s1 w2 s2, Stage4.deleteRecord twoPageWorld scanOnPage2 = Res.ret (Status.OK, w1, s1) ∧
      w1.hdr.recCnt = 1 ∧
      Stage4.deleteRecord w1 s1 = Res.ret (Status.INVALIDSLOTNO, w2, s2) ∧
      w2.hdr.recCnt = 0 ∧ fileRecs w2.pages [1, 2] = [(⟨1, 0⟩, recOf 80 7)] ∧
      s2.curRec = ⟨2, 0⟩) :=
  ⟨by decide, ⟨_, _, rfl, by decide, by decide, by decide, by decide, by decide⟩,
    ⟨_, _, rfl, by decide, by decide, by decide, by decide, by decide⟩,
    ⟨_, _, _, _, rfl, by decide, rfl, by decide, by decide, by decide⟩⟩

/-! ## `scanNext` of Temp with no page pinned -/

/-- C24, evaluation at the failing input.  The file has the chain 1 → 2,
page 1 empty and page 2 holding one record; the scan is constructed, has no
filter, and `endScan` has unpinned its page (`curPage` null, `curPageNo`
0).  `scanNext` of Temp/heapfile_temp_1.cpp then pins the first page, finds
it empty, unpins it and returns `FILEEOF` with `curPageNo = -1`, whatever
the fuel, although the record on page 2 matches.  Without the `endScan`
the same call runs the loop, moves on from the empty page and returns `OK`
with that record, `(2, 0)`. -/
theorem temp_scanNext_empty_first_page :
    IsChain emptyFirstWorld.pages emptyFirstWorld.hdr.firstPage [1, 2] ∧
    matchingRids (Temp.matchRec (Temp.HeapFileScan.ctor emptyFirstWorld rawScan).2.2)
      emptyFirstWorld.pages [1, 2] = [⟨2, 0⟩] ∧
    (Temp.HeapFileScan.ctor emptyFirstWorld rawScan).1 = Status.OK ∧
    (Temp.endScan (Temp.HeapFileScan.ctor emptyFirstWorld rawScan).2.1
        (Temp.HeapFileScan.ctor emptyFirstWorld rawScan).2.2).2.2.curPage = none ∧
    (Temp.endScan (Temp.HeapFileScan.ctor emptyFirstWorld rawScan).2.1
        (Temp.HeapFileScan.ctor emptyFirstWorld rawScan).2.2).2.2.curPageNo = 0 ∧
    (∀ fuel, ∃ w1 s1,
      Temp.scanNext
          (Temp.endScan (Temp.HeapFileScan.ctor emptyFirstWorld rawScan).2.1
            (Temp.HeapFileScan.ctor emptyFirstWorld rawScan).2.2).2.1
          (Temp.endScan (Temp.HeapFileScan.ctor emptyFirstWorld rawScan).2.1
            (Temp.HeapFileScan.ctor emptyFirstWorld rawScan).2.2).2.2 NULLRID fuel =
        Res.ret (Status.FILEEOF, NULLRID, w1, s1) ∧ s1.curPageNo = -1 ∧ s1.curPage = none) ∧
    scanObs (Temp.scanNext (Temp.HeapFileScan.ctor emptyFirstWorld rawScan).2.1
        (Temp.HeapFileScan.ctor emptyFirstWorld rawScan).2.2 NULLRID 2) =
      Res.ret (Status.OK, ⟨2, 0⟩) :=
  ⟨by decide, by decide, by decide, by decide, by decide,
    fun _ => ⟨_, _, rfl, by decide, by decide⟩, rfl⟩

/-! ## Dirty flags of `insertRecord` -/

/-- C25, evaluation at the failing input.  The insert object has the tail
page 2 pinned with `curDirtyFlag = false`, as after construction, and the
10-byte record fits on that page.  `insertRecord` of Stage4/heapfile.C
returns `OK` with the identifier `(2, 1)` on the current page and
`hdrDirtyFlag` set, but `curDirtyFlag` is still false although the page has
received the record; `insertRecord` of Temp/heapfile_temp_1.cpp sets both
flags on the same input. -/
theorem stage4_insert_leaves_page_clean :
    insertOnPage2.curDirtyFlag = false ∧
    (∃ w1 s1, Stage4.insertRecord kSmall twoPageWorld insertOnPage2 (recOf 10 5) NULLRID =
        Res.ret (Status.OK, ⟨2, 1⟩, w1, s1) ∧
      s1.curPageNo = 2 ∧ s1.hdrDirtyFlag = true ∧ s1.curDirtyFlag = false ∧
      (w1.pages 2).map (fun pg => pg.slot 1) = some (some (recOf 10 5))) ∧
    (∃ w1 s1, Temp.insertRecord kSmall twoPageWorld insertOnPage2 (recOf 10 5) NULLRID =
        Res.ret (Status.OK, ⟨2, 1⟩, w1, s1) ∧
      s1.curPageNo = 2 ∧ s1.hdrDirtyFlag = true ∧ s1.curDirtyFlag = true) :=
  ⟨by decide, ⟨_, _, rfl, by decide, by decide, by decide, by decide⟩,
    ⟨_, _, rfl, by decide, by decide, by decide⟩⟩

/-- C26, evaluation at the failing input.  The insert object has the tail
page 2 pinned with `curDirtyFlag = false`, as after construction, and the
80-byte record does not fit beside the 10 bytes in use.  In both variants
`insertRecord` allocates page 3, sets the next-page pointer of page 2 to 3,
and then unpins page 2 with `dirty = false`: the calls made are
`allocPage` and `unPinPage(2, false)`. -/
theorem insert_unpins_linked_page_clean :
    insertOnPage2.curDirtyFlag = false ∧
    (∃ w1 s1, Stage4.insertRecord kSmall twoPageWorld insertOnPage2 (recOf 80 5) NULLRID =
        Res.ret (Status.OK, ⟨3, 0⟩, w1, s1) ∧
      (w1.pages 2).map Page.nextPage = some 3 ∧
      w1.calls = [Call.unPinPage 2 false Status.OK, Call.allocPage 3 Status.OK]) ∧
    (∃ w1 s1, Temp.insertRecord kSmall twoPageWorld insertOnPage2 (recOf 80 5) NULLRID =
        Res.ret (Status.OK, ⟨3, 0⟩, w1, s1) ∧
      (w1.pages 2).map Page.nextPage = some 3 ∧
      w1.calls = [Call.unPinPage 2 false Status.OK, Call.allocPage 3 Status.OK]) :=
  ⟨by decide, ⟨_, _, rfl, by decide, by decide⟩, ⟨_, _, rfl, by decide, by decide⟩⟩


/-! ## Pins taken and released by the constructors -/

theorem pinned_openFile (st : Status) (cs : List Call) (n : Int) :
    pinned (Call.openFile st :: cs) n = pinned cs n := by
  simp [pinned, pinCalls, unpinCalls, List.filter_cons]

theorem pinned_closeFile (st : Status) (cs : List Call) (n : Int) :
    pinned (Call.closeFile st :: cs) n = pinned cs n := by
  simp [pinned, pinCalls, unpinCalls, List.filter_cons]

theorem pinned_getFirstPage (st : Status) (cs : List Call) (n : Int) :
    pinned (Call.getFirstPage st :: cs) n = pinned cs n := by
  simp [pinned, pinCalls, unpinCalls, List.filter_cons]

theorem pinned_readPage_failed (q : Int) (st : Status) (cs : List Call) (n : Int)
    (h : st ≠ Status.OK) : pinned (Call.readPage q st :: cs) n = pinned cs n := by
  cases st <;> first
    | exact absurd rfl h
    | simp [pinned, pinCalls, unpinCalls, List.filter_cons]

theorem openFile_pinned (w : World) (n : Int) :
    pinned (openFile w).2.calls n = pinned w.calls n := pinned_openFile _ _ _

theorem closeFile_pinned (w : World) (n : Int) :
    pinned (closeFile w).2.calls n = pinned w.calls n := pinned_closeFile _ _ _

theorem getFirstPage_pinned (w : World) (p n : Int) :
    pinned (getFirstPage w p).2.2.calls n = pinned w.calls n := by
  unfold getFirstPage
  split_ifs <;> exact pinned_getFirstPage _ _ _

theorem unPinPage_pinned (w : World) (p : Int) (d : Bool) (n : Int) :
    pinned (unPinPage w p d).2.calls n = pinned w.calls n - (if p = n then 1 else 0) :=
  pinned_unPinPage _ _ _ _ _

theorem readPage_pinned_ok (w : World) (p : Int) (ptr : Option Int) (n : Int)
    (h : (readPage w p ptr).1 = Status.OK) :
    pinned (readPage w p ptr).2.2.calls n = pinned w.calls n + (if p = n then 1 else 0) := by
  by_cases h1 : w.nextStatus = Status.OK
  · by_cases h2 : p = w.hdrPageNo ∨ (w.pages p).isSome
    · simp only [readPage, if_pos h1, if_pos h2]
      exact pinned_readPage _ _ _
    · simp only [readPage, if_pos h1, if_neg h2] at h
      exact Status.noConfusion h
  · simp only [readPage, if_neg h1] at h
    exact absurd h h1

theorem readPage_pinned_failed (w : World) (p : Int) (ptr : Option Int) (n : Int)
    (h : (readPage w p ptr).1 ≠ Status.OK) :
    pinned (readPage w p ptr).2.2.calls n = pinned w.calls n := by
  unfold readPage at h ⊢
  split_ifs at h ⊢ with h1 h2
  · exact absurd rfl h
  · exact pinned_readPage_failed _ _ _ _ (by decide)
  · exact pinned_readPage_failed _ _ _ _ h1

theorem readPage_failed_ptr (w : World) (p : Int) (ptr : Option Int)
    (h : (readPage w p ptr).1 ≠ Status.OK) : (readPage w p ptr).2.1 = ptr := by
  unfold readPage at h ⊢
  split_ifs at h ⊢ with h1 h2
  · exact absurd rfl h
  · rfl
  · rfl

theorem readPage_hdrPageNo (w : World) (p : Int) (ptr : Option Int) :
    (readPage w p ptr).2.2.hdrPageNo = w.hdrPageNo := by
  unfold readPage
  split_ifs <;> rfl

theorem getFirstPage_ok (w : World) (p : Int) (h : (getFirstPage w p).1 = Status.OK) :
    (getFirstPage w p).2.1 = w.hdrPageNo := by
  unfold getFirstPage at h ⊢
  split_ifs at h ⊢ with h1
  · rfl
  · exact absurd h h1

theorem getFirstPage_hdrPageNo (w : World) (p : Int) :
    (getFirstPage w p).2.2.hdrPageNo = w.hdrPageNo := by
  unfold getFirstPage
  split_ifs <;> rfl


theorem heapFileCtor_failed (w : World) (raw : HeapFile)
    (h : (heapFileCtor w raw).1 ≠ Status.OK) :
    (heapFileCtor w raw).2.2.curPage = raw.curPage ∧
      ∀ n, pinned (heapFileCtor w raw).2.1.calls n = pinned w.calls n := by
  unfold heapFileCtor at h ⊢
  simp only [] at h ⊢
  split_ifs at h ⊢ with h1 h2 h3 h4
  · exact ⟨rfl, fun n => openFile_pinned w n⟩
  · refine ⟨rfl, fun n => ?_⟩
    rw [closeFile_pinned, getFirstPage_pinned, openFile_pinned]
  · refine ⟨rfl, fun n => ?_⟩
    rw [closeFile_pinned, readPage_pinned_failed _ _ _ _ h3, getFirstPage_pinned,
      openFile_pinned]
  · refine ⟨readPage_failed_ptr _ _ _ h4, fun n => ?_⟩
    rw [closeFile_pinned, unPinPage_pinned, readPage_pinned_failed _ _ _ _ h4,
      readPage_pinned_ok _ _ _ _ (not_not.mp h3), getFirstPage_pinned, openFile_pinned]
    simp
  · exact absurd rfl h

theorem heapFileCtor_ok_pins (w : World) (raw : HeapFile)
    (h : (heapFileCtor w raw).1 = Status.OK) :
    (heapFileCtor w raw).2.2.curPage = some w.hdr.firstPage ∧
      (heapFileCtor w raw).2.2.curPageNo = w.hdr.firstPage ∧
      (heapFileCtor w raw).2.2.headerPage = some w.hdrPageNo ∧
      (heapFileCtor w raw).2.2.headerPageNo = w.hdrPageNo ∧
      (heapFileCtor w raw).2.2.curDirtyFlag = false ∧
      (heapFileCtor w raw).2.1.hdrPageNo = w.hdrPageNo ∧
      ∀ n, pinned (heapFileCtor w raw).2.1.calls n =
        pinned w.calls n + (if w.hdrPageNo = n then 1 else 0)
          + (if w.hdr.firstPage = n then 1 else 0) := by
  have e1 : (openFile w).2.hdr = w.hdr := rfl
  have e2 : (openFile w).2.hdrPageNo = w.hdrPageNo := rfl
  unfold heapFileCtor at h ⊢
  simp only [] at h ⊢
  split_ifs at h ⊢ with h1 h2 h3 h4
  · exact absurd h h1
  · exact absurd h h2
  · exact absurd h h3
  · exact absurd h h4
  · have g1 := getFirstPage_ok _ _ (not_not.mp h2)
    have f1 : (readPage (getFirstPage (openFile w).2 raw.headerPageNo).2.2
        (getFirstPage (openFile w).2 raw.headerPageNo).2.1 raw.headerPage).2.2.hdr.firstPage =
        w.hdr.firstPage := by
      rw [readPage_hdr, getFirstPage_hdr, e1]
    refine ⟨?_, ?_, ?_, ?_, rfl, ?_, fun n => ?_⟩
    · rw [readPage_ok _ _ _ (not_not.mp h4), f1]
    · exact f1
    · rw [readPage_ok _ _ _ (not_not.mp h3), g1, e2]
    · rw [g1, e2]
    · rw [readPage_hdrPageNo, readPage_hdrPageNo, getFirstPage_hdrPageNo, e2]
    · rw [readPage_pinned_ok _ _ _ _ (not_not.mp h4), readPage_pinned_ok _ _ _ _ (not_not.mp h3),
        getFirstPage_pinned, openFile_pinned, f1, g1, e2]


/-- `InsertFileScan` construction in Temp/heapfile_temp_1.cpp when the base
constructor has succeeded, or the object starts with a null `curPage`, for
every file and every script of failures: if the constructor reports `OK`,
the current page is the tail page (`curPageNo = headerPage->lastPage`, the
frame pointer being that of this page), the header page is held, and the
pins the constructor has left are one on the header page and one on the
tail page, a pin counting as released once `unPinPage` has been called for
it.  This covers `firstPage = lastPage`, where the page pinned by the base
constructor stays, and `firstPage ≠ lastPage`, where it is unpinned and the
tail page pinned. -/
theorem insertFileScan_ctor_pins_tail (w : World) (raw : HeapFile) (w1 : World) (s1 : HeapFile)
    (hraw : raw.curPage = none ∨ (Temp.HeapFile.ctor w raw).1 = Status.OK)
    (h : Temp.InsertFileScan.ctor w raw = (Status.OK, w1, s1)) :
    s1.curPageNo = w1.hdr.lastPage ∧ s1.curPage = some w1.hdr.lastPage ∧
      s1.headerPageNo = w1.hdrPageNo ∧ s1.headerPage = some w1.hdrPageNo ∧
      w1.hdr = w.hdr ∧ w1.hdrPageNo = w.hdrPageNo ∧
      ∀ n, pinned w1.calls n =
        pinned w.calls n + (if w.hdrPageNo = n then 1 else 0)
          + (if w.hdr.lastPage = n then 1 else 0) := by
  have hh : (heapFileCtor w raw).2.1.hdr = w.hdr := heapFileCtor_hdr w raw
  by_cases hc : (heapFileCtor w raw).1 = Status.OK
  · obtain ⟨c1, c2, c3, c4, _, c6, c7⟩ := heapFileCtor_ok_pins w raw hc
    by_cases hl : w.hdr.firstPage = w.hdr.lastPage
    · have e : Temp.InsertFileScan.ctor w raw = heapFileCtor w raw := by
        unfold Temp.InsertFileScan.ctor Temp.HeapFile.ctor
        simp only []
        rw [if_neg]
        rw [c2, hh]
        exact fun x => x.2 hl
      rw [e] at h
      have hw : (heapFileCtor w raw).2.1 = w1 := by rw [h]
      have hs : (heapFileCtor w raw).2.2 = s1 := by rw [h]
      rw [← hw, ← hs, hh, c6]
      refine ⟨by rw [c2, hl], by rw [c1, hl], c4, c3, rfl, rfl, fun n => ?_⟩
      rw [c7, hl]
    · have hcond : (heapFileCtor w raw).2.2.curPage ≠ none ∧
          (heapFileCtor w raw).2.2.curPageNo ≠ (heapFileCtor w raw).2.1.hdr.lastPage := by
        rw [c1, c2, hh]
        exact ⟨by simp, hl⟩
      unfold Temp.InsertFileScan.ctor Temp.HeapFile.ctor at h
      simp only [] at h
      rw [if_pos hcond] at h
      have hst := congrArg Prod.fst h
      have hw := congrArg (fun x => x.2.1) h
      have hs := congrArg (fun x => x.2.2) h
      simp only [] at hst hw hs
      have hu : (unPinPage (heapFileCtor w raw).2.1 (heapFileCtor w raw).2.2.curPageNo
          (heapFileCtor w raw).2.2.curDirtyFlag).2.hdr = w.hdr := by
        rw [unPinPage_hdr, hh]
      have hp := readPage_ok _ _ _ hst
      rw [← hw, ← hs]
      refine ⟨?_, ?_, ?_, ?_, ?_, ?_, fun n => ?_⟩
      · simp only [readPage_hdr]
      · simp only [readPage_hdr]
        exact hp
      · rw [readPage_hdrPageNo]
        exact c4.trans c6.symm
      · rw [readPage_hdrPageNo]
        exact c3.trans (congrArg some c6.symm)
      · rw [readPage_hdr, hu]
      · rw [readPage_hdrPageNo]
        exact c6
      · rw [readPage_pinned_ok _ _ _ n hst, unPinPage_pinned, c7, hu, c2]
        ring
  · obtain ⟨f1, _⟩ := heapFileCtor_failed w raw hc
    have hraw : raw.curPage = none := by
      rcases hraw with h0 | h0
      · exact h0
      · exact absurd h0 hc
    have e : Temp.InsertFileScan.ctor w raw = heapFileCtor w raw := by
      unfold Temp.InsertFileScan.ctor Temp.HeapFile.ctor
      simp only []
      rw [if_neg]
      rw [f1, hraw]
      exact fun x => x.1 rfl
    rw [e] at h
    exact absurd (congrArg Prod.fst h) hc

theorem insertFileScan_ctor_pins_tail_witness :
    (rawFile.curPage = none ∨ (Temp.HeapFile.ctor twoPageWorld rawFile).1 = Status.OK) ∧
    Temp.InsertFileScan.ctor twoPageWorld rawFile =
      (Status.OK, (Temp.InsertFileScan.ctor twoPageWorld rawFile).2.1,
        (Temp.InsertFileScan.ctor twoPageWorld rawFile).2.2) ∧
    twoPageWorld.hdr.firstPage = 1 ∧ twoPageWorld.hdr.lastPage = 2 ∧
    ((Temp.InsertFileScan.ctor twoPageWorld rawFile).2.2.curPageNo =
        (Temp.InsertFileScan.ctor twoPageWorld rawFile).2.1.hdr.lastPage ∧
      (Temp.InsertFileScan.ctor twoPageWorld rawFile).2.2.curPage =
        some (Temp.InsertFileScan.ctor twoPageWorld rawFile).2.1.hdr.lastPage ∧
      (Temp.InsertFileScan.ctor twoPageWorld rawFile).2.2.headerPageNo =
        (Temp.InsertFileScan.ctor twoPageWorld rawFile).2.1.hdrPageNo ∧
      (Temp.InsertFileScan.ctor twoPageWorld rawFile).2.2.headerPage =
        some (Temp.InsertFileScan.ctor twoPageWorld rawFile).2.1.hdrPageNo ∧
      (Temp.InsertFileScan.ctor twoPageWorld rawFile).2.1.hdr = twoPageWorld.hdr ∧
      (Temp.InsertFileScan.ctor twoPageWorld rawFile).2.1.hdrPageNo = twoPageWorld.hdrPageNo ∧
      ∀ n, pinned (Temp.InsertFileScan.ctor twoPageWorld rawFile).2.1.calls n =
        pinned twoPageWorld.calls n + (if twoPageWorld.hdrPageNo = n then 1 else 0)
          + (if twoPageWorld.hdr.lastPage = n then 1 else 0)) :=
  ⟨Or.inl rfl, rfl, rfl, rfl,
    insertFileScan_ctor_pins_tail twoPageWorld rawFile _ _ (Or.inl rfl) rfl⟩

/-- C23, evaluation at the failing input.  The file has the data pages
1 → 2 with `lastPage = 2`; the read of the first data page, the fourth
external call, fails, and the object lies in memory whose `curPage` member
holds a non-null value `p`.  The base constructor `HeapFile::HeapFile`
unpins the header page, closes the file and reports the failure; it has
not assigned `curPage`.  The body of the `InsertFileScan` constructor of
Temp/heapfile_temp_1.cpp then finds `curPage != NULL` and
`curPageNo != lastPage`, calls `unPinPage` for page 1, which is not pinned,
reads the tail page and overwrites the status with that of the read: the
constructor reports `OK` with `curPageNo = lastPage`, but the header page
is not pinned, the file is closed, and page 1 has one unpin more than
pins.  The constructor of Stage4/heapfile.C, whose body is empty, reports
the failure of the base constructor on the same input. -/
theorem temp_insertFileScan_ctor_masks_base_failure (p : Int) :
    (Temp.HeapFile.ctor firstReadFails (staleFile p)).1 = Status.ERR 1 ∧
    (Temp.HeapFile.ctor firstReadFails (staleFile p)).2.2.curPage = some p ∧
    (Temp.InsertFileScan.ctor firstReadFails (staleFile p)).1 = Status.OK ∧
    (Temp.InsertFileScan.ctor firstReadFails (staleFile p)).2.2.curPageNo =
      (Temp.InsertFileScan.ctor firstReadFails (staleFile p)).2.1.hdr.lastPage ∧
    (Temp.InsertFileScan.ctor firstReadFails (staleFile p)).2.1.calls.reverse =
      [Call.openFile Status.OK, Call.getFirstPage Status.OK, Call.readPage 0 Status.OK,
        Call.readPage 1 (Status.ERR 1), Call.unPinPage 0 false Status.OK,
        Call.closeFile Status.OK, Call.unPinPage 1 false Status.OK,
        Call.readPage 2 Status.OK] ∧
    pinned (Temp.InsertFileScan.ctor firstReadFails (staleFile p)).2.1.calls 0 = 0 ∧
    pinned (Temp.InsertFileScan.ctor firstReadFails (staleFile p)).2.1.calls 1 = -1 ∧
    pinned (Temp.InsertFileScan.ctor firstReadFails (staleFile p)).2.1.calls 2 = 1 ∧
    (Stage4.InsertFileScan.ctor firstReadFails (staleFile p)).1 = Status.ERR 1 :=
  ⟨rfl, rfl, rfl, rfl, rfl, rfl, rfl, rfl, rfl⟩

/-- C27, evaluation at the failing input.  The file has the data pages
1 → 2 with `lastPage = 2`, and the sixth external call, the `readPage` of
the tail page, fails.  The `InsertFileScan` constructor of
Temp/heapfile_temp_1.cpp has by then pinned the header page and the first
page and unpinned the first page; it reports the failure and returns with
the header page still pinned (one pin, no `unPinPage` for page 0, the file
not closed), `curPageNo = 2` and `curPage` still the frame of page 1. -/
theorem temp_insertFileScan_ctor_keeps_header_pinned :
    (Temp.InsertFileScan.ctor tailReadFails rawFile).1 = Status.ERR 1 ∧
    (Temp.InsertFileScan.ctor tailReadFails rawFile).2.1.calls.reverse =
      [Call.openFile Status.OK, Call.getFirstPage Status.OK, Call.readPage 0 Status.OK,
        Call.readPage 1 Status.OK, Call.unPinPage 1 false Status.OK,
        Call.readPage 2 (Status.ERR 1)] ∧
    pinned (Temp.InsertFileScan.ctor tailReadFails rawFile).2.1.calls 0 = 1 ∧
    (Temp.InsertFileScan.ctor tailReadFails rawFile).2.2.headerPage = some 0 ∧
    (Temp.InsertFileScan.ctor tailReadFails rawFile).2.2.curPage = some 1 ∧
    (Temp.InsertFileScan.ctor tailReadFails rawFile).2.2.curPageNo = 2 := by
  refine ⟨?_, ?_, ?_, ?_, ?_, ?_⟩ <;> decide


/-! ## The six operators of `matchRec` on one comparison -/

theorem ofInt_cases (c : Int) :
    Diff.ofInt c = Diff.neg ∨ Diff.ofInt c = Diff.zero ∨ Diff.ofInt c = Diff.pos := by
  unfold Diff.ofInt
  split_ifs <;> simp

theorem opOnDiff_consistent (d : Diff) (h : d = Diff.neg ∨ d = Diff.zero ∨ d = Diff.pos) :
    ((opOnDiff Operator.LT d = true ∧ opOnDiff Operator.EQ d = false ∧
          opOnDiff Operator.GT d = false) ∨
        (opOnDiff Operator.LT d = false ∧ opOnDiff Operator.EQ d = true ∧
          opOnDiff Operator.GT d = false) ∨
        (opOnDiff Operator.LT d = false ∧ opOnDiff Operator.EQ d = false ∧
          opOnDiff Operator.GT d = true)) ∧
      opOnDiff Operator.NE d = (! opOnDiff Operator.EQ d) ∧
      opOnDiff Operator.LTE d = (opOnDiff Operator.LT d || opOnDiff Operator.EQ d) ∧
      opOnDiff Operator.GTE d = (opOnDiff Operator.GT d || opOnDiff Operator.EQ d) := by
  rcases h with h | h | h <;> subst h <;> decide

/-- C28. Operator consistency of `matchRec`, both variants: with an
`INTEGER` or `STRING` filter set and a record that holds the window
(`0 ≤ offset`, `0 ≤ length`, `offset + length ≤ rec.length`, the length an
`int`), the same scan object asked with the six operators in turn answers
as follows: exactly one of `LT`, `EQ`, `GT` matches, `NE` matches exactly
when `EQ` does not, `LTE` exactly when `LT` or `EQ` does, and `GTE` exactly
when `GT` or `EQ` does. -/
theorem matchRec_operator_consistency (s : HeapFileScan) (rec : Record) (f : List Nat)
    (hf : s.filter = some f) (ht : s.type = Datatype.INTEGER ∨ s.type = Datatype.STRING)
    (ho : 0 ≤ s.offset) (hl : 0 ≤ s.length) (hfit : s.offset + s.length ≤ rec.length)
    (hr : rec.length < 2147483648) :
    (((Stage4.matchRec { s with op := Operator.LT } rec = true ∧
          Stage4.matchRec { s with op := Operator.EQ } rec = false ∧
          Stage4.matchRec { s with op := Operator.GT } rec = false) ∨
        (Stage4.matchRec { s with op := Operator.LT } rec = false ∧
          Stage4.matchRec { s with op := Operator.EQ } rec = true ∧
          Stage4.matchRec { s with op := Operator.GT } rec = false) ∨
        (Stage4.matchRec { s with op := Operator.LT } rec = false ∧
          Stage4.matchRec { s with op := Operator.EQ } rec = false ∧
          Stage4.matchRec { s with op := Operator.GT } rec = true)) ∧
      Stage4.matchRec { s with op := Operator.NE } rec =
        (! Stage4.matchRec { s with op := Operator.EQ } rec) ∧
      Stage4.matchRec { s with op := Operator.LTE } rec =
        (Stage4.matchRec { s with op := Operator.LT } rec ||
          Stage4.matchRec { s with op := Operator.EQ } rec) ∧
      Stage4.matchRec { s with op := Operator.GTE } rec =
        (Stage4.matchRec { s with op := Operator.GT } rec ||
          Stage4.matchRec { s with op := Operator.EQ } rec)) ∧
    (((Temp.matchRec { s with op := Operator.LT } rec = true ∧
          Temp.matchRec { s with op := Operator.EQ } rec = false ∧
          Temp.matchRec { s with op := Operator.GT } rec = false) ∨
        (Temp.matchRec { s with op := Operator.LT } rec = false ∧
          Temp.matchRec { s with op := Operator.EQ } rec = true ∧
          Temp.matchRec { s with op := Operator.GT } rec = false) ∨
        (Temp.matchRec { s with op := Operator.LT } rec = false ∧
          Temp.matchRec { s with op := Operator.EQ } rec = false ∧
          Temp.matchRec { s with op := Operator.GT } rec = true)) ∧
      Temp.matchRec { s with op := Operator.NE } rec =
        (! Temp.matchRec { s with op := Operator.EQ } rec) ∧
      Temp.matchRec { s with op := Operator.LTE } rec =
        (Temp.matchRec { s with op := Operator.LT } rec ||
          Temp.matchRec { s with op := Operator.EQ } rec) ∧
      Temp.matchRec { s with op := Operator.GTE } rec =
        (Temp.matchRec { s with op := Operator.GT } rec ||
          Temp.matchRec { s with op := Operator.EQ } rec)) := by
  have hguard : ¬ i32 (s.offset + s.length) > rec.length := by
    rw [i32_of_range _ (by omega) (by omega)]
    omega
  have hd : ∃ d : Diff, (d = Diff.neg ∨ d = Diff.zero ∨ d = Diff.pos) ∧
      (∀ op, Stage4.matchRec { s with op := op } rec = opOnDiff op d) ∧
      (∀ op, Temp.matchRec { s with op := op } rec = opOnDiff op d) := by
    rcases ht with ht | ht
    · refine ⟨Diff.ofInt (i32 (loadInt rec.data s.offset - loadInt f 0)), ofInt_cases _,
        fun op => ?_, fun op => ?_⟩
      · rw [matchRec_eq_opOnDiff_stage4 { s with op := op } rec f hf hguard]
        simp only [ht]
      · rw [matchRec_eq_opOnDiff_temp { s with op := op } rec f hf hguard]
        simp only [ht]
    · refine ⟨Diff.ofInt (strncmp rec.data s.offset f 0 (toSizeT s.length)), ofInt_cases _,
        fun op => ?_, fun op => ?_⟩
      · rw [matchRec_eq_opOnDiff_stage4 { s with op := op } rec f hf hguard]
        simp only [ht]
      · rw [matchRec_eq_opOnDiff_temp { s with op := op } rec f hf hguard]
        simp only [ht]
  obtain ⟨d, hd3, h4, hT⟩ := hd
  simp only [h4, hT]
  exact ⟨opOnDiff_consistent d hd3, opOnDiff_consistent d hd3⟩

theorem matchRec_operator_consistency_witness :
    (intScan 2 Operator.EQ).filter = some (encodeInt 2) ∧
    ((intScan 2 Operator.EQ).type = Datatype.INTEGER ∨
      (intScan 2 Operator.EQ).type = Datatype.STRING) ∧
    (0 : Int) ≤ (intScan 2 Operator.EQ).offset ∧ (0 : Int) ≤ (intScan 2 Operator.EQ).length ∧
    (intScan 2 Operator.EQ).offset + (intScan 2 Operator.EQ).length
      ≤ (⟨encodeInt 5, 4⟩ : Record).length ∧
    (⟨encodeInt 5, 4⟩ : Record).length < 2147483648 ∧
    Stage4.matchRec { intScan 2 Operator.EQ with op := Operator.GT } ⟨encodeInt 5, 4⟩ = true ∧
    Stage4.matchRec { intScan 2 Operator.EQ with op := Operator.NE } ⟨encodeInt 5, 4⟩ =
      (! Stage4.matchRec { intScan 2 Operator.EQ with op := Operator.EQ } ⟨encodeInt 5, 4⟩) ∧
    Temp.matchRec { intScan 2 Operator.EQ with op := Operator.GTE } ⟨encodeInt 5, 4⟩ =
      (Temp.matchRec { intScan 2 Operator.EQ with op := Operator.GT } ⟨encodeInt 5, 4⟩ ||
        Temp.matchRec { intScan 2 Operator.EQ with op := Operator.EQ } ⟨encodeInt 5, 4⟩) :=
  ⟨rfl, Or.inl rfl, by decide, by decide, by decide, by decide, by decide,
    (matchRec_operator_consistency (intScan 2 Operator.EQ) ⟨encodeInt 5, 4⟩ (encodeInt 2) rfl
      (Or.inl rfl) (by decide) (by decide) (by decide) (by decide)).1.2.1,
    (matchRec_operator_consistency (intScan 2 Operator.EQ) ⟨encodeInt 5, 4⟩ (encodeInt 2) rfl
      (Or.inl rfl) (by decide) (by decide) (by decide) (by decide)).2.2.2.2⟩

/-! ## The frame of `startScan` -/

theorem startScan_frame_stage4 (s : HeapFileScan) (offset length : Int) (type : Datatype)
    (filter : Option (List Nat)) (op : Operator) :
    (Stage4.startScan s offset length type filter op).2.toHeapFile = s.toHeapFile ∧
      (Stage4.startScan s offset length type filter op).2.markedPageNo = s.markedPageNo ∧
      (Stage4.startScan s offset length type filter op).2.markedRec = s.markedRec ∧
      ((Stage4.startScan s offset length type filter op).1 = Status.BADSCANPARM →
        (Stage4.startScan s offset length type filter op).2 = s) ∧
      ((Stage4.startScan s offset length type filter op).1 = Status.OK ∨
        (Stage4.startScan s offset length type filter op).1 = Status.BADSCANPARM) := by
  unfold Stage4.startScan
  split
  · exact ⟨rfl, rfl, rfl, fun h => Status.noConfusion h, Or.inl rfl⟩
  · split_ifs
    · exact ⟨rfl, rfl, rfl, fun _ => rfl, Or.inr rfl⟩
    · exact ⟨rfl, rfl, rfl, fun h => h.elim, Or.inl rfl⟩

theorem startScan_frame_temp (s : HeapFileScan) (offset length : Int) (type : Datatype)
    (filter : Option (List Nat)) (op : Operator) :
    (Temp.startScan s offset length type filter op).2.toHeapFile = s.toHeapFile ∧
      (Temp.startScan s offset length type filter op).2.markedPageNo = s.markedPageNo ∧
      (Temp.startScan s offset length type filter op).2.markedRec = s.markedRec ∧
      ((Temp.startScan s offset length type filter op).1 = Status.BADSCANPARM →
        (Temp.startScan s offset length type filter op).2 = s) ∧
      ((Temp.startScan s offset length type filter op).1 = Status.OK ∨
        (Temp.startScan s offset length type filter op).1 = Status.BADSCANPARM) := by
  unfold Temp.startScan
  split
  · exact ⟨rfl, rfl, rfl, fun h => Status.noConfusion h, Or.inl rfl⟩
  · split_ifs
    · exact ⟨rfl, rfl, rfl, fun _ => rfl, Or.inr rfl⟩
    · exact ⟨rfl, rfl, rfl, fun h => h.elim, Or.inl rfl⟩

/-- C30. Frame of `startScan`, both variants, for every scan object and
every argument list: the members inherited from `HeapFile` (header page
pointer and number, `hdrDirtyFlag`, the current page pointer and number,
`curDirtyFlag`, `curRec`) and the mark (`markedPageNo`, `markedRec`) are
the same after the call, so only `offset`, `length`, `type`, `filter` and
`op` can differ; the call returns `OK` or `BADSCANPARM`, and when it
returns `BADSCANPARM` the whole object, the filter installed before
included, is as it was.  The function reads and writes nothing but the
object: it makes no call to the buffer pool or the file layer and does not
touch the content of the header page, which is why its transcription takes
and returns the object alone. -/
theorem startScan_frame (s : HeapFileScan) (offset length : Int) (type : Datatype)
    (filter : Option (List Nat)) (op : Operator) :
    ((Stage4.startScan s offset length type filter op).2.toHeapFile = s.toHeapFile ∧
      (Stage4.startScan s offset length type filter op).2.markedPageNo = s.markedPageNo ∧
      (Stage4.startScan s offset length type filter op).2.markedRec = s.markedRec ∧
      ((Stage4.startScan s offset length type filter op).1 = Status.BADSCANPARM →
        (Stage4.startScan s offset length type filter op).2 = s) ∧
      ((Stage4.startScan s offset length type filter op).1 = Status.OK ∨
        (Stage4.startScan s offset length type filter op).1 = Status.BADSCANPARM)) ∧
    ((Temp.startScan s offset length type filter op).2.toHeapFile = s.toHeapFile ∧
      (Temp.startScan s offset length type filter op).2.markedPageNo = s.markedPageNo ∧
      (Temp.startScan s offset length type filter op).2.markedRec = s.markedRec ∧
      ((Temp.startScan s offset length type filter op).1 = Status.BADSCANPARM →
        (Temp.startScan s offset length type filter op).2 = s) ∧
      ((Temp.startScan s offset length type filter op).1 = Status.OK ∨
        (Temp.startScan s offset length type filter op).1 = Status.BADSCANPARM)) :=
  ⟨startScan_frame_stage4 s offset length type filter op,
    startScan_frame_temp s offset length type filter op⟩


theorem startScan_frame_witness :
    (Stage4.startScan (intScan 2 Operator.GT) (-1) 4 Datatype.INTEGER (some (encodeInt 7))
        Operator.EQ).1 = Status.BADSCANPARM ∧
    (Stage4.startScan (intScan 2 Operator.GT) (-1) 4 Datatype.INTEGER (some (encodeInt 7))
        Operator.EQ).2 = intScan 2 Operator.GT ∧
    (Temp.startScan (intScan 2 Operator.GT) (-1) 4 Datatype.INTEGER (some (encodeInt 7))
        Operator.EQ).1 = Status.BADSCANPARM ∧
    (Temp.startScan (intScan 2 Operator.GT) (-1) 4 Datatype.INTEGER (some (encodeInt 7))
        Operator.EQ).2 = intScan 2 Operator.GT :=
  ⟨by decide,
    (startScan_frame (intScan 2 Operator.GT) (-1) 4 Datatype.INTEGER (some (encodeInt 7))
      Operator.EQ).1.2.2.2.1 (by decide),
    by decide,
    (startScan_frame (intScan 2 Operator.GT) (-1) 4 Datatype.INTEGER (some (encodeInt 7))
      Operator.EQ).2.2.2.2.1 (by decide)⟩

/-! ## A string stored by `QU_Insert` and sought by `QU_Select` -/

/-- C29, evaluation at the failing input.  The attribute is a `STRING` of
width 3 at offset 0 and the value is "abc", three bytes none of which is
zero.  `QU_Insert` clears the three bytes of the attribute and copies with
`strncpy(…, attrLen - 1)`: the record holds "ab" and a zero byte.
`QU_Select` fills its buffer with `strncpy(…, attrLen)`: the filter is
"abc".  `startScan` accepts the filter with length 3 and `matchRec`, in
both variants, answers false for the stored record under `EQ`.  The value
"ab", shorter than the width, is stored whole and matched. -/
theorem insert_select_disagree_full_width (atoi : List Nat → Int) (atof : List Nat → Nat) :
    Stage6.QU_Insert.store atoi atof name3 ⟨[], [], Datatype.STRING, 3, some [97, 98, 99]⟩
        [0, 0, 0] = (Status.OK, [97, 98, 0]) ∧
    Stage6.QU_Select.filterVal atoi atof name3 [97, 98, 99] = [97, 98, 99] ∧
    (Stage4.startScan rawScan name3.attrOffset name3.attrLen name3.attrType
        (some (Stage6.QU_Select.filterVal atoi atof name3 [97, 98, 99])) Operator.EQ).1
      = Status.OK ∧
    Stage4.matchRec
        (Stage4.startScan rawScan name3.attrOffset name3.attrLen name3.attrType
          (some (Stage6.QU_Select.filterVal atoi atof name3 [97, 98, 99])) Operator.EQ).2
        ⟨(Stage6.QU_Insert.store atoi atof name3
            ⟨[], [], Datatype.STRING, 3, some [97, 98, 99]⟩ [0, 0, 0]).2, 3⟩ = false ∧
    Temp.matchRec
        (Temp.startScan rawScan name3.attrOffset name3.attrLen name3.attrType
          (some (Stage6.QU_Select.filterVal atoi atof name3 [97, 98, 99])) Operator.EQ).2
        ⟨(Stage6.QU_Insert.store atoi atof name3
            ⟨[], [], Datatype.STRING, 3, some [97, 98, 99]⟩ [0, 0, 0]).2, 3⟩ = false ∧
    Stage4.matchRec
        (Stage4.startScan rawScan name3.attrOffset name3.attrLen name3.attrType
          (some (Stage6.QU_Select.filterVal atoi atof name3 [97, 98])) Operator.EQ).2
        ⟨(Stage6.QU_Insert.store atoi atof name3
            ⟨[], [], Datatype.STRING, 3, some [97, 98]⟩ [0, 0, 0]).2, 3⟩ = true ∧
    Temp.matchRec
        (Temp.startScan rawScan name3.attrOffset name3.attrLen name3.attrType
          (some (Stage6.QU_Select.filterVal atoi atof name3 [97, 98])) Operator.EQ).2
        ⟨(Stage6.QU_Insert.store atoi atof name3
            ⟨[], [], Datatype.STRING, 3, some [97, 98]⟩ [0, 0, 0]).2, 3⟩ = true := by
  refine ⟨?_, ?_, ?_, ?_, ?_, ?_, ?_⟩ <;> rfl


theorem window_of_getD (mem : List Nat) : ∀ (n : Nat) (l : List Nat) (i : Nat),
    (∀ b ∈ l, b < 256) → l.length = n →
    (∀ j, j < n → mem.getD (i + j) 0 = l.getD j 0) → window mem (i : Int) n = l := by
  intro n
  induction n with
  | zero =>
    intro l i _ hl _
    rw [List.length_eq_zero.mp hl]
    rfl
  | succ n ih =>
    intro l i hlb hl hget
    cases l with
    | nil => cases hl
    | cons a t =>
      have e2 : ((i : Int) + 1) = ((i + 1 : Nat) : Int) := by push_cast; rfl
      simp only [window]
      rw [e2, ih t (i + 1) (fun b hb2 => hlb b (List.mem_cons_of_mem a hb2))
        (by simpa using hl)
        (fun j hj => by
          have := hget (j + 1) (by omega)
          simp only [List.getD_cons_succ] at this
          rw [← this]
          congr 1
          omega)]
      have h0 := hget 0 (by omega)
      simp only [add_zero, List.getD_cons_zero] at h0
      unfold byteAt
      rw [if_neg (by omega), Int.toNat_ofNat, h0,
        Nat.mod_eq_of_lt (hlb a (List.mem_cons_self a t))]

theorem window_mid (pre l post : List Nat) (hb : ∀ b ∈ l, b < 256) :
    window (pre ++ l ++ post) (pre.length : Int) l.length = l := by
  apply window_of_getD _ _ _ _ hb rfl
  intro j hj
  rw [List.getD_eq_getElem?_getD, List.getD_eq_getElem?_getD, List.append_assoc,
    List.getElem?_append_right (by omega), Nat.add_sub_cancel_left,
    List.getElem?_append_left hj]

theorem memset_eq (c : Nat) : ∀ (n : Nat) (dst : List Nat) (d : Nat), d + n ≤ dst.length →
    memset dst (d : Int) c n = dst.take d ++ List.replicate n c ++ dst.drop (d + n) := by
  intro n
  induction n with
  | zero =>
    intro dst d _
    simp [memset]
  | succ n ih =>
    intro dst d h
    unfold memset
    rw [if_neg (by omega)]
    have hd : d < dst.length := by omega
    have e := ih (dst.set d c) (d + 1) (by rw [List.length_set]; omega)
    have e2 : ((d : Int) + 1) = ((d + 1 : Nat) : Int) := by push_cast; rfl
    rw [Int.toNat_ofNat, e2, e]
    rw [List.set_eq_take_append_cons_drop, if_pos hd]
    have l1 : (List.take d dst).length = d := by
      rw [List.length_take]
      omega
    have t1 : List.take (d + 1) (List.take d dst ++ c :: List.drop (d + 1) dst)
        = List.take d dst ++ [c] := by
      rw [List.take_append_eq_append_take, l1]
      simp
    have t2 : List.drop (d + 1 + n) (List.take d dst ++ c :: List.drop (d + 1) dst)
        = List.drop (d + (n + 1)) dst := by
      rw [List.drop_append_eq_append_drop, l1]
      have z : List.drop (d + 1 + n) (List.take d dst) = [] := by
        apply List.drop_eq_nil_of_le
        rw [l1]
        omega
      rw [z]
      have y : d + 1 + n - d = n + 1 := by omega
      rw [y]
      simp only [List.nil_append, List.drop_succ_cons, List.drop_drop]
      congr 1
      omega
    rw [t1, t2]
    simp [List.replicate_succ]

theorem cutAtNul_lt (v : List Nat) (hb : ∀ b ∈ v, b < 256) : ∀ b ∈ cutAtNul v, b < 256 := by
  induction v with
  | nil => intro b h; cases h
  | cons a t ih =>
    intro b h
    unfold cutAtNul at h
    split_ifs at h with h0
    · cases h
    · rcases List.mem_cons.mp h with h1 | h1
      · rw [h1]
        exact hb a (List.mem_cons_self a t)
      · exact ih (fun x hx => hb x (List.mem_cons_of_mem a hx)) b h1

theorem cutAtNul_of_nonzero (v : List Nat) (hz : ∀ b ∈ v, b ≠ 0) : cutAtNul v = v := by
  induction v with
  | nil => rfl
  | cons a t ih =>
    unfold cutAtNul
    rw [if_neg (hz a (List.mem_cons_self a t)),
      ih (fun x hx => hz x (List.mem_cons_of_mem a hx))]

theorem strncpyBytes_length (v : List Nat) (n : Nat) : (strncpyBytes v n).length = n := by
  unfold strncpyBytes
  rw [List.length_append, List.length_replicate, List.length_take]
  omega

theorem strncpyBytes_lt (v : List Nat) (n : Nat) (hb : ∀ b ∈ v, b < 256) :
    ∀ b ∈ strncpyBytes v n, b < 256 := by
  intro b h
  unfold strncpyBytes at h
  rcases List.mem_append.mp h with h1 | h1
  · exact cutAtNul_lt v hb b (List.mem_of_mem_take h1)
  · rw [(List.mem_replicate.mp h1).2]
    decide

theorem strncpyBytes_succ (v : List Nat) (n : Nat) (h : (cutAtNul v).length ≤ n) :
    strncpyBytes v (n + 1) = strncpyBytes v n ++ [0] := by
  unfold strncpyBytes
  rw [List.take_of_length_le h, List.take_of_length_le (by omega)]
  have e : n + 1 - (cutAtNul v).length = (n - (cutAtNul v).length) + 1 := by omega
  rw [e, List.replicate_succ', List.append_assoc]


theorem filterVal_string (atoi : List Nat → Int) (atof : List Nat → Nat) (ad : AttrDesc)
    (v : List Nat) (ht : ad.attrType = Datatype.STRING) (h1 : 0 ≤ ad.attrLen)
    (h2 : ad.attrLen < 2147483648) (hb : ∀ b ∈ v, b < 256) :
    Stage6.QU_Select.filterVal atoi atof ad v = strncpyBytes v ad.attrLen.toNat := by
  unfold Stage6.QU_Select.filterVal
  simp only [ht, toSizeT_of_nonneg _ h1 h2]
  have hl : (memset (List.replicate ad.attrLen.toNat 0) 0 0 ad.attrLen.toNat).length =
      ad.attrLen.toNat := by
    rw [memset_length, List.length_replicate]
  have e := memcpy_window (strncpyBytes v ad.attrLen.toNat) ad.attrLen.toNat
    (memset (List.replicate ad.attrLen.toNat 0) 0 0 ad.attrLen.toNat) 0 0
    (by rw [hl]; omega)
  have w := window_all (strncpyBytes v ad.attrLen.toNat) (strncpyBytes_lt v _ hb)
  rw [strncpyBytes_length] at w
  rw [Nat.cast_zero, w] at e
  rw [e, List.take_zero, List.nil_append, List.drop_eq_nil_of_le (by rw [hl]; omega),
    List.append_nil]

theorem store_string_window (atoi : List Nat → Int) (atof : List Nat → Nat) (ad : AttrDesc)
    (a : attrInfo) (v : List Nat) (data : List Nat) (ht : ad.attrType = Datatype.STRING)
    (hv : a.attrValue = some v) (ho : 0 ≤ ad.attrOffset) (h1 : 1 ≤ ad.attrLen)
    (hfit : ad.attrOffset + ad.attrLen ≤ data.length) (hr : (data.length : Int) < 2147483648)
    (hb : ∀ b ∈ v, b < 256) :
    window (Stage6.QU_Insert.store atoi atof ad a data).2 ad.attrOffset ad.attrLen.toNat =
      strncpyBytes v (ad.attrLen.toNat - 1) ++ [0] := by
  obtain ⟨o, ho2⟩ := Int.eq_ofNat_of_zero_le ho
  obtain ⟨m, hm⟩ := Int.eq_ofNat_of_zero_le (show 0 ≤ ad.attrLen - 1 by omega)
  have hlen : ad.attrLen = ((m + 1 : Nat) : Int) := by push_cast; omega
  have hfit2 : o + (m + 1) ≤ data.length := by omega
  have t1 : toSizeT ad.attrLen = m + 1 := by
    rw [toSizeT_of_nonneg _ (by omega) (by omega), hlen, Int.toNat_ofNat]
  have t2 : toSizeT (ad.attrLen - 1) = m := by
    rw [toSizeT_of_nonneg _ (by omega) (by omega), hm, Int.toNat_ofNat]
  have t3 : ad.attrLen.toNat = m + 1 := by rw [hlen, Int.toNat_ofNat]
  unfold Stage6.QU_Insert.store
  simp only [hv, ht, t1, t2, t3, ho2, Nat.add_sub_cancel]
  have hS : (strncpyBytes v m).length = m := strncpyBytes_length v m
  have hM := memset_eq 0 (m + 1) data o hfit2
  have l1 : (List.take o data).length = o := by
    rw [List.length_take]
    omega
  have e := memcpy_window (strncpyBytes v m) m (memset data (o : Int) 0 (m + 1)) o 0
    (by rw [memset_length]; omega)
  have w := window_all (strncpyBytes v m) (strncpyBytes_lt v m hb)
  rw [hS] at w
  rw [w] at e
  have k1 : List.take o (memset data (o : Int) 0 (m + 1)) = List.take o data := by
    rw [hM, List.append_assoc, List.take_left' l1]
  have k2 : List.drop (o + m) (memset data (o : Int) 0 (m + 1)) =
      [0] ++ List.drop (o + (m + 1)) data := by
    rw [hM, List.append_assoc, List.drop_append_eq_append_drop, l1,
      List.drop_eq_nil_of_le (by rw [l1]; omega), List.nil_append, Nat.add_sub_cancel_left,
      List.drop_append_eq_append_drop, List.length_replicate, List.drop_replicate]
    have x1 : m + 1 - m = 1 := by omega
    have x2 : m - (m + 1) = 0 := by omega
    rw [x1, x2, List.drop_zero]
    rfl
  rw [e, k1, k2]
  have big : List.take o data ++ strncpyBytes v m ++ ([0] ++ List.drop (o + (m + 1)) data) =
      List.take o data ++ (strncpyBytes v m ++ [0]) ++ List.drop (o + (m + 1)) data := by
    simp only [List.append_assoc]
  rw [big]
  have wm := window_mid (List.take o data) (strncpyBytes v m ++ [0])
    (List.drop (o + (m + 1)) data) (by
      intro b hb2
      rcases List.mem_append.mp hb2 with h | h
      · exact strncpyBytes_lt v m hb b h
      · rw [List.mem_singleton.mp h]
        decide)
  rw [l1, List.length_append, hS] at wm
  exact wm


theorem startScan_string_eq (s : HeapFileScan) (offset length : Int) (f : List Nat)
    (ho : 0 ≤ offset) (hl : 1 ≤ length) :
    Stage4.startScan s offset length Datatype.STRING (some f) Operator.EQ =
        (Status.OK, { s with offset := offset, length := length, type := Datatype.STRING,
                             filter := some f, op := Operator.EQ }) ∧
      Temp.startScan s offset length Datatype.STRING (some f) Operator.EQ =
        (Status.OK, { s with offset := offset, length := length, type := Datatype.STRING,
                             filter := some f, op := Operator.EQ }) := by
  constructor
  · unfold Stage4.startScan
    simp only []
    rw [if_neg]
    simp
    omega
  · unfold Temp.startScan
    simp only []
    rw [if_neg]
    simp
    omega

theorem cutAtNul_append_zero (l t : List Nat) (hz : ∀ b ∈ l, b ≠ 0) :
    cutAtNul (l ++ 0 :: t) = l := by
  induction l with
  | nil => simp [cutAtNul]
  | cons a r ih =>
    rw [List.cons_append]
    unfold cutAtNul
    rw [if_neg (hz a (List.mem_cons_self a r)),
      ih (fun x hx => hz x (List.mem_cons_of_mem a hx))]

/-- What `matchRec` answers under `EQ` when `QU_Select` looks for the value
`v` in a `STRING` attribute into which `QU_Insert` has stored the same `v`:
it compares the C string in `strncpy(…, attrLen - 1)` of `v` followed by a
zero byte with the C string in `strncpy(…, attrLen)` of `v`. -/
theorem insert_select_string (atoi : List Nat → Int) (atof : List Nat → Nat) (ad : AttrDesc)
    (a : attrInfo) (v : List Nat) (data : List Nat) (s : HeapFileScan)
    (ht : ad.attrType = Datatype.STRING) (hv : a.attrValue = some v) (ho : 0 ≤ ad.attrOffset)
    (h1 : 1 ≤ ad.attrLen) (hfit : ad.attrOffset + ad.attrLen ≤ data.length)
    (hr : (data.length : Int) < 2147483648) (hb : ∀ b ∈ v, b < 256) :
    (Stage4.matchRec
        (Stage4.startScan s ad.attrOffset ad.attrLen ad.attrType
          (some (Stage6.QU_Select.filterVal atoi atof ad v)) Operator.EQ).2
        ⟨(Stage6.QU_Insert.store atoi atof ad a data).2, data.length⟩ = true ↔
      cutAtNul (strncpyBytes v (ad.attrLen.toNat - 1) ++ [0]) =
        cutAtNul (strncpyBytes v ad.attrLen.toNat)) ∧
    (Temp.matchRec
        (Temp.startScan s ad.attrOffset ad.attrLen ad.attrType
          (some (Stage6.QU_Select.filterVal atoi atof ad v)) Operator.EQ).2
        ⟨(Stage6.QU_Insert.store atoi atof ad a data).2, data.length⟩ = true ↔
      cutAtNul (strncpyBytes v (ad.attrLen.toNat - 1) ++ [0]) =
        cutAtNul (strncpyBytes v ad.attrLen.toNat)) := by
  have hw := store_string_window atoi atof ad a v data ht hv ho h1 hfit hr hb
  have hfv := filterVal_string atoi atof ad v ht (by omega) (by omega) hb
  have wf := window_all (strncpyBytes v ad.attrLen.toNat) (strncpyBytes_lt v _ hb)
  rw [strncpyBytes_length] at wf
  obtain ⟨e4, e5⟩ := startScan_string_eq s ad.attrOffset ad.attrLen
    (Stage6.QU_Select.filterVal atoi atof ad v) ho h1
  rw [ht, e4, e5]
  have key := matchRec_string_cstring
    { s with offset := ad.attrOffset, length := ad.attrLen, type := Datatype.STRING,
             filter := some (Stage6.QU_Select.filterVal atoi atof ad v), op := Operator.EQ }
    ⟨(Stage6.QU_Insert.store atoi atof ad a data).2, data.length⟩
    (Stage6.QU_Select.filterVal atoi atof ad v) rfl rfl ho
    (show (0 : Int) ≤ ad.attrLen by omega) hfit hr
  rcases key.2.2 with h | h
  · exact absurd rfl h
  · have wf2 : window (Stage6.QU_Select.filterVal atoi atof ad v) 0 ad.attrLen.toNat =
        strncpyBytes v ad.attrLen.toNat := by
      rw [hfv]
      exact wf
    simp only [hw, wf2] at h
    exact h


/-- A value without zero bytes that is shorter than the width of the
`STRING` attribute is stored whole by `QU_Insert` and matched under `EQ` by
the filter `QU_Select` builds for it, in both variants. -/
theorem insert_select_agree_shorter (atoi : List Nat → Int) (atof : List Nat → Nat)
    (ad : AttrDesc) (a : attrInfo) (v : List Nat) (data : List Nat) (s : HeapFileScan)
    (ht : ad.attrType = Datatype.STRING) (hv : a.attrValue = some v) (ho : 0 ≤ ad.attrOffset)
    (hfit : ad.attrOffset + ad.attrLen ≤ data.length) (hr : (data.length : Int) < 2147483648)
    (hnz : ∀ b ∈ v, b ≠ 0 ∧ b < 256) (hlen : (v.length : Int) < ad.attrLen) :
    Stage4.matchRec
        (Stage4.startScan s ad.attrOffset ad.attrLen ad.attrType
          (some (Stage6.QU_Select.filterVal atoi atof ad v)) Operator.EQ).2
        ⟨(Stage6.QU_Insert.store atoi atof ad a data).2, data.length⟩ = true ∧
    Temp.matchRec
        (Temp.startScan s ad.attrOffset ad.attrLen ad.attrType
          (some (Stage6.QU_Select.filterVal atoi atof ad v)) Operator.EQ).2
        ⟨(Stage6.QU_Insert.store atoi atof ad a data).2, data.length⟩ = true := by
  obtain ⟨k4, k5⟩ := insert_select_string atoi atof ad a v data s ht hv ho (by omega) hfit hr
    (fun b hb => (hnz b hb).2)
  have hc : cutAtNul v = v := cutAtNul_of_nonzero v (fun b hb => (hnz b hb).1)
  have e : strncpyBytes v ad.attrLen.toNat = strncpyBytes v (ad.attrLen.toNat - 1) ++ [0] := by
    have x : ad.attrLen.toNat = (ad.attrLen.toNat - 1) + 1 := by omega
    rw [x, strncpyBytes_succ v _ (by rw [hc]; omega), Nat.add_sub_cancel]
  exact ⟨k4.mpr (by rw [e]), k5.mpr (by rw [e])⟩

/-- A value without zero bytes that fills the width of the `STRING`
attribute loses its last byte in `QU_Insert` and is not matched under `EQ`
by the filter `QU_Select` builds for it, in both variants. -/
theorem insert_select_disagree_at_width (atoi : List Nat → Int) (atof : List Nat → Nat)
    (ad : AttrDesc) (a : attrInfo) (v : List Nat) (data : List Nat) (s : HeapFileScan)
    (ht : ad.attrType = Datatype.STRING) (hv : a.attrValue = some v) (ho : 0 ≤ ad.attrOffset)
    (h1 : 1 ≤ ad.attrLen) (hfit : ad.attrOffset + ad.attrLen ≤ data.length)
    (hr : (data.length : Int) < 2147483648)
    (hnz : ∀ b ∈ v, b ≠ 0 ∧ b < 256) (hlen : (v.length : Int) = ad.attrLen) :
    Stage4.matchRec
        (Stage4.startScan s ad.attrOffset ad.attrLen ad.attrType
          (some (Stage6.QU_Select.filterVal atoi atof ad v)) Operator.EQ).2
        ⟨(Stage6.QU_Insert.store atoi atof ad a data).2, data.length⟩ = false ∧
    Temp.matchRec
        (Temp.startScan s ad.attrOffset ad.attrLen ad.attrType
          (some (Stage6.QU_Select.filterVal atoi atof ad v)) Operator.EQ).2
        ⟨(Stage6.QU_Insert.store atoi atof ad a data).2, data.length⟩ = false := by
  obtain ⟨k4, k5⟩ := insert_select_string atoi atof ad a v data s ht hv ho h1 hfit hr
    (fun b hb => (hnz b hb).2)
  have hc : cutAtNul v = v := cutAtNul_of_nonzero v (fun b hb => (hnz b hb).1)
  have hn : ad.attrLen.toNat = v.length := by omega
  have e1 : cutAtNul (strncpyBytes v ad.attrLen.toNat) = v := by
    unfold strncpyBytes
    rw [hc, hn, List.take_length, Nat.sub_self, List.replicate_zero, List.append_nil, hc]
  have e2 : cutAtNul (strncpyBytes v (ad.attrLen.toNat - 1) ++ [0]) =
      v.take (v.length - 1) := by
    unfold strncpyBytes
    rw [hc, hn]
    have l : (List.take (v.length - 1) v).length = v.length - 1 := by
      rw [List.length_take]
      omega
    rw [l, Nat.sub_self, List.replicate_zero, List.append_nil]
    exact cutAtNul_append_zero _ [] (fun b hb => (hnz b (List.mem_of_mem_take hb)).1)
  have ne : ¬ cutAtNul (strncpyBytes v (ad.attrLen.toNat - 1) ++ [0]) =
      cutAtNul (strncpyBytes v ad.attrLen.toNat) := by
    rw [e1, e2]
    intro h
    have := congrArg List.length h
    rw [List.length_take] at this
    omega
  constructor
  · cases hm : Stage4.matchRec
        (Stage4.startScan s ad.attrOffset ad.attrLen ad.attrType
          (some (Stage6.QU_Select.filterVal atoi atof ad v)) Operator.EQ).2
        ⟨(Stage6.QU_Insert.store atoi atof ad a data).2, data.length⟩
    · rfl
    · exact absurd (k4.mp hm) ne
  · cases hm : Temp.matchRec
        (Temp.startScan s ad.attrOffset ad.attrLen ad.attrType
          (some (Stage6.QU_Select.filterVal atoi atof ad v)) Operator.EQ).2
        ⟨(Stage6.QU_Insert.store atoi atof ad a data).2, data.length⟩
    · rfl
    · exact absurd (k5.mp hm) ne


/-! ## `matchRecMem` and `matchRec` -/

theorem strncmpIn_some (a b : List Nat) : ∀ (n : Nat) (i j : Int) (c : Int),
    strncmpIn a i b j n = some c → strncmp a i b j n = c := by
  intro n
  induction n with
  | zero =>
    intro i j c h
    simp only [strncmpIn, Option.some.injEq] at h
    simp only [strncmp]
    exact h
  | succ n ih =>
    intro i j c h
    unfold strncmpIn at h
    unfold readByte at h
    by_cases h1 : 0 ≤ i ∧ i < a.length
    · by_cases h2 : 0 ≤ j ∧ j < b.length
      · rw [if_pos h1, if_pos h2] at h
        simp only [] at h
        unfold strncmp
        by_cases h3 : byteAt a i ≠ byteAt b j
        · rw [if_pos h3] at h
          rw [if_pos h3]
          exact Option.some.inj h
        · rw [if_neg h3] at h
          rw [if_neg h3]
          by_cases h4 : byteAt a i = 0
          · rw [if_pos h4] at h
            rw [if_pos h4]
            exact Option.some.inj h
          · rw [if_neg h4] at h
            rw [if_neg h4]
            exact ih _ _ _ h
      · rw [if_pos h1, if_neg h2] at h
        cases h
    · rw [if_neg h1] at h
      cases h

theorem strncmpIn_of_fits (a b : List Nat) : ∀ (n : Nat) (i j : Int),
    0 ≤ i → i + n ≤ a.length → 0 ≤ j → j + n ≤ b.length →
    strncmpIn a i b j n = some (strncmp a i b j n) := by
  intro n
  induction n with
  | zero => intro i j _ _ _ _; rfl
  | succ n ih =>
    intro i j hi hia hj hjb
    have h1 : 0 ≤ i ∧ i < a.length := by
      push_cast at hia
      omega
    have h2 : 0 ≤ j ∧ j < b.length := by
      push_cast at hjb
      omega
    unfold strncmpIn strncmp readByte
    rw [if_pos h1, if_pos h2]
    simp only []
    by_cases h3 : byteAt a i ≠ byteAt b j
    · rw [if_pos h3, if_pos h3]
    · rw [if_neg h3, if_neg h3]
      by_cases h4 : byteAt a i = 0
      · rw [if_pos h4, if_pos h4]
      · rw [if_neg h4, if_neg h4]
        exact ih _ _ (by omega) (by push_cast at hia; omega) (by omega)
          (by push_cast at hjb; omega)

theorem readWord_some (mem : List Nat) (off : Int) (w : Nat) (h : readWord mem off = some w) :
    loadWord mem off = w := by
  unfold readWord at h
  split_ifs at h
  exact Option.some.inj h

/-- Where `matchRecMem` has a result, it is the result of `matchRec` in
both variants: the two transcriptions differ only in what they say about
reads outside the record and the filter value. -/
theorem matchRecMem_ret (s : HeapFileScan) (rec : Record) (b : Bool)
    (h : matchRecMem s rec = Res.ret b) :
    Stage4.matchRec s rec = b ∧ Temp.matchRec s rec = b := by
  have key : Stage4.matchRec s rec = b := by
    unfold matchRecMem at h
    unfold Stage4.matchRec
    cases hf : s.filter with
    | none =>
      rw [hf] at h
      simp only [] at h ⊢
      exact Res.ret.inj h
    | some f =>
      rw [hf] at h
      simp only [] at h ⊢
      by_cases hg : i32 (s.offset + s.length) > rec.length
      · rw [if_pos hg] at h
        rw [if_pos hg]
        exact Res.ret.inj h
      · rw [if_neg hg] at h
        rw [if_neg hg]
        cases ht : s.type with
        | STRING =>
          rw [ht] at h
          simp only [] at h ⊢
          cases hc : strncmpIn rec.data s.offset f 0 (toSizeT s.length) with
          | none =>
            rw [hc] at h
            cases h
          | some c =>
            rw [hc] at h
            simp only [] at h
            rw [strncmpIn_some _ _ _ _ _ _ hc]
            exact Res.ret.inj h
        | INTEGER =>
          rw [ht] at h
          simp only [] at h ⊢
          cases h1 : readWord rec.data s.offset with
          | none =>
            rw [h1] at h
            cases h
          | some x =>
            cases h2 : readWord f 0 with
            | none =>
              rw [h1, h2] at h
              cases h
            | some y =>
              rw [h1, h2] at h
              simp only [] at h
              unfold loadInt
              rw [readWord_some _ _ _ h1, readWord_some _ _ _ h2]
              exact Res.ret.inj h
        | FLOAT =>
          rw [ht] at h
          simp only [] at h ⊢
          cases h1 : readWord rec.data s.offset with
          | none =>
            rw [h1] at h
            cases h
          | some x =>
            cases h2 : readWord f 0 with
            | none =>
              rw [h1, h2] at h
              cases h
            | some y =>
              rw [h1, h2] at h
              simp only [] at h
              rw [readWord_some _ _ _ h1, readWord_some _ _ _ h2]
              exact Res.ret.inj h
        | other code =>
          rw [ht] at h
          simp only [] at h ⊢
          exact Res.ret.inj h
  exact ⟨key, (matchRec_variants_agree s rec).trans key⟩


/-- When the bytes `matchRec` reads lie inside the record and the filter
value, `matchRecMem` has a result: four bytes at `offset` and of the filter
for `INTEGER` and `FLOAT`, `length` bytes of each for `STRING`. -/
theorem matchRecMem_of_fits (s : HeapFileScan) (rec : Record) (f : List Nat)
    (hf : s.filter = some f) (ho : 0 ≤ s.offset)
    (hw : s.type = Datatype.INTEGER ∨ s.type = Datatype.FLOAT →
      s.offset + 4 ≤ rec.data.length ∧ 4 ≤ f.length)
    (hs : s.type = Datatype.STRING →
      s.offset + toSizeT s.length ≤ rec.data.length ∧ toSizeT s.length ≤ f.length) :
    matchRecMem s rec = Res.ret (Stage4.matchRec s rec) := by
  unfold matchRecMem Stage4.matchRec
  rw [hf]
  simp only []
  by_cases hg : i32 (s.offset + s.length) > rec.length
  · rw [if_pos hg, if_pos hg]
  · rw [if_neg hg, if_neg hg]
    cases ht : s.type with
    | STRING =>
      obtain ⟨h1, h2⟩ := hs ht
      simp only []
      rw [strncmpIn_of_fits rec.data f (toSizeT s.length) s.offset 0 ho h1 (le_refl 0)
        (by omega)]
    | INTEGER =>
      obtain ⟨h1, h2⟩ := hw (Or.inl ht)
      have r1 : readWord rec.data s.offset = some (loadWord rec.data s.offset) := by
        unfold readWord
        rw [if_pos ⟨ho, h1⟩]
      have r2 : readWord f 0 = some (loadWord f 0) := by
        unfold readWord
        rw [if_pos ⟨le_refl 0, by push_cast; omega⟩]
      simp only [r1, r2]
      rfl
    | FLOAT =>
      obtain ⟨h1, h2⟩ := hw (Or.inr ht)
      have r1 : readWord rec.data s.offset = some (loadWord rec.data s.offset) := by
        unfold readWord
        rw [if_pos ⟨ho, h1⟩]
      have r2 : readWord f 0 = some (loadWord f 0) := by
        unfold readWord
        rw [if_pos ⟨le_refl 0, by push_cast; omega⟩]
      simp only [r1, r2]
    | other code => rfl

theorem matchRecMem_no_filter (s : HeapFileScan) (rec : Record) (hf : s.filter = none) :
    matchRecMem s rec = Res.ret true := by
  unfold matchRecMem
  rw [hf]

theorem matchRecMem_short_record (s : HeapFileScan) (rec : Record) (f : List Nat)
    (hf : s.filter = some f) (h1 : -2147483648 ≤ s.offset + s.length)
    (h2 : s.offset + s.length < 2147483648) (hshort : s.offset + s.length > rec.length) :
    matchRecMem s rec = Res.ret false := by
  unfold matchRecMem
  rw [hf]
  simp only []
  rw [if_pos (by rw [i32_of_range _ h1 h2]; exact hshort)]

/-- When the `int` sum `offset + length` overflows, the length test of
`matchRec` lets every record of non-negative length through, and the read
at `rec.data + offset` that follows lies outside every record whose bytes
end before `offset`: `matchRec` does not return false, its behaviour is
undefined, for the three datatypes and every operator and filter value. -/
theorem matchRecMem_offset_wraps (s : HeapFileScan) (rec : Record) (f : List Nat)
    (hf : s.filter = some f)
    (ht : s.type = Datatype.INTEGER ∨ s.type = Datatype.FLOAT ∨ s.type = Datatype.STRING)
    (ho : s.offset < 2147483648) (hl1 : 1 ≤ s.length) (hl2 : s.length < 2147483648)
    (hsum : 2147483648 ≤ s.offset + s.length) (hr : 0 ≤ rec.length)
    (hd : (rec.data.length : Int) ≤ s.offset) :
    matchRecMem s rec = Res.undef := by
  have hg : ¬ i32 (s.offset + s.length) > rec.length := by
    unfold i32
    omega
  have r1 : readWord rec.data s.offset = none := by
    unfold readWord
    rw [if_neg (by omega)]
  unfold matchRecMem
  rw [hf]
  simp only []
  rw [if_neg hg]
  rcases ht with ht | ht | ht
  · simp only [ht, r1]
  · simp only [ht, r1]
  · have hn : toSizeT s.length = (toSizeT s.length - 1) + 1 := by
      rw [toSizeT_of_nonneg _ (by omega) hl2]
      omega
    have r2 : strncmpIn rec.data s.offset f 0 (toSizeT s.length) = none := by
      rw [hn]
      unfold strncmpIn readByte
      rw [if_neg (by omega)]
    simp only [ht, r2]


end HeapFileLayer
